import Mathlib

/-!
# SCFI: synthesis of DWARF CFI by symbolic execution (gas/scfi.c)

A shallow embedding of `gas/scfi.c`: the unwind state, the symbolic executor
`gen_scfi_ops` with its heuristic guards, and the forward flow of the state
over the control-flow graph.

Conventions of the embedding.

* `int32_t` values are integers and every arithmetic result is brought back
  into the 32-bit two's complement range by `wrap_int32`; `uint32_t` values
  are natural numbers.
* The arrays `regs[MAX_NUM_SCFI_REGS]` and `scratch[MAX_NUM_SCFI_REGS]` are
  functions on indices; an access at an index that is not below
  `MAX_NUM_SCFI_REGS` is the fault `scfi_fault.out_of_bounds`.
* `gas_assert` aborts the assembler: a failed assertion is the fault
  `scfi_fault.assertion`.
* Pointers to basic blocks are indices into the block list of the graph; a
  pointer that designates nothing is the fault `scfi_fault.null_pointer`.
* The recursion of `forward_flow_scfi_state` is bounded by a fuel argument;
  exhausting it is the fault `scfi_fault.out_of_fuel`.
-/

namespace SCFI

/-! ## Target description -/

/-- The target-supplied constants and helpers used by scfi.c: the stack-pointer
and frame-pointer register numbers, the number of tracked registers, the
initial CFA offset, and the predicate `ginsn_track_reg_p (reg, GINSN_GEN_SCFI)`
of ginsn.c.  They are declared outside scfi.c and are parameters here. -/
structure scfi_target where
  REG_SP : Nat
  REG_FP : Nat
  SCFI_NUM_REGS : Nat
  SCFI_INIT_CFA_OFFSET : Int
  ginsn_track_reg_p : Nat → Bool

/-- The register number kept for the CFA: `#define REG_CFA (SCFI_NUM_REGS+1)`. -/
def REG_CFA (t : scfi_target) : Nat := t.SCFI_NUM_REGS + 1

/-- The size of the register tables: `#define MAX_NUM_SCFI_REGS (REG_CFA+1)`. -/
def MAX_NUM_SCFI_REGS (t : scfi_target) : Nat := REG_CFA t + 1

/-! ## Machine integers -/

/-- Reduction of an integer to the range of `int32_t` (two's complement). -/
def wrap_int32 (x : Int) : Int := (x + 2147483648) % 4294967296 - 2147483648

/-- The `int32_t` sum. -/
def add32 (a b : Int) : Int := wrap_int32 (a + b)

/-- The `int32_t` difference. -/
def sub32 (a b : Int) : Int := wrap_int32 (a - b)

/-- The `int32_t` negation. -/
def neg32 (a : Int) : Int := wrap_int32 (-a)

/-- The value of `(uint32_t) -1`, stored in `op->loc.base` by
`scfi_op_add_cfa_restore`. -/
def UINT32_MINUS_ONE : Nat := 4294967295

/-! ## Data model -/

/-- The faults that end the run of the assembler instead of returning. -/
inductive scfi_fault where
  | assertion
  | out_of_bounds
  | null_pointer
  | out_of_fuel
deriving DecidableEq

/-- The state of a tracked register: `enum cfi_reglocstate`. -/
inductive cfi_reglocstate where
  | CFI_UNDEFINED
  | CFI_IN_REG
  | CFI_ON_STACK
deriving DecidableEq

/-- The location of a tracked register: `struct cfi_regloc`. -/
structure cfi_regloc where
  base : Nat
  offset : Int
  state : cfi_reglocstate
deriving DecidableEq

/-- The DWARF CFI opcodes stored in `scfi_op.dw2cfi_op`; `DW_CFA_nop` is the
value zero left by the zero-initialising allocation of `init_scfi_op`. -/
inductive dw2cfi_opcode where
  | DW_CFA_nop
  | DW_CFA_def_cfa_register
  | DW_CFA_def_cfa_offset
  | DW_CFA_def_cfa
  | DW_CFA_offset
  | DW_CFA_restore
  | DW_CFA_remember_state
  | DW_CFA_restore_state
deriving DecidableEq

/-- One SCFI operation: `struct scfi_op` (the `next` link is the position in
the list of operations of the instruction). -/
structure scfi_op where
  reg : Nat
  loc : cfi_regloc
  dw2cfi_op : dw2cfi_opcode
deriving DecidableEq

/-- The accumulated unwind information: `struct scfi_state`. -/
structure scfi_state where
  regs : Nat → cfi_regloc
  scratch : Nat → cfi_regloc
  stack_size : Int
  traceable_p : Bool

/-- The instruction kinds named by scfi.c (`GINSN_TYPE_*`). -/
inductive ginsn_type where
  | GINSN_TYPE_SYMBOL
  | GINSN_TYPE_ADD
  | GINSN_TYPE_AND
  | GINSN_TYPE_CALL
  | GINSN_TYPE_JUMP
  | GINSN_TYPE_JUMP_COND
  | GINSN_TYPE_MOV
  | GINSN_TYPE_LDS
  | GINSN_TYPE_STS
  | GINSN_TYPE_SUB
  | GINSN_TYPE_OTHER
  | GINSN_TYPE_RETURN
deriving DecidableEq

/-- The kinds of source operand (`GINSN_SRC_*`). -/
inductive ginsn_src_type where
  | GINSN_SRC_UNKNOWN
  | GINSN_SRC_REG
  | GINSN_SRC_IMM
  | GINSN_SRC_INDIRECT
deriving DecidableEq

/-- The kinds of destination operand (`GINSN_DST_*`). -/
inductive ginsn_dst_type where
  | GINSN_DST_UNKNOWN
  | GINSN_DST_REG
  | GINSN_DST_INDIRECT
  | GINSN_DST_STACK
  | GINSN_DST_MEM
deriving DecidableEq

/-- A source operand: `struct ginsn_src`, a kind, a register number and an
immediate or displacement. -/
structure ginsn_src where
  type : ginsn_src_type
  reg : Nat
  immdisp : Int
deriving DecidableEq

/-- A destination operand: `struct ginsn_dst`, a kind, a register number and a
displacement. -/
structure ginsn_dst where
  type : ginsn_dst_type
  reg : Nat
  disp : Int
deriving DecidableEq

/-- A generic instruction: `struct ginsn`, restricted to the fields scfi.c
reads or writes (the source location only feeds diagnostics). -/
structure ginsn where
  type : ginsn_type
  src1 : ginsn_src
  src2 : ginsn_src
  dst : ginsn_dst
  func_marker : Bool
  scfi_ops : List scfi_op
  num_scfi_ops : Nat
deriving DecidableEq

/-- Modelled from the spec: the accessor `ginsn_get_src_reg` of ginsn.c, the
register of a source operand descriptor. -/
def ginsn_get_src_reg (src : ginsn_src) : Nat := src.reg

/-- Modelled from the spec: the accessor `ginsn_get_src_type` of ginsn.c, the
kind of a source operand descriptor. -/
def ginsn_get_src_type (src : ginsn_src) : ginsn_src_type := src.type

/-- Modelled from the spec: the accessor `ginsn_get_src_imm` of ginsn.c, the
immediate of a source operand descriptor. -/
def ginsn_get_src_imm (src : ginsn_src) : Int := src.immdisp

/-- Modelled from the spec: the accessor `ginsn_get_src_disp` of ginsn.c, the
displacement of an indirect source operand descriptor. -/
def ginsn_get_src_disp (src : ginsn_src) : Int := src.immdisp

/-- Modelled from the spec: the accessor `ginsn_get_dst_reg` of ginsn.c, the
register of a destination operand descriptor. -/
def ginsn_get_dst_reg (dst : ginsn_dst) : Nat := dst.reg

/-- Modelled from the spec: the accessor `ginsn_get_dst_type` of ginsn.c, the
kind of a destination operand descriptor. -/
def ginsn_get_dst_type (dst : ginsn_dst) : ginsn_dst_type := dst.type

/-- Modelled from the spec: the accessor `ginsn_get_dst_disp` of ginsn.c, the
displacement of an indirect destination operand descriptor. -/
def ginsn_get_dst_disp (dst : ginsn_dst) : Int := dst.disp

/-- Modelled from the spec: the macro `GINSN_F_FUNC_BEGIN_P` of ginsn.h, the
test for the designated function-begin marker: an instruction of type
`GINSN_TYPE_SYMBOL` (see the comment in `gen_scfi_ops` and the test in
`scfi_emit_dw2cfi`) that carries the function-marker flag. -/
def GINSN_F_FUNC_BEGIN_P (g : ginsn) : Bool :=
  decide (g.type = ginsn_type.GINSN_TYPE_SYMBOL) && g.func_marker

/-- Assignment to one entry of a register table. -/
def set_regloc (tbl : Nat → cfi_regloc) (i : Nat) (v : cfi_regloc) : Nat → cfi_regloc :=
  fun j => if j = i then v else tbl j

/-- The zero-initialised operation of `init_scfi_op` (`XCNEW`). -/
def init_scfi_op : scfi_op :=
  { reg := 0,
    loc := { base := 0, offset := 0, state := cfi_reglocstate.CFI_UNDEFINED },
    dw2cfi_op := dw2cfi_opcode.DW_CFA_nop }

/-! ## Unwind state model -/

/-- Whether two table entries hold the same bytes. -/
def cfi_regloc_beq (a b : cfi_regloc) : Bool := decide (a = b)

/-- The `memcmp` of the two `regs` tables over `MAX_NUM_SCFI_REGS` entries:
true when some entry differs. -/
def regs_differ (t : scfi_target) (r1 r2 : Nat → cfi_regloc) : Bool :=
  (List.range (MAX_NUM_SCFI_REGS t)).any (fun i => !(cfi_regloc_beq (r1 i) (r2 i)))

/-- The comparison `cmp_scfi_state`: 0 when the register tables, the stack
size and the traceable flag agree, and a nonzero value (rendered as 1)
otherwise.  The scratch tables are not compared. -/
def cmp_scfi_state (t : scfi_target) (state1 state2 : scfi_state) : Int :=
  if regs_differ t state1.regs state2.regs
      || decide (state1.stack_size ≠ state2.stack_size)
      || decide (state1.traceable_p ≠ state2.traceable_p)
  then 1 else 0

/-- The update `scfi_state_save_reg`: REG is on the stack at OFFSET from
REG_CFA. -/
def scfi_state_save_reg (t : scfi_target) (state : scfi_state) (reg base : Nat)
    (offset : Int) : Except scfi_fault scfi_state :=
  if MAX_NUM_SCFI_REGS t ≤ reg then Except.ok state
  else if base ≠ REG_CFA t then Except.error scfi_fault.assertion
  else
    let loc : cfi_regloc :=
      { base := base, offset := offset, state := cfi_reglocstate.CFI_ON_STACK }
    Except.ok { state with regs := set_regloc state.regs reg loc }

/-- The update `scfi_state_restore_reg`: REG is back in its register. -/
def scfi_state_restore_reg (t : scfi_target) (state : scfi_state) (reg : Nat) :
    Except scfi_fault scfi_state :=
  if MAX_NUM_SCFI_REGS t ≤ reg then Except.ok state
  else if (state.regs reg).state ≠ cfi_reglocstate.CFI_ON_STACK then
    Except.error scfi_fault.assertion
  else if (state.regs reg).base ≠ REG_CFA t then Except.error scfi_fault.assertion
  else
    let loc : cfi_regloc :=
      { base := reg, offset := 0, state := cfi_reglocstate.CFI_IN_REG }
    Except.ok { state with regs := set_regloc state.regs reg loc }

/-- The predicate `ginsn_scfi_save_reg_p`: does the instruction save a register
of interest on the stack. -/
def ginsn_scfi_save_reg_p (t : scfi_target) (g : ginsn) (state : scfi_state) : Bool :=
  if !(t.ginsn_track_reg_p (ginsn_get_src_reg g.src1)) then false
  else if g.type = ginsn_type.GINSN_TYPE_MOV
      ∧ ginsn_get_dst_type g.dst = ginsn_dst_type.GINSN_DST_INDIRECT
      ∧ (ginsn_get_dst_reg g.dst = t.REG_SP
          ∨ (ginsn_get_dst_reg g.dst = t.REG_FP
              ∧ (state.regs (REG_CFA t)).base = t.REG_FP)) then true
  else if g.type = ginsn_type.GINSN_TYPE_STS then true
  else false

/-- The predicate `ginsn_scfi_reg_restore_p`: does the instruction restore a
register of interest from the stack. -/
def ginsn_scfi_reg_restore_p (t : scfi_target) (g : ginsn) (state : scfi_state) : Bool :=
  if !(t.ginsn_track_reg_p (ginsn_get_dst_reg g.dst)) then false
  else if g.type = ginsn_type.GINSN_TYPE_MOV
      ∧ ginsn_get_dst_type g.dst = ginsn_dst_type.GINSN_DST_INDIRECT
      ∧ (ginsn_get_src_reg g.src1 = t.REG_SP
          ∨ (ginsn_get_src_reg g.src1 = t.REG_FP
              ∧ (state.regs (REG_CFA t)).base = t.REG_FP)) then true
  else if g.type = ginsn_type.GINSN_TYPE_LDS then true
  else false

/-! ## Operations appended to an instruction -/

/-- The append `ginsn_append_scfi_op`: OP goes to the tail of the list. -/
def ginsn_append_scfi_op (g : ginsn) (op : scfi_op) : ginsn :=
  { g with scfi_ops := g.scfi_ops ++ [op], num_scfi_ops := g.num_scfi_ops + 1 }

/-- The operation `scfi_op_add_def_cfa_reg`. -/
def scfi_op_add_def_cfa_reg (t : scfi_target) (state : scfi_state) (g : ginsn)
    (reg : Nat) : scfi_state × ginsn :=
  let cfa : cfi_regloc := { state.regs (REG_CFA t) with base := reg }
  ({ state with regs := set_regloc state.regs (REG_CFA t) cfa },
   ginsn_append_scfi_op g
     { init_scfi_op with
       dw2cfi_op := dw2cfi_opcode.DW_CFA_def_cfa_register, reg := REG_CFA t, loc := cfa })

/-- The operation `scfi_op_add_cfa_offset_inc`. -/
def scfi_op_add_cfa_offset_inc (t : scfi_target) (state : scfi_state) (g : ginsn)
    (num : Int) : scfi_state × ginsn :=
  let cfa : cfi_regloc :=
    { state.regs (REG_CFA t) with offset := sub32 (state.regs (REG_CFA t)).offset num }
  ({ state with regs := set_regloc state.regs (REG_CFA t) cfa },
   ginsn_append_scfi_op g
     { init_scfi_op with
       dw2cfi_op := dw2cfi_opcode.DW_CFA_def_cfa_offset, reg := REG_CFA t, loc := cfa })

/-- The operation `scfi_op_add_cfa_offset_dec`. -/
def scfi_op_add_cfa_offset_dec (t : scfi_target) (state : scfi_state) (g : ginsn)
    (num : Int) : scfi_state × ginsn :=
  let cfa : cfi_regloc :=
    { state.regs (REG_CFA t) with offset := add32 (state.regs (REG_CFA t)).offset num }
  ({ state with regs := set_regloc state.regs (REG_CFA t) cfa },
   ginsn_append_scfi_op g
     { init_scfi_op with
       dw2cfi_op := dw2cfi_opcode.DW_CFA_def_cfa_offset, reg := REG_CFA t, loc := cfa })

/-- The operation `scfi_op_add_def_cfa`. -/
def scfi_op_add_def_cfa (t : scfi_target) (state : scfi_state) (g : ginsn)
    (reg : Nat) (num : Int) : Except scfi_fault (scfi_state × ginsn) :=
  if ¬ (0 < num) then Except.error scfi_fault.assertion
  else
    let cfa : cfi_regloc := { state.regs (REG_CFA t) with base := reg, offset := num }
    Except.ok
      ({ state with regs := set_regloc state.regs (REG_CFA t) cfa },
       ginsn_append_scfi_op g
         { init_scfi_op with
           dw2cfi_op := dw2cfi_opcode.DW_CFA_def_cfa, reg := REG_CFA t, loc := cfa })

/-- The operation `scfi_op_add_cfi_offset`. -/
def scfi_op_add_cfi_offset (t : scfi_target) (state : scfi_state) (g : ginsn)
    (reg : Nat) : Except scfi_fault ginsn :=
  if MAX_NUM_SCFI_REGS t ≤ reg then Except.error scfi_fault.out_of_bounds
  else Except.ok (ginsn_append_scfi_op g
    { init_scfi_op with
      dw2cfi_op := dw2cfi_opcode.DW_CFA_offset, reg := reg, loc := state.regs reg })

/-- The operation `scfi_op_add_cfa_restore`. -/
def scfi_op_add_cfa_restore (g : ginsn) (reg : Nat) : ginsn :=
  ginsn_append_scfi_op g
    { init_scfi_op with
      dw2cfi_op := dw2cfi_opcode.DW_CFA_restore, reg := reg,
      loc := { init_scfi_op.loc with base := UINT32_MINUS_ONE, offset := 0 } }

/-- The operation `scfi_op_add_cfi_remember_state`. -/
def scfi_op_add_cfi_remember_state (g : ginsn) : ginsn :=
  ginsn_append_scfi_op g
    { init_scfi_op with dw2cfi_op := dw2cfi_opcode.DW_CFA_remember_state }

/-- The operation `scfi_op_add_cfi_restore_state`. -/
def scfi_op_add_cfi_restore_state (g : ginsn) : ginsn :=
  ginsn_append_scfi_op g
    { init_scfi_op with dw2cfi_op := dw2cfi_opcode.DW_CFA_restore_state }

/-! ## Symbolic executor -/

/-- The result of executing one instruction: the returned code, the
instruction with its list of operations, and the state left in place. -/
structure scfi_exec where
  ret : Int
  ginsn : ginsn
  state : scfi_state

/-- The guard `verify_heuristic_traceable_reg_bp` (REG_FP must not be used as
scratch while it anchors the CFA): returns 1 for a rejected instruction. -/
def verify_heuristic_traceable_reg_bp (t : scfi_target) (g : ginsn) (state : scfi_state) :
    Int :=
  if (state.regs (REG_CFA t)).base = t.REG_FP ∧ ginsn_get_dst_reg g.dst = t.REG_FP then
    if (g.type = ginsn_type.GINSN_TYPE_ADD ∨ g.type = ginsn_type.GINSN_TYPE_SUB)
        ∧ ginsn_get_src_reg g.src1 = t.REG_FP
        ∧ ginsn_get_src_type g.src2 = ginsn_src_type.GINSN_SRC_IMM then 0
    else if g.type = ginsn_type.GINSN_TYPE_LDS then 0
    else if g.type = ginsn_type.GINSN_TYPE_MOV
        ∧ ginsn_get_dst_type g.dst = ginsn_dst_type.GINSN_DST_INDIRECT then 0
    else 1
  else 0

/-- The guard `verify_heuristic_traceable_stack_manipulation`: returns the
code (1 for a rejected instruction) and the state, whose traceable flag the
guard may clear. -/
def verify_heuristic_traceable_stack_manipulation (t : scfi_target) (g : ginsn)
    (state : scfi_state) : Except scfi_fault (Int × scfi_state) :=
  if ginsn_get_dst_reg g.dst = t.REG_SP
      ∧ (((g.type = ginsn_type.GINSN_TYPE_ADD ∨ g.type = ginsn_type.GINSN_TYPE_SUB)
            ∧ ginsn_get_src_type g.src2 ≠ ginsn_src_type.GINSN_SRC_IMM)
          ∨ g.type = ginsn_type.GINSN_TYPE_AND) then
    if (state.regs (REG_CFA t)).base = t.REG_SP then Except.ok (1, state)
    else if state.traceable_p then
      if (state.regs (REG_CFA t)).base ≠ t.REG_FP then Except.error scfi_fault.assertion
      else Except.ok (0, { state with traceable_p := false })
    else Except.ok (0, state)
  else if ginsn_scfi_save_reg_p t g state ∧ state.traceable_p = false then
    if g.type = ginsn_type.GINSN_TYPE_MOV
        ∧ ginsn_get_dst_type g.dst = ginsn_dst_type.GINSN_DST_INDIRECT
        ∧ (ginsn_get_dst_reg g.dst = t.REG_SP
            ∨ (ginsn_get_dst_reg g.dst = t.REG_FP
                ∧ (state.regs (REG_CFA t)).base ≠ t.REG_FP)) then Except.ok (1, state)
    else Except.ok (0, state)
  else if ginsn_scfi_reg_restore_p t g state ∧ state.traceable_p = false then
    if g.type = ginsn_type.GINSN_TYPE_MOV
        ∧ ginsn_get_dst_type g.dst = ginsn_dst_type.GINSN_DST_INDIRECT
        ∧ (ginsn_get_src_reg g.src1 = t.REG_SP
            ∨ (ginsn_get_src_reg g.src1 = t.REG_FP
                ∧ (state.regs (REG_CFA t)).base ≠ t.REG_FP)) then Except.ok (1, state)
    else Except.ok (0, state)
  else Except.ok (0, state)

/-- The check `verify_heuristic_symmetrical_restore_reg`: 1 when REG is restored
from the offset it was saved at, 0 otherwise; the register must be recorded
on the stack. -/
def verify_heuristic_symmetrical_restore_reg (t : scfi_target) (state : scfi_state)
    (reg : Nat) (expected_offset : Int) : Except scfi_fault Int :=
  if MAX_NUM_SCFI_REGS t ≤ reg then Except.error scfi_fault.out_of_bounds
  else if (state.regs reg).state ≠ cfi_reglocstate.CFI_ON_STACK then
    Except.error scfi_fault.assertion
  else if (state.regs reg).base ≠ REG_CFA t then Except.error scfi_fault.assertion
  else Except.ok (if expected_offset = (state.regs reg).offset then 1 else 0)

/-- The common tail of the two restore paths of `gen_scfi_ops` (lines 633-641
and 716-724): the symmetry check, then the restore of the register and its
`DW_CFA_restore` operation, or only a warning. -/
def gen_scfi_ops_restore (t : scfi_target) (g : ginsn) (state : scfi_state)
    (reg : Nat) (expected_offset : Int) : Except scfi_fault scfi_exec :=
  match verify_heuristic_symmetrical_restore_reg t state reg expected_offset with
  | Except.error f => Except.error f
  | Except.ok sym =>
    if sym ≠ 0 then
      match scfi_state_restore_reg t state reg with
      | Except.error f => Except.error f
      | Except.ok state1 =>
        Except.ok { ret := 0, ginsn := scfi_op_add_cfa_restore g reg, state := state1 }
    else Except.ok { ret := 0, ginsn := g, state := state }

/-- The common tail of the three save paths of `gen_scfi_ops` (lines 740-742,
757-758 and 765-766): the save of the register at OFFSET from the CFA and its
`DW_CFA_offset` operation. -/
def gen_scfi_ops_save (t : scfi_target) (g : ginsn) (state : scfi_state)
    (reg : Nat) (offset : Int) : Except scfi_fault scfi_exec :=
  match scfi_state_save_reg t state reg (REG_CFA t) offset with
  | Except.error f => Except.error f
  | Except.ok state1 =>
    match scfi_op_add_cfi_offset t state1 g reg with
    | Except.error f => Except.error f
    | Except.ok g1 => Except.ok { ret := 0, ginsn := g1, state := state1 }

/-- The case `GINSN_DST_REG`, `GINSN_TYPE_MOV` of `gen_scfi_ops`. -/
def gen_scfi_ops_mov (t : scfi_target) (g : ginsn) (state : scfi_state) :
    Except scfi_fault scfi_exec :=
  if ginsn_get_src_type g.src1 = ginsn_src_type.GINSN_SRC_REG
      ∧ ginsn_get_src_reg g.src1 = t.REG_SP
      ∧ ginsn_get_dst_reg g.dst = t.REG_FP
      ∧ (state.regs (REG_CFA t)).base = t.REG_SP then
    let r := scfi_op_add_def_cfa_reg t state g (ginsn_get_dst_reg g.dst)
    Except.ok { ret := 0, ginsn := r.2, state := r.1 }
  else if ginsn_get_src_type g.src1 = ginsn_src_type.GINSN_SRC_REG
      ∧ ginsn_get_src_reg g.src1 = t.REG_FP
      ∧ ginsn_get_dst_reg g.dst = t.REG_SP
      ∧ (state.regs (REG_CFA t)).base = t.REG_FP then
    if MAX_NUM_SCFI_REGS t ≤ t.REG_FP then Except.error scfi_fault.out_of_bounds
    else
      let state1 := { state with stack_size := neg32 (state.regs t.REG_FP).offset }
      let r := scfi_op_add_def_cfa_reg t state1 g (ginsn_get_dst_reg g.dst)
      Except.ok { ret := 0, ginsn := r.2, state := { r.1 with traceable_p := true } }
  else if ginsn_get_src_type g.src1 = ginsn_src_type.GINSN_SRC_INDIRECT
      ∧ (ginsn_get_src_reg g.src1 = t.REG_SP ∨ ginsn_get_src_reg g.src1 = t.REG_FP)
      ∧ t.ginsn_track_reg_p (ginsn_get_dst_reg g.dst) = true then
    if ginsn_get_src_reg g.src1 = t.REG_SP then
      gen_scfi_ops_restore t g state (ginsn_get_dst_reg g.dst)
        (add32 (neg32 state.stack_size) (ginsn_get_src_disp g.src1))
    else if MAX_NUM_SCFI_REGS t ≤ t.REG_FP then Except.error scfi_fault.out_of_bounds
    else
      gen_scfi_ops_restore t g state (ginsn_get_dst_reg g.dst)
        (add32 (state.regs t.REG_FP).offset (ginsn_get_src_disp g.src1))
  else if ginsn_get_src_type g.src1 = ginsn_src_type.GINSN_SRC_REG
      ∧ ginsn_get_dst_type g.dst = ginsn_dst_type.GINSN_DST_REG
      ∧ ginsn_get_src_reg g.src1 = t.REG_SP then
    if MAX_NUM_SCFI_REGS t ≤ ginsn_get_dst_reg g.dst then
      Except.error scfi_fault.out_of_bounds
    else
      let loc : cfi_regloc :=
        { state.scratch (ginsn_get_dst_reg g.dst) with
          base := REG_CFA t, offset := neg32 state.stack_size }
      Except.ok { ret := 0, ginsn := g,
                  state := { state with
                    scratch := set_regloc state.scratch (ginsn_get_dst_reg g.dst) loc } }
  else if ginsn_get_src_type g.src1 = ginsn_src_type.GINSN_SRC_REG
      ∧ ginsn_get_dst_type g.dst = ginsn_dst_type.GINSN_DST_REG
      ∧ ginsn_get_dst_reg g.dst = t.REG_SP then
    if MAX_NUM_SCFI_REGS t ≤ ginsn_get_src_reg g.src1 then
      Except.error scfi_fault.out_of_bounds
    else
      Except.ok { ret := 0, ginsn := g,
                  state := { state with
                    stack_size := neg32 (state.scratch (ginsn_get_src_reg g.src1)).offset,
                    traceable_p := true } }
  else Except.ok { ret := 0, ginsn := g, state := state }

/-- The case `GINSN_DST_REG`, `GINSN_TYPE_SUB` of `gen_scfi_ops`. -/
def gen_scfi_ops_sub (t : scfi_target) (g : ginsn) (state : scfi_state) :
    Except scfi_fault scfi_exec :=
  if ginsn_get_src_reg g.src1 = t.REG_SP ∧ ginsn_get_dst_reg g.dst = t.REG_SP then
    let state1 :=
      { state with stack_size := add32 state.stack_size (ginsn_get_src_imm g.src2) }
    if (state1.regs (REG_CFA t)).base = t.REG_SP then
      let r := scfi_op_add_cfa_offset_dec t state1 g (ginsn_get_src_imm g.src2)
      Except.ok { ret := 0, ginsn := r.2, state := r.1 }
    else Except.ok { ret := 0, ginsn := g, state := state1 }
  else Except.ok { ret := 0, ginsn := g, state := state }

/-- The case `GINSN_DST_REG`, `GINSN_TYPE_ADD` of `gen_scfi_ops`. -/
def gen_scfi_ops_add (t : scfi_target) (g : ginsn) (state : scfi_state) :
    Except scfi_fault scfi_exec :=
  if ginsn_get_src_reg g.src1 = t.REG_SP ∧ ginsn_get_dst_reg g.dst = t.REG_SP then
    let state1 :=
      { state with stack_size := sub32 state.stack_size (ginsn_get_src_imm g.src2) }
    if (state1.regs (REG_CFA t)).base = t.REG_SP then
      let r := scfi_op_add_cfa_offset_inc t state1 g (ginsn_get_src_imm g.src2)
      Except.ok { ret := 0, ginsn := r.2, state := r.1 }
    else Except.ok { ret := 0, ginsn := g, state := state1 }
  else if ginsn_get_src_reg g.src1 = t.REG_FP
      ∧ ginsn_get_dst_reg g.dst = t.REG_SP
      ∧ (state.regs (REG_CFA t)).base = t.REG_FP then
    if MAX_NUM_SCFI_REGS t ≤ t.REG_FP then Except.error scfi_fault.out_of_bounds
    else
      Except.ok { ret := 0, ginsn := g,
                  state := { state with
                    stack_size :=
                      sub32 0 (add32 (state.regs t.REG_FP).offset
                                (ginsn_get_src_imm g.src2)) } }
  else Except.ok { ret := 0, ginsn := g, state := state }

/-- The case `GINSN_DST_REG`, `GINSN_TYPE_LDS` of `gen_scfi_ops`. -/
def gen_scfi_ops_lds (t : scfi_target) (g : ginsn) (state : scfi_state) :
    Except scfi_fault scfi_exec :=
  let r : scfi_state × ginsn :=
    if ginsn_get_dst_reg g.dst = t.REG_FP ∧ (state.regs (REG_CFA t)).base = t.REG_FP then
      scfi_op_add_def_cfa_reg t state g t.REG_SP
    else (state, g)
  if t.ginsn_track_reg_p (ginsn_get_dst_reg g.dst) = true then
    gen_scfi_ops_restore t r.2 r.1 (ginsn_get_dst_reg g.dst) (neg32 r.1.stack_size)
  else Except.ok { ret := 0, ginsn := r.2, state := r.1 }

/-- The case `GINSN_DST_STACK` of `gen_scfi_ops`. -/
def gen_scfi_ops_dst_stack (t : scfi_target) (g : ginsn) (state : scfi_state) :
    Except scfi_fault scfi_exec :=
  if g.type ≠ ginsn_type.GINSN_TYPE_STS then Except.error scfi_fault.assertion
  else if t.ginsn_track_reg_p (ginsn_get_src_reg g.src1) = true then
    if MAX_NUM_SCFI_REGS t ≤ ginsn_get_src_reg g.src1 then
      Except.error scfi_fault.out_of_bounds
    else if (state.regs (ginsn_get_src_reg g.src1)).state ≠ cfi_reglocstate.CFI_ON_STACK then
      gen_scfi_ops_save t g state (ginsn_get_src_reg g.src1) (sub32 0 state.stack_size)
    else Except.ok { ret := 0, ginsn := g, state := state }
  else Except.ok { ret := 0, ginsn := g, state := state }

/-- The case `GINSN_DST_INDIRECT` of `gen_scfi_ops`. -/
def gen_scfi_ops_dst_indirect (t : scfi_target) (g : ginsn) (state : scfi_state) :
    Except scfi_fault scfi_exec :=
  if g.type ≠ ginsn_type.GINSN_TYPE_MOV then Except.error scfi_fault.assertion
  else if t.ginsn_track_reg_p (ginsn_get_src_reg g.src1) = true then
    if MAX_NUM_SCFI_REGS t ≤ ginsn_get_src_reg g.src1 then
      Except.error scfi_fault.out_of_bounds
    else if (state.regs (ginsn_get_src_reg g.src1)).state ≠ cfi_reglocstate.CFI_ON_STACK then
      if ginsn_get_dst_reg g.dst = t.REG_SP then
        gen_scfi_ops_save t g state (ginsn_get_src_reg g.src1)
          (add32 (sub32 0 state.stack_size) (ginsn_get_dst_disp g.dst))
      else if ginsn_get_dst_reg g.dst = t.REG_FP then
        if (state.regs (REG_CFA t)).base ≠ t.REG_FP then Except.error scfi_fault.assertion
        else
          gen_scfi_ops_save t g state (ginsn_get_src_reg g.src1)
            (add32 (sub32 0 (state.regs (REG_CFA t)).offset) (ginsn_get_dst_disp g.dst))
      else Except.ok { ret := 0, ginsn := g, state := state }
    else Except.ok { ret := 0, ginsn := g, state := state }
  else Except.ok { ret := 0, ginsn := g, state := state }

/-- The part of `gen_scfi_ops` after the two guards: the `switch` on the kind
of destination and on the type of instruction. -/
def gen_scfi_ops_switch (t : scfi_target) (g : ginsn) (state : scfi_state) :
    Except scfi_fault scfi_exec :=
  match g.dst.type with
  | ginsn_dst_type.GINSN_DST_REG =>
    match g.type with
    | ginsn_type.GINSN_TYPE_MOV => gen_scfi_ops_mov t g state
    | ginsn_type.GINSN_TYPE_SUB => gen_scfi_ops_sub t g state
    | ginsn_type.GINSN_TYPE_ADD => gen_scfi_ops_add t g state
    | ginsn_type.GINSN_TYPE_LDS => gen_scfi_ops_lds t g state
    | _ => Except.ok { ret := 0, ginsn := g, state := state }
  | ginsn_dst_type.GINSN_DST_STACK => gen_scfi_ops_dst_stack t g state
  | ginsn_dst_type.GINSN_DST_INDIRECT => gen_scfi_ops_dst_indirect t g state
  | _ => Except.ok { ret := 0, ginsn := g, state := state }

/-- The symbolic execution `gen_scfi_ops` of one instruction: the marker of the
function begin, then the two guards, then the state transition. -/
def gen_scfi_ops (t : scfi_target) (g : ginsn) (state : scfi_state) :
    Except scfi_fault scfi_exec :=
  if GINSN_F_FUNC_BEGIN_P g = true then
    match scfi_op_add_def_cfa t state g t.REG_SP t.SCFI_INIT_CFA_OFFSET with
    | Except.error f => Except.error f
    | Except.ok r =>
      Except.ok { ret := 0, ginsn := r.2,
                  state := { r.1 with
                    stack_size := add32 r.1.stack_size t.SCFI_INIT_CFA_OFFSET } }
  else
    match verify_heuristic_traceable_stack_manipulation t g state with
    | Except.error f => Except.error f
    | Except.ok r =>
      if r.1 ≠ 0 then Except.ok { ret := r.1, ginsn := g, state := r.2 }
      else if verify_heuristic_traceable_reg_bp t g r.2 ≠ 0 then
        Except.ok { ret := verify_heuristic_traceable_reg_bp t g r.2, ginsn := g,
                    state := r.2 }
      else gen_scfi_ops_switch t g r.2

/-! ## Control-flow graph -/

/-- An edge of the graph: `struct gedge`.  The field `recursions` is a ghost
counter of the recursive calls made along the edge; the code never reads it. -/
structure gedge where
  dst_bb : Nat
  visited : Bool
  recursions : Nat
deriving DecidableEq

/-- A basic block: `struct gbb`, with its instructions in program order, its
outgoing edges in their declared order, the visited flag and the two
snapshots.  The field `executions` is a ghost counter of the runs of the
instruction loop over the block; the code never reads it. -/
structure gbb where
  insns : List ginsn
  out_gedges : List gedge
  visited : Bool
  entry_state : Option scfi_state
  exit_state : Option scfi_state
  executions : Nat

/-- The graph: `struct gcfg`, the basic blocks in program order; a pointer to
a basic block is its index in this list. -/
structure gcfg where
  gbbs : List gbb

/-- The result of a flow pass: the returned code, the graph with its flags,
snapshots and operations, and the state object left in place. -/
structure scfi_flow where
  ret : Int
  cfg : gcfg
  state : scfi_state

/-- The result of the instruction loop over one block. -/
structure scfi_bb_exec where
  ret : Int
  insns : List ginsn
  state : scfi_state

/-- The loop `bb_for_each_insn` of `forward_flow_scfi_state`: `gen_scfi_ops` on
every instruction in program order, the state threaded through, stopping at
the first nonzero code. -/
def bb_gen_scfi_ops (t : scfi_target) : List ginsn → scfi_state →
    Except scfi_fault scfi_bb_exec
  | [], state => Except.ok { ret := 0, insns := [], state := state }
  | g :: rest, state =>
    match gen_scfi_ops t g state with
    | Except.error f => Except.error f
    | Except.ok r =>
      if r.ret ≠ 0 then Except.ok { ret := r.ret, insns := r.ginsn :: rest, state := r.state }
      else
        match bb_gen_scfi_ops t rest r.state with
        | Except.error f => Except.error f
        | Except.ok r2 =>
          Except.ok { ret := r2.ret, insns := r.ginsn :: r2.insns, state := r2.state }

/-- Replacement of the basic block at index B. -/
def gcfg_set_bb (cfg : gcfg) (b : Nat) (g : gbb) : gcfg :=
  { gbbs := cfg.gbbs.set b g }

/-- The assignment `gedge->visited = true` on the K-th edge of a list of edges;
C is the increment of the ghost counter of recursions (1 when the assignment
precedes the recursive call, 0 at the exit `fail:`). -/
def gedges_mark_visited : List gedge → Nat → Nat → List gedge
  | [], _, _ => []
  | e :: es, 0, c => { e with visited := true, recursions := e.recursions + c } :: es
  | e :: es, k + 1, c => e :: gedges_mark_visited es k c

/-- The assignment `gedge->visited = true` on the K-th outgoing edge of the basic
block at index B. -/
def gcfg_mark_edge_visited (cfg : gcfg) (b k c : Nat) : gcfg :=
  match cfg.gbbs[b]? with
  | none => cfg
  | some g => gcfg_set_bb cfg b { g with out_gedges := gedges_mark_visited g.out_gedges k c }

/-- The exit `fail:` of `forward_flow_scfi_state` when an edge is current: the
edge is marked visited and 1 is returned. -/
def forward_flow_fail (cfg : gcfg) (prev k : Nat) (state : scfi_state) : scfi_flow :=
  { ret := 1, cfg := gcfg_mark_edge_visited cfg prev k 0, state := state }

/-- The body of the loop `bb_for_each_edge` of `forward_flow_scfi_state` for the
K-th outgoing edge of the block PREV; RECUR is the recursive call. -/
def forward_flow_edge (t : scfi_target)
    (recur : gcfg → Nat → scfi_state → Except scfi_fault scfi_flow)
    (prev k : Nat) (cfg : gcfg) (state : scfi_state) : Except scfi_fault scfi_flow :=
  match cfg.gbbs[prev]? with
  | none => Except.error scfi_fault.null_pointer
  | some pb =>
    match pb.out_gedges[k]? with
    | none => Except.error scfi_fault.null_pointer
    | some e =>
      match cfg.gbbs[e.dst_bb]? with
      | none => Except.error scfi_fault.null_pointer
      | some d =>
        match (if d.visited = true then d.entry_state.map (fun en => cmp_scfi_state t en state)
               else some 0) with
        | none => Except.error scfi_fault.null_pointer
        | some c =>
          if c ≠ 0 then Except.ok (forward_flow_fail cfg prev k state)
          else if e.visited = false then
            match pb.exit_state with
            | none => Except.error scfi_fault.null_pointer
            | some ex =>
              match recur (gcfg_mark_edge_visited cfg prev k 1) e.dst_bb ex with
              | Except.error f => Except.error f
              | Except.ok r =>
                if r.ret ≠ 0 then Except.ok (forward_flow_fail r.cfg prev k r.state)
                else Except.ok r
          else Except.ok { ret := 0, cfg := cfg, state := state }

/-- The loop `bb_for_each_edge` of `forward_flow_scfi_state` over the N outgoing
edges of the block PREV that start at position K. -/
def forward_flow_edges (t : scfi_target)
    (recur : gcfg → Nat → scfi_state → Except scfi_fault scfi_flow)
    (prev : Nat) : Nat → Nat → gcfg → scfi_state → Except scfi_fault scfi_flow
  | 0, _, cfg, state => Except.ok { ret := 0, cfg := cfg, state := state }
  | n + 1, k, cfg, state =>
    match forward_flow_edge t recur prev k cfg state with
    | Except.error f => Except.error f
    | Except.ok r =>
      if r.ret ≠ 0 then Except.ok r
      else forward_flow_edges t recur prev n (k + 1) r.cfg r.state

/-- The forward flow `forward_flow_scfi_state` of the state from the basic block
at index B, with a bound on the depth of the recursion. -/
def forward_flow_scfi_state (t : scfi_target) : Nat → gcfg → Nat → scfi_state →
    Except scfi_fault scfi_flow
  | 0, _, _, _ => Except.error scfi_fault.out_of_fuel
  | fuel + 1, cfg, b, state =>
    match cfg.gbbs[b]? with
    | none => Except.error scfi_fault.null_pointer
    | some bb =>
      if bb.visited = true then
        match bb.entry_state with
        | none => Except.error scfi_fault.null_pointer
        | some en => Except.ok { ret := cmp_scfi_state t state en, cfg := cfg, state := state }
      else
        match bb_gen_scfi_ops t bb.insns state with
        | Except.error f => Except.error f
        | Except.ok r =>
          if r.ret ≠ 0 then
            Except.ok
              { ret := 1,
                cfg := gcfg_set_bb cfg b
                  { bb with visited := true, entry_state := some state, insns := r.insns,
                            executions := bb.executions + 1 },
                state := r.state }
          else
            forward_flow_edges t (forward_flow_scfi_state t fuel) b bb.out_gedges.length 0
              (gcfg_set_bb cfg b
                { bb with visited := true, entry_state := some state, insns := r.insns,
                          exit_state := some r.state, executions := bb.executions + 1 })
              r.state

/-- The state allocated by `scfi_synthesize_dw2cfi`: zero-initialised, then
marked traceable. -/
def init_state : scfi_state :=
  { regs := fun _ => { base := 0, offset := 0, state := cfi_reglocstate.CFI_UNDEFINED },
    scratch := fun _ => { base := 0, offset := 0, state := cfi_reglocstate.CFI_UNDEFINED },
    stack_size := 0,
    traceable_p := true }

/-! ## Sample inputs -/

/-- A sample target in the manner of x86-64: the stack pointer is register 7,
the frame pointer register 6, the initial CFA offset 8, and the tracked
registers are the callee-saved ones with the stack and frame pointers. -/
def example_target : scfi_target :=
  { REG_SP := 7,
    REG_FP := 6,
    SCFI_NUM_REGS := 16,
    SCFI_INIT_CFA_OFFSET := 8,
    ginsn_track_reg_p := fun r => decide (r ∈ [3, 6, 7, 12, 13, 14, 15]) }

/-- An operand-free source descriptor. -/
def src_none : ginsn_src :=
  { type := ginsn_src_type.GINSN_SRC_UNKNOWN, reg := 0, immdisp := 0 }

/-- A register source descriptor. -/
def src_reg (r : Nat) : ginsn_src :=
  { type := ginsn_src_type.GINSN_SRC_REG, reg := r, immdisp := 0 }

/-- An immediate source descriptor. -/
def src_imm (n : Int) : ginsn_src :=
  { type := ginsn_src_type.GINSN_SRC_IMM, reg := 0, immdisp := n }

/-- An indirect source descriptor, DISP(R). -/
def src_indirect (r : Nat) (disp : Int) : ginsn_src :=
  { type := ginsn_src_type.GINSN_SRC_INDIRECT, reg := r, immdisp := disp }

/-- An operand-free destination descriptor. -/
def dst_none : ginsn_dst :=
  { type := ginsn_dst_type.GINSN_DST_UNKNOWN, reg := 0, disp := 0 }

/-- A register destination descriptor. -/
def dst_reg (r : Nat) : ginsn_dst :=
  { type := ginsn_dst_type.GINSN_DST_REG, reg := r, disp := 0 }

/-- An indirect destination descriptor, DISP(R). -/
def dst_indirect (r : Nat) (disp : Int) : ginsn_dst :=
  { type := ginsn_dst_type.GINSN_DST_INDIRECT, reg := r, disp := disp }

/-- The destination descriptor of a store to the stack. -/
def dst_stack : ginsn_dst :=
  { type := ginsn_dst_type.GINSN_DST_STACK, reg := 0, disp := 0 }

/-- An instruction without operations yet. -/
def mk_ginsn (ty : ginsn_type) (s1 s2 : ginsn_src) (d : ginsn_dst) : ginsn :=
  { type := ty, src1 := s1, src2 := s2, dst := d, func_marker := false,
    scfi_ops := [], num_scfi_ops := 0 }

/-- The function-begin marker. -/
def ginsn_func_begin : ginsn :=
  { type := ginsn_type.GINSN_TYPE_SYMBOL, src1 := src_none, src2 := src_none,
    dst := dst_none, func_marker := true, scfi_ops := [], num_scfi_ops := 0 }

/-- A fresh basic block: not visited, no snapshot, edges not visited. -/
def mk_gbb (insns : List ginsn) (dsts : List Nat) : gbb :=
  { insns := insns,
    out_gedges := dsts.map (fun d => { dst_bb := d, visited := false, recursions := 0 }),
    visited := false, entry_state := none, exit_state := none, executions := 0 }

/-- The code returned by a flow pass, when it returns. -/
def flow_ret (r : Except scfi_fault scfi_flow) : Option Int :=
  match r with
  | Except.ok f => some f.ret
  | Except.error _ => none

/-- The code returned by the executor, when it returns. -/
def exec_ret (r : Except scfi_fault scfi_exec) : Option Int :=
  match r with
  | Except.ok f => some f.ret
  | Except.error _ => none

/-- The operations of the instruction after the executor, when it returns. -/
def exec_ops (r : Except scfi_fault scfi_exec) : Option (List scfi_op) :=
  match r with
  | Except.ok f => some f.ginsn.scfi_ops
  | Except.error _ => none

/-- The stack size after the executor, when it returns. -/
def exec_stack_size (r : Except scfi_fault scfi_exec) : Option Int :=
  match r with
  | Except.ok f => some f.state.stack_size
  | Except.error _ => none

/-- The state left by a list of instructions, or the given state when the
executor does not return. -/
def state_after (t : scfi_target) (insns : List ginsn) (state : scfi_state) : scfi_state :=
  match bb_gen_scfi_ops t insns state with
  | Except.ok r => r.state
  | Except.error _ => state

/-- A prologue that sets up a frame pointer, saves a register and realigns the
stack: function begin; push of register 6 (the frame pointer); copy of the
stack pointer into the frame pointer; push of register 3; AND on the stack
pointer. -/
def example_realign_prologue : List ginsn :=
  [ ginsn_func_begin,
    mk_ginsn ginsn_type.GINSN_TYPE_SUB (src_reg 7) (src_imm 8) (dst_reg 7),
    mk_ginsn ginsn_type.GINSN_TYPE_STS (src_reg 6) src_none dst_stack,
    mk_ginsn ginsn_type.GINSN_TYPE_MOV (src_reg 7) src_none (dst_reg 6),
    mk_ginsn ginsn_type.GINSN_TYPE_SUB (src_reg 7) (src_imm 8) (dst_reg 7),
    mk_ginsn ginsn_type.GINSN_TYPE_STS (src_reg 3) src_none dst_stack,
    mk_ginsn ginsn_type.GINSN_TYPE_AND (src_reg 7) (src_imm (-16)) (dst_reg 7) ]

/-- The state after `example_realign_prologue`: the CFA is based on the frame
pointer at offset 16, registers 6 and 3 are on the stack at -16 and -24, the
stack size is 24 and the stack is no longer traceable. -/
def example_untraceable_state : scfi_state :=
  state_after example_target example_realign_prologue init_state

/-- The graph returned by a flow pass, when it returns. -/
def flow_cfg (r : Except scfi_fault scfi_flow) : Option gcfg :=
  match r with
  | Except.ok f => some f.cfg
  | Except.error _ => none

/-- Whether the exit snapshot of a block agrees, under `cmp_scfi_state`, with the
entry snapshot of the destination of each of its outgoing edges, both
snapshots being recorded. -/
def gbb_edges_consistent (t : scfi_target) (cfg : gcfg) (u : gbb) : Bool :=
  u.out_gedges.all (fun e =>
    match u.exit_state, cfg.gbbs[e.dst_bb]? with
    | some ex, some d =>
      (match d.entry_state with
       | some en => decide (cmp_scfi_state t ex en = 0)
       | none => false)
    | _, _ => false)

/-- Whether every edge of the graph joins an exit snapshot and an entry
snapshot that agree under `cmp_scfi_state`. -/
def gcfg_edges_consistent (t : scfi_target) (cfg : gcfg) : Bool :=
  cfg.gbbs.all (gbb_edges_consistent t cfg)

/-- Whether the executor accepts (code 0) every instruction of the block
INSNS when it is run from the entry snapshot recorded in the block U. -/
def gbb_insns_accepted (t : scfi_target) (insns : List ginsn) (u : gbb) : Bool :=
  match u.entry_state with
  | none => false
  | some en =>
    match bb_gen_scfi_ops t insns en with
    | Except.ok r => decide (r.ret = 0)
    | Except.error _ => false

/-- Whether, block by block, the executor accepts every instruction of the
graph CFG0 when run from the entry snapshots recorded in the graph CFG. -/
def gcfg_insns_accepted (t : scfi_target) (cfg0 cfg : gcfg) : Bool :=
  (List.zipWith (fun (u0 u : gbb) => gbb_insns_accepted t u0.insns u) cfg0.gbbs cfg.gbbs).all
    (fun b => b)

/-- A graph of three blocks in which a block is reached both directly and
through a sibling: block 0 (the function begin) has the edges [1, 2], block 1
(empty) has the edge [2], and block 2 grows the stack by `SUB SP, 8, SP`. -/
def example_cfg_shared_successor : gcfg :=
  { gbbs :=
      [ mk_gbb [ginsn_func_begin] [1, 2],
        mk_gbb [] [2],
        mk_gbb [mk_ginsn ginsn_type.GINSN_TYPE_SUB (src_reg 7) (src_imm 8) (dst_reg 7)] [] ] }

/-! ## Predicates on graphs used to state the properties of the flow -/

/-- The destinations of the outgoing edges of a block, in their declared order. -/
def gbb_dsts (g : gbb) : List Nat := g.out_gedges.map (fun e => e.dst_bb)

/-- The relation between a block before and after a call of the forward flow:
the edges keep their destinations, a block that was visited is untouched, and
a block that is still not visited is untouched. -/
def gbb_frame (g g' : gbb) : Prop :=
  gbb_dsts g' = gbb_dsts g ∧ (g.visited = true → g' = g) ∧ (g'.visited = false → g' = g)

/-- The relation between the block whose edges are being walked, before and
after: only the flags and ghost counters of its edges may differ. -/
def gbb_frame_edges (g g' : gbb) : Prop :=
  gbb_dsts g' = gbb_dsts g ∧ g'.visited = g.visited ∧ g'.entry_state = g.entry_state
    ∧ g'.exit_state = g.exit_state ∧ g'.insns = g.insns ∧ g'.executions = g.executions

/-- The relation between the graphs before and after a call of the forward
flow: block by block, `gbb_frame`. -/
def gcfg_frame (cfg cfg' : gcfg) : Prop :=
  cfg'.gbbs.length = cfg.gbbs.length
    ∧ ∀ (u : Nat) (g : gbb), cfg.gbbs[u]? = some g →
        ∃ g' : gbb, cfg'.gbbs[u]? = some g' ∧ gbb_frame g g'

/-- The relation between the graphs before and after the walk of the edges of
the block at index P: `gbb_frame_edges` for that block, `gbb_frame` for the
others. -/
def gcfg_frame_except (p : Nat) (cfg cfg' : gcfg) : Prop :=
  cfg'.gbbs.length = cfg.gbbs.length
    ∧ ∀ (u : Nat) (g : gbb), cfg.gbbs[u]? = some g →
        ∃ g' : gbb, cfg'.gbbs[u]? = some g' ∧ (u = p → gbb_frame_edges g g')
          ∧ (u ≠ p → gbb_frame g g')

/-- Visited blocks stay visited and keep their entry snapshot. -/
def gcfg_entries_kept (cfg cfg' : gcfg) : Prop :=
  ∀ (v : Nat) (d : gbb), cfg.gbbs[v]? = some d → d.visited = true →
    ∃ d' : gbb, cfg'.gbbs[v]? = some d' ∧ d'.visited = true ∧ d'.entry_state = d.entry_state

/-- All flags of the graph are false: no block and no edge is visited. -/
def gcfg_fresh (cfg : gcfg) : Prop :=
  ∀ g ∈ cfg.gbbs, g.visited = false ∧ ∀ e ∈ g.out_gedges, e.visited = false

/-- The edges of the blocks that are not visited are not visited. -/
def gcfg_unvisited_edges (cfg : gcfg) : Prop :=
  ∀ g ∈ cfg.gbbs, g.visited = false → ∀ e ∈ g.out_gedges, e.visited = false

/-- All ghost counters of the graph are zero. -/
def gcfg_counters_zero (cfg : gcfg) : Prop :=
  ∀ g ∈ cfg.gbbs, g.executions = 0 ∧ ∀ e ∈ g.out_gedges, e.recursions = 0

/-- The ghost counters of a block are bounded by its flags: the instruction
loop ran at most once, and only if the block is visited; each edge was
recursed along at most once, and only if it is visited. -/
def gbb_counters_ok (g : gbb) : Prop :=
  g.executions ≤ (if g.visited = true then 1 else 0)
    ∧ ∀ e ∈ g.out_gedges, e.recursions ≤ (if e.visited = true then 1 else 0)

/-- The ghost counters of every block are bounded by its flags. -/
def gcfg_counters_ok (cfg : gcfg) : Prop := ∀ g ∈ cfg.gbbs, gbb_counters_ok g

/-- The number of blocks that are not visited. -/
def gbbs_unvisited : List gbb → Nat
  | [] => 0
  | g :: gs => (if g.visited = true then 0 else 1) + gbbs_unvisited gs

/-- The destination of the edge E is visited and its entry snapshot agrees,
under `cmp_scfi_state`, with the exit snapshot EX of the source. -/
def gedge_consistent (t : scfi_target) (cfg : gcfg) (ex : scfi_state) (e : gedge) : Prop :=
  ∃ (d : gbb) (en : scfi_state),
    cfg.gbbs[e.dst_bb]? = some d ∧ d.visited = true ∧ d.entry_state = some en
    ∧ cmp_scfi_state t ex en = 0

/-- The block G is the block G0 after its one visit: it has an entry and an
exit snapshot, its instructions are those of G0 after one run of the executor
over them, in order, from the entry snapshot, the run accepted every
instruction and ended in the exit snapshot, and every outgoing edge is
consistent. -/
def gbb_done (t : scfi_target) (cfg : gcfg) (g0 g : gbb) : Prop :=
  ∃ en ex, g.visited = true ∧ g.entry_state = some en ∧ g.exit_state = some ex
    ∧ bb_gen_scfi_ops t g0.insns en = Except.ok { ret := 0, insns := g.insns, state := ex }
    ∧ g.executions = g0.executions + 1
    ∧ ∀ e ∈ g.out_gedges, gedge_consistent t cfg ex e

/-- There is an edge from the block at index U to the block at index V. -/
def gcfg_edge (cfg : gcfg) (u v : Nat) : Prop :=
  ∃ (g : gbb) (e : gedge), cfg.gbbs[u]? = some g ∧ e ∈ g.out_gedges ∧ e.dst_bb = v

/-- The block at index B is reachable from the block at index ROOT. -/
def gcfg_reachable (cfg : gcfg) (root b : Nat) : Prop :=
  Relation.ReflTransGen (gcfg_edge cfg) root b

/-- A cyclic graph: block 0 (the function begin) has the edge [1], block 1 has
the edges [1, 2] (the first one is a loop on itself), block 2 grows and shrinks
the stack by 16 and has the edge [1] back to block 1. -/
def example_cfg_cyclic : gcfg :=
  { gbbs :=
      [ mk_gbb [ginsn_func_begin] [1],
        mk_gbb [] [1, 2],
        mk_gbb
          [ mk_ginsn ginsn_type.GINSN_TYPE_SUB (src_reg 7) (src_imm 16) (dst_reg 7),
            mk_ginsn ginsn_type.GINSN_TYPE_ADD (src_reg 7) (src_imm 16) (dst_reg 7) ]
          [1] ] }

/-- What a successful call of the forward flow on the block at index B, with
the state ST, guarantees about the graph it returns: the block is visited and
its entry snapshot agrees with ST under `cmp_scfi_state` (it is ST itself when
the call made the first visit); and every block that the call visited is
done. -/
def forward_flow_post (t : scfi_target) (c : gcfg) (b : Nat) (st : scfi_state)
    (r : scfi_flow) : Prop :=
  (∃ (d : gbb) (en : scfi_state), r.cfg.gbbs[b]? = some d ∧ d.visited = true
      ∧ d.entry_state = some en ∧ cmp_scfi_state t st en = 0
      ∧ (∀ d0 : gbb, c.gbbs[b]? = some d0 → d0.visited = false → en = st))
  ∧ (∀ (u : Nat) (g0 g : gbb), c.gbbs[u]? = some g0 → g0.visited = false →
      r.cfg.gbbs[u]? = some g → g.visited = true → gbb_done t r.cfg g0 g)

/-- A diamond: block 0 (the function begin and a push of register 3) branches
to blocks 1 and 2, which both go to block 3 (the pop of register 3). -/
def example_cfg_diamond : gcfg :=
  { gbbs :=
      [ mk_gbb
          [ ginsn_func_begin,
            mk_ginsn ginsn_type.GINSN_TYPE_SUB (src_reg 7) (src_imm 8) (dst_reg 7),
            mk_ginsn ginsn_type.GINSN_TYPE_STS (src_reg 3) src_none dst_stack ]
          [1, 2],
        mk_gbb [] [3],
        mk_gbb [] [3],
        mk_gbb
          [ mk_ginsn ginsn_type.GINSN_TYPE_LDS src_none src_none (dst_reg 3),
            mk_ginsn ginsn_type.GINSN_TYPE_ADD (src_reg 7) (src_imm 8) (dst_reg 7) ]
          [] ] }

/-- Whether a call returned normally instead of ending in a fault. -/
def returns_normally {α : Type} (r : Except scfi_fault α) : Bool :=
  match r with
  | Except.ok _ => true
  | Except.error _ => false

/-- The instruction is a stack-pointer adjustment by an immediate: a SUB or an
ADD with source SP, register destination SP and an immediate second
source. -/
def ginsn_sp_adjust_imm_p (t : scfi_target) (g : ginsn) : Prop :=
  (g.type = ginsn_type.GINSN_TYPE_SUB ∨ g.type = ginsn_type.GINSN_TYPE_ADD)
    ∧ ginsn_get_src_reg g.src1 = t.REG_SP
    ∧ ginsn_get_dst_type g.dst = ginsn_dst_type.GINSN_DST_REG
    ∧ ginsn_get_dst_reg g.dst = t.REG_SP
    ∧ ginsn_get_src_type g.src2 = ginsn_src_type.GINSN_SRC_IMM

/-- The signed growth of the stack caused by a stack-pointer adjustment by an
immediate: the immediate for SUB, its opposite for ADD. -/
def sp_adjust_delta (g : ginsn) : Int :=
  if g.type = ginsn_type.GINSN_TYPE_SUB then ginsn_get_src_imm g.src2
  else - ginsn_get_src_imm g.src2

/-- The `DW_CFA_def_cfa_offset` operation that carries the CFA location LOC. -/
def scfi_op_def_cfa_offset (t : scfi_target) (loc : cfi_regloc) : scfi_op :=
  { reg := REG_CFA t, loc := loc, dw2cfi_op := dw2cfi_opcode.DW_CFA_def_cfa_offset }

/-- The `DW_CFA_offset` operation that carries the location LOC of the register
REG. -/
def scfi_op_offset (reg : Nat) (loc : cfi_regloc) : scfi_op :=
  { reg := reg, loc := loc, dw2cfi_op := dw2cfi_opcode.DW_CFA_offset }

/-- The `DW_CFA_restore` operation of the register REG. -/
def scfi_op_restore (reg : Nat) : scfi_op :=
  { reg := reg,
    loc := { base := UINT32_MINUS_ONE, offset := 0, state := cfi_reglocstate.CFI_UNDEFINED },
    dw2cfi_op := dw2cfi_opcode.DW_CFA_restore }

/-- The `DW_CFA_def_cfa` operation that carries the CFA location LOC. -/
def scfi_op_def_cfa (t : scfi_target) (loc : cfi_regloc) : scfi_op :=
  { reg := REG_CFA t, loc := loc, dw2cfi_op := dw2cfi_opcode.DW_CFA_def_cfa }

/-- The state after a stack-pointer adjustment by an immediate made while the
CFA is based on the stack pointer: the CFA offset and the stack size have both
moved by the growth of the stack (32-bit sums). -/
def sp_adjust_state (t : scfi_target) (g : ginsn) (s : scfi_state) : scfi_state :=
  { s with
    regs := set_regloc s.regs (REG_CFA t)
      { s.regs (REG_CFA t) with
        offset := add32 (s.regs (REG_CFA t)).offset (sp_adjust_delta g) },
    stack_size := add32 s.stack_size (sp_adjust_delta g) }

/-- A sequence of three stack-pointer adjustments by immediates on the sample
target: two growths and one shrink. -/
def example_sp_adjust_insns : List ginsn :=
  [ mk_ginsn ginsn_type.GINSN_TYPE_SUB (src_reg 7) (src_imm 8) (dst_reg 7),
    mk_ginsn ginsn_type.GINSN_TYPE_SUB (src_reg 7) (src_imm 16) (dst_reg 7),
    mk_ginsn ginsn_type.GINSN_TYPE_ADD (src_reg 7) (src_imm 24) (dst_reg 7) ]

/-- The state after the function begin and the push of register 3 on the sample
target: register 3 is on stack at offset -16 and the stack size is 16. -/
def example_saved_state : scfi_state :=
  state_after example_target
    [ ginsn_func_begin,
      mk_ginsn ginsn_type.GINSN_TYPE_SUB (src_reg 7) (src_imm 8) (dst_reg 7),
      mk_ginsn ginsn_type.GINSN_TYPE_STS (src_reg 3) src_none dst_stack ]
    init_state

/-- The first half of a push: `SUB SP, n, SP`. -/
def ginsn_sub_sp (t : scfi_target) (n : Int) : ginsn :=
  mk_ginsn ginsn_type.GINSN_TYPE_SUB (src_reg t.REG_SP) (src_imm n) (dst_reg t.REG_SP)

/-- The second half of a pop: `ADD SP, n, SP`. -/
def ginsn_add_sp (t : scfi_target) (n : Int) : ginsn :=
  mk_ginsn ginsn_type.GINSN_TYPE_ADD (src_reg t.REG_SP) (src_imm n) (dst_reg t.REG_SP)

/-- The second half of a push: the store-to-stack of the register R. -/
def ginsn_sts (r : Nat) : ginsn :=
  mk_ginsn ginsn_type.GINSN_TYPE_STS (src_reg r) src_none dst_stack

/-- The first half of a pop: the load-from-stack into the register R. -/
def ginsn_lds (r : Nat) : ginsn :=
  mk_ginsn ginsn_type.GINSN_TYPE_LDS src_none src_none (dst_reg r)

/-- The pushes of the registers of a list, in the order of the list, each one
as `SUB SP, n, SP` followed by the store-to-stack. -/
def scenario_a_pushes (t : scfi_target) (n : Int) : List Nat → List ginsn
  | [] => []
  | r :: rs => [ginsn_sub_sp t n, ginsn_sts r] ++ scenario_a_pushes t n rs

/-- The pops of the registers of a list, in the reverse order of the list, each
one as the load-from-stack followed by `ADD SP, n, SP`. -/
def scenario_a_pops (t : scfi_target) (n : Int) : List Nat → List ginsn
  | [] => []
  | r :: rs => scenario_a_pops t n rs ++ [ginsn_lds r, ginsn_add_sp t n]

/-- The instructions of scenario A: the function begin, the pushes of the
registers, and their pops in reverse order. -/
def scenario_a_insns (t : scfi_target) (n : Int) (regs : List Nat) : List ginsn :=
  ginsn_func_begin :: (scenario_a_pushes t n regs ++ scenario_a_pops t n regs)

/-- The pushes as expected after the executor, from the CFA offset C: each SUB
carries a `DW_CFA_def_cfa_offset` with the CFA offset grown by N, each store
a `DW_CFA_offset` of its register at the opposite of that offset. -/
def scenario_a_pushes_expected (t : scfi_target) (n : Int) (st0 : cfi_reglocstate) :
    Int → List Nat → List ginsn
  | _, [] => []
  | c, r :: rs =>
    [ ginsn_append_scfi_op (ginsn_sub_sp t n)
        (scfi_op_def_cfa_offset t { base := t.REG_SP, offset := c + n, state := st0 }),
      ginsn_append_scfi_op (ginsn_sts r)
        (scfi_op_offset r
          { base := REG_CFA t, offset := -(c + n),
            state := cfi_reglocstate.CFI_ON_STACK }) ]
      ++ scenario_a_pushes_expected t n st0 (c + n) rs

/-- The pops as expected after the executor, down to the CFA offset C: each
load carries a `DW_CFA_restore` of its register, each ADD a
`DW_CFA_def_cfa_offset` with the CFA offset shrunk by N. -/
def scenario_a_pops_expected (t : scfi_target) (n : Int) (st0 : cfi_reglocstate) :
    Int → List Nat → List ginsn
  | _, [] => []
  | c, r :: rs =>
    scenario_a_pops_expected t n st0 (c + n) rs
      ++ [ ginsn_append_scfi_op (ginsn_lds r) (scfi_op_restore r),
           ginsn_append_scfi_op (ginsn_add_sp t n)
             (scfi_op_def_cfa_offset t { base := t.REG_SP, offset := c, state := st0 }) ]

/-- The register table in which the registers of a list are back in
themselves. -/
def regs_restored (regs : List Nat) (tbl : Nat → cfi_regloc) : Nat → cfi_regloc :=
  fun i =>
    if i ∈ regs then { base := i, offset := 0, state := cfi_reglocstate.CFI_IN_REG }
    else tbl i

/-! ## Backward flow and the orchestrator -/

/-- The result of the backward pass: the returned code, the graph with the
pairing operations, and the array `restore_bbs` as it is when the code frees
it (entry J is the block J while it waits for its `DW_CFA_remember_state`). -/
structure scfi_backward where
  ret : Int
  cfg : gcfg
  restore_bbs : List (Option Nat)

/-- The result of `scfi_synthesize_dw2cfi`: the returned code and the graph. -/
structure scfi_synth where
  ret : Int
  cfg : gcfg

/-- Modelled from the spec: `bb_get_first_ginsn` of ginsn.c followed by
`scfi_op_add_cfi_restore_state` on the instruction in place: the operation
goes on the first instruction of the block; `ginsn_append_scfi_op` returns at
once for the null instruction of a block without instructions. -/
def bb_restore_state_first (b : gbb) : gbb :=
  match b.insns with
  | [] => b
  | g :: l => { b with insns := scfi_op_add_cfi_restore_state g :: l }

/-- The instructions of a block with `scfi_op_add_cfi_remember_state` applied
to the last one. -/
def insns_remember_state_last : List ginsn → List ginsn
  | [] => []
  | [g] => [scfi_op_add_cfi_remember_state g]
  | g :: g1 :: l => g :: insns_remember_state_last (g1 :: l)

/-- Modelled from the spec: `bb_get_last_ginsn` of ginsn.c followed by
`scfi_op_add_cfi_remember_state` on the instruction in place: the operation
goes on the last instruction of the block; `ginsn_append_scfi_op` returns at
once for the null instruction of a block without instructions. -/
def bb_remember_state_last (b : gbb) : gbb :=
  { b with insns := insns_remember_state_last b.insns }

/-- The loop over J of `backward_flow_scfi_state` (lines 901-909): the first
entry of `restore_bbs` that is the block DST is set to NULL; `none` when no
entry is that block.  A destination is a block, never NULL. -/
def restore_bbs_clear : List (Option Nat) → Nat → Option (List (Option Nat))
  | [], _ => none
  | x :: xs, dst =>
    if x = some dst then some (none :: xs)
    else (restore_bbs_clear xs dst).map (fun ys => x :: ys)

/-- The loop `bb_for_each_edge` of `backward_flow_scfi_state` (lines 898-910)
over the edges of the current block: for each edge in turn whose destination
waits in `restore_bbs`, a `DW_CFA_remember_state` on the last instruction of
the current block and the entry cleared. -/
def backward_flow_edges : List gedge → gbb → List (Option Nat) → gbb × List (Option Nat)
  | [], cur, rb => (cur, rb)
  | e :: es, cur, rb =>
    match restore_bbs_clear rb e.dst_bb with
    | some rb1 => backward_flow_edges es (bb_remember_state_last cur) rb1
    | none => backward_flow_edges es cur rb

/-- One turn of the loop `while (i > 0)` of `backward_flow_scfi_state` (lines
884-911) at the index I: the blocks I and I-1 of the program order, the
comparison of the exit snapshot of the previous block with the entry snapshot
of the current one (`cmp_scfi_state` reads through both pointers), then either
the `DW_CFA_restore_state` on the first instruction of the current block and
the block memorised at its index, or the loop over its edges. -/
def backward_flow_step (t : scfi_target) (i : Nat) (cfg : gcfg) (rb : List (Option Nat)) :
    Except scfi_fault (gcfg × List (Option Nat)) :=
  match cfg.gbbs[i]? with
  | none => Except.error scfi_fault.out_of_bounds
  | some cur =>
    match cfg.gbbs[i - 1]? with
    | none => Except.error scfi_fault.out_of_bounds
    | some prev =>
      match prev.exit_state with
      | none => Except.error scfi_fault.null_pointer
      | some ex =>
        match cur.entry_state with
        | none => Except.error scfi_fault.null_pointer
        | some en =>
          if cmp_scfi_state t ex en ≠ 0 then
            Except.ok (gcfg_set_bb cfg i (bb_restore_state_first cur), rb.set i (some i))
          else
            let r := backward_flow_edges cur.out_gedges cur rb
            Except.ok (gcfg_set_bb cfg i r.1, r.2)

/-- The loop `while (i > 0)` of `backward_flow_scfi_state` from the index I
down to the index 1. -/
def backward_flow_walk (t : scfi_target) : Nat → gcfg → List (Option Nat) →
    Except scfi_fault (gcfg × List (Option Nat))
  | 0, cfg, rb => Except.ok (cfg, rb)
  | i + 1, cfg, rb =>
    match backward_flow_step t (i + 1) cfg rb with
    | Except.error f => Except.error f
    | Except.ok r => backward_flow_walk t i r.1 r.2

/-- The backward pass `backward_flow_scfi_state`.  Modelled from the spec:
`gcfg_get_bbs_in_prog_order` of ginsn.c gives the blocks in program order,
which is the order of the list of blocks of the graph.  The counters `i` and
`j` are of type `int`: with 2^31 blocks or more they leave its range, which
is the fault `out_of_bounds` here. -/
def backward_flow_scfi_state (t : scfi_target) (cfg : gcfg) :
    Except scfi_fault scfi_backward :=
  if 2147483648 ≤ cfg.gbbs.length then Except.error scfi_fault.out_of_bounds
  else
    match backward_flow_walk t (cfg.gbbs.length - 1) cfg
        (List.replicate cfg.gbbs.length none) with
    | Except.error f => Except.error f
    | Except.ok r =>
      Except.ok { ret := if r.2.any Option.isSome then 1 else 0, cfg := r.1,
                  restore_bbs := r.2 }

/-- The orchestrator `scfi_synthesize_dw2cfi`: the forward pass from the
zero-initialised state with `traceable_p` set, and the backward pass when
the forward pass returned zero.  FUEL bounds the depth of the recursion of the
forward pass. -/
def scfi_synthesize_dw2cfi (t : scfi_target) (fuel : Nat) (cfg : gcfg) (root_bb : Nat) :
    Except scfi_fault scfi_synth :=
  match forward_flow_scfi_state t fuel cfg root_bb init_state with
  | Except.error f => Except.error f
  | Except.ok r =>
    if r.ret ≠ 0 then Except.ok { ret := r.ret, cfg := r.cfg }
    else
      match backward_flow_scfi_state t r.cfg with
      | Except.error f => Except.error f
      | Except.ok b => Except.ok { ret := b.ret, cfg := b.cfg }

/-- The number of operations with the opcode OP on an instruction. -/
def ginsn_count_op (op : dw2cfi_opcode) (g : ginsn) : Nat :=
  g.scfi_ops.countP (fun o => o.dw2cfi_op = op)

/-- The number of operations with the opcode OP on the instructions of a
list. -/
def insns_count_op (op : dw2cfi_opcode) : List ginsn → Nat
  | [] => 0
  | g :: l => ginsn_count_op op g + insns_count_op op l

/-- The number of operations with the opcode OP in the blocks of a list. -/
def gbbs_count_op (op : dw2cfi_opcode) : List gbb → Nat
  | [] => 0
  | b :: l => insns_count_op op b.insns + gbbs_count_op op l

/-- The number of operations with the opcode OP in a graph. -/
def gcfg_count_op (op : dw2cfi_opcode) (cfg : gcfg) : Nat :=
  gbbs_count_op op cfg.gbbs

/-- The number of blocks that wait in `restore_bbs`. -/
def restore_bbs_pending : List (Option Nat) → Nat
  | [] => 0
  | x :: xs => (if x.isSome then 1 else 0) + restore_bbs_pending xs

/-- The blocks of scenario B in program order, for the callee-saved registers
R1 and R2 of the sample target: P (the function begin, the pushes of R1 and
R2, a conditional branch) has the edges ES, to B1 and B2 in one order or the
other; B1 and B2 both pop R2 and R1 and go to R (the return). -/
def scenario_b_cfg (r1 r2 : Nat) (es : List Nat) : gcfg :=
  { gbbs :=
      [ mk_gbb
          (scenario_a_insns example_target 8 [] ++ scenario_a_pushes example_target 8 [r1, r2]
            ++ [mk_ginsn ginsn_type.GINSN_TYPE_JUMP_COND src_none src_none dst_none])
          es,
        mk_gbb
          (scenario_a_pops example_target 8 [r1, r2]
            ++ [mk_ginsn ginsn_type.GINSN_TYPE_JUMP src_none src_none dst_none])
          [3],
        mk_gbb (scenario_a_pops example_target 8 [r1, r2]) [3],
        mk_gbb [mk_ginsn ginsn_type.GINSN_TYPE_RETURN src_none src_none dst_none] [] ] }

/-- The opcodes of the operations on the instructions of each block of a
graph. -/
def gcfg_opcodes (cfg : gcfg) : List (List (List dw2cfi_opcode)) :=
  cfg.gbbs.map (fun b => b.insns.map (fun g => g.scfi_ops.map (fun o => o.dw2cfi_op)))

/-- The code returned by the orchestrator, when it returns. -/
def synth_ret (r : Except scfi_fault scfi_synth) : Option Int :=
  match r with
  | Except.ok f => some f.ret
  | Except.error _ => none

/-- The opcodes left by the orchestrator on the instructions of each block,
when it returns. -/
def synth_opcodes (r : Except scfi_fault scfi_synth) : Option (List (List (List dw2cfi_opcode))) :=
  match r with
  | Except.ok f => some (gcfg_opcodes f.cfg)
  | Except.error _ => none

/-- The number of operations with the opcode OP on each instruction of each
block of a graph. -/
def gcfg_op_counts (op : dw2cfi_opcode) (cfg : gcfg) : List (List Nat) :=
  cfg.gbbs.map (fun b => b.insns.map (ginsn_count_op op))

/-- The number of operations with the opcode OP left by the orchestrator on
each instruction of each block, when it returns. -/
def synth_op_counts (op : dw2cfi_opcode) (r : Except scfi_fault scfi_synth) :
    Option (List (List Nat)) :=
  match r with
  | Except.ok f => some (gcfg_op_counts op f.cfg)
  | Except.error _ => none

/-- The invariant of the loop `while (i > 0)` of the backward pass, between the
graph CFG0 at its start and the graph CFG and array RB before the turn at the
index I: the blocks keep their snapshots and have instructions, the blocks up
to I are untouched and nothing waits at their indexes, every waiting entry is
its own block, which carries the `DW_CFA_restore_state` on its first
instruction, and the operations inserted so far are counted. -/
def backward_inv (cfg0 cfg : gcfg) (rb : List (Option Nat)) (i : Nat) : Prop :=
  cfg.gbbs.length = cfg0.gbbs.length
  ∧ rb.length = cfg0.gbbs.length
  ∧ (∀ (u : Nat) (b0 : gbb), cfg0.gbbs[u]? = some b0 →
      ∃ b : gbb, cfg.gbbs[u]? = some b ∧ b.entry_state = b0.entry_state
        ∧ b.exit_state = b0.exit_state ∧ b.insns ≠ [] ∧ (u ≤ i → b = b0))
  ∧ (∀ j : Nat, j ≤ i → j < rb.length → rb[j]? = some none)
  ∧ (∀ (j b : Nat), rb[j]? = some (some b) →
      b = j ∧ ∃ b0 : gbb, cfg0.gbbs[j]? = some b0
        ∧ cfg.gbbs[j]? = some (bb_restore_state_first b0))
  ∧ ∃ nrem nres : Nat,
      gcfg_count_op dw2cfi_opcode.DW_CFA_remember_state cfg
        = gcfg_count_op dw2cfi_opcode.DW_CFA_remember_state cfg0 + nrem
      ∧ gcfg_count_op dw2cfi_opcode.DW_CFA_restore_state cfg
        = gcfg_count_op dw2cfi_opcode.DW_CFA_restore_state cfg0 + nres
      ∧ nres = nrem + restore_bbs_pending rb


/-- A graph in the manner of scenario B behind an entry block: block 0 (the
function begin) goes to block 1 (the pushes of the registers 3 and 12, a
conditional branch), which goes to the blocks 2 and 3; both pop the two
registers and go to block 4 (the return). -/
def example_cfg_reconverge : gcfg :=
  { gbbs :=
      [ mk_gbb [ginsn_func_begin] [1],
        mk_gbb
          (scenario_a_pushes example_target 8 [3, 12]
            ++ [mk_ginsn ginsn_type.GINSN_TYPE_JUMP_COND src_none src_none dst_none])
          [2, 3],
        mk_gbb
          (scenario_a_pops example_target 8 [3, 12]
            ++ [mk_ginsn ginsn_type.GINSN_TYPE_JUMP src_none src_none dst_none])
          [4],
        mk_gbb (scenario_a_pops example_target 8 [3, 12]) [4],
        mk_gbb [mk_ginsn ginsn_type.GINSN_TYPE_RETURN src_none src_none dst_none] [] ] }

/-- The graph left by the forward pass on the sample target from the block 0
and the initial state (the graph itself when the pass does not return). -/
def forward_flowed (cfg : gcfg) : gcfg :=
  match forward_flow_scfi_state example_target (cfg.gbbs.length + 1) cfg 0 init_state with
  | Except.ok f => f.cfg
  | Except.error _ => cfg

/-- The code returned by the backward pass, when it returns. -/
def backward_ret (r : Except scfi_fault scfi_backward) : Option Int :=
  match r with
  | Except.ok f => some f.ret
  | Except.error _ => none

/-- The number of operations with the opcode OP left by the backward pass on
each instruction of each block, when it returns. -/
def backward_op_counts (op : dw2cfi_opcode) (r : Except scfi_fault scfi_backward) :
    Option (List (List Nat)) :=
  match r with
  | Except.ok f => some (gcfg_op_counts op f.cfg)
  | Except.error _ => none


/-- Whether the block at index I of the program order is a reconvergence point
for the backward pass: I is at least 1 and the entry snapshot of the block
differs, under `cmp_scfi_state`, from the exit snapshot of the block at index
I - 1 (both snapshots being recorded). -/
def restore_state_candidate (t : scfi_target) (cfg : gcfg) (i : Nat) : Bool :=
  decide (1 ≤ i) &&
    (match cfg.gbbs[i - 1]? with
     | none => false
     | some prev =>
       match cfg.gbbs[i]? with
       | none => false
       | some cur =>
         match prev.exit_state with
         | none => false
         | some ex =>
           match cur.entry_state with
           | none => false
           | some en => decide (cmp_scfi_state t ex en ≠ 0))

/-- The numbers of operations per instruction of a block after one more
operation on the first instruction. -/
def counts_bump_first : List Nat → List Nat
  | [] => []
  | c :: l => (c + 1) :: l

/-- The frame of the loop `while (i > 0)` of the backward pass, between the
graph CFG0 at its start and the graph CFG and array RB before the turn at the
index I: the blocks up to I are untouched and nothing waits at their
indexes. -/
def backward_frame (cfg0 cfg : gcfg) (rb : List (Option Nat)) (i : Nat) : Prop :=
  cfg.gbbs.length = cfg0.gbbs.length
  ∧ rb.length = cfg0.gbbs.length
  ∧ (∀ u : Nat, u ≤ i → cfg.gbbs[u]? = cfg0.gbbs[u]?)
  ∧ (∀ j : Nat, j ≤ i → j < rb.length → rb[j]? = some none)

/-- The outcome of the turn of the backward pass at the index I, in terms of
the block CUR0 at that index when the pass starts: the `DW_CFA_restore_state`
and the memorised block at a reconvergence point, the loop over the edges
otherwise. -/
def backward_flow_turn (t : scfi_target) (cfg0 cfg : gcfg) (rb : List (Option Nat))
    (i : Nat) (cur0 : gbb) : gcfg × List (Option Nat) :=
  if restore_state_candidate t cfg0 i = true then
    (gcfg_set_bb cfg i (bb_restore_state_first cur0), rb.set i (some i))
  else
    (gcfg_set_bb cfg i (backward_flow_edges cur0.out_gedges cur0 rb).1,
     (backward_flow_edges cur0.out_gedges cur0 rb).2)


/-- A chain of two early returns: block 0 (the function begin) goes to block 1
(the push of register 3 and a conditional branch), which goes to blocks 2 and
3; block 2 pops the register and returns; block 3 (a conditional branch) goes
to blocks 4 and 5, which both pop the register and return. -/
def example_cfg_chain : gcfg :=
  { gbbs :=
      [ mk_gbb [ginsn_func_begin] [1],
        mk_gbb
          (scenario_a_pushes example_target 8 [3]
            ++ [mk_ginsn ginsn_type.GINSN_TYPE_JUMP_COND src_none src_none dst_none])
          [2, 3],
        mk_gbb
          (scenario_a_pops example_target 8 [3]
            ++ [mk_ginsn ginsn_type.GINSN_TYPE_RETURN src_none src_none dst_none])
          [],
        mk_gbb [mk_ginsn ginsn_type.GINSN_TYPE_JUMP_COND src_none src_none dst_none] [4, 5],
        mk_gbb
          (scenario_a_pops example_target 8 [3]
            ++ [mk_ginsn ginsn_type.GINSN_TYPE_RETURN src_none src_none dst_none])
          [],
        mk_gbb
          (scenario_a_pops example_target 8 [3]
            ++ [mk_ginsn ginsn_type.GINSN_TYPE_RETURN src_none src_none dst_none])
          [] ] }

/-- The array `restore_bbs` at the end of the backward pass, when it
returns. -/
def backward_restore_bbs (r : Except scfi_fault scfi_backward) : Option (List (Option Nat)) :=
  match r with
  | Except.ok f => some f.restore_bbs
  | Except.error _ => none

/-- The destinations of the edges of each block of a graph. -/
def gcfg_dsts (cfg : gcfg) : List (List Nat) :=
  cfg.gbbs.map gbb_dsts


/-- The `DW_CFA_def_cfa_register` operation that carries the CFA location
LOC. -/
def scfi_op_def_cfa_register (t : scfi_target) (loc : cfi_regloc) : scfi_op :=
  { reg := REG_CFA t, loc := loc, dw2cfi_op := dw2cfi_opcode.DW_CFA_def_cfa_register }

/-- The fault that ends the executor, when it does not return. -/
def exec_fault (r : Except scfi_fault scfi_exec) : Option scfi_fault :=
  match r with
  | Except.ok _ => none
  | Except.error f => some f


/-- The code returned by the instruction loop, when it returns. -/
def bb_ret (r : Except scfi_fault scfi_bb_exec) : Option Int :=
  match r with
  | Except.ok f => some f.ret
  | Except.error _ => none

/-- The stack size after the instruction loop, when it returns. -/
def bb_stack_size (r : Except scfi_fault scfi_bb_exec) : Option Int :=
  match r with
  | Except.ok f => some f.state.stack_size
  | Except.error _ => none

/-- The traceable flag after the instruction loop, when it returns. -/
def bb_traceable (r : Except scfi_fault scfi_bb_exec) : Option Bool :=
  match r with
  | Except.ok f => some f.state.traceable_p
  | Except.error _ => none

/-- The states reachable from the initial state through `gen_scfi_ops`: the
initial state, and the state left by any call of `gen_scfi_ops` that returns
on a reachable state, whatever the code returned. -/
inductive scfi_reachable (t : scfi_target) : scfi_state → Prop where
  | init : scfi_reachable t init_state
  | step (g : ginsn) (s : scfi_state) (r : scfi_exec) :
      scfi_reachable t s → gen_scfi_ops t g s = Except.ok r → scfi_reachable t r.state

/-- The consistency of a table of register locations: an entry other than that
of REG_CFA which is on the stack has base REG_CFA, one which is in a register
has itself as base and offset 0; and the entry of REG_CFA has the state
`CFI_UNDEFINED` when REG_CFA is not a tracked register. -/
def regs_consistent (t : scfi_target) (regs : Nat → cfi_regloc) : Prop :=
  (∀ i : Nat, i ≠ REG_CFA t →
    ((regs i).state = cfi_reglocstate.CFI_ON_STACK → (regs i).base = REG_CFA t)
    ∧ ((regs i).state = cfi_reglocstate.CFI_IN_REG → (regs i).base = i ∧ (regs i).offset = 0))
  ∧ (t.ginsn_track_reg_p (REG_CFA t) = false →
      (regs (REG_CFA t)).state = cfi_reglocstate.CFI_UNDEFINED)

/-- The relation between the CFA and the stack size while the CFA is based on
SP and the stack is traceable: the CFA offset is the stack size. -/
def cfa_tracks_stack (t : scfi_target) (s : scfi_state) : Prop :=
  (s.regs (REG_CFA t)).base = t.REG_SP → s.traceable_p = true →
    (s.regs (REG_CFA t)).offset = s.stack_size

/-- The first N turns of the loop `while (i > 0)` of `backward_flow_scfi_state`,
from the index of the last block down: the graph and the array `restore_bbs`
before the turn at the index `length - 1 - N`. -/
def backward_flow_turns (t : scfi_target) (cfg : gcfg) :
    Nat → Except scfi_fault (gcfg × List (Option Nat))
  | 0 => Except.ok (cfg, List.replicate cfg.gbbs.length none)
  | n + 1 =>
    match backward_flow_turns t cfg n with
    | Except.error f => Except.error f
    | Except.ok r => backward_flow_step t (cfg.gbbs.length - 1 - n) r.1 r.2

/-- Every entry that waits in `restore_bbs` is the block of its own index, and
that block is the block of the graph CFG0 at the start of the pass with the
`DW_CFA_restore_state` on its first instruction. -/
def backward_pending (cfg0 cfg : gcfg) (rb : List (Option Nat)) : Prop :=
  ∀ (j b : Nat), rb[j]? = some (some b) →
    b = j ∧ ∃ b0 : gbb, cfg0.gbbs[j]? = some b0
      ∧ cfg.gbbs[j]? = some (bb_restore_state_first b0)

/-! ## Theorems -/

/-! ### The symbolic executor: guards and function begin -/

/-- The first guard never changes the register table, the scratch table or
the stack size. -/
theorem verify_heuristic_traceable_stack_manipulation_frame (t : scfi_target) (g : ginsn)
    (s s1 : scfi_state) (c : Int)
    (h : verify_heuristic_traceable_stack_manipulation t g s = Except.ok (c, s1)) :
    s1.regs = s.regs ∧ s1.scratch = s.scratch ∧ s1.stack_size = s.stack_size := by
  unfold verify_heuristic_traceable_stack_manipulation at h
  split_ifs at h <;> simp only [Except.ok.injEq, Prod.mk.injEq] at h <;>
    (obtain ⟨-, rfl⟩ := h; exact ⟨rfl, rfl, rfl⟩)

/-- C5: a non-marker instruction with destination register SP that is an ADD
or SUB whose second source is not an immediate, or an AND, executed while the
CFA base is SP, makes gen_scfi_ops return failure (code 1); the instruction
gets no operation and the state is left as it was. -/
theorem C5_sp_based_cfa_rejects_untraceable_sp_update (t : scfi_target) (g : ginsn)
    (s : scfi_state)
    (hm : GINSN_F_FUNC_BEGIN_P g = false)
    (hdst : ginsn_get_dst_reg g.dst = t.REG_SP)
    (hshape : ((g.type = ginsn_type.GINSN_TYPE_ADD ∨ g.type = ginsn_type.GINSN_TYPE_SUB)
                ∧ ginsn_get_src_type g.src2 ≠ ginsn_src_type.GINSN_SRC_IMM)
              ∨ g.type = ginsn_type.GINSN_TYPE_AND)
    (hcfa : (s.regs (REG_CFA t)).base = t.REG_SP) :
    gen_scfi_ops t g s = Except.ok { ret := 1, ginsn := g, state := s } := by
  have h1 : verify_heuristic_traceable_stack_manipulation t g s = Except.ok (1, s) := by
    unfold verify_heuristic_traceable_stack_manipulation
    rw [if_pos ⟨hdst, hshape⟩, if_pos hcfa]
  unfold gen_scfi_ops
  simp [hm, h1]

/-- Witness of C5: on the sample target, right after the function begin (CFA
based on SP), `SUB SP, reg 0, SP` is rejected with code 1 and no operation. -/
theorem C5_witness :
    exec_ret (gen_scfi_ops example_target
        (mk_ginsn ginsn_type.GINSN_TYPE_SUB (src_reg 7) (src_reg 0) (dst_reg 7))
        (state_after example_target [ginsn_func_begin] init_state)) = some 1
    ∧ exec_ops (gen_scfi_ops example_target
        (mk_ginsn ginsn_type.GINSN_TYPE_SUB (src_reg 7) (src_reg 0) (dst_reg 7))
        (state_after example_target [ginsn_func_begin] init_state)) = some [] := by
  rw [C5_sp_based_cfa_rejects_untraceable_sp_update example_target
        (mk_ginsn ginsn_type.GINSN_TYPE_SUB (src_reg 7) (src_reg 0) (dst_reg 7))
        (state_after example_target [ginsn_func_begin] init_state)
        (by decide) (by decide) (by decide) (by decide)]
  exact ⟨rfl, rfl⟩

/-- An instruction whose type is not `GINSN_TYPE_SYMBOL` is not the function-begin
marker. -/
theorem func_begin_of_type_ne (g : ginsn) (h : g.type ≠ ginsn_type.GINSN_TYPE_SYMBOL) :
    GINSN_F_FUNC_BEGIN_P g = false := by
  simp [GINSN_F_FUNC_BEGIN_P, h]

/-- The part of C6 that the code does: while the stack is not traceable, a MOV
of a tracked register to the indirect address disp(SP) is rejected with
code 1, without any operation and without any change of the state. -/
theorem save_by_indirect_mov_rejected_when_untraceable (t : scfi_target) (g : ginsn)
    (s : scfi_state)
    (hty : g.type = ginsn_type.GINSN_TYPE_MOV)
    (hd : ginsn_get_dst_type g.dst = ginsn_dst_type.GINSN_DST_INDIRECT)
    (hdr : ginsn_get_dst_reg g.dst = t.REG_SP)
    (htrack : t.ginsn_track_reg_p (ginsn_get_src_reg g.src1) = true)
    (htr : s.traceable_p = false) :
    gen_scfi_ops t g s = Except.ok { ret := 1, ginsn := g, state := s } := by
  have hm : GINSN_F_FUNC_BEGIN_P g = false := by
    apply func_begin_of_type_ne; simp [hty]
  have h1 : verify_heuristic_traceable_stack_manipulation t g s = Except.ok (1, s) := by
    unfold verify_heuristic_traceable_stack_manipulation ginsn_scfi_save_reg_p
    simp [hty, hd, hdr, htrack, htr]
  unfold gen_scfi_ops
  simp [hm, h1]

/-- C6 (defect of the code): in the untraceable sample state, the store-to-stack
of the tracked register 12 is a register save (`ginsn_scfi_save_reg_p`), yet
gen_scfi_ops accepts it (code 0) and records the register at the stale offset
-24; the indirect MOV of the same register to 0(SP) is rejected (code 1). -/
theorem C6_store_to_stack_accepted_when_untraceable :
    example_untraceable_state.traceable_p = false
    ∧ example_target.ginsn_track_reg_p 12 = true
    ∧ ginsn_scfi_save_reg_p example_target
        (mk_ginsn ginsn_type.GINSN_TYPE_STS (src_reg 12) src_none dst_stack)
        example_untraceable_state = true
    ∧ exec_ret (gen_scfi_ops example_target
        (mk_ginsn ginsn_type.GINSN_TYPE_STS (src_reg 12) src_none dst_stack)
        example_untraceable_state) = some 0
    ∧ exec_ops (gen_scfi_ops example_target
        (mk_ginsn ginsn_type.GINSN_TYPE_STS (src_reg 12) src_none dst_stack)
        example_untraceable_state)
      = some [{ reg := 12,
                loc := { base := 17, offset := -24, state := cfi_reglocstate.CFI_ON_STACK },
                dw2cfi_op := dw2cfi_opcode.DW_CFA_offset }]
    ∧ exec_ret (gen_scfi_ops example_target
        (mk_ginsn ginsn_type.GINSN_TYPE_MOV (src_reg 12) src_none (dst_indirect 7 0))
        example_untraceable_state) = some 1 := by
  decide

/-- C7 (defect of the code): in the untraceable sample state, neither the MOV
from 0(SP) into the tracked register 3 nor the load-from-stack into register 3
is rejected: gen_scfi_ops returns 0 and appends a DW_CFA_restore operation; the
MOV is not even recognised by `ginsn_scfi_reg_restore_p`, which tests the kind
of the destination where the source is indirect. -/
theorem C7_restores_accepted_when_untraceable :
    example_untraceable_state.traceable_p = false
    ∧ example_target.ginsn_track_reg_p 3 = true
    ∧ ginsn_scfi_reg_restore_p example_target
        (mk_ginsn ginsn_type.GINSN_TYPE_MOV (src_indirect 7 0) src_none (dst_reg 3))
        example_untraceable_state = false
    ∧ exec_ret (gen_scfi_ops example_target
        (mk_ginsn ginsn_type.GINSN_TYPE_MOV (src_indirect 7 0) src_none (dst_reg 3))
        example_untraceable_state) = some 0
    ∧ exec_ops (gen_scfi_ops example_target
        (mk_ginsn ginsn_type.GINSN_TYPE_MOV (src_indirect 7 0) src_none (dst_reg 3))
        example_untraceable_state)
      = some [{ reg := 3,
                loc := { base := 4294967295, offset := 0,
                         state := cfi_reglocstate.CFI_UNDEFINED },
                dw2cfi_op := dw2cfi_opcode.DW_CFA_restore }]
    ∧ ginsn_scfi_reg_restore_p example_target
        (mk_ginsn ginsn_type.GINSN_TYPE_LDS src_none src_none (dst_reg 3))
        example_untraceable_state = true
    ∧ exec_ret (gen_scfi_ops example_target
        (mk_ginsn ginsn_type.GINSN_TYPE_LDS src_none src_none (dst_reg 3))
        example_untraceable_state) = some 0
    ∧ exec_ops (gen_scfi_ops example_target
        (mk_ginsn ginsn_type.GINSN_TYPE_LDS src_none src_none (dst_reg 3))
        example_untraceable_state)
      = some [{ reg := 3,
                loc := { base := 4294967295, offset := 0,
                         state := cfi_reglocstate.CFI_UNDEFINED },
                dw2cfi_op := dw2cfi_opcode.DW_CFA_restore }] := by
  decide

/-- Counterexample to C8 as stated: in the untraceable sample state (stack size
24), `SUB SP, 16, SP` is not rejected: gen_scfi_ops returns 0 and the stack size
becomes 40. -/
theorem C8_counterexample :
    example_untraceable_state.traceable_p = false
    ∧ example_untraceable_state.stack_size = 24
    ∧ exec_ret (gen_scfi_ops example_target
        (mk_ginsn ginsn_type.GINSN_TYPE_SUB (src_reg 7) (src_imm 16) (dst_reg 7))
        example_untraceable_state) = some 0
    ∧ exec_stack_size (gen_scfi_ops example_target
        (mk_ginsn ginsn_type.GINSN_TYPE_SUB (src_reg 7) (src_imm 16) (dst_reg 7))
        example_untraceable_state) = some 40 := by
  decide

/-- C8 as amended: in a state with traceable = false, a SUB or ADD with source
SP, register destination SP and an immediate second source is accepted by
gen_scfi_ops (code 0) and the stack size is adjusted by the immediate, added
for SUB and subtracted for ADD in 32-bit arithmetic; traceable stays false. -/
theorem C8_sp_adjust_by_immediate_accepted_when_untraceable (t : scfi_target) (g : ginsn)
    (s : scfi_state)
    (hty : g.type = ginsn_type.GINSN_TYPE_SUB ∨ g.type = ginsn_type.GINSN_TYPE_ADD)
    (hs1 : ginsn_get_src_reg g.src1 = t.REG_SP)
    (hd : ginsn_get_dst_type g.dst = ginsn_dst_type.GINSN_DST_REG)
    (hdr : ginsn_get_dst_reg g.dst = t.REG_SP)
    (himm : ginsn_get_src_type g.src2 = ginsn_src_type.GINSN_SRC_IMM)
    (htr : s.traceable_p = false) :
    ∃ r, gen_scfi_ops t g s = Except.ok r
      ∧ r.ret = 0
      ∧ (g.type = ginsn_type.GINSN_TYPE_SUB →
          r.state.stack_size = add32 s.stack_size (ginsn_get_src_imm g.src2))
      ∧ (g.type = ginsn_type.GINSN_TYPE_ADD →
          r.state.stack_size = sub32 s.stack_size (ginsn_get_src_imm g.src2))
      ∧ r.state.traceable_p = false := by
  have hm : GINSN_F_FUNC_BEGIN_P g = false := by
    apply func_begin_of_type_ne; rcases hty with h | h <;> simp [h]
  have h1 : verify_heuristic_traceable_stack_manipulation t g s = Except.ok (0, s) := by
    unfold verify_heuristic_traceable_stack_manipulation ginsn_scfi_save_reg_p
      ginsn_scfi_reg_restore_p
    rcases hty with h | h <;> simp [h, himm]
  have h2 : verify_heuristic_traceable_reg_bp t g s = 0 := by
    unfold verify_heuristic_traceable_reg_bp
    split_ifs <;> simp_all
  have hdt : g.dst.type = ginsn_dst_type.GINSN_DST_REG := hd
  unfold gen_scfi_ops
  simp only [hm, h1, h2]
  rcases hty with h | h
  · simp [gen_scfi_ops_switch, hdt, h, gen_scfi_ops_sub, hs1, hdr]
    split_ifs <;> simp [scfi_op_add_cfa_offset_dec, htr]
  · simp [gen_scfi_ops_switch, hdt, h, gen_scfi_ops_add, hs1, hdr]
    split_ifs <;> simp [scfi_op_add_cfa_offset_inc, htr]

/-- Witness of C8 as amended: `ADD SP, 16, SP` in the untraceable sample state. -/
theorem C8_witness :
    ∃ r, gen_scfi_ops example_target
          (mk_ginsn ginsn_type.GINSN_TYPE_ADD (src_reg 7) (src_imm 16) (dst_reg 7))
          example_untraceable_state = Except.ok r
      ∧ r.ret = 0
      ∧ (ginsn_type.GINSN_TYPE_ADD = ginsn_type.GINSN_TYPE_SUB →
          r.state.stack_size = add32 example_untraceable_state.stack_size 16)
      ∧ (ginsn_type.GINSN_TYPE_ADD = ginsn_type.GINSN_TYPE_ADD →
          r.state.stack_size = sub32 example_untraceable_state.stack_size 16)
      ∧ r.state.traceable_p = false :=
  C8_sp_adjust_by_immediate_accepted_when_untraceable example_target
    (mk_ginsn ginsn_type.GINSN_TYPE_ADD (src_reg 7) (src_imm 16) (dst_reg 7))
    example_untraceable_state (by decide) (by decide) (by decide) (by decide) (by decide)
    (by decide)

/-- C9: for a non-marker instruction that passes the first guard (leaving the
state s1): when the CFA base is FP and the destination register is FP, the
second guard accepts it (returns 0, so that gen_scfi_ops goes on to the state
transition) exactly when it is an ADD or SUB of FP by an immediate, a
load-from-stack (the load that restores FP, `GINSN_TYPE_LDS`), or a MOV to an
indirect destination (a store with FP as base), and otherwise returns 1
and gen_scfi_ops returns 1 without any operation; when the CFA base is not FP
or the destination register is not FP, the second guard returns 0. -/
theorem C9_reg_fp_scratch_guard (t : scfi_target) (g : ginsn) (s s1 : scfi_state)
    (hm : GINSN_F_FUNC_BEGIN_P g = false)
    (hg1 : verify_heuristic_traceable_stack_manipulation t g s = Except.ok (0, s1)) :
    ((s.regs (REG_CFA t)).base = t.REG_FP → ginsn_get_dst_reg g.dst = t.REG_FP →
      (verify_heuristic_traceable_reg_bp t g s1 = 0 ↔
        (((g.type = ginsn_type.GINSN_TYPE_ADD ∨ g.type = ginsn_type.GINSN_TYPE_SUB)
            ∧ ginsn_get_src_reg g.src1 = t.REG_FP
            ∧ ginsn_get_src_type g.src2 = ginsn_src_type.GINSN_SRC_IMM)
          ∨ g.type = ginsn_type.GINSN_TYPE_LDS
          ∨ (g.type = ginsn_type.GINSN_TYPE_MOV
              ∧ ginsn_get_dst_type g.dst = ginsn_dst_type.GINSN_DST_INDIRECT)))
      ∧ (verify_heuristic_traceable_reg_bp t g s1 = 0 →
          gen_scfi_ops t g s = gen_scfi_ops_switch t g s1)
      ∧ (verify_heuristic_traceable_reg_bp t g s1 ≠ 0 →
          verify_heuristic_traceable_reg_bp t g s1 = 1
          ∧ gen_scfi_ops t g s = Except.ok { ret := 1, ginsn := g, state := s1 }))
    ∧ (¬ ((s.regs (REG_CFA t)).base = t.REG_FP ∧ ginsn_get_dst_reg g.dst = t.REG_FP) →
        verify_heuristic_traceable_reg_bp t g s1 = 0
        ∧ gen_scfi_ops t g s = gen_scfi_ops_switch t g s1) := by
  have hregs : s1.regs = s.regs :=
    (verify_heuristic_traceable_stack_manipulation_frame t g s s1 0 hg1).1
  have hacc : verify_heuristic_traceable_reg_bp t g s1 = 0 →
      gen_scfi_ops t g s = gen_scfi_ops_switch t g s1 := by
    intro h0
    unfold gen_scfi_ops
    simp [hm, hg1, h0]
  refine ⟨fun hcfa hdst => ⟨?_, hacc, ?_⟩, fun hn => ?_⟩
  · unfold verify_heuristic_traceable_reg_bp
    rw [hregs, if_pos ⟨hcfa, hdst⟩]
    split_ifs with h1 h2 h3
    · simp [h1]
    · simp [h2]
    · simp [h3]
    · simp only [one_ne_zero, false_iff]
      rintro (h | h | h)
      · exact h1 h
      · exact h2 h
      · exact h3 h
  · intro hne
    have h1 : verify_heuristic_traceable_reg_bp t g s1 = 1 := by
      unfold verify_heuristic_traceable_reg_bp at hne ⊢
      split_ifs at hne ⊢ <;> simp_all
    refine ⟨h1, ?_⟩
    unfold gen_scfi_ops
    simp [hm, hg1, h1]
  · have h0 : verify_heuristic_traceable_reg_bp t g s1 = 0 := by
      unfold verify_heuristic_traceable_reg_bp
      rw [hregs, if_neg hn]
    exact ⟨h0, hacc h0⟩

/-- Witness of C9: in the untraceable sample state (CFA based on FP) the
register-to-register MOV of register 0 into FP passes the first guard and is
rejected by the second with code 1 and no operation. -/
theorem C9_witness :
    exec_ret (gen_scfi_ops example_target
        (mk_ginsn ginsn_type.GINSN_TYPE_MOV (src_reg 0) src_none (dst_reg 6))
        example_untraceable_state) = some 1
    ∧ exec_ops (gen_scfi_ops example_target
        (mk_ginsn ginsn_type.GINSN_TYPE_MOV (src_reg 0) src_none (dst_reg 6))
        example_untraceable_state) = some [] := by
  have h := ((C9_reg_fp_scratch_guard example_target
        (mk_ginsn ginsn_type.GINSN_TYPE_MOV (src_reg 0) src_none (dst_reg 6))
        example_untraceable_state example_untraceable_state (by decide) rfl).1
      (by decide) (by decide)).2.2 (by decide)
  rw [h.2]
  exact ⟨rfl, rfl⟩

/-- C10: on the function-begin marker, for every state and a target whose
initial CFA offset is positive, gen_scfi_ops returns 0 whatever the operands
and the state are (no guard applies); the CFA entry gets base SP and the
initial offset, the stack size grows by the initial offset (32-bit sum, the
exact sum when it is in range), the other register entries, the scratch table
and traceable are unchanged, and the instruction gets exactly one more
operation, a DW_CFA_def_cfa carrying (SP, initial offset). -/
theorem C10_function_begin (t : scfi_target) (g : ginsn) (s : scfi_state)
    (hm : GINSN_F_FUNC_BEGIN_P g = true)
    (hpos : 0 < t.SCFI_INIT_CFA_OFFSET) :
    ∃ r, gen_scfi_ops t g s = Except.ok r
      ∧ r.ret = 0
      ∧ (r.state.regs (REG_CFA t)).base = t.REG_SP
      ∧ (r.state.regs (REG_CFA t)).offset = t.SCFI_INIT_CFA_OFFSET
      ∧ r.state.stack_size = add32 s.stack_size t.SCFI_INIT_CFA_OFFSET
      ∧ (-2147483648 ≤ s.stack_size + t.SCFI_INIT_CFA_OFFSET
          ∧ s.stack_size + t.SCFI_INIT_CFA_OFFSET < 2147483648 →
          r.state.stack_size = s.stack_size + t.SCFI_INIT_CFA_OFFSET)
      ∧ (∀ i, i ≠ REG_CFA t → r.state.regs i = s.regs i)
      ∧ r.state.scratch = s.scratch
      ∧ r.state.traceable_p = s.traceable_p
      ∧ r.ginsn = { g with
          scfi_ops := g.scfi_ops ++
            [{ reg := REG_CFA t,
               loc := { base := t.REG_SP, offset := t.SCFI_INIT_CFA_OFFSET,
                        state := (s.regs (REG_CFA t)).state },
               dw2cfi_op := dw2cfi_opcode.DW_CFA_def_cfa }],
          num_scfi_ops := g.num_scfi_ops + 1 } := by
  unfold gen_scfi_ops
  simp only [hm, scfi_op_add_def_cfa, hpos, not_true_eq_false, if_false, if_true]
  refine ⟨_, rfl, rfl, ?_, ?_, rfl, ?_, ?_, rfl, rfl, ?_⟩
  · simp [set_regloc]
  · simp [set_regloc]
  · rintro ⟨hlo, hhi⟩
    show add32 s.stack_size t.SCFI_INIT_CFA_OFFSET = _
    unfold add32 wrap_int32
    omega
  · intro i hi
    simp [set_regloc, hi]
  · simp [ginsn_append_scfi_op, init_scfi_op]

/-- Witness of C10: the function-begin marker on the sample target, from the
initial state. -/
theorem C10_witness :
    exec_ret (gen_scfi_ops example_target ginsn_func_begin init_state) = some 0
    ∧ exec_ops (gen_scfi_ops example_target ginsn_func_begin init_state)
      = some [{ reg := 17,
                loc := { base := 7, offset := 8, state := cfi_reglocstate.CFI_UNDEFINED },
                dw2cfi_op := dw2cfi_opcode.DW_CFA_def_cfa }]
    ∧ exec_stack_size (gen_scfi_ops example_target ginsn_func_begin init_state)
      = some 8 := by
  obtain ⟨r, hr, h0, -, -, hs, -, -, -, -, hg⟩ :=
    C10_function_begin example_target ginsn_func_begin init_state (by decide) (by decide)
  rw [hr]
  refine ⟨congrArg some h0, ?_, ?_⟩
  · show some r.ginsn.scfi_ops = _
    rw [hg]
    rfl
  · show some r.state.stack_size = _
    rw [hs]
    rfl

/-! ### The forward flow -/

/-- C1 (defect of the code): on the graph `example_cfg_shared_successor` the
forward pass from the root returns 1, although in the graph it leaves behind
every block is visited, the exit snapshot of the source of every edge agrees
with the entry snapshot of its destination, and the executor accepts every
instruction: when block 2 is reached again along the second edge of block 0,
the state compared with its entry snapshot is the one left by the recursion
into block 1 (the exit state of block 2), not the exit state of block 0. -/
theorem C1_forward_flow_fails_on_consistent_graph :
    flow_ret (forward_flow_scfi_state example_target 4 example_cfg_shared_successor 0
        init_state) = some 1
    ∧ (flow_cfg (forward_flow_scfi_state example_target 4 example_cfg_shared_successor 0
        init_state)).map (fun c => c.gbbs.map (fun u => u.visited)) = some [true, true, true]
    ∧ (flow_cfg (forward_flow_scfi_state example_target 4 example_cfg_shared_successor 0
        init_state)).map (gcfg_edges_consistent example_target) = some true
    ∧ (flow_cfg (forward_flow_scfi_state example_target 4 example_cfg_shared_successor 0
        init_state)).map (gcfg_insns_accepted example_target example_cfg_shared_successor)
      = some true := by
  decide

/-! #### Marking an edge -/

/-- Marking an edge keeps the destinations. -/
theorem gedges_mark_visited_dsts (es : List gedge) (k c : Nat) :
    (gedges_mark_visited es k c).map (fun e => e.dst_bb) = es.map (fun e => e.dst_bb) := by
  induction es generalizing k with
  | nil => rfl
  | cons e es ih =>
    cases k with
    | zero => rfl
    | succ k => simp [gedges_mark_visited, ih]

/-- The edges after a marking, position by position. -/
theorem gedges_mark_visited_getElem? (es : List gedge) (k c j : Nat) :
    (gedges_mark_visited es k c)[j]? =
      if j = k then
        es[k]?.map (fun e => { e with visited := true, recursions := e.recursions + c })
      else es[j]? := by
  induction es generalizing k j with
  | nil => simp [gedges_mark_visited]
  | cons e es ih =>
    cases k with
    | zero =>
      cases j with
      | zero => simp [gedges_mark_visited]
      | succ j => simp [gedges_mark_visited]
    | succ k =>
      cases j with
      | zero => simp [gedges_mark_visited]
      | succ j => simp [gedges_mark_visited, ih]

/-- An edge of a marked list is an edge of the list or the marked edge. -/
theorem gedges_mark_visited_mem (es : List gedge) (k c : Nat) (e' : gedge)
    (h : e' ∈ gedges_mark_visited es k c) :
    e' ∈ es ∨ ∃ e, es[k]? = some e
      ∧ e' = { e with visited := true, recursions := e.recursions + c } := by
  obtain ⟨j, hj⟩ := List.mem_iff_getElem?.1 h
  rw [gedges_mark_visited_getElem?] at hj
  split_ifs at hj with hjk
  · right
    cases hk : es[k]? with
    | none => simp [hk] at hj
    | some e =>
      refine ⟨e, rfl, ?_⟩
      simp [hk] at hj
      exact hj.symm
  · left
    exact List.mem_iff_getElem?.2 ⟨j, hj⟩


/-- The blocks after a marking, index by index. -/
theorem gcfg_mark_edge_visited_getElem? (cfg : gcfg) (p k c u : Nat) :
    (gcfg_mark_edge_visited cfg p k c).gbbs[u]? =
      if u = p then
        cfg.gbbs[p]?.map
          (fun g => { g with out_gedges := gedges_mark_visited g.out_gedges k c })
      else cfg.gbbs[u]? := by
  unfold gcfg_mark_edge_visited
  cases hp : cfg.gbbs[p]? with
  | none =>
    by_cases hu : u = p
    · subst hu; simp [hp]
    · simp [hu]
  | some g =>
    have hlt : p < cfg.gbbs.length := (List.getElem?_eq_some.1 hp).1
    by_cases hu : u = p
    · subst hu
      simp [gcfg_set_bb, List.getElem?_set, hlt]
    · have hne : p ≠ u := fun h => hu h.symm
      simp [gcfg_set_bb, List.getElem?_set, hne, hu]

/-- Marking an edge keeps the number of blocks. -/
theorem gcfg_mark_edge_visited_length (cfg : gcfg) (p k c : Nat) :
    (gcfg_mark_edge_visited cfg p k c).gbbs.length = cfg.gbbs.length := by
  unfold gcfg_mark_edge_visited
  cases cfg.gbbs[p]? <;> simp [gcfg_set_bb]

/-! #### The frame relations -/

theorem gbb_frame_refl (g : gbb) : gbb_frame g g := ⟨rfl, fun _ => rfl, fun _ => rfl⟩

theorem gbb_frame_trans {g1 g2 g3 : gbb} (h12 : gbb_frame g1 g2) (h23 : gbb_frame g2 g3) :
    gbb_frame g1 g3 := by
  obtain ⟨d12, v12, u12⟩ := h12
  obtain ⟨d23, v23, u23⟩ := h23
  refine ⟨d23.trans d12, fun hv => ?_, fun hu => ?_⟩
  · have h2 : g2 = g1 := v12 hv
    subst h2
    exact v23 hv
  · have h2 : g3 = g2 := u23 hu
    subst h2
    exact u12 hu

theorem gbb_frame_edges_refl (g : gbb) : gbb_frame_edges g g :=
  ⟨rfl, rfl, rfl, rfl, rfl, rfl⟩

theorem gbb_frame_edges_trans {g1 g2 g3 : gbb} (h12 : gbb_frame_edges g1 g2)
    (h23 : gbb_frame_edges g2 g3) : gbb_frame_edges g1 g3 := by
  obtain ⟨a1, a2, a3, a4, a5, a6⟩ := h12
  obtain ⟨b1, b2, b3, b4, b5, b6⟩ := h23
  exact ⟨b1.trans a1, b2.trans a2, b3.trans a3, b4.trans a4, b5.trans a5, b6.trans a6⟩

/-- A visited block related by `gbb_frame` is related by `gbb_frame_edges`. -/
theorem gbb_frame_edges_of_frame {g g' : gbb} (h : gbb_frame g g') (hv : g.visited = true) :
    gbb_frame_edges g g' := by
  have : g' = g := h.2.1 hv
  subst this
  exact gbb_frame_edges_refl _

theorem gcfg_frame_refl (cfg : gcfg) : gcfg_frame cfg cfg :=
  ⟨rfl, fun _ g hg => ⟨g, hg, gbb_frame_refl g⟩⟩

theorem gcfg_frame_trans {c1 c2 c3 : gcfg} (h12 : gcfg_frame c1 c2) (h23 : gcfg_frame c2 c3) :
    gcfg_frame c1 c3 := by
  refine ⟨h23.1.trans h12.1, fun u g hg => ?_⟩
  obtain ⟨g2, hg2, f12⟩ := h12.2 u g hg
  obtain ⟨g3, hg3, f23⟩ := h23.2 u g2 hg2
  exact ⟨g3, hg3, gbb_frame_trans f12 f23⟩

theorem gcfg_frame_except_refl (p : Nat) (cfg : gcfg) : gcfg_frame_except p cfg cfg :=
  ⟨rfl, fun _ g hg => ⟨g, hg, fun _ => gbb_frame_edges_refl g, fun _ => gbb_frame_refl g⟩⟩

theorem gcfg_frame_except_trans {p : Nat} {c1 c2 c3 : gcfg}
    (h12 : gcfg_frame_except p c1 c2) (h23 : gcfg_frame_except p c2 c3) :
    gcfg_frame_except p c1 c3 := by
  refine ⟨h23.1.trans h12.1, fun u g hg => ?_⟩
  obtain ⟨g2, hg2, e12, f12⟩ := h12.2 u g hg
  obtain ⟨g3, hg3, e23, f23⟩ := h23.2 u g2 hg2
  exact ⟨g3, hg3, fun hu => gbb_frame_edges_trans (e12 hu) (e23 hu),
    fun hu => gbb_frame_trans (f12 hu) (f23 hu)⟩

/-- A call of the forward flow made while the block at index P is visited is
a step of the walk of the edges of that block. -/
theorem gcfg_frame_except_of_frame {p : Nat} {cfg cfg' : gcfg} (h : gcfg_frame cfg cfg')
    (hp : ∀ pb : gbb, cfg.gbbs[p]? = some pb → pb.visited = true) :
    gcfg_frame_except p cfg cfg' := by
  refine ⟨h.1, fun u g hg => ?_⟩
  obtain ⟨g', hg', f⟩ := h.2 u g hg
  refine ⟨g', hg', fun hu => ?_, fun _ => f⟩
  subst hu
  exact gbb_frame_edges_of_frame f (hp g hg)

/-- Marking an edge of the block at index P is a step of the walk of its
edges. -/
theorem gcfg_mark_edge_visited_frame_except (cfg : gcfg) (p k c : Nat) :
    gcfg_frame_except p cfg (gcfg_mark_edge_visited cfg p k c) := by
  refine ⟨gcfg_mark_edge_visited_length cfg p k c, fun u g hg => ?_⟩
  rw [gcfg_mark_edge_visited_getElem?]
  by_cases hu : u = p
  · subst hu
    refine ⟨{ g with out_gedges := gedges_mark_visited g.out_gedges k c }, by simp [hg],
      fun _ => ?_, fun h => absurd rfl h⟩
    exact ⟨gedges_mark_visited_dsts _ _ _, rfl, rfl, rfl, rfl, rfl⟩
  · exact ⟨g, by simp [hu, hg], fun h => absurd h hu, fun _ => gbb_frame_refl g⟩

/-- Both frame relations keep the visited blocks visited, with their entry
snapshot. -/
theorem gcfg_entries_kept_of_frame_except {p : Nat} {cfg cfg' : gcfg}
    (h : gcfg_frame_except p cfg cfg') : gcfg_entries_kept cfg cfg' := by
  intro v d hd hv
  obtain ⟨d', hd', he, hf⟩ := h.2 v d hd
  refine ⟨d', hd', ?_⟩
  by_cases hvp : v = p
  · obtain ⟨-, h2, h3, -⟩ := he hvp
    exact ⟨h2.trans hv, h3⟩
  · have : d' = d := (hf hvp).2.1 hv
    subst this
    exact ⟨hv, rfl⟩

theorem gcfg_entries_kept_of_frame {cfg cfg' : gcfg} (h : gcfg_frame cfg cfg') :
    gcfg_entries_kept cfg cfg' := by
  intro v d hd hv
  obtain ⟨d', hd', hf⟩ := h.2 v d hd
  have : d' = d := hf.2.1 hv
  subst this
  exact ⟨d', hd', hv, rfl⟩

theorem gcfg_entries_kept_trans {c1 c2 c3 : gcfg} (h12 : gcfg_entries_kept c1 c2)
    (h23 : gcfg_entries_kept c2 c3) : gcfg_entries_kept c1 c3 := by
  intro v d hd hv
  obtain ⟨d2, hd2, hv2, he2⟩ := h12 v d hd hv
  obtain ⟨d3, hd3, hv3, he3⟩ := h23 v d2 hd2 hv2
  exact ⟨d3, hd3, hv3, he3.trans he2⟩

/-- A consistent edge stays consistent when the entries are kept. -/
theorem gedge_consistent_mono {t : scfi_target} {cfg cfg' : gcfg} {ex : scfi_state}
    {e : gedge} (hk : gcfg_entries_kept cfg cfg') (h : gedge_consistent t cfg ex e) :
    gedge_consistent t cfg' ex e := by
  obtain ⟨d, en, hd, hv, hen, hc⟩ := h
  obtain ⟨d', hd', hv', hen'⟩ := hk _ d hd hv
  exact ⟨d', en, hd', hv', hen'.trans hen, hc⟩

/-- A visited block stays done when the entries are kept. -/
theorem gbb_done_mono {t : scfi_target} {cfg cfg' : gcfg} {g0 g : gbb}
    (hk : gcfg_entries_kept cfg cfg') (h : gbb_done t cfg g0 g) : gbb_done t cfg' g0 g := by
  obtain ⟨en, ex, h1, h2, h3, h4, h5, h6⟩ := h
  exact ⟨en, ex, h1, h2, h3, h4, h5, fun e he => gedge_consistent_mono hk (h6 e he)⟩

/-! #### Frame and ghost counters of the forward flow -/

/-- Marking an edge keeps the bounds on the ghost counters, when the counter is
not incremented or the edge was not visited. -/
theorem gcfg_mark_edge_visited_counters (cfg : gcfg) (p k c : Nat)
    (hc : gcfg_counters_ok cfg)
    (h : c = 0 ∨ (c = 1 ∧ ∀ (pb : gbb) (e : gedge), cfg.gbbs[p]? = some pb →
          pb.out_gedges[k]? = some e → e.visited = false)) :
    gcfg_counters_ok (gcfg_mark_edge_visited cfg p k c) := by
  intro g' hg'
  obtain ⟨u, hu⟩ := List.mem_iff_getElem?.1 hg'
  rw [gcfg_mark_edge_visited_getElem?] at hu
  split_ifs at hu with hup
  · cases hp : cfg.gbbs[p]? with
    | none => simp [hp] at hu
    | some g =>
      simp only [hp, Option.map_some', Option.some.injEq] at hu
      subst hu
      have hg : gbb_counters_ok g := hc g (List.mem_iff_getElem?.2 ⟨p, hp⟩)
      refine ⟨hg.1, fun e' he' => ?_⟩
      rcases gedges_mark_visited_mem _ _ _ _ he' with hmem | ⟨e, hek, rfl⟩
      · exact hg.2 e' hmem
      · have he : e.recursions ≤ (if e.visited = true then 1 else 0) :=
          hg.2 e (List.mem_iff_getElem?.2 ⟨k, hek⟩)
        rcases h with h0 | ⟨h1, hun⟩
        · subst h0
          simp only [Nat.add_zero, if_true]
          split_ifs at he <;> omega
        · subst h1
          have hv : e.visited = false := hun g e hp hek
          simp only [hv, Bool.false_eq_true, if_false] at he
          simp only [if_true]
          omega
  · exact hc g' (List.mem_iff_getElem?.2 ⟨u, hu⟩)

/-- One step of the walk of the edges of the block at index PREV keeps the frame
and the bounds on the ghost counters, when the recursive call does. -/
theorem forward_flow_edge_frame (t : scfi_target)
    (recur : gcfg → Nat → scfi_state → Except scfi_fault scfi_flow)
    (prev k : Nat) (cfg : gcfg) (s : scfi_state) (r : scfi_flow)
    (hrec : ∀ c b st r, recur c b st = Except.ok r →
      gcfg_frame c r.cfg ∧ (gcfg_counters_ok c → gcfg_counters_ok r.cfg))
    (hp : ∀ pb : gbb, cfg.gbbs[prev]? = some pb → pb.visited = true)
    (h : forward_flow_edge t recur prev k cfg s = Except.ok r) :
    gcfg_frame_except prev cfg r.cfg ∧ (gcfg_counters_ok cfg → gcfg_counters_ok r.cfg) := by
  unfold forward_flow_edge at h
  split at h
  · exact absurd h (by simp)
  · rename_i pb hpb
    split at h
    · exact absurd h (by simp)
    · rename_i e he
      split at h
      · exact absurd h (by simp)
      · split at h
        · exact absurd h (by simp)
        · split_ifs at h with hc hev
          · -- the comparison failed
            simp only [Except.ok.injEq] at h
            subst h
            exact ⟨gcfg_mark_edge_visited_frame_except cfg prev k 0,
              fun hco => gcfg_mark_edge_visited_counters cfg prev k 0 hco (Or.inl rfl)⟩
          · -- the edge is not visited: recursion
            split at h
            · exact absurd h (by simp)
            · split at h
              · exact absurd h (by simp)
              · rename_i r1 hr1
                obtain ⟨hf1, hc1⟩ := hrec _ _ _ _ hr1
                have hm := gcfg_mark_edge_visited_frame_except cfg prev k 1
                have hpm : ∀ pb : gbb, (gcfg_mark_edge_visited cfg prev k 1).gbbs[prev]? = some pb →
                    pb.visited = true := by
                  intro pb2 hpb2
                  obtain ⟨g', hg', he', -⟩ := hm.2 prev pb hpb
                  rw [hg'] at hpb2
                  cases hpb2
                  rw [(he' rfl).2.1]
                  exact hp pb hpb
                have hfe1 : gcfg_frame_except prev cfg r1.cfg :=
                  gcfg_frame_except_trans hm (gcfg_frame_except_of_frame hf1 hpm)
                have hcm : gcfg_counters_ok cfg → gcfg_counters_ok (gcfg_mark_edge_visited cfg prev k 1) :=
                  fun hco => gcfg_mark_edge_visited_counters cfg prev k 1 hco
                    (Or.inr ⟨rfl, fun pb2 e2 h1 h2 => by
                      rw [hpb] at h1; cases h1; rw [he] at h2; cases h2; exact hev⟩)
                split_ifs at h with hret
                · simp only [Except.ok.injEq] at h
                  subst h
                  exact ⟨gcfg_frame_except_trans hfe1
                      (gcfg_mark_edge_visited_frame_except r1.cfg prev k 0),
                    fun hco => gcfg_mark_edge_visited_counters r1.cfg prev k 0
                      (hc1 (hcm hco)) (Or.inl rfl)⟩
                · simp only [Except.ok.injEq] at h
                  subst h
                  exact ⟨hfe1, fun hco => hc1 (hcm hco)⟩
          · simp only [Except.ok.injEq] at h
            subst h
            exact ⟨gcfg_frame_except_refl _ _, fun hco => hco⟩


/-- The walk of the edges of the block at index PREV keeps the frame and the
bounds on the ghost counters, when the recursive call does. -/
theorem forward_flow_edges_frame (t : scfi_target)
    (recur : gcfg → Nat → scfi_state → Except scfi_fault scfi_flow) (prev : Nat)
    (hrec : ∀ c b st r, recur c b st = Except.ok r →
      gcfg_frame c r.cfg ∧ (gcfg_counters_ok c → gcfg_counters_ok r.cfg))
    (n k : Nat) (cfg : gcfg) (s : scfi_state) (r : scfi_flow)
    (hp : ∀ pb : gbb, cfg.gbbs[prev]? = some pb → pb.visited = true)
    (h : forward_flow_edges t recur prev n k cfg s = Except.ok r) :
    gcfg_frame_except prev cfg r.cfg ∧ (gcfg_counters_ok cfg → gcfg_counters_ok r.cfg) := by
  induction n generalizing k cfg s with
  | zero =>
    simp only [forward_flow_edges, Except.ok.injEq] at h
    subst h
    exact ⟨gcfg_frame_except_refl _ _, fun hco => hco⟩
  | succ n ih =>
    simp only [forward_flow_edges] at h
    split at h
    · exact absurd h (by simp)
    · rename_i r1 hr1
      obtain ⟨hf1, hc1⟩ := forward_flow_edge_frame t recur prev k cfg s r1 hrec hp hr1
      split_ifs at h with hret
      · simp only [Except.ok.injEq] at h
        subst h
        exact ⟨hf1, hc1⟩
      · have hp1 : ∀ pb : gbb, r1.cfg.gbbs[prev]? = some pb → pb.visited = true := by
          intro pb1 hpb1
          cases hpb : cfg.gbbs[prev]? with
          | none =>
            have hlen := hf1.1
            have h1 : cfg.gbbs.length ≤ prev := List.getElem?_eq_none_iff.1 hpb
            have h2 : prev < r1.cfg.gbbs.length := (List.getElem?_eq_some.1 hpb1).1
            omega
          | some pb =>
            obtain ⟨g', hg', he', -⟩ := hf1.2 prev pb hpb
            rw [hg'] at hpb1
            cases hpb1
            rw [(he' rfl).2.1]
            exact hp pb hpb
        obtain ⟨hf2, hc2⟩ := ih (k + 1) r1.cfg r1.state hp1 h
        exact ⟨gcfg_frame_except_trans hf1 hf2, fun hco => hc2 (hc1 hco)⟩

/-- The blocks after the replacement of one, index by index. -/
theorem gcfg_set_bb_getElem? (cfg : gcfg) (b : Nat) (nb : gbb) (u : Nat) :
    (gcfg_set_bb cfg b nb).gbbs[u]? =
      if u = b then cfg.gbbs[b]?.map (fun _ => nb) else cfg.gbbs[u]? := by
  by_cases hu : u = b
  · subst hu
    cases hb : cfg.gbbs[u]? with
    | none =>
      have : cfg.gbbs.length ≤ u := List.getElem?_eq_none_iff.1 hb
      simp [gcfg_set_bb, List.getElem?_set, hb, Nat.not_lt.2 this]
    | some g =>
      have : u < cfg.gbbs.length := (List.getElem?_eq_some.1 hb).1
      simp [gcfg_set_bb, List.getElem?_set, this]
  · have hne : b ≠ u := fun h => hu h.symm
    simp [gcfg_set_bb, List.getElem?_set, hne, hu]

/-- The first visit of a block, followed by the walk of its edges, is a call
of the forward flow as far as the frame goes. -/
theorem gcfg_frame_of_set_bb (cfg cfg' : gcfg) (b : Nat) (bb nb : gbb)
    (hb : cfg.gbbs[b]? = some bb) (hun : bb.visited = false) (hv : nb.visited = true)
    (hd : gbb_dsts nb = gbb_dsts bb)
    (h : gcfg_frame_except b (gcfg_set_bb cfg b nb) cfg') : gcfg_frame cfg cfg' := by
  refine ⟨by rw [h.1]; simp [gcfg_set_bb], fun u g hg => ?_⟩
  by_cases hu : u = b
  · subst hu
    rw [hb] at hg
    cases hg
    have h2 : (gcfg_set_bb cfg u nb).gbbs[u]? = some nb := by
      rw [gcfg_set_bb_getElem?]; simp [hb]
    obtain ⟨g', hg', he', -⟩ := h.2 u nb h2
    obtain ⟨e1, e2, -⟩ := he' rfl
    refine ⟨g', hg', e1.trans hd, fun hvis => ?_, fun hunv => ?_⟩
    · rw [hun] at hvis; exact absurd hvis (by simp)
    · rw [e2, hv] at hunv; exact absurd hunv (by simp)
  · have h2 : (gcfg_set_bb cfg b nb).gbbs[u]? = some g := by
      rw [gcfg_set_bb_getElem?]; simp [hu, hg]
    obtain ⟨g', hg', -, hf'⟩ := h.2 u g h2
    exact ⟨g', hg', hf' hu⟩

/-- The first visit of a block keeps the bounds on the ghost counters. -/
theorem gcfg_set_bb_counters (cfg : gcfg) (b : Nat) (bb nb : gbb)
    (hb : cfg.gbbs[b]? = some bb) (hun : bb.visited = false) (hv : nb.visited = true)
    (he : nb.out_gedges = bb.out_gedges) (hx : nb.executions = bb.executions + 1)
    (hc : gcfg_counters_ok cfg) : gcfg_counters_ok (gcfg_set_bb cfg b nb) := by
  intro g hg
  rcases List.mem_or_eq_of_mem_set hg with hmem | rfl
  · exact hc g hmem
  · have hbb : gbb_counters_ok bb := hc bb (List.mem_iff_getElem?.2 ⟨b, hb⟩)
    refine ⟨?_, fun e hmem => ?_⟩
    · have := hbb.1
      simp only [hun, Bool.false_eq_true, if_false] at this
      simp only [hv, if_true, hx]
      omega
    · rw [he] at hmem
      exact hbb.2 e hmem

/-- Every call of the forward flow that returns keeps the frame (visited blocks
and blocks still not visited are untouched, edges keep their destinations) and
the bounds on the ghost counters. -/
theorem forward_flow_scfi_state_frame (t : scfi_target) (fuel : Nat) (cfg : gcfg) (b : Nat)
    (s : scfi_state) (r : scfi_flow)
    (h : forward_flow_scfi_state t fuel cfg b s = Except.ok r) :
    gcfg_frame cfg r.cfg ∧ (gcfg_counters_ok cfg → gcfg_counters_ok r.cfg) := by
  induction fuel generalizing cfg b s r with
  | zero => simp [forward_flow_scfi_state] at h
  | succ fuel ih =>
    simp only [forward_flow_scfi_state] at h
    split at h
    · exact absurd h (by simp)
    · rename_i bb hbb
      split_ifs at h with hvis
      · split at h
        · exact absurd h (by simp)
        · simp only [Except.ok.injEq] at h
          subst h
          exact ⟨gcfg_frame_refl _, fun hco => hco⟩
      · have hun : bb.visited = false := by simpa using hvis
        split at h
        · exact absurd h (by simp)
        · rename_i rb hrb
          split_ifs at h with hret
          · simp only [Except.ok.injEq] at h
            subst h
            exact ⟨gcfg_frame_of_set_bb cfg _ b bb _ hbb hun (by rfl) (by rfl)
                (gcfg_frame_except_refl _ _),
              fun hco => gcfg_set_bb_counters cfg b bb _ hbb hun rfl rfl rfl hco⟩
          · have hcfg2 : ∀ pb : gbb,
                (gcfg_set_bb cfg b
                  { bb with visited := true, entry_state := some s, insns := rb.insns,
                            exit_state := some rb.state,
                            executions := bb.executions + 1 }).gbbs[b]? = some pb →
                pb.visited = true := by
              intro pb hpb
              rw [gcfg_set_bb_getElem?] at hpb
              simp [hbb] at hpb
              subst hpb
              rfl
            obtain ⟨hf, hc⟩ := forward_flow_edges_frame t _ b
              (fun c b st r hr => ih c b st r hr) _ _ _ _ r hcfg2 h
            exact ⟨gcfg_frame_of_set_bb cfg _ b bb _ hbb hun (by rfl) (by rfl) hf,
              fun hco => hc (gcfg_set_bb_counters cfg b bb _ hbb hun rfl rfl rfl hco)⟩


/-! #### The executor never reports a lack of fuel -/

theorem scfi_state_save_reg_fuel (t : scfi_target) (s : scfi_state) (reg base : Nat)
    (offset : Int) :
    scfi_state_save_reg t s reg base offset ≠ Except.error scfi_fault.out_of_fuel := by
  unfold scfi_state_save_reg
  split_ifs
  all_goals simp

theorem scfi_state_restore_reg_fuel (t : scfi_target) (s : scfi_state) (reg : Nat) :
    scfi_state_restore_reg t s reg ≠ Except.error scfi_fault.out_of_fuel := by
  unfold scfi_state_restore_reg
  split_ifs <;> simp

theorem verify_heuristic_symmetrical_restore_reg_fuel (t : scfi_target) (s : scfi_state)
    (reg : Nat) (x : Int) :
    verify_heuristic_symmetrical_restore_reg t s reg x
      ≠ Except.error scfi_fault.out_of_fuel := by
  unfold verify_heuristic_symmetrical_restore_reg
  split_ifs <;> simp

theorem gen_scfi_ops_restore_fuel (t : scfi_target) (g : ginsn) (s : scfi_state)
    (reg : Nat) (x : Int) :
    gen_scfi_ops_restore t g s reg x ≠ Except.error scfi_fault.out_of_fuel := by
  unfold gen_scfi_ops_restore
  split
  · rename_i f hf
    intro h
    simp only [Except.error.injEq] at h
    subst h
    exact verify_heuristic_symmetrical_restore_reg_fuel t s reg x hf
  · split_ifs
    · split
      · rename_i f hf
        intro h
        simp only [Except.error.injEq] at h
        subst h
        exact scfi_state_restore_reg_fuel t s reg hf
      · simp
    · simp

theorem gen_scfi_ops_save_fuel (t : scfi_target) (g : ginsn) (s : scfi_state)
    (reg : Nat) (x : Int) :
    gen_scfi_ops_save t g s reg x ≠ Except.error scfi_fault.out_of_fuel := by
  unfold gen_scfi_ops_save
  split
  · rename_i f hf
    intro h
    simp only [Except.error.injEq] at h
    subst h
    exact scfi_state_save_reg_fuel t s reg _ x hf
  · split
    · rename_i f hf
      intro h
      simp only [Except.error.injEq] at h
      subst h
      unfold scfi_op_add_cfi_offset at hf
      split_ifs at hf
      simp at hf
    · simp

theorem gen_scfi_ops_switch_fuel (t : scfi_target) (g : ginsn) (s : scfi_state) :
    gen_scfi_ops_switch t g s ≠ Except.error scfi_fault.out_of_fuel := by
  unfold gen_scfi_ops_switch
  split
  · split
    · unfold gen_scfi_ops_mov
      split_ifs <;> first | exact gen_scfi_ops_restore_fuel _ _ _ _ _ | simp
    · unfold gen_scfi_ops_sub
      dsimp only
      split_ifs <;> simp
    · unfold gen_scfi_ops_add
      dsimp only
      split_ifs <;> simp
    · unfold gen_scfi_ops_lds
      split_ifs <;> first | exact gen_scfi_ops_restore_fuel _ _ _ _ _ | simp
    · simp
  · unfold gen_scfi_ops_dst_stack
    split_ifs <;> first | exact gen_scfi_ops_save_fuel _ _ _ _ _ | simp
  · unfold gen_scfi_ops_dst_indirect
    split_ifs <;> first | exact gen_scfi_ops_save_fuel _ _ _ _ _ | simp
  · simp

theorem gen_scfi_ops_fuel (t : scfi_target) (g : ginsn) (s : scfi_state) :
    gen_scfi_ops t g s ≠ Except.error scfi_fault.out_of_fuel := by
  unfold gen_scfi_ops
  split_ifs
  · split
    · rename_i f hf
      intro h
      simp only [Except.error.injEq] at h
      subst h
      unfold scfi_op_add_def_cfa at hf
      split_ifs at hf
      simp at hf
    · simp
  · split
    · rename_i f hf
      intro h
      simp only [Except.error.injEq] at h
      subst h
      unfold verify_heuristic_traceable_stack_manipulation at hf
      split_ifs at hf
      simp at hf
    · split_ifs
      · simp
      · simp
      · exact gen_scfi_ops_switch_fuel _ _ _

theorem bb_gen_scfi_ops_fuel (t : scfi_target) (insns : List ginsn) (s : scfi_state) :
    bb_gen_scfi_ops t insns s ≠ Except.error scfi_fault.out_of_fuel := by
  induction insns generalizing s with
  | nil => simp [bb_gen_scfi_ops]
  | cons g rest ih =>
    simp only [bb_gen_scfi_ops]
    split
    · rename_i f hf
      intro h
      simp only [Except.error.injEq] at h
      subst h
      exact gen_scfi_ops_fuel t g s hf
    · split_ifs
      · simp
      · split
        · rename_i f hf
          intro h
          simp only [Except.error.injEq] at h
          subst h
          exact ih _ hf
        · simp


/-! #### Termination of the forward flow -/

theorem gbbs_unvisited_le_length (l : List gbb) : gbbs_unvisited l ≤ l.length := by
  induction l with
  | nil => simp [gbbs_unvisited]
  | cons g gs ih =>
    simp only [gbbs_unvisited, List.length_cons]
    split_ifs <;> omega

/-- The number of blocks not visited does not grow when visited blocks stay
visited. -/
theorem gbbs_unvisited_mono (l l' : List gbb) (hlen : l'.length = l.length)
    (h : ∀ (u : Nat) (g g' : gbb), l[u]? = some g → l'[u]? = some g' →
      g.visited = true → g'.visited = true) :
    gbbs_unvisited l' ≤ gbbs_unvisited l := by
  induction l generalizing l' with
  | nil =>
    cases l' with
    | nil => exact Nat.le_refl _
    | cons a as => simp at hlen
  | cons g gs ih =>
    cases l' with
    | nil => simp at hlen
    | cons g' gs' =>
      have h0 := h 0 g g' (by simp) (by simp)
      have hrest := ih gs' (by simpa using hlen)
        (fun u a a' ha ha' => h (u + 1) a a' (by simpa using ha) (by simpa using ha'))
      simp only [gbbs_unvisited]
      by_cases hv : g.visited = true
      · rw [if_pos hv, if_pos (h0 hv)]
        exact Nat.add_le_add_left hrest 0
      · rw [if_neg hv]
        by_cases hv' : g'.visited = true
        · rw [if_pos hv']
          exact Nat.add_le_add (Nat.zero_le 1) hrest
        · rw [if_neg hv']
          exact Nat.add_le_add_left hrest 1

/-- The first visit of a block makes the number of blocks not visited drop. -/
theorem gbbs_unvisited_set (l : List gbb) (b : Nat) (bb nb : gbb) (hb : l[b]? = some bb)
    (hun : bb.visited = false) (hv : nb.visited = true) :
    gbbs_unvisited (l.set b nb) + 1 = gbbs_unvisited l := by
  induction l generalizing b with
  | nil => simp at hb
  | cons g gs ih =>
    cases b with
    | zero =>
      simp only [List.getElem?_cons_zero, Option.some.injEq] at hb
      subst hb
      simp [gbbs_unvisited, hun, hv]
      omega
    | succ b =>
      have := ih b (by simpa using hb)
      simp only [List.set_cons_succ, gbbs_unvisited]
      omega

theorem gbbs_unvisited_frame_except {p : Nat} {cfg cfg' : gcfg}
    (h : gcfg_frame_except p cfg cfg') :
    gbbs_unvisited cfg'.gbbs ≤ gbbs_unvisited cfg.gbbs := by
  apply gbbs_unvisited_mono _ _ h.1
  intro u g g' hg hg' hv
  obtain ⟨d', hd', hv', -⟩ := gcfg_entries_kept_of_frame_except h u g hg hv
  rw [hd'] at hg'
  cases hg'
  exact hv'

/-- One step of the walk of the edges does not run out of fuel, when the
recursive call does not as long as fewer blocks than the fuel are not
visited. -/
theorem forward_flow_edge_fuel (t : scfi_target)
    (recur : gcfg → Nat → scfi_state → Except scfi_fault scfi_flow) (fuel : Nat)
    (hrec : ∀ c b st, gbbs_unvisited c.gbbs < fuel →
      recur c b st ≠ Except.error scfi_fault.out_of_fuel)
    (prev k : Nat) (cfg : gcfg) (s : scfi_state)
    (hlt : gbbs_unvisited cfg.gbbs < fuel) :
    forward_flow_edge t recur prev k cfg s ≠ Except.error scfi_fault.out_of_fuel := by
  intro h
  unfold forward_flow_edge at h
  cases hpb : cfg.gbbs[prev]? with
  | none => simp [hpb] at h
  | some pb =>
    cases he : pb.out_gedges[k]? with
    | none => simp [hpb, he] at h
    | some e =>
      cases hd : cfg.gbbs[e.dst_bb]? with
      | none => simp [hpb, he, hd] at h
      | some d =>
        simp only [hpb, he, hd] at h
        split at h
        · exact absurd h (by simp)
        · split_ifs at h with hc hev
          cases hex : pb.exit_state with
          | none => simp [hex] at h
          | some ex =>
            simp only [hex] at h
            cases hr : recur (gcfg_mark_edge_visited cfg prev k 1) e.dst_bb ex with
            | error f =>
              simp only [hr, Except.error.injEq] at h
              subst h
              have hm := gbbs_unvisited_frame_except
                (gcfg_mark_edge_visited_frame_except cfg prev k 1)
              exact hrec _ _ _ (Nat.lt_of_le_of_lt hm hlt) hr
            | ok r1 =>
              simp only [hr] at h
              split_ifs at h

/-- The walk of the edges does not run out of fuel, when the recursive call
does not as long as fewer blocks than the fuel are not visited. -/
theorem forward_flow_edges_fuel (t : scfi_target)
    (recur : gcfg → Nat → scfi_state → Except scfi_fault scfi_flow) (fuel : Nat)
    (hrec : ∀ c b st, gbbs_unvisited c.gbbs < fuel →
      recur c b st ≠ Except.error scfi_fault.out_of_fuel)
    (hfr : ∀ c b st r, recur c b st = Except.ok r →
      gcfg_frame c r.cfg ∧ (gcfg_counters_ok c → gcfg_counters_ok r.cfg))
    (prev n k : Nat) (cfg : gcfg) (s : scfi_state)
    (hp : ∀ pb : gbb, cfg.gbbs[prev]? = some pb → pb.visited = true)
    (hlt : gbbs_unvisited cfg.gbbs < fuel) :
    forward_flow_edges t recur prev n k cfg s ≠ Except.error scfi_fault.out_of_fuel := by
  induction n generalizing k cfg s with
  | zero =>
    intro h
    simp [forward_flow_edges] at h
  | succ n ih =>
    intro h
    simp only [forward_flow_edges] at h
    split at h
    · rename_i f hf
      simp only [Except.error.injEq] at h
      subst h
      exact forward_flow_edge_fuel t recur fuel hrec prev k cfg s hlt hf
    · rename_i r1 hr1
      split_ifs at h with hret
      obtain ⟨hf1, -⟩ := forward_flow_edge_frame t recur prev k cfg s r1 hfr hp hr1
      have hle := gbbs_unvisited_frame_except hf1
      have hp1 : ∀ pb : gbb, r1.cfg.gbbs[prev]? = some pb → pb.visited = true := by
        intro pb1 hpb1
        cases hpb : cfg.gbbs[prev]? with
        | none =>
          have hlen := hf1.1
          have h1 : cfg.gbbs.length ≤ prev := List.getElem?_eq_none_iff.1 hpb
          have h2 : prev < r1.cfg.gbbs.length := (List.getElem?_eq_some.1 hpb1).1
          omega
        | some pb =>
          obtain ⟨g', hg', he', -⟩ := hf1.2 prev pb hpb
          rw [hg'] at hpb1
          cases hpb1
          rw [(he' rfl).2.1]
          exact hp pb hpb
      exact ih (k + 1) r1.cfg r1.state hp1 (Nat.lt_of_le_of_lt hle hlt) h

/-- The forward flow does not run out of fuel when the fuel exceeds the number
of blocks that are not visited. -/
theorem forward_flow_scfi_state_fuel (t : scfi_target) (fuel : Nat) (cfg : gcfg) (b : Nat)
    (s : scfi_state) (hlt : gbbs_unvisited cfg.gbbs < fuel) :
    forward_flow_scfi_state t fuel cfg b s ≠ Except.error scfi_fault.out_of_fuel := by
  induction fuel generalizing cfg b s with
  | zero => omega
  | succ fuel ih =>
    intro h
    simp only [forward_flow_scfi_state] at h
    split at h
    · exact absurd h (by simp)
    · rename_i bb hbb
      split_ifs at h with hvis
      · split at h <;> exact absurd h (by simp)
      · have hun : bb.visited = false := by simpa using hvis
        split at h
        · rename_i f hf
          simp only [Except.error.injEq] at h
          subst h
          -- the executor never reports a lack of fuel
          exact bb_gen_scfi_ops_fuel t bb.insns s hf
        · rename_i rb hrb
          split_ifs at h with hret
          · have hset := gbbs_unvisited_set cfg.gbbs b bb
              { bb with visited := true, entry_state := some s, insns := rb.insns,
                        exit_state := some rb.state, executions := bb.executions + 1 }
              hbb hun rfl
            refine forward_flow_edges_fuel t _ fuel (fun c b st hc => ih c b st hc)
              (fun c b st r hr => forward_flow_scfi_state_frame t fuel c b st r hr)
              b _ 0 _ _ ?_ ?_ h
            · intro pb hpb
              rw [gcfg_set_bb_getElem?] at hpb
              simp only [hbb, if_true, Option.map_some', Option.some.injEq] at hpb
              subst hpb
              rfl
            · show gbbs_unvisited (cfg.gbbs.set b _) < fuel
              omega


/-! #### The result does not depend on the fuel -/

/-- One step of the walk of the edges is the same for two recursive calls that
agree wherever the first does not run out of fuel. -/
theorem forward_flow_edge_congr (t : scfi_target)
    (rec1 rec2 : gcfg → Nat → scfi_state → Except scfi_fault scfi_flow)
    (hrec : ∀ c b st, rec1 c b st ≠ Except.error scfi_fault.out_of_fuel →
      rec2 c b st = rec1 c b st)
    (prev k : Nat) (cfg : gcfg) (s : scfi_state)
    (h : forward_flow_edge t rec1 prev k cfg s ≠ Except.error scfi_fault.out_of_fuel) :
    forward_flow_edge t rec2 prev k cfg s = forward_flow_edge t rec1 prev k cfg s := by
  unfold forward_flow_edge at h ⊢
  cases hpb : cfg.gbbs[prev]? with
  | none => rfl
  | some pb =>
    simp only [hpb] at h ⊢
    cases he : pb.out_gedges[k]? with
    | none => rfl
    | some e =>
      simp only [he] at h ⊢
      cases hd : cfg.gbbs[e.dst_bb]? with
      | none => rfl
      | some d =>
        simp only [hd] at h ⊢
        cases hc : (if d.visited = true then
            d.entry_state.map (fun en => cmp_scfi_state t en s) else some 0) with
        | none => rfl
        | some c =>
          simp only [hc] at h ⊢
          by_cases hc0 : c ≠ 0
          · simp only [if_pos hc0]
          · simp only [if_neg hc0] at h ⊢
            by_cases hev : e.visited = false
            · simp only [if_pos hev] at h ⊢
              cases hex : pb.exit_state with
              | none => rfl
              | some ex =>
                simp only [hex] at h ⊢
                have hne : rec1 (gcfg_mark_edge_visited cfg prev k 1) e.dst_bb ex
                    ≠ Except.error scfi_fault.out_of_fuel := by
                  intro hr
                  rw [hr] at h
                  exact h rfl
                rw [hrec _ _ _ hne]
            · simp only [if_neg hev]

/-- The walk of the edges is the same for two recursive calls that agree
wherever the first does not run out of fuel. -/
theorem forward_flow_edges_congr (t : scfi_target)
    (rec1 rec2 : gcfg → Nat → scfi_state → Except scfi_fault scfi_flow)
    (hrec : ∀ c b st, rec1 c b st ≠ Except.error scfi_fault.out_of_fuel →
      rec2 c b st = rec1 c b st)
    (prev n k : Nat) (cfg : gcfg) (s : scfi_state)
    (h : forward_flow_edges t rec1 prev n k cfg s ≠ Except.error scfi_fault.out_of_fuel) :
    forward_flow_edges t rec2 prev n k cfg s = forward_flow_edges t rec1 prev n k cfg s := by
  induction n generalizing k cfg s with
  | zero => rfl
  | succ n ih =>
    simp only [forward_flow_edges] at h ⊢
    have hne : forward_flow_edge t rec1 prev k cfg s
        ≠ Except.error scfi_fault.out_of_fuel := by
      intro hr
      rw [hr] at h
      exact h rfl
    rw [forward_flow_edge_congr t rec1 rec2 hrec prev k cfg s hne]
    cases hstep : forward_flow_edge t rec1 prev k cfg s with
    | error f => rfl
    | ok r1 =>
      simp only [hstep] at h ⊢
      by_cases hret : r1.ret ≠ 0
      · simp only [if_pos hret]
      · simp only [if_neg hret] at h ⊢
        exact ih (k + 1) r1.cfg r1.state h

/-- More fuel does not change a result that was reached without running out
of fuel. -/
theorem forward_flow_scfi_state_fuel_succ (t : scfi_target) (fuel : Nat) (cfg : gcfg)
    (b : Nat) (s : scfi_state)
    (h : forward_flow_scfi_state t fuel cfg b s ≠ Except.error scfi_fault.out_of_fuel) :
    forward_flow_scfi_state t (fuel + 1) cfg b s = forward_flow_scfi_state t fuel cfg b s := by
  induction fuel generalizing cfg b s with
  | zero => exact absurd rfl h
  | succ fuel ih =>
    rw [forward_flow_scfi_state] at h
    rw [forward_flow_scfi_state, forward_flow_scfi_state]
    cases hbb : cfg.gbbs[b]? with
    | none => rfl
    | some bb =>
      simp only [hbb] at h ⊢
      by_cases hvis : bb.visited = true
      · simp only [if_pos hvis]
      · simp only [if_neg hvis] at h ⊢
        cases hrb : bb_gen_scfi_ops t bb.insns s with
        | error f => rfl
        | ok rb =>
          simp only [hrb] at h ⊢
          by_cases hret : rb.ret ≠ 0
          · simp only [if_pos hret]
          · simp only [if_neg hret] at h ⊢
            exact forward_flow_edges_congr t _ _ (fun c b st hne => ih c b st hne) _ _ _ _ _ h

/-- Any two amounts of fuel above the number of blocks give the same result. -/
theorem forward_flow_scfi_state_fuel_indep (t : scfi_target) (fuel1 fuel2 : Nat) (cfg : gcfg)
    (b : Nat) (s : scfi_state) (h1 : cfg.gbbs.length < fuel1) (h2 : cfg.gbbs.length < fuel2) :
    forward_flow_scfi_state t fuel1 cfg b s = forward_flow_scfi_state t fuel2 cfg b s := by
  have key : ∀ (f n : Nat), cfg.gbbs.length < f →
      forward_flow_scfi_state t (f + n) cfg b s = forward_flow_scfi_state t f cfg b s := by
    intro f n hf
    induction n with
    | zero => rfl
    | succ n ih =>
      have hne : forward_flow_scfi_state t (f + n) cfg b s
          ≠ Except.error scfi_fault.out_of_fuel :=
        forward_flow_scfi_state_fuel t (f + n) cfg b s
          (Nat.lt_of_le_of_lt (gbbs_unvisited_le_length _) (by omega))
      rw [← ih]
      exact forward_flow_scfi_state_fuel_succ t (f + n) cfg b s hne
  rcases Nat.le_total fuel1 fuel2 with hle | hle
  · obtain ⟨n, rfl⟩ := Nat.exists_eq_add_of_le hle
    exact (key fuel1 n h1).symm
  · obtain ⟨n, rfl⟩ := Nat.exists_eq_add_of_le hle
    exact key fuel2 n h2

/-- C3: for every graph whose ghost counters start at zero, whatever its edges
(cycles included) and whatever the root and the initial state, the forward
pass terminates: with any fuel above the number of blocks it does not run out
of fuel, and all such amounts of fuel give the same result; and when it
returns, successfully or not, the instruction loop has run at most once over
each block and the recursion has gone at most once along each edge. -/
theorem C3_forward_flow_terminates (t : scfi_target) (fuel : Nat) (cfg : gcfg) (root : Nat)
    (s : scfi_state) (hzero : gcfg_counters_zero cfg) (hfuel : cfg.gbbs.length < fuel) :
    forward_flow_scfi_state t fuel cfg root s ≠ Except.error scfi_fault.out_of_fuel
    ∧ (∀ fuel2, cfg.gbbs.length < fuel2 →
        forward_flow_scfi_state t fuel2 cfg root s = forward_flow_scfi_state t fuel cfg root s)
    ∧ ∀ r, forward_flow_scfi_state t fuel cfg root s = Except.ok r →
        ∀ g ∈ r.cfg.gbbs, g.executions ≤ 1 ∧ ∀ e ∈ g.out_gedges, e.recursions ≤ 1 := by
  refine ⟨forward_flow_scfi_state_fuel t fuel cfg root s
    (Nat.lt_of_le_of_lt (gbbs_unvisited_le_length _) hfuel),
    fun fuel2 h2 => forward_flow_scfi_state_fuel_indep t fuel2 fuel cfg root s h2 hfuel,
    fun r hr g hg => ?_⟩
  have hok : gcfg_counters_ok cfg := by
    intro g0 hg0
    obtain ⟨h1, h2⟩ := hzero g0 hg0
    refine ⟨by rw [h1]; exact Nat.zero_le _, fun e he => ?_⟩
    rw [h2 e he]
    exact Nat.zero_le _
  obtain ⟨hx, he⟩ := (forward_flow_scfi_state_frame t fuel cfg root s r hr).2 hok g hg
  refine ⟨?_, fun e hmem => ?_⟩
  · split_ifs at hx <;> omega
  · have := he e hmem
    split_ifs at this <;> omega

/-- Witness of C3: the cyclic sample graph, with fuel 4 for its 3 blocks. -/
theorem C3_witness :
    forward_flow_scfi_state example_target 4 example_cfg_cyclic 0 init_state
      ≠ Except.error scfi_fault.out_of_fuel
    ∧ (∀ fuel2, example_cfg_cyclic.gbbs.length < fuel2 →
        forward_flow_scfi_state example_target fuel2 example_cfg_cyclic 0 init_state
          = forward_flow_scfi_state example_target 4 example_cfg_cyclic 0 init_state)
    ∧ ∀ r, forward_flow_scfi_state example_target 4 example_cfg_cyclic 0 init_state
          = Except.ok r →
        ∀ g ∈ r.cfg.gbbs, g.executions ≤ 1 ∧ ∀ e ∈ g.out_gedges, e.recursions ≤ 1 :=
  C3_forward_flow_terminates example_target 4 example_cfg_cyclic 0 init_state
    (by unfold gcfg_counters_zero; decide) (by decide)


/-! #### What a successful forward flow leaves behind -/

/-- A state agrees with itself under `cmp_scfi_state`. -/
theorem cmp_scfi_state_self (t : scfi_target) (s : scfi_state) : cmp_scfi_state t s s = 0 := by
  simp [cmp_scfi_state, regs_differ, cfi_regloc_beq]

theorem gedges_mark_visited_length (es : List gedge) (k c : Nat) :
    (gedges_mark_visited es k c).length = es.length := by
  have := congrArg List.length (gedges_mark_visited_dsts es k c)
  simpa using this

/-- The edges of the blocks not visited stay unvisited across a call of the
forward flow. -/
theorem gcfg_unvisited_edges_of_frame {c c' : gcfg} (hf : gcfg_frame c c')
    (h : gcfg_unvisited_edges c) : gcfg_unvisited_edges c' := by
  intro g' hg' hv'
  obtain ⟨u, hu⟩ := List.mem_iff_getElem?.1 hg'
  have hlt : u < c.gbbs.length := by
    have := (List.getElem?_eq_some.1 hu).1
    rw [hf.1] at this
    exact this
  obtain ⟨g2, hg2, hfr⟩ := hf.2 u _ (List.getElem?_eq_getElem hlt)
  rw [hu] at hg2
  cases hg2
  have heq : g' = c.gbbs[u] := hfr.2.2 hv'
  rw [heq]
  rw [heq] at hv'
  exact h _ (List.getElem_mem hlt) hv'

/-- The edges of the blocks not visited stay unvisited when an edge of a
visited block is marked. -/
theorem gcfg_unvisited_edges_mark (cfg : gcfg) (p k c : Nat) (pb : gbb)
    (hpb : cfg.gbbs[p]? = some pb) (hv : pb.visited = true)
    (h : gcfg_unvisited_edges cfg) :
    gcfg_unvisited_edges (gcfg_mark_edge_visited cfg p k c) := by
  intro g' hg' hv'
  obtain ⟨u, hu⟩ := List.mem_iff_getElem?.1 hg'
  rw [gcfg_mark_edge_visited_getElem?] at hu
  split_ifs at hu with hup
  · simp only [hpb, Option.map_some', Option.some.injEq] at hu
    subst hu
    rw [hv] at hv'
    exact absurd hv' (by simp)
  · exact h g' (List.mem_iff_getElem?.2 ⟨u, hu⟩) hv'

/-- The edges of the blocks not visited stay unvisited when a block is
replaced by a visited one. -/
theorem gcfg_unvisited_edges_set_bb (cfg : gcfg) (b : Nat) (nb : gbb)
    (hv : nb.visited = true) (h : gcfg_unvisited_edges cfg) :
    gcfg_unvisited_edges (gcfg_set_bb cfg b nb) := by
  intro g' hg' hv'
  rcases List.mem_or_eq_of_mem_set hg' with hmem | rfl
  · exact h g' hmem hv'
  · rw [hv] at hv'
    exact absurd hv' (by simp)

/-- A successful step of the walk along an edge that was not visited is the
recursive call along that edge, made on the graph where the edge is marked,
with the exit snapshot of the source. -/
theorem forward_flow_edge_success (t : scfi_target)
    (recur : gcfg → Nat → scfi_state → Except scfi_fault scfi_flow)
    (prev k : Nat) (cfg : gcfg) (s : scfi_state) (r : scfi_flow) (pb : gbb) (e : gedge)
    (hpb : cfg.gbbs[prev]? = some pb) (he : pb.out_gedges[k]? = some e)
    (hev : e.visited = false)
    (h : forward_flow_edge t recur prev k cfg s = Except.ok r) (h0 : r.ret = 0) :
    ∃ ex, pb.exit_state = some ex
      ∧ recur (gcfg_mark_edge_visited cfg prev k 1) e.dst_bb ex = Except.ok r := by
  unfold forward_flow_edge at h
  simp only [hpb, he] at h
  cases hd : cfg.gbbs[e.dst_bb]? with
  | none => simp [hd] at h
  | some d =>
    simp only [hd] at h
    split at h
    · exact absurd h (by simp)
    · rw [if_pos hev] at h
      split_ifs at h with hc
      · simp only [Except.ok.injEq] at h
        subst h
        exact absurd h0 (by simp [forward_flow_fail])
      · cases hex : pb.exit_state with
        | none => simp [hex] at h
        | some ex =>
          simp only [hex] at h
          cases hr : recur (gcfg_mark_edge_visited cfg prev k 1) e.dst_bb ex with
          | error f => simp [hr] at h
          | ok r1 =>
            simp only [hr] at h
            split_ifs at h with hret
            · simp only [Except.ok.injEq] at h
              subst h
              exact absurd h0 (by simp [forward_flow_fail])
            · simp only [Except.ok.injEq] at h
              subst h
              exact ⟨ex, rfl, hr⟩


/-- The successful walk of the edges of the visited block at index PREV, from
position K on: when the edges before K are consistent and the edges from K on
are not visited, at the end every edge of the block is consistent and every
block visited meanwhile is done. -/
theorem forward_flow_edges_success (t : scfi_target)
    (recur : gcfg → Nat → scfi_state → Except scfi_fault scfi_flow) (prev : Nat)
    (hfr : ∀ c b st r, recur c b st = Except.ok r →
      gcfg_frame c r.cfg ∧ (gcfg_counters_ok c → gcfg_counters_ok r.cfg))
    (hpost : ∀ c b st r, gcfg_unvisited_edges c → recur c b st = Except.ok r → r.ret = 0 →
      forward_flow_post t c b st r)
    (n k : Nat) (cfg : gcfg) (s : scfi_state) (r : scfi_flow) (pb : gbb) (ex : scfi_state)
    (hun : gcfg_unvisited_edges cfg)
    (hpb : cfg.gbbs[prev]? = some pb) (hv : pb.visited = true)
    (hex : pb.exit_state = some ex)
    (hn : k + n = pb.out_gedges.length)
    (hlo : ∀ (j : Nat) (e : gedge), j < k → pb.out_gedges[j]? = some e →
      gedge_consistent t cfg ex e)
    (hhi : ∀ (j : Nat) (e : gedge), k ≤ j → pb.out_gedges[j]? = some e → e.visited = false)
    (h : forward_flow_edges t recur prev n k cfg s = Except.ok r) (h0 : r.ret = 0) :
    (∃ pb' : gbb, r.cfg.gbbs[prev]? = some pb'
      ∧ ∀ e ∈ pb'.out_gedges, gedge_consistent t r.cfg ex e)
    ∧ (∀ (u : Nat) (g0 g : gbb), cfg.gbbs[u]? = some g0 → g0.visited = false →
        r.cfg.gbbs[u]? = some g → g.visited = true → gbb_done t r.cfg g0 g) := by
  induction n generalizing k cfg s pb with
  | zero =>
    simp only [forward_flow_edges, Except.ok.injEq] at h
    subst h
    refine ⟨⟨pb, hpb, fun e he => ?_⟩, fun u g0 g hg0 hv0 hg hvg => ?_⟩
    · obtain ⟨j, hj⟩ := List.mem_iff_getElem?.1 he
      have hjlt : j < pb.out_gedges.length := (List.getElem?_eq_some.1 hj).1
      exact hlo j e (by omega) hj
    · rw [hg0] at hg
      cases hg
      rw [hv0] at hvg
      exact absurd hvg (by simp)
  | succ n ih =>
    simp only [forward_flow_edges] at h
    cases hstep : forward_flow_edge t recur prev k cfg s with
    | error f => simp [hstep] at h
    | ok r1 =>
      simp only [hstep] at h
      by_cases hret : r1.ret ≠ 0
      · rw [if_pos hret] at h
        simp only [Except.ok.injEq] at h
        subst h
        exact absurd h0 hret
      · rw [if_neg hret] at h
        have h10 : r1.ret = 0 := by simpa using hret
        -- the edge at position K
        have hklt : k < pb.out_gedges.length := by omega
        have he : pb.out_gedges[k]? = some pb.out_gedges[k] := List.getElem?_eq_getElem hklt
        have hev : (pb.out_gedges[k]).visited = false := hhi k _ (Nat.le_refl k) he
        obtain ⟨ex1, hex1, hr1⟩ :=
          forward_flow_edge_success t recur prev k cfg s r1 pb _ hpb he hev hstep h10
        rw [hex] at hex1
        cases hex1
        -- the graph where the edge is marked
        have hpbm : (gcfg_mark_edge_visited cfg prev k 1).gbbs[prev]? =
            some { pb with out_gedges := gedges_mark_visited pb.out_gedges k 1 } := by
          rw [gcfg_mark_edge_visited_getElem?]
          simp [hpb]
        have hunm := gcfg_unvisited_edges_mark cfg prev k 1 pb hpb hv hun
        obtain ⟨⟨d, en, hd, hdv, hden, hcmp, -⟩, hdone1⟩ := hpost _ _ _ _ hunm hr1 h10
        have hf1 : gcfg_frame (gcfg_mark_edge_visited cfg prev k 1) r1.cfg := (hfr _ _ _ _ hr1).1
        have hpb1 : r1.cfg.gbbs[prev]? =
            some { pb with out_gedges := gedges_mark_visited pb.out_gedges k 1 } := by
          obtain ⟨g', hg', hfg⟩ := hf1.2 prev _ hpbm
          rw [hg', hfg.2.1 hv]
        have hkept : gcfg_entries_kept cfg r1.cfg :=
          gcfg_entries_kept_trans
            (gcfg_entries_kept_of_frame_except (gcfg_mark_edge_visited_frame_except cfg prev k 1))
            (gcfg_entries_kept_of_frame hf1)
        have hun1 := gcfg_unvisited_edges_of_frame hf1 hunm
        obtain ⟨hall, hdone2⟩ := ih (k + 1) r1.cfg r1.state
          { pb with out_gedges := gedges_mark_visited pb.out_gedges k 1 } hun1 hpb1 hv hex
          (by simp only [gedges_mark_visited_length]; omega)
          (by
            intro j e' hj he'
            simp only [gedges_mark_visited_getElem?] at he'
            split_ifs at he' with hjk
            · simp only [he, Option.map_some', Option.some.injEq] at he'
              subst he'
              exact ⟨d, en, hd, hdv, hden, hcmp⟩
            · exact gedge_consistent_mono hkept (hlo j e' (by omega) he'))
          (by
            intro j e' hj he'
            simp only [gedges_mark_visited_getElem?] at he'
            rw [if_neg (by omega)] at he'
            exact hhi j e' (by omega) he')
          h
        refine ⟨hall, fun u g0 g hg0 hv0 hg hvg => ?_⟩
        have hup : u ≠ prev := by
          rintro rfl
          rw [hpb] at hg0
          cases hg0
          rw [hv] at hv0
          exact absurd hv0 (by simp)
        have hgm : (gcfg_mark_edge_visited cfg prev k 1).gbbs[u]? = some g0 := by
          rw [gcfg_mark_edge_visited_getElem?, if_neg hup]
          exact hg0
        obtain ⟨g1, hg1, hfg1⟩ := hf1.2 u g0 hgm
        by_cases hv1 : g1.visited = true
        · have hd1 : gbb_done t r1.cfg g0 g1 := hdone1 u g0 g1 hgm hv0 hg1 hv1
          have hp1 : ∀ pb2 : gbb, r1.cfg.gbbs[prev]? = some pb2 → pb2.visited = true := by
            intro pb2 hpb2
            rw [hpb1] at hpb2
            cases hpb2
            exact hv
          obtain ⟨hfl, -⟩ := forward_flow_edges_frame t recur prev hfr n (k + 1) r1.cfg
            r1.state r hp1 h
          obtain ⟨g2, hg2, -, hfg2⟩ := hfl.2 u g1 hg1
          rw [hg] at hg2
          cases hg2
          have : g = g1 := (hfg2 hup).2.1 hv1
          subst this
          exact gbb_done_mono (gcfg_entries_kept_of_frame_except hfl) hd1
        · have hv1' : g1.visited = false := by simpa using hv1
          have : g1 = g0 := hfg1.2.2 hv1'
          subst this
          exact hdone2 u g1 g hg1 hv0 hg hvg


/-- The executor result with code 0, spelled out. -/
theorem scfi_bb_exec_eta (rb : scfi_bb_exec) (h : rb.ret = 0) :
    rb = { ret := 0, insns := rb.insns, state := rb.state } := by
  cases rb
  simp only at h
  subst h
  rfl

/-- A successful call of the forward flow, on a graph where the edges of the
blocks not visited are not visited, leaves its target block visited with an
entry snapshot that agrees with the incoming state, and every block it
visited done. -/
theorem forward_flow_scfi_state_success (t : scfi_target) (fuel : Nat) (cfg : gcfg) (b : Nat)
    (s : scfi_state) (r : scfi_flow) (hun : gcfg_unvisited_edges cfg)
    (h : forward_flow_scfi_state t fuel cfg b s = Except.ok r) (h0 : r.ret = 0) :
    forward_flow_post t cfg b s r := by
  induction fuel generalizing cfg b s r with
  | zero => simp [forward_flow_scfi_state] at h
  | succ fuel ih =>
    simp only [forward_flow_scfi_state] at h
    cases hbb : cfg.gbbs[b]? with
    | none => simp [hbb] at h
    | some bb =>
      simp only [hbb] at h
      by_cases hvis : bb.visited = true
      · rw [if_pos hvis] at h
        cases hen : bb.entry_state with
        | none => simp [hen] at h
        | some en =>
          simp only [hen, Except.ok.injEq] at h
          subst h
          refine ⟨⟨bb, en, hbb, hvis, hen, h0, fun d0 hd0 hv0 => ?_⟩,
            fun u g0 g hg0 hv0 hg hvg => ?_⟩
          · rw [hbb] at hd0
            cases hd0
            rw [hvis] at hv0
            exact absurd hv0 (by simp)
          · rw [show ({ ret := cmp_scfi_state t s en, cfg := cfg, state := s } : scfi_flow).cfg
                = cfg from rfl, hg0] at hg
            cases hg
            rw [hv0] at hvg
            exact absurd hvg (by simp)
      · rw [if_neg hvis] at h
        have hunv : bb.visited = false := by simpa using hvis
        cases hrb : bb_gen_scfi_ops t bb.insns s with
        | error f => simp [hrb] at h
        | ok rb =>
          simp only [hrb] at h
          by_cases hret : rb.ret ≠ 0
          · rw [if_pos hret] at h
            simp only [Except.ok.injEq] at h
            subst h
            exact absurd h0 (by simp)
          · rw [if_neg hret] at h
            have hrb0 : rb.ret = 0 := by simpa using hret
            have hcfg2 : (gcfg_set_bb cfg b
                  { bb with visited := true, entry_state := some s, insns := rb.insns,
                            exit_state := some rb.state,
                            executions := bb.executions + 1 }).gbbs[b]? =
                some { bb with visited := true, entry_state := some s, insns := rb.insns,
                               exit_state := some rb.state,
                               executions := bb.executions + 1 } := by
              rw [gcfg_set_bb_getElem?]
              simp [hbb]
            have hbbmem : bb ∈ cfg.gbbs := List.mem_iff_getElem?.2 ⟨b, hbb⟩
            obtain ⟨⟨pb', hpb', hall⟩, hdone⟩ :=
              forward_flow_edges_success t (forward_flow_scfi_state t fuel) b
                (fun c b st r hr => forward_flow_scfi_state_frame t fuel c b st r hr)
                (fun c b st r hc hr hr0 => ih c b st r hc hr hr0)
                bb.out_gedges.length 0 _ rb.state r _ rb.state
                (gcfg_unvisited_edges_set_bb cfg b _ rfl hun) hcfg2 rfl rfl
                (by simp)
                (fun j e hj _ => absurd hj (Nat.not_lt_zero j))
                (fun j e _ he => hun bb hbbmem hunv e (List.mem_iff_getElem?.2 ⟨j, he⟩))
                h h0
            obtain ⟨hfl, -⟩ := forward_flow_edges_frame t (forward_flow_scfi_state t fuel) b
              (fun c b st r hr => forward_flow_scfi_state_frame t fuel c b st r hr)
              bb.out_gedges.length 0 _ rb.state r
              (fun pb hpb => by
                rw [hcfg2] at hpb
                cases hpb
                rfl)
              h
            obtain ⟨g', hg', hfe, -⟩ := hfl.2 b _ hcfg2
            rw [hpb'] at hg'
            cases hg'
            obtain ⟨-, e2, e3, e4, e5, e6⟩ := hfe rfl
            have hdoneb : gbb_done t r.cfg bb pb' := by
              refine ⟨s, rb.state, e2, e3, e4, ?_, e6, hall⟩
              rw [hrb, e5]
              exact congrArg Except.ok (scfi_bb_exec_eta rb hrb0)
            refine ⟨⟨pb', s, hpb', e2, e3, cmp_scfi_state_self t s, fun _ _ _ => rfl⟩,
              fun u g0 g hg0 hv0 hg hvg => ?_⟩
            by_cases hub : u = b
            · subst hub
              rw [hbb] at hg0
              cases hg0
              rw [hpb'] at hg
              cases hg
              exact hdoneb
            · refine hdone u g0 g ?_ hv0 hg hvg
              rw [gcfg_set_bb_getElem?, if_neg hub]
              exact hg0


/-- Two states agree under `cmp_scfi_state` exactly when their register tables
agree on every index below `MAX_NUM_SCFI_REGS` and their stack sizes and
traceable flags are equal. -/
theorem cmp_scfi_state_eq_zero_iff (t : scfi_target) (s1 s2 : scfi_state) :
    cmp_scfi_state t s1 s2 = 0 ↔
      (∀ i, i < MAX_NUM_SCFI_REGS t → s1.regs i = s2.regs i)
        ∧ s1.stack_size = s2.stack_size ∧ s1.traceable_p = s2.traceable_p := by
  unfold cmp_scfi_state regs_differ cfi_regloc_beq
  constructor
  · intro h
    split_ifs at h with hc
    · exact absurd h (by simp)
    · simp only [Bool.or_eq_true, List.any_eq_true, List.mem_range, Bool.not_eq_true',
        decide_eq_false_iff_not, decide_eq_true_eq, not_or, not_exists, not_and,
        not_not, ne_eq] at hc
      exact ⟨fun i hi => hc.1.1 i hi, hc.1.2, hc.2⟩
  · rintro ⟨h1, h2, h3⟩
    rw [if_neg]
    simp only [Bool.or_eq_true, List.any_eq_true, List.mem_range, Bool.not_eq_true',
      decide_eq_false_iff_not, decide_eq_true_eq, not_or, not_exists, not_and,
      not_not, ne_eq]
    exact ⟨⟨fun i hi => h1 i hi, h2⟩, h3⟩

/-- A fresh graph has unvisited edges on its unvisited blocks. -/
theorem gcfg_unvisited_edges_of_fresh {cfg : gcfg} (h : gcfg_fresh cfg) :
    gcfg_unvisited_edges cfg := fun g hg _ => (h g hg).2

/-- C2: after a successful forward pass from the root on a graph with all flags
false, every block of the graph is still there with the same edges, and for
every edge leaving a visited block the destination is visited and its entry
snapshot equals the exit snapshot of the source on the register table, the
stack size and the traceable flag; hence a pass that leaves a mismatch on some
edge of a visited block has not returned success. -/
theorem C2_forward_flow_success_edges_agree (t : scfi_target) (fuel : Nat) (cfg : gcfg)
    (root : Nat) (s : scfi_state) (r : scfi_flow) (hfresh : gcfg_fresh cfg)
    (h : forward_flow_scfi_state t fuel cfg root s = Except.ok r) (h0 : r.ret = 0) :
    ∀ (u : Nat) (g0 : gbb), cfg.gbbs[u]? = some g0 →
      ∃ g : gbb, r.cfg.gbbs[u]? = some g ∧ gbb_dsts g = gbb_dsts g0
        ∧ (g.visited = true →
            ∃ ex : scfi_state, g.exit_state = some ex
              ∧ ∀ e ∈ g.out_gedges,
                  ∃ (d : gbb) (en : scfi_state), r.cfg.gbbs[e.dst_bb]? = some d
                    ∧ d.visited = true ∧ d.entry_state = some en
                    ∧ (∀ i, i < MAX_NUM_SCFI_REGS t → ex.regs i = en.regs i)
                    ∧ ex.stack_size = en.stack_size
                    ∧ ex.traceable_p = en.traceable_p) := by
  intro u g0 hg0
  obtain ⟨hf, -⟩ := forward_flow_scfi_state_frame t fuel cfg root s r h
  obtain ⟨-, hdone⟩ := forward_flow_scfi_state_success t fuel cfg root s r
    (gcfg_unvisited_edges_of_fresh hfresh) h h0
  obtain ⟨g, hg, hfg⟩ := hf.2 u g0 hg0
  refine ⟨g, hg, hfg.1, fun hv => ?_⟩
  have hv0 : g0.visited = false := (hfresh g0 (List.mem_iff_getElem?.2 ⟨u, hg0⟩)).1
  obtain ⟨en, ex, -, -, hex, -, -, hall⟩ := hdone u g0 g hg0 hv0 hg hv
  refine ⟨ex, hex, fun e he => ?_⟩
  obtain ⟨d, en', hd, hdv, hden, hcmp⟩ := hall e he
  exact ⟨d, en', hd, hdv, hden, (cmp_scfi_state_eq_zero_iff t ex en').1 hcmp⟩

/-- C4: after a successful forward pass from the root on a graph with all flags
false in which every block is reachable from the root, the entry snapshot of
the root is the initial state, and every block is visited with an entry and
an exit snapshot, its instructions being those left by one run of the
executor over its instructions, in program order, from the entry snapshot,
a run that accepted every instruction and ended in the exit snapshot (the
ghost counter of runs has advanced by exactly one). -/
theorem C4_forward_flow_success_visits_all (t : scfi_target) (fuel : Nat) (cfg : gcfg)
    (root : Nat) (s : scfi_state) (r : scfi_flow) (hfresh : gcfg_fresh cfg)
    (hreach : ∀ b, b < cfg.gbbs.length → gcfg_reachable cfg root b)
    (h : forward_flow_scfi_state t fuel cfg root s = Except.ok r) (h0 : r.ret = 0) :
    (∃ g : gbb, r.cfg.gbbs[root]? = some g ∧ g.entry_state = some s)
    ∧ ∀ (b : Nat) (g0 : gbb), cfg.gbbs[b]? = some g0 →
        ∃ (g : gbb) (en ex : scfi_state), r.cfg.gbbs[b]? = some g ∧ g.visited = true
          ∧ g.entry_state = some en ∧ g.exit_state = some ex
          ∧ bb_gen_scfi_ops t g0.insns en
              = Except.ok { ret := 0, insns := g.insns, state := ex }
          ∧ g.executions = g0.executions + 1 := by
  obtain ⟨hf, -⟩ := forward_flow_scfi_state_frame t fuel cfg root s r h
  obtain ⟨⟨d, en, hd, hdv, hden, -, hroot⟩, hdone⟩ :=
    forward_flow_scfi_state_success t fuel cfg root s r
      (gcfg_unvisited_edges_of_fresh hfresh) h h0
  -- a block of the returned graph is a block of the given graph
  have hback : ∀ (u : Nat) (g : gbb), r.cfg.gbbs[u]? = some g →
      ∃ g0 : gbb, cfg.gbbs[u]? = some g0 ∧ g0.visited = false ∧ gbb_dsts g = gbb_dsts g0 := by
    intro u g hg
    have hlt : u < cfg.gbbs.length := by
      have := (List.getElem?_eq_some.1 hg).1
      rw [hf.1] at this
      exact this
    have hg0 : cfg.gbbs[u]? = some cfg.gbbs[u] := List.getElem?_eq_getElem hlt
    obtain ⟨g', hg', hfg⟩ := hf.2 u _ hg0
    rw [hg] at hg'
    cases hg'
    exact ⟨_, hg0, (hfresh _ (List.getElem_mem hlt)).1, hfg.1⟩
  -- every reachable block is visited
  have hvis : ∀ b, gcfg_reachable cfg root b →
      ∃ g : gbb, r.cfg.gbbs[b]? = some g ∧ g.visited = true := by
    intro b hb
    induction hb with
    | refl => exact ⟨d, hd, hdv⟩
    | tail _ hedge ih =>
      obtain ⟨gw, hgw, hvw⟩ := ih
      obtain ⟨g0w, e, hg0w, he, hdst⟩ := hedge
      obtain ⟨g0w', hg0w', hv0, hdsts⟩ := hback _ gw hgw
      rw [hg0w] at hg0w'
      cases hg0w'
      obtain ⟨_, _, -, -, -, -, -, hall⟩ := hdone _ g0w gw hg0w hv0 hgw hvw
      have hmem : e.dst_bb ∈ gbb_dsts gw := by
        rw [hdsts]
        exact List.mem_map.2 ⟨e, he, rfl⟩
      obtain ⟨e', he', hdst'⟩ := List.mem_map.1 hmem
      obtain ⟨dv, -, hdv1, hdv2, -, -⟩ := hall e' he'
      rw [hdst', hdst] at hdv1
      exact ⟨dv, hdv1, hdv2⟩
  refine ⟨?_, fun b g0 hg0 => ?_⟩
  · obtain ⟨d0, hd0, hd0v, -⟩ := hback root d hd
    exact ⟨d, hd, by rw [hden, hroot d0 hd0 hd0v]⟩
  · have hlt : b < cfg.gbbs.length := (List.getElem?_eq_some.1 hg0).1
    obtain ⟨g, hg, hv⟩ := hvis b (hreach b hlt)
    have hv0 : g0.visited = false := (hfresh g0 (List.mem_iff_getElem?.2 ⟨b, hg0⟩)).1
    obtain ⟨en', ex', h1, h2, h3, h4, h5, -⟩ := hdone b g0 g hg0 hv0 hg hv
    exact ⟨g, en', ex', hg, h1, h2, h3, h4, h5⟩


/-- Witness of C2: the forward pass succeeds on the diamond sample graph, and
the edges of the graph it returns agree. -/
theorem C2_witness :
    ∃ r, forward_flow_scfi_state example_target 5 example_cfg_diamond 0 init_state
          = Except.ok r
      ∧ r.ret = 0
      ∧ ∀ (u : Nat) (g0 : gbb), example_cfg_diamond.gbbs[u]? = some g0 →
          ∃ g : gbb, r.cfg.gbbs[u]? = some g ∧ gbb_dsts g = gbb_dsts g0
            ∧ (g.visited = true →
                ∃ ex : scfi_state, g.exit_state = some ex
                  ∧ ∀ e ∈ g.out_gedges,
                      ∃ (d : gbb) (en : scfi_state), r.cfg.gbbs[e.dst_bb]? = some d
                        ∧ d.visited = true ∧ d.entry_state = some en
                        ∧ (∀ i, i < MAX_NUM_SCFI_REGS example_target →
                            ex.regs i = en.regs i)
                        ∧ ex.stack_size = en.stack_size
                        ∧ ex.traceable_p = en.traceable_p) := by
  have hret : flow_ret (forward_flow_scfi_state example_target 5 example_cfg_diamond 0
      init_state) = some 0 := by decide
  cases hr : forward_flow_scfi_state example_target 5 example_cfg_diamond 0 init_state with
  | error f =>
    rw [hr] at hret
    exact absurd hret (by simp [flow_ret])
  | ok r =>
    rw [hr] at hret
    have h0 : r.ret = 0 := by simpa [flow_ret] using hret
    exact ⟨r, rfl, h0,
      C2_forward_flow_success_edges_agree example_target 5 example_cfg_diamond 0 init_state r
        (by unfold gcfg_fresh; decide) hr h0⟩

/-- Witness of C4: the forward pass succeeds on the cyclic sample graph, all of
whose blocks are reachable from block 0. -/
theorem C4_witness :
    ∃ r, forward_flow_scfi_state example_target 4 example_cfg_cyclic 0 init_state
          = Except.ok r
      ∧ r.ret = 0
      ∧ (∃ g : gbb, r.cfg.gbbs[0]? = some g ∧ g.entry_state = some init_state)
      ∧ ∀ (b : Nat) (g0 : gbb), example_cfg_cyclic.gbbs[b]? = some g0 →
          ∃ (g : gbb) (en ex : scfi_state), r.cfg.gbbs[b]? = some g ∧ g.visited = true
            ∧ g.entry_state = some en ∧ g.exit_state = some ex
            ∧ bb_gen_scfi_ops example_target g0.insns en
                = Except.ok { ret := 0, insns := g.insns, state := ex }
            ∧ g.executions = g0.executions + 1 := by
  have hret : flow_ret (forward_flow_scfi_state example_target 4 example_cfg_cyclic 0
      init_state) = some 0 := by decide
  have e01 : gcfg_edge example_cfg_cyclic 0 1 :=
    ⟨mk_gbb [ginsn_func_begin] [1], { dst_bb := 1, visited := false, recursions := 0 },
      rfl, by decide, rfl⟩
  have e12 : gcfg_edge example_cfg_cyclic 1 2 :=
    ⟨mk_gbb [] [1, 2], { dst_bb := 2, visited := false, recursions := 0 },
      rfl, by decide, rfl⟩
  have hreach : ∀ b, b < example_cfg_cyclic.gbbs.length →
      gcfg_reachable example_cfg_cyclic 0 b := by
    intro b hb
    have hb3 : b < 3 := hb
    interval_cases b
    · exact Relation.ReflTransGen.refl
    · exact Relation.ReflTransGen.single e01
    · exact Relation.ReflTransGen.tail (Relation.ReflTransGen.single e01) e12
  cases hr : forward_flow_scfi_state example_target 4 example_cfg_cyclic 0 init_state with
  | error f =>
    rw [hr] at hret
    exact absurd hret (by simp [flow_ret])
  | ok r =>
    rw [hr] at hret
    have h0 : r.ret = 0 := by simpa [flow_ret] using hret
    exact ⟨r, rfl, h0,
      C4_forward_flow_success_visits_all example_target 4 example_cfg_cyclic 0 init_state r
        (by unfold gcfg_fresh; decide) hreach hr h0⟩

/-! ### The unwind state model -/

/-- C11: for a register index inside the table, `scfi_state_save_reg` with base
REG_CFA sets the entry of the register to (REG_CFA, offset, on stack) and
leaves every other entry, the scratch table, the stack size and the
traceable flag unchanged; with any other base it ends in the assertion
failure and records nothing. -/
theorem C11_scfi_state_save_reg (t : scfi_target) (s : scfi_state) (reg base : Nat)
    (offset : Int) (hreg : reg < MAX_NUM_SCFI_REGS t) :
    (base = REG_CFA t →
      ∃ s1, scfi_state_save_reg t s reg base offset = Except.ok s1
        ∧ s1.regs reg = { base := REG_CFA t, offset := offset,
                          state := cfi_reglocstate.CFI_ON_STACK }
        ∧ (∀ i, i ≠ reg → s1.regs i = s.regs i)
        ∧ s1.scratch = s.scratch ∧ s1.stack_size = s.stack_size
        ∧ s1.traceable_p = s.traceable_p)
    ∧ (base ≠ REG_CFA t →
        scfi_state_save_reg t s reg base offset = Except.error scfi_fault.assertion) := by
  have hn : ¬ MAX_NUM_SCFI_REGS t ≤ reg := Nat.not_le.2 hreg
  refine ⟨fun hb => ?_, fun hb => ?_⟩
  · subst hb
    refine ⟨{ s with
              regs := set_regloc s.regs reg
                        (cfi_regloc.mk (REG_CFA t) offset cfi_reglocstate.CFI_ON_STACK) },
      by simp [scfi_state_save_reg, hn], ?_, ?_, rfl, rfl, rfl⟩
    · simp [set_regloc]
    · intro i hi
      simp [set_regloc, hi]
  · simp [scfi_state_save_reg, hn, hb]

/-- Witness of C11: register 3 of the sample target saved at offset -16 from the
initial state, and the same call with base 7 (the stack pointer). -/
theorem C11_witness :
    (∃ s1, scfi_state_save_reg example_target init_state 3 17 (-16) = Except.ok s1
        ∧ s1.regs 3 = { base := 17, offset := -16, state := cfi_reglocstate.CFI_ON_STACK }
        ∧ (∀ i, i ≠ 3 → s1.regs i = init_state.regs i)
        ∧ s1.scratch = init_state.scratch ∧ s1.stack_size = init_state.stack_size
        ∧ s1.traceable_p = init_state.traceable_p)
    ∧ scfi_state_save_reg example_target init_state 3 7 (-16)
        = Except.error scfi_fault.assertion :=
  ⟨(C11_scfi_state_save_reg example_target init_state 3 17 (-16) (by decide)).1 rfl,
   (C11_scfi_state_save_reg example_target init_state 3 7 (-16) (by decide)).2 (by decide)⟩

/-- Counterexample to C12 as stated: register id 18 is outside the table of the
sample target (18 entries) and was never saved, yet `scfi_state_restore_reg`
returns normally. -/
theorem C12_counterexample :
    ¬ (18 < MAX_NUM_SCFI_REGS example_target)
    ∧ (init_state.regs 18).state ≠ cfi_reglocstate.CFI_ON_STACK
    ∧ returns_normally (scfi_state_restore_reg example_target init_state 18) = true := by
  decide

/-- C12 as amended: for a register index inside the table, `scfi_state_restore_reg`
returns normally exactly when the entry is on stack with base REG_CFA, and
then sets it to (the register itself, 0, in register) leaving all other
fields unchanged; otherwise it ends in the assertion failure.  For an id
outside the table the call returns normally and leaves the state as it
was. -/
theorem C12_scfi_state_restore_reg (t : scfi_target) (s : scfi_state) (reg : Nat) :
    (reg < MAX_NUM_SCFI_REGS t →
      ((s.regs reg).state = cfi_reglocstate.CFI_ON_STACK ∧ (s.regs reg).base = REG_CFA t →
        ∃ s1, scfi_state_restore_reg t s reg = Except.ok s1
          ∧ s1.regs reg = { base := reg, offset := 0, state := cfi_reglocstate.CFI_IN_REG }
          ∧ (∀ i, i ≠ reg → s1.regs i = s.regs i)
          ∧ s1.scratch = s.scratch ∧ s1.stack_size = s.stack_size
          ∧ s1.traceable_p = s.traceable_p)
      ∧ (¬ ((s.regs reg).state = cfi_reglocstate.CFI_ON_STACK
              ∧ (s.regs reg).base = REG_CFA t) →
          scfi_state_restore_reg t s reg = Except.error scfi_fault.assertion))
    ∧ (MAX_NUM_SCFI_REGS t ≤ reg → scfi_state_restore_reg t s reg = Except.ok s) := by
  refine ⟨fun hreg => ⟨fun hs => ?_, fun hs => ?_⟩, fun hreg => ?_⟩
  · have hn : ¬ MAX_NUM_SCFI_REGS t ≤ reg := Nat.not_le.2 hreg
    refine ⟨{ s with
              regs := set_regloc s.regs reg
                        (cfi_regloc.mk reg 0 cfi_reglocstate.CFI_IN_REG) },
      by simp [scfi_state_restore_reg, hn, hs.1, hs.2], ?_, ?_, rfl, rfl, rfl⟩
    · simp [set_regloc]
    · intro i hi
      simp [set_regloc, hi]
  · have hn : ¬ MAX_NUM_SCFI_REGS t ≤ reg := Nat.not_le.2 hreg
    unfold scfi_state_restore_reg
    rw [if_neg hn]
    by_cases h1 : (s.regs reg).state = cfi_reglocstate.CFI_ON_STACK
    · have h2 : (s.regs reg).base ≠ REG_CFA t := fun h => hs ⟨h1, h⟩
      simp [h1, h2]
    · simp [h1]
  · simp [scfi_state_restore_reg, hreg]

/-- C13: for every state, register index inside the table and offset, the save
of the register at that offset from REG_CFA returns normally, the restore of
the register right after it returns normally, and the resulting entry of the
register is (the register itself, 0, in register); every other entry, the
scratch table, the stack size and the traceable flag are as before the
save. -/
theorem C13_restore_after_save (t : scfi_target) (s : scfi_state) (reg : Nat) (offset : Int)
    (hreg : reg < MAX_NUM_SCFI_REGS t) :
    ∃ s1 s2, scfi_state_save_reg t s reg (REG_CFA t) offset = Except.ok s1
      ∧ scfi_state_restore_reg t s1 reg = Except.ok s2
      ∧ s2.regs reg = { base := reg, offset := 0, state := cfi_reglocstate.CFI_IN_REG }
      ∧ (∀ i, i ≠ reg → s2.regs i = s.regs i)
      ∧ s2.scratch = s.scratch ∧ s2.stack_size = s.stack_size
      ∧ s2.traceable_p = s.traceable_p := by
  have hn : ¬ MAX_NUM_SCFI_REGS t ≤ reg := Nat.not_le.2 hreg
  refine ⟨{ s with
            regs := set_regloc s.regs reg
                      (cfi_regloc.mk (REG_CFA t) offset cfi_reglocstate.CFI_ON_STACK) },
    { s with
      regs := set_regloc
                (set_regloc s.regs reg
                  (cfi_regloc.mk (REG_CFA t) offset cfi_reglocstate.CFI_ON_STACK))
                reg (cfi_regloc.mk reg 0 cfi_reglocstate.CFI_IN_REG) },
    by simp [scfi_state_save_reg, hn],
    by simp [scfi_state_restore_reg, hn, set_regloc], ?_, ?_, rfl, rfl, rfl⟩
  · simp [set_regloc]
  · intro i hi
    simp [set_regloc, hi]

/-- Witness of C13: register 12 of the sample target, saved at -24 in the
untraceable sample state and restored at once. -/
theorem C13_witness :
    ∃ s1 s2, scfi_state_save_reg example_target example_untraceable_state 12 17 (-24)
        = Except.ok s1
      ∧ scfi_state_restore_reg example_target s1 12 = Except.ok s2
      ∧ s2.regs 12 = { base := 12, offset := 0, state := cfi_reglocstate.CFI_IN_REG }
      ∧ (∀ i, i ≠ 12 → s2.regs i = example_untraceable_state.regs i)
      ∧ s2.scratch = example_untraceable_state.scratch
      ∧ s2.stack_size = example_untraceable_state.stack_size
      ∧ s2.traceable_p = example_untraceable_state.traceable_p :=
  C13_restore_after_save example_target example_untraceable_state 12 (-24) (by decide)

/-- C14: `cmp_scfi_state` returns 0 exactly when the two register tables hold the
same base, offset and state at every index of the table (REG_CFA included)
and the stack sizes and the traceable flags are equal; replacing either
scratch table by any other does not change the result. -/
theorem C14_cmp_scfi_state (t : scfi_target) (s1 s2 : scfi_state) :
    (cmp_scfi_state t s1 s2 = 0 ↔
      (∀ i, i < MAX_NUM_SCFI_REGS t →
          (s1.regs i).base = (s2.regs i).base ∧ (s1.regs i).offset = (s2.regs i).offset
            ∧ (s1.regs i).state = (s2.regs i).state)
        ∧ s1.stack_size = s2.stack_size ∧ s1.traceable_p = s2.traceable_p)
    ∧ (∀ scratch1 scratch2 : Nat → cfi_regloc,
        cmp_scfi_state t { s1 with scratch := scratch1 } { s2 with scratch := scratch2 }
          = cmp_scfi_state t s1 s2) := by
  refine ⟨?_, fun _ _ => rfl⟩
  rw [cmp_scfi_state_eq_zero_iff]
  constructor
  · rintro ⟨h1, h2, h3⟩
    exact ⟨fun i hi => by rw [h1 i hi]; exact ⟨rfl, rfl, rfl⟩, h2, h3⟩
  · rintro ⟨h1, h2, h3⟩
    refine ⟨fun i hi => ?_, h2, h3⟩
    obtain ⟨a, b, c⟩ := h1 i hi
    cases hx : s1.regs i
    cases hy : s2.regs i
    rw [hx, hy] at a b c
    simp only at a b c
    subst a b c
    rfl

/-! ### The symbolic executor: state transitions -/

/-- After the two guards have accepted a non-marker instruction, `gen_scfi_ops`
is the state transition. -/
theorem gen_scfi_ops_of_guards (t : scfi_target) (g : ginsn) (s : scfi_state)
    (hm : GINSN_F_FUNC_BEGIN_P g = false)
    (h1 : verify_heuristic_traceable_stack_manipulation t g s = Except.ok (0, s))
    (h2 : verify_heuristic_traceable_reg_bp t g s = 0) :
    gen_scfi_ops t g s = gen_scfi_ops_switch t g s := by
  unfold gen_scfi_ops
  simp [hm, h1, h2]

theorem sub32_eq_add32_neg (a b : Int) : sub32 a b = add32 a (-b) := by
  unfold sub32 add32
  rw [Int.sub_eq_add_neg]

/-- A stack-pointer adjustment by an immediate is not stopped by the guards. -/
theorem sp_adjust_guards (t : scfi_target) (g : ginsn) (s : scfi_state)
    (hg : ginsn_sp_adjust_imm_p t g) :
    gen_scfi_ops t g s = gen_scfi_ops_switch t g s := by
  obtain ⟨hty, hs1, hd, hdr, himm⟩ := hg
  have hm : GINSN_F_FUNC_BEGIN_P g = false := by
    apply func_begin_of_type_ne; rcases hty with h | h <;> simp [h]
  have h1 : verify_heuristic_traceable_stack_manipulation t g s = Except.ok (0, s) := by
    unfold verify_heuristic_traceable_stack_manipulation ginsn_scfi_save_reg_p
      ginsn_scfi_reg_restore_p
    rcases hty with h | h <;> simp [h, himm]
  have h2 : verify_heuristic_traceable_reg_bp t g s = 0 := by
    unfold verify_heuristic_traceable_reg_bp
    split_ifs <;> simp_all
  exact gen_scfi_ops_of_guards t g s hm h1 h2

/-- The transition of a stack-pointer adjustment by an immediate while the CFA
is based on the stack pointer: the stack size and the CFA offset both move by
the growth of the stack (32-bit sums), and the instruction gets one
`DW_CFA_def_cfa_offset` operation that carries the new CFA location. -/
theorem gen_scfi_ops_sp_adjust (t : scfi_target) (g : ginsn) (s : scfi_state)
    (hg : ginsn_sp_adjust_imm_p t g) (hbase : (s.regs (REG_CFA t)).base = t.REG_SP) :
    gen_scfi_ops t g s = Except.ok
      { ret := 0,
        ginsn := ginsn_append_scfi_op g
          (scfi_op_def_cfa_offset t ((sp_adjust_state t g s).regs (REG_CFA t))),
        state := sp_adjust_state t g s } := by
  rw [sp_adjust_guards t g s hg]
  obtain ⟨hty, hs1, hd, hdr, himm⟩ := hg
  have hdt : g.dst.type = ginsn_dst_type.GINSN_DST_REG := hd
  rcases hty with h | h
  · simp [gen_scfi_ops_switch, hdt, h, gen_scfi_ops_sub, hs1, hdr, hbase,
      scfi_op_add_cfa_offset_dec, sp_adjust_delta, scfi_op_def_cfa_offset, init_scfi_op,
      sp_adjust_state, set_regloc]
  · simp [gen_scfi_ops_switch, hdt, h, gen_scfi_ops_add, hs1, hdr, hbase,
      scfi_op_add_cfa_offset_inc, sp_adjust_delta, scfi_op_def_cfa_offset, init_scfi_op,
      sub32_eq_add32_neg, sp_adjust_state, set_regloc]

/-- The instruction loop over a list whose head is accepted and whose tail
returns. -/
theorem bb_gen_scfi_ops_cons_ok (t : scfi_target) (g : ginsn) (l : List ginsn)
    (s : scfi_state) (r1 : scfi_exec) (r2 : scfi_bb_exec)
    (h : gen_scfi_ops t g s = Except.ok r1) (h0 : r1.ret = 0)
    (h2 : bb_gen_scfi_ops t l r1.state = Except.ok r2) :
    bb_gen_scfi_ops t (g :: l) s =
      Except.ok { ret := r2.ret, insns := r1.ginsn :: r2.insns, state := r2.state } := by
  simp [bb_gen_scfi_ops, h, h0, h2]

/-- The state after a list of instructions whose head is accepted and whose
tail returns. -/
theorem state_after_cons_ok (t : scfi_target) (g : ginsn) (l : List ginsn)
    (s : scfi_state) (r1 : scfi_exec) (r2 : scfi_bb_exec)
    (h : gen_scfi_ops t g s = Except.ok r1) (h0 : r1.ret = 0)
    (h2 : bb_gen_scfi_ops t l r1.state = Except.ok r2) :
    state_after t (g :: l) s = state_after t l r1.state := by
  unfold state_after
  rw [bb_gen_scfi_ops_cons_ok t g l s r1 r2 h h0 h2, h2]

/-- A sequence of stack-pointer adjustments by immediates, run while the CFA is
based on the stack pointer, is accepted and leaves the CFA based on the stack
pointer. -/
theorem sp_adjust_run_ok (t : scfi_target) (insns : List ginsn) (s : scfi_state)
    (hbase : (s.regs (REG_CFA t)).base = t.REG_SP)
    (hall : ∀ g ∈ insns, ginsn_sp_adjust_imm_p t g) :
    ∃ r, bb_gen_scfi_ops t insns s = Except.ok r ∧ r.ret = 0
      ∧ (r.state.regs (REG_CFA t)).base = t.REG_SP := by
  induction insns generalizing s with
  | nil => exact ⟨_, rfl, rfl, hbase⟩
  | cons g rest ih =>
    have hg := hall g (List.mem_cons_self _ _)
    have hstep := gen_scfi_ops_sp_adjust t g s hg hbase
    obtain ⟨r2, hr2, h20, hb2⟩ := ih (sp_adjust_state t g s)
      (by simp [sp_adjust_state, set_regloc, hbase])
      (fun g' hg' => hall g' (List.mem_cons_of_mem _ hg'))
    rw [bb_gen_scfi_ops_cons_ok t g rest s _ r2 hstep rfl hr2]
    exact ⟨_, rfl, h20, hb2⟩

/-- C15: for every state whose CFA base is the stack pointer and every sequence
of stack-pointer adjustments by immediates (SUB or ADD with source SP,
register destination SP and an immediate), the sequence is accepted; each
instruction comes out with exactly one more operation, a
`DW_CFA_def_cfa_offset` that carries the CFA location reached after that
instruction; the CFA stays based on the stack pointer; and the change of the
CFA offset over the sequence equals the change of the stack size over the
sequence, as 32-bit differences. -/
theorem C15_sp_adjust_sequence (t : scfi_target) (insns : List ginsn) (s : scfi_state)
    (hbase : (s.regs (REG_CFA t)).base = t.REG_SP)
    (hall : ∀ g ∈ insns, ginsn_sp_adjust_imm_p t g) :
    ∃ r, bb_gen_scfi_ops t insns s = Except.ok r ∧ r.ret = 0
      ∧ r.insns.length = insns.length
      ∧ (∀ (i : Nat) (g : ginsn), insns[i]? = some g →
          r.insns[i]? = some (ginsn_append_scfi_op g
            (scfi_op_def_cfa_offset t
              ((state_after t (insns.take (i + 1)) s).regs (REG_CFA t)))))
      ∧ (r.state.regs (REG_CFA t)).base = t.REG_SP
      ∧ sub32 (r.state.regs (REG_CFA t)).offset (s.regs (REG_CFA t)).offset
          = sub32 r.state.stack_size s.stack_size := by
  induction insns generalizing s with
  | nil =>
    refine ⟨_, rfl, rfl, rfl, fun i g hg => ?_, hbase, ?_⟩
    · simp at hg
    · simp [sub32]
  | cons g rest ih =>
    have hg := hall g (List.mem_cons_self _ _)
    have hstep := gen_scfi_ops_sp_adjust t g s hg hbase
    have hrest : ∀ g' ∈ rest, ginsn_sp_adjust_imm_p t g' :=
      fun g' hg' => hall g' (List.mem_cons_of_mem _ hg')
    have hb1 : ((sp_adjust_state t g s).regs (REG_CFA t)).base = t.REG_SP := by
      simp [sp_adjust_state, set_regloc, hbase]
    obtain ⟨r2, hr2, h20, hlen, hidx, hb2, hdelta⟩ := ih (sp_adjust_state t g s) hb1 hrest
    rw [bb_gen_scfi_ops_cons_ok t g rest s _ r2 hstep rfl hr2]
    refine ⟨_, rfl, h20, by simp [hlen], fun i g' hg' => ?_, hb2, ?_⟩
    · cases i with
      | zero =>
        simp only [List.getElem?_cons_zero, Option.some.injEq] at hg'
        subst hg'
        have h1 : state_after t (List.take (0 + 1) (g :: rest)) s
            = sp_adjust_state t g s := by
          show state_after t [g] s = _
          unfold state_after
          rw [bb_gen_scfi_ops_cons_ok t g [] s _ _ hstep rfl rfl]
        rw [h1]
        simp
      | succ i =>
        simp only [List.getElem?_cons_succ] at hg' ⊢
        rw [hidx i g' hg']
        obtain ⟨rp, hrp, -, -⟩ := sp_adjust_run_ok t (rest.take (i + 1))
          (sp_adjust_state t g s) hb1
          (fun g'' hg'' => hrest g'' (List.mem_of_mem_take hg''))
        have h2 := state_after_cons_ok t g (rest.take (i + 1)) s _ rp hstep rfl hrp
        simp only [List.take_succ_cons]
        rw [h2]
    · simp only [sp_adjust_state, set_regloc, if_true] at hdelta ⊢
      revert hdelta
      generalize (r2.state.regs (REG_CFA t)).offset = a
      generalize (s.regs (REG_CFA t)).offset = b
      generalize r2.state.stack_size = c
      generalize s.stack_size = d
      generalize sp_adjust_delta g = e
      unfold sub32 add32 wrap_int32
      intro h
      omega

/-- Witness of C15: three adjustments run right after the function begin on the
sample target; the second instruction carries the CFA offset 8 + 8 + 16. -/
theorem C15_witness :
    ∃ r, bb_gen_scfi_ops example_target example_sp_adjust_insns
          (state_after example_target [ginsn_func_begin] init_state) = Except.ok r
      ∧ r.ret = 0
      ∧ r.insns[1]? = some (ginsn_append_scfi_op
          (mk_ginsn ginsn_type.GINSN_TYPE_SUB (src_reg 7) (src_imm 16) (dst_reg 7))
          (scfi_op_def_cfa_offset example_target
            { base := 7, offset := 32, state := cfi_reglocstate.CFI_UNDEFINED }))
      ∧ sub32 (r.state.regs (REG_CFA example_target)).offset
            ((state_after example_target [ginsn_func_begin] init_state).regs
              (REG_CFA example_target)).offset
          = sub32 r.state.stack_size
              (state_after example_target [ginsn_func_begin] init_state).stack_size := by
  obtain ⟨r, hr, h0, -, hidx, -, hd⟩ :=
    C15_sp_adjust_sequence example_target example_sp_adjust_insns
      (state_after example_target [ginsn_func_begin] init_state) (by decide)
      (by
        intro g hg
        simp only [example_sp_adjust_insns, List.mem_cons, List.mem_singleton,
          List.not_mem_nil, or_false] at hg
        rcases hg with rfl | rfl | rfl <;> (unfold ginsn_sp_adjust_imm_p; decide))
  refine ⟨r, hr, h0, ?_, hd⟩
  rw [hidx 1 _ rfl]
  decide

/-- C17: a load into a tracked register other than FP (a MOV from the indirect
address disp(SP) or disp(FP), or a load-from-stack) whose register is
recorded on stack, with base REG_CFA, at an offset different from the one
expected for the load (the opposite of the stack size plus the displacement
for disp(SP), the recorded offset of FP plus the displacement for disp(FP),
the opposite of the stack size for a load-from-stack) is accepted with code 0
(the code only warns): the instruction gets no operation and the state,
the entry of the register included, is left as it was. -/
theorem C17_asymmetric_restore (t : scfi_target) (g : ginsn) (s : scfi_state)
    (hd : ginsn_get_dst_type g.dst = ginsn_dst_type.GINSN_DST_REG)
    (htrack : t.ginsn_track_reg_p (ginsn_get_dst_reg g.dst) = true)
    (hlt : ginsn_get_dst_reg g.dst < MAX_NUM_SCFI_REGS t)
    (hfp : ginsn_get_dst_reg g.dst ≠ t.REG_FP)
    (hst : (s.regs (ginsn_get_dst_reg g.dst)).state = cfi_reglocstate.CFI_ON_STACK)
    (hb : (s.regs (ginsn_get_dst_reg g.dst)).base = REG_CFA t)
    (hshape :
      (g.type = ginsn_type.GINSN_TYPE_MOV
        ∧ ginsn_get_src_type g.src1 = ginsn_src_type.GINSN_SRC_INDIRECT
        ∧ ginsn_get_src_reg g.src1 = t.REG_SP
        ∧ (s.regs (ginsn_get_dst_reg g.dst)).offset
            ≠ add32 (neg32 s.stack_size) (ginsn_get_src_disp g.src1))
      ∨ (g.type = ginsn_type.GINSN_TYPE_MOV
        ∧ ginsn_get_src_type g.src1 = ginsn_src_type.GINSN_SRC_INDIRECT
        ∧ ginsn_get_src_reg g.src1 = t.REG_FP
        ∧ t.REG_FP ≠ t.REG_SP
        ∧ t.REG_FP < MAX_NUM_SCFI_REGS t
        ∧ (s.regs (ginsn_get_dst_reg g.dst)).offset
            ≠ add32 (s.regs t.REG_FP).offset (ginsn_get_src_disp g.src1))
      ∨ (g.type = ginsn_type.GINSN_TYPE_LDS
        ∧ (s.regs (ginsn_get_dst_reg g.dst)).offset ≠ neg32 s.stack_size)) :
    gen_scfi_ops t g s = Except.ok { ret := 0, ginsn := g, state := s } := by
  have hdt : g.dst.type = ginsn_dst_type.GINSN_DST_REG := hd
  have hn : ¬ MAX_NUM_SCFI_REGS t ≤ ginsn_get_dst_reg g.dst := Nat.not_le.2 hlt
  have h2 : verify_heuristic_traceable_reg_bp t g s = 0 := by
    unfold verify_heuristic_traceable_reg_bp
    simp [hfp]
  have hwarn : ∀ x : Int, (s.regs (ginsn_get_dst_reg g.dst)).offset ≠ x →
      gen_scfi_ops_restore t g s (ginsn_get_dst_reg g.dst) x
        = Except.ok { ret := 0, ginsn := g, state := s } := by
    intro x hx
    have hx' : ¬ x = (s.regs (ginsn_get_dst_reg g.dst)).offset := fun h => hx h.symm
    simp [gen_scfi_ops_restore, verify_heuristic_symmetrical_restore_reg, hn, hst, hb, hx']
  rcases hshape with ⟨hty, hsrc, hsp, hoff⟩ | ⟨hty, hsrc, hsfp, hne, hfplt, hoff⟩ | ⟨hty, hoff⟩
  · have hm : GINSN_F_FUNC_BEGIN_P g = false := func_begin_of_type_ne g (by simp [hty])
    have h1 : verify_heuristic_traceable_stack_manipulation t g s = Except.ok (0, s) := by
      unfold verify_heuristic_traceable_stack_manipulation ginsn_scfi_save_reg_p
        ginsn_scfi_reg_restore_p
      simp [hty, hd]
    rw [gen_scfi_ops_of_guards t g s hm h1 h2]
    simp only [gen_scfi_ops_switch, hdt, hty, gen_scfi_ops_mov, hsrc, hsp, htrack]
    simp [hwarn _ hoff]
  · have hm : GINSN_F_FUNC_BEGIN_P g = false := func_begin_of_type_ne g (by simp [hty])
    have h1 : verify_heuristic_traceable_stack_manipulation t g s = Except.ok (0, s) := by
      unfold verify_heuristic_traceable_stack_manipulation ginsn_scfi_save_reg_p
        ginsn_scfi_reg_restore_p
      simp [hty, hd]
    have hn2 : ¬ MAX_NUM_SCFI_REGS t ≤ t.REG_FP := Nat.not_le.2 hfplt
    rw [gen_scfi_ops_of_guards t g s hm h1 h2]
    simp only [gen_scfi_ops_switch, hdt, hty, gen_scfi_ops_mov, hsrc, hsfp, htrack]
    simp [hwarn _ hoff, hne, hn2]
  · have hm : GINSN_F_FUNC_BEGIN_P g = false := func_begin_of_type_ne g (by simp [hty])
    have h1 : verify_heuristic_traceable_stack_manipulation t g s = Except.ok (0, s) := by
      unfold verify_heuristic_traceable_stack_manipulation ginsn_scfi_save_reg_p
        ginsn_scfi_reg_restore_p
      simp [hty]
    rw [gen_scfi_ops_of_guards t g s hm h1 h2]
    simp only [gen_scfi_ops_switch, hdt, hty, gen_scfi_ops_lds, hfp, htrack, false_and,
      if_false, if_true]
    exact hwarn _ hoff

/-- Witness of C17 (scenario E): register 3, saved at offset -16, is loaded from
8(SP), that is from offset -8; the load is accepted without any operation and
the state is unchanged. -/
theorem C17_witness :
    (example_saved_state.regs 3).offset = -16
    ∧ add32 (neg32 example_saved_state.stack_size) 8 = -8
    ∧ gen_scfi_ops example_target
        (mk_ginsn ginsn_type.GINSN_TYPE_MOV (src_indirect 7 8) src_none (dst_reg 3))
        example_saved_state
      = Except.ok
          { ret := 0,
            ginsn := mk_ginsn ginsn_type.GINSN_TYPE_MOV (src_indirect 7 8) src_none (dst_reg 3),
            state := example_saved_state } :=
  ⟨by decide, by decide,
   C17_asymmetric_restore example_target
     (mk_ginsn ginsn_type.GINSN_TYPE_MOV (src_indirect 7 8) src_none (dst_reg 3))
     example_saved_state rfl (by decide) (by decide) (by decide) (by decide) (by decide)
     (Or.inl ⟨rfl, rfl, rfl, by decide⟩)⟩

/-- The transition of a store-to-stack of a tracked register that is not yet
recorded on stack (accepted by the second guard: the CFA base or the
destination register is not FP): the register is recorded on stack at the
opposite of the stack size from REG_CFA, and the instruction gets one
`DW_CFA_offset` operation that carries this location.  The traceable flag
plays no part. -/
theorem gen_scfi_ops_sts (t : scfi_target) (g : ginsn) (s : scfi_state)
    (hty : g.type = ginsn_type.GINSN_TYPE_STS)
    (hd : ginsn_get_dst_type g.dst = ginsn_dst_type.GINSN_DST_STACK)
    (htrack : t.ginsn_track_reg_p (ginsn_get_src_reg g.src1) = true)
    (hlt : ginsn_get_src_reg g.src1 < MAX_NUM_SCFI_REGS t)
    (hst : (s.regs (ginsn_get_src_reg g.src1)).state ≠ cfi_reglocstate.CFI_ON_STACK)
    (hg2 : (s.regs (REG_CFA t)).base ≠ t.REG_FP ∨ ginsn_get_dst_reg g.dst ≠ t.REG_FP) :
    gen_scfi_ops t g s = Except.ok
      { ret := 0,
        ginsn := ginsn_append_scfi_op g
          (scfi_op_offset (ginsn_get_src_reg g.src1)
            { base := REG_CFA t, offset := sub32 0 s.stack_size,
              state := cfi_reglocstate.CFI_ON_STACK }),
        state :=
          { s with
            regs := set_regloc s.regs (ginsn_get_src_reg g.src1)
              { base := REG_CFA t, offset := sub32 0 s.stack_size,
                state := cfi_reglocstate.CFI_ON_STACK } } } := by
  have hdt : g.dst.type = ginsn_dst_type.GINSN_DST_STACK := hd
  have hn : ¬ MAX_NUM_SCFI_REGS t ≤ ginsn_get_src_reg g.src1 := Nat.not_le.2 hlt
  have hm : GINSN_F_FUNC_BEGIN_P g = false := func_begin_of_type_ne g (by simp [hty])
  have h1 : verify_heuristic_traceable_stack_manipulation t g s = Except.ok (0, s) := by
    unfold verify_heuristic_traceable_stack_manipulation ginsn_scfi_save_reg_p
      ginsn_scfi_reg_restore_p
    simp [hty]
  have h2 : verify_heuristic_traceable_reg_bp t g s = 0 := by
    unfold verify_heuristic_traceable_reg_bp
    rcases hg2 with h | h <;> simp [h]
  rw [gen_scfi_ops_of_guards t g s hm h1 h2]
  simp [gen_scfi_ops_switch, hdt, gen_scfi_ops_dst_stack, hty, htrack, hn, hst,
    gen_scfi_ops_save, scfi_state_save_reg, scfi_op_add_cfi_offset, set_regloc,
    scfi_op_offset, init_scfi_op]

/-- The transition of a load-from-stack into a tracked register other than FP
that is recorded on stack, with base REG_CFA, at the opposite of the stack
size: the register is back in itself, and the instruction gets one
`DW_CFA_restore` operation.  The traceable flag plays no part. -/
theorem gen_scfi_ops_lds_restore (t : scfi_target) (g : ginsn) (s : scfi_state)
    (hty : g.type = ginsn_type.GINSN_TYPE_LDS)
    (hd : ginsn_get_dst_type g.dst = ginsn_dst_type.GINSN_DST_REG)
    (htrack : t.ginsn_track_reg_p (ginsn_get_dst_reg g.dst) = true)
    (hlt : ginsn_get_dst_reg g.dst < MAX_NUM_SCFI_REGS t)
    (hfp : ginsn_get_dst_reg g.dst ≠ t.REG_FP)
    (hst : (s.regs (ginsn_get_dst_reg g.dst)).state = cfi_reglocstate.CFI_ON_STACK)
    (hb : (s.regs (ginsn_get_dst_reg g.dst)).base = REG_CFA t)
    (hoff : (s.regs (ginsn_get_dst_reg g.dst)).offset = neg32 s.stack_size) :
    gen_scfi_ops t g s = Except.ok
      { ret := 0,
        ginsn := ginsn_append_scfi_op g (scfi_op_restore (ginsn_get_dst_reg g.dst)),
        state :=
          { s with
            regs := set_regloc s.regs (ginsn_get_dst_reg g.dst)
              { base := ginsn_get_dst_reg g.dst, offset := 0,
                state := cfi_reglocstate.CFI_IN_REG } } } := by
  have hdt : g.dst.type = ginsn_dst_type.GINSN_DST_REG := hd
  have hn : ¬ MAX_NUM_SCFI_REGS t ≤ ginsn_get_dst_reg g.dst := Nat.not_le.2 hlt
  have hm : GINSN_F_FUNC_BEGIN_P g = false := func_begin_of_type_ne g (by simp [hty])
  have h1 : verify_heuristic_traceable_stack_manipulation t g s = Except.ok (0, s) := by
    unfold verify_heuristic_traceable_stack_manipulation ginsn_scfi_save_reg_p
      ginsn_scfi_reg_restore_p
    simp [hty]
  have h2 : verify_heuristic_traceable_reg_bp t g s = 0 := by
    unfold verify_heuristic_traceable_reg_bp
    simp [hfp]
  rw [gen_scfi_ops_of_guards t g s hm h1 h2]
  simp [gen_scfi_ops_switch, hdt, hty, gen_scfi_ops_lds, hfp, htrack,
    gen_scfi_ops_restore, verify_heuristic_symmetrical_restore_reg, hn, hst, hb, hoff,
    scfi_state_restore_reg, scfi_op_add_cfa_restore, scfi_op_restore, init_scfi_op]

/-- The instruction loop over two lists run one after the other. -/
theorem bb_gen_scfi_ops_append (t : scfi_target) (l1 l2 : List ginsn) (s : scfi_state)
    (r1 r2 : scfi_bb_exec) (h1 : bb_gen_scfi_ops t l1 s = Except.ok r1) (h10 : r1.ret = 0)
    (h2 : bb_gen_scfi_ops t l2 r1.state = Except.ok r2) :
    bb_gen_scfi_ops t (l1 ++ l2) s =
      Except.ok { ret := r2.ret, insns := r1.insns ++ r2.insns, state := r2.state } := by
  induction l1 generalizing s r1 with
  | nil =>
    simp only [bb_gen_scfi_ops, Except.ok.injEq] at h1
    subst h1
    simpa using h2
  | cons g rest ih =>
    simp only [bb_gen_scfi_ops] at h1
    cases hg : gen_scfi_ops t g s with
    | error f => simp [hg] at h1
    | ok rg =>
      simp only [hg] at h1
      by_cases hret : rg.ret ≠ 0
      · rw [if_pos hret] at h1
        simp only [Except.ok.injEq] at h1
        subst h1
        exact absurd h10 hret
      · rw [if_neg hret] at h1
        have hrg0 : rg.ret = 0 := by simpa using hret
        cases hrest : bb_gen_scfi_ops t rest rg.state with
        | error f => simp [hrest] at h1
        | ok rr =>
          simp only [hrest, Except.ok.injEq] at h1
          subst h1
          have := ih rg.state rr hrest h10 h2
          rw [List.cons_append, bb_gen_scfi_ops_cons_ok t g (rest ++ l2) s rg _ hg hrg0 this]
          simp

theorem ginsn_sub_sp_adjust (t : scfi_target) (n : Int) :
    ginsn_sp_adjust_imm_p t (ginsn_sub_sp t n) :=
  ⟨Or.inl rfl, rfl, rfl, rfl, rfl⟩

theorem ginsn_add_sp_adjust (t : scfi_target) (n : Int) :
    ginsn_sp_adjust_imm_p t (ginsn_add_sp t n) :=
  ⟨Or.inr rfl, rfl, rfl, rfl, rfl⟩

/-- The pushes of a list of registers followed by their pops in reverse order,
run from a state whose CFA is (SP, c) and whose stack size is c, with no
32-bit overflow: the run is accepted, the instructions come out as expected,
the registers are back in themselves and the rest of the state is as
before. -/
theorem scenario_a_body (t : scfi_target) (n : Int) (st0 : cfi_reglocstate)
    (hsp : t.REG_SP ≠ t.REG_FP) (hn : 0 < n) (regs : List Nat) (c : Int) (s : scfi_state)
    (hcfa : s.regs (REG_CFA t) = { base := t.REG_SP, offset := c, state := st0 })
    (hstack : s.stack_size = c) (hc : 0 ≤ c)
    (hrange : c + (regs.length : Int) * n < 2147483648)
    (hregs : ∀ r ∈ regs, t.ginsn_track_reg_p r = true ∧ r < REG_CFA t ∧ r ≠ t.REG_FP
      ∧ (s.regs r).state ≠ cfi_reglocstate.CFI_ON_STACK)
    (hnd : regs.Nodup) :
    bb_gen_scfi_ops t (scenario_a_pushes t n regs ++ scenario_a_pops t n regs) s =
      Except.ok
        { ret := 0,
          insns := scenario_a_pushes_expected t n st0 c regs
            ++ scenario_a_pops_expected t n st0 c regs,
          state := { s with regs := regs_restored regs s.regs } } := by
  induction regs generalizing c s with
  | nil =>
    simp only [scenario_a_pushes, scenario_a_pops, scenario_a_pushes_expected,
      scenario_a_pops_expected, List.append_nil, bb_gen_scfi_ops]
    congr 1
  | cons r rs ih =>
    obtain ⟨htr, hlt, hfp, hst⟩ := hregs r (List.mem_cons_self _ _)
    have hrs : r ∉ rs := (List.nodup_cons.1 hnd).1
    have hnd' : rs.Nodup := (List.nodup_cons.1 hnd).2
    have hlen : ((r :: rs).length : Int) = (rs.length : Int) + 1 := by simp
    rw [hlen] at hrange
    have hlen0 : (0 : Int) ≤ (rs.length : Int) * n :=
      Int.mul_nonneg (Int.ofNat_nonneg _) (Int.le_of_lt hn)
    have hrange1 : c + n < 2147483648 := by nlinarith
    have hcfa_ne : r ≠ REG_CFA t := Nat.ne_of_lt hlt
    have hmax : r < MAX_NUM_SCFI_REGS t := by unfold MAX_NUM_SCFI_REGS; omega
    -- SUB SP, n, SP
    have hbase : (s.regs (REG_CFA t)).base = t.REG_SP := by rw [hcfa]
    have hsub := gen_scfi_ops_sp_adjust t (ginsn_sub_sp t n) s (ginsn_sub_sp_adjust t n) hbase
    have hd1 : sp_adjust_delta (ginsn_sub_sp t n) = n := rfl
    have hw1 : add32 c n = c + n := by unfold add32 wrap_int32; omega
    have hs1 : sp_adjust_state t (ginsn_sub_sp t n) s =
        { s with
          regs := set_regloc s.regs (REG_CFA t)
            { base := t.REG_SP, offset := c + n, state := st0 },
          stack_size := c + n } := by
      simp [sp_adjust_state, hd1, hcfa, hstack, hw1]
    rw [hs1] at hsub
    obtain ⟨s1, hs1e⟩ : ∃ s1 : scfi_state, s1 =
        { s with
          regs := set_regloc s.regs (REG_CFA t)
            { base := t.REG_SP, offset := c + n, state := st0 },
          stack_size := c + n } := ⟨_, rfl⟩
    rw [← hs1e] at hsub
    have h1cfa : s1.regs (REG_CFA t) = { base := t.REG_SP, offset := c + n, state := st0 } := by
      rw [hs1e]; simp [set_regloc]
    have h1r : ∀ i, i ≠ REG_CFA t → s1.regs i = s.regs i := by
      intro i hi; rw [hs1e]; simp [set_regloc, hi]
    have h1stack : s1.stack_size = c + n := by rw [hs1e]
    rw [h1cfa] at hsub
    -- the store-to-stack of r
    have hsts := gen_scfi_ops_sts t (ginsn_sts r) s1 rfl rfl htr hmax
      (by show (s1.regs r).state ≠ _; rw [h1r r hcfa_ne]; exact hst)
      (Or.inl (by rw [h1cfa]; exact hsp))
    have hw2 : sub32 0 s1.stack_size = -(c + n) := by
      rw [h1stack]; unfold sub32 wrap_int32; omega
    rw [hw2] at hsts
    obtain ⟨s2, hs2e⟩ : ∃ s2 : scfi_state, s2 =
        { s1 with
          regs := set_regloc s1.regs r
            { base := REG_CFA t, offset := -(c + n),
              state := cfi_reglocstate.CFI_ON_STACK } } := ⟨_, rfl⟩
    have hsts' : gen_scfi_ops t (ginsn_sts r) s1 = Except.ok
        { ret := 0,
          ginsn := ginsn_append_scfi_op (ginsn_sts r)
            (scfi_op_offset r
              { base := REG_CFA t, offset := -(c + n),
                state := cfi_reglocstate.CFI_ON_STACK }),
          state := s2 } := by
      rw [hs2e]; exact hsts
    have h2cfa : s2.regs (REG_CFA t) = { base := t.REG_SP, offset := c + n, state := st0 } := by
      rw [hs2e]
      show set_regloc s1.regs r _ (REG_CFA t) = _
      simp [set_regloc, Ne.symm hcfa_ne, h1cfa]
    have h2r : s2.regs r = { base := REG_CFA t, offset := -(c + n),
                             state := cfi_reglocstate.CFI_ON_STACK } := by
      rw [hs2e]; simp [set_regloc]
    have h2o : ∀ i, i ≠ REG_CFA t → i ≠ r → s2.regs i = s.regs i := by
      intro i hi hir
      rw [hs2e]
      show set_regloc s1.regs r _ i = _
      simp [set_regloc, hir, h1r i hi]
    have h2stack : s2.stack_size = c + n := by rw [hs2e]; exact h1stack
    -- the pushes and pops of the other registers
    have hin := ih (c + n) s2 h2cfa h2stack (by omega)
      (by linarith)
      (by
        intro r' hr'
        obtain ⟨a1, a2, a3, a4⟩ := hregs r' (List.mem_cons_of_mem _ hr')
        refine ⟨a1, a2, a3, ?_⟩
        rw [h2o r' (Nat.ne_of_lt a2) (fun h => hrs (h ▸ hr'))]
        exact a4)
      hnd'
    obtain ⟨s3, hs3e⟩ : ∃ s3 : scfi_state, s3 = { s2 with regs := regs_restored rs s2.regs } :=
      ⟨_, rfl⟩
    rw [← hs3e] at hin
    have hcfa_rs : REG_CFA t ∉ rs := by
      intro hmem
      exact absurd (hregs _ (List.mem_cons_of_mem _ hmem)).2.1 (Nat.lt_irrefl _)
    have h3cfa : s3.regs (REG_CFA t) = { base := t.REG_SP, offset := c + n, state := st0 } := by
      rw [hs3e]
      show regs_restored rs s2.regs (REG_CFA t) = _
      simp [regs_restored, hcfa_rs, h2cfa]
    have h3r : s3.regs r = { base := REG_CFA t, offset := -(c + n),
                             state := cfi_reglocstate.CFI_ON_STACK } := by
      rw [hs3e]
      show regs_restored rs s2.regs r = _
      simp [regs_restored, hrs, h2r]
    have h3stack : s3.stack_size = c + n := by rw [hs3e]; exact h2stack
    -- the load-from-stack into r
    have hw3 : neg32 (c + n) = -(c + n) := by unfold neg32 wrap_int32; omega
    have hlds := gen_scfi_ops_lds_restore t (ginsn_lds r) s3 rfl rfl htr hmax hfp
      (by show (s3.regs r).state = _; rw [h3r])
      (by show (s3.regs r).base = _; rw [h3r])
      (by show (s3.regs r).offset = _; rw [h3r, h3stack, hw3])
    obtain ⟨s4, hs4e⟩ : ∃ s4 : scfi_state, s4 =
        { s3 with
          regs := set_regloc s3.regs r
            { base := r, offset := 0, state := cfi_reglocstate.CFI_IN_REG } } := ⟨_, rfl⟩
    have hlds' : gen_scfi_ops t (ginsn_lds r) s3 = Except.ok
        { ret := 0,
          ginsn := ginsn_append_scfi_op (ginsn_lds r) (scfi_op_restore r),
          state := s4 } := by
      rw [hs4e]; exact hlds
    have h4cfa : s4.regs (REG_CFA t) = { base := t.REG_SP, offset := c + n, state := st0 } := by
      rw [hs4e]
      show set_regloc s3.regs r _ (REG_CFA t) = _
      simp [set_regloc, Ne.symm hcfa_ne, h3cfa]
    have h4stack : s4.stack_size = c + n := by rw [hs4e]; exact h3stack
    -- ADD SP, n, SP
    have hadd := gen_scfi_ops_sp_adjust t (ginsn_add_sp t n) s4 (ginsn_add_sp_adjust t n)
      (by rw [h4cfa])
    have hd2 : sp_adjust_delta (ginsn_add_sp t n) = -n := rfl
    have hw4 : add32 (c + n) (-n) = c := by unfold add32 wrap_int32; omega
    have h4regs : ∀ i, s4.regs i = if i = r then
          { base := r, offset := 0, state := cfi_reglocstate.CFI_IN_REG }
        else regs_restored rs s2.regs i := by
      intro i; rw [hs4e, hs3e]; rfl
    have hrest : s4.scratch = s.scratch ∧ s4.traceable_p = s.traceable_p := by
      rw [hs4e, hs3e, hs2e, hs1e]; exact ⟨rfl, rfl⟩
    have hs5 : sp_adjust_state t (ginsn_add_sp t n) s4 =
        { s with regs := regs_restored (r :: rs) s.regs } := by
      have hregs5 : set_regloc s4.regs (REG_CFA t)
          { s4.regs (REG_CFA t) with
            offset := add32 (s4.regs (REG_CFA t)).offset (sp_adjust_delta (ginsn_add_sp t n)) }
          = regs_restored (r :: rs) s.regs := by
        funext i
        by_cases hi : i = REG_CFA t
        · rw [hi]
          simp [set_regloc, regs_restored, h4cfa, hd2, hw4, hcfa, hcfa_rs, Ne.symm hcfa_ne]
        · by_cases hir : i = r
          · simp [set_regloc, regs_restored, hi, hir, h4regs, hcfa_ne]
          · by_cases him : i ∈ rs
            · simp [set_regloc, regs_restored, hi, hir, him, h4regs]
            · simp [set_regloc, regs_restored, hi, hir, him, h4regs, h2o i hi hir]
      have hstack5 : add32 s4.stack_size (sp_adjust_delta (ginsn_add_sp t n)) = s.stack_size := by
        rw [h4stack, hd2, hw4, hstack]
      unfold sp_adjust_state
      rw [hregs5, hstack5]
      obtain ⟨e1, e2⟩ := hrest
      cases s
      cases s4
      simp only at e1 e2
      simp [e1, e2]
    have hadd' : gen_scfi_ops t (ginsn_add_sp t n) s4 = Except.ok
        { ret := 0,
          ginsn := ginsn_append_scfi_op (ginsn_add_sp t n)
            (scfi_op_def_cfa_offset t { base := t.REG_SP, offset := c, state := st0 }),
          state := { s with regs := regs_restored (r :: rs) s.regs } } := by
      rw [hadd, hs5]
      have : regs_restored (r :: rs) s.regs (REG_CFA t)
          = { base := t.REG_SP, offset := c, state := st0 } := by
        simp [regs_restored, hcfa_rs, Ne.symm hcfa_ne, hcfa]
      simp only [this]
    -- assembling the run
    have htail := bb_gen_scfi_ops_cons_ok t (ginsn_lds r) [ginsn_add_sp t n] s3 _ _ hlds' rfl
      (bb_gen_scfi_ops_cons_ok t (ginsn_add_sp t n) [] s4 _
        { ret := 0, insns := [], state := { s with regs := regs_restored (r :: rs) s.regs } }
        hadd' rfl rfl)
    have hmid := bb_gen_scfi_ops_append t _ [ginsn_lds r, ginsn_add_sp t n] s2 _ _ hin rfl htail
    have hall := bb_gen_scfi_ops_cons_ok t (ginsn_sub_sp t n) _ s _ _ hsub rfl
      (bb_gen_scfi_ops_cons_ok t (ginsn_sts r) _ s1 _ _ hsts' rfl hmid)
    have hl : scenario_a_pushes t n (r :: rs) ++ scenario_a_pops t n (r :: rs)
        = ginsn_sub_sp t n :: ginsn_sts r ::
            ((scenario_a_pushes t n rs ++ scenario_a_pops t n rs)
              ++ [ginsn_lds r, ginsn_add_sp t n]) := by
      simp [scenario_a_pushes, scenario_a_pops, List.append_assoc]
    rw [hl, hall]
    simp [scenario_a_pushes_expected, scenario_a_pops_expected, List.append_assoc]


/-- The function-begin marker from the initial state: the CFA is the stack
pointer plus the initial offset, which is also the stack size. -/
theorem gen_scfi_ops_func_begin_init (t : scfi_target)
    (hpos : 0 < t.SCFI_INIT_CFA_OFFSET) (hlt : t.SCFI_INIT_CFA_OFFSET < 2147483648) :
    gen_scfi_ops t ginsn_func_begin init_state = Except.ok
      { ret := 0,
        ginsn := ginsn_append_scfi_op ginsn_func_begin
          (scfi_op_def_cfa t
            { base := t.REG_SP, offset := t.SCFI_INIT_CFA_OFFSET,
              state := cfi_reglocstate.CFI_UNDEFINED }),
        state :=
          { init_state with
            regs := set_regloc init_state.regs (REG_CFA t)
              { base := t.REG_SP, offset := t.SCFI_INIT_CFA_OFFSET,
                state := cfi_reglocstate.CFI_UNDEFINED },
            stack_size := t.SCFI_INIT_CFA_OFFSET } } := by
  have hm : GINSN_F_FUNC_BEGIN_P ginsn_func_begin = true := rfl
  have hw : add32 0 t.SCFI_INIT_CFA_OFFSET = t.SCFI_INIT_CFA_OFFSET := by
    unfold add32 wrap_int32; omega
  unfold gen_scfi_ops
  simp only [hm, scfi_op_add_def_cfa, hpos, not_true_eq_false, if_false, if_true]
  simp [init_state, hw, scfi_op_def_cfa, init_scfi_op]

/-- C16 (scenario A): for every list of distinct tracked registers other than
the frame pointer, the function-begin marker, the pushes of the registers and
their pops in reverse order run from the initial state to success; the marker
carries the `DW_CFA_def_cfa` of the stack pointer and the initial offset, each
push a `DW_CFA_def_cfa_offset` grown by the immediate and a `DW_CFA_offset` of
its register, each pop a `DW_CFA_restore` and the inverse
`DW_CFA_def_cfa_offset`; at the end every pushed register is in itself and the
CFA offset and the stack size are the initial offset. -/
theorem C16_scenario_a (t : scfi_target) (n : Int) (regs : List Nat)
    (hsp : t.REG_SP ≠ t.REG_FP)
    (hpos : 0 < t.SCFI_INIT_CFA_OFFSET) (hn : 0 < n)
    (hrange : t.SCFI_INIT_CFA_OFFSET + (regs.length : Int) * n < 2147483648)
    (hregs : ∀ r ∈ regs, t.ginsn_track_reg_p r = true ∧ r < REG_CFA t ∧ r ≠ t.REG_FP)
    (hnd : regs.Nodup) :
    ∃ r, bb_gen_scfi_ops t (scenario_a_insns t n regs) init_state = Except.ok r
      ∧ r.ret = 0
      ∧ r.insns =
          ginsn_append_scfi_op ginsn_func_begin
            (scfi_op_def_cfa t
              { base := t.REG_SP, offset := t.SCFI_INIT_CFA_OFFSET,
                state := cfi_reglocstate.CFI_UNDEFINED })
          :: (scenario_a_pushes_expected t n cfi_reglocstate.CFI_UNDEFINED
                t.SCFI_INIT_CFA_OFFSET regs
              ++ scenario_a_pops_expected t n cfi_reglocstate.CFI_UNDEFINED
                t.SCFI_INIT_CFA_OFFSET regs)
      ∧ (∀ x ∈ regs, r.state.regs x =
          { base := x, offset := 0, state := cfi_reglocstate.CFI_IN_REG })
      ∧ r.state.regs (REG_CFA t) =
          { base := t.REG_SP, offset := t.SCFI_INIT_CFA_OFFSET,
            state := cfi_reglocstate.CFI_UNDEFINED }
      ∧ r.state.stack_size = t.SCFI_INIT_CFA_OFFSET := by
  have hlen : 0 ≤ (regs.length : Int) * n :=
    Int.mul_nonneg (Int.ofNat_nonneg _) (le_of_lt hn)
  have hbegin := gen_scfi_ops_func_begin_init t hpos (by omega)
  have hcfa_regs : REG_CFA t ∉ regs := by
    intro hmem
    exact absurd (hregs _ hmem).2.1 (Nat.lt_irrefl _)
  have hbody := scenario_a_body t n cfi_reglocstate.CFI_UNDEFINED hsp hn regs
    t.SCFI_INIT_CFA_OFFSET
    { init_state with
      regs := set_regloc init_state.regs (REG_CFA t)
        { base := t.REG_SP, offset := t.SCFI_INIT_CFA_OFFSET,
          state := cfi_reglocstate.CFI_UNDEFINED },
      stack_size := t.SCFI_INIT_CFA_OFFSET }
    (by simp [set_regloc]) rfl (le_of_lt hpos) hrange
    (by
      intro r hr
      obtain ⟨a1, a2, a3⟩ := hregs r hr
      refine ⟨a1, a2, a3, ?_⟩
      simp [set_regloc, Nat.ne_of_lt a2, init_state])
    hnd
  have hall := bb_gen_scfi_ops_cons_ok t ginsn_func_begin _ init_state _ _ hbegin rfl hbody
  refine ⟨_, hall, rfl, rfl, ?_, ?_, rfl⟩
  · intro x hx
    simp [regs_restored, hx]
  · simp [regs_restored, hcfa_regs, set_regloc]

/-- Witness of C16: push 3; push 12; pop 12; pop 3 with pushes of 8 bytes on
the sample target. -/
theorem C16_witness :
    ∃ r, bb_gen_scfi_ops example_target (scenario_a_insns example_target 8 [3, 12]) init_state
        = Except.ok r
      ∧ r.ret = 0
      ∧ r.insns.map (fun g => g.scfi_ops.map (fun o => (o.dw2cfi_op, o.reg, o.loc.offset)))
          = [ [(dw2cfi_opcode.DW_CFA_def_cfa, 17, 8)],
              [(dw2cfi_opcode.DW_CFA_def_cfa_offset, 17, 16)],
              [(dw2cfi_opcode.DW_CFA_offset, 3, -16)],
              [(dw2cfi_opcode.DW_CFA_def_cfa_offset, 17, 24)],
              [(dw2cfi_opcode.DW_CFA_offset, 12, -24)],
              [(dw2cfi_opcode.DW_CFA_restore, 12, 0)],
              [(dw2cfi_opcode.DW_CFA_def_cfa_offset, 17, 16)],
              [(dw2cfi_opcode.DW_CFA_restore, 3, 0)],
              [(dw2cfi_opcode.DW_CFA_def_cfa_offset, 17, 8)] ]
      ∧ r.state.regs 3 = { base := 3, offset := 0, state := cfi_reglocstate.CFI_IN_REG }
      ∧ r.state.regs 12 = { base := 12, offset := 0, state := cfi_reglocstate.CFI_IN_REG }
      ∧ r.state.regs 17 = { base := 7, offset := 8, state := cfi_reglocstate.CFI_UNDEFINED }
      ∧ r.state.stack_size = 8 := by
  obtain ⟨r, hr, h0, hi, hx, hc, hs⟩ :=
    C16_scenario_a example_target 8 [3, 12] (by decide) (by decide) (by decide) (by decide)
      (by decide) (by decide)
  refine ⟨r, hr, h0, ?_, hx 3 (by decide), hx 12 (by decide), hc, hs⟩
  rw [hi]
  decide


/-- C18, counterexample: on scenario B with the registers 3 and 12 the forward
pass succeeds, but the backward pass returns 1; no instruction carries a
`DW_CFA_remember_state`, and the only `DW_CFA_restore_state` is on the first
instruction of the second branch block, not on the return block. -/
theorem C18_counterexample :
    flow_ret (forward_flow_scfi_state example_target 5 (scenario_b_cfg 3 12 [1, 2]) 0
        init_state) = some 0
    ∧ synth_ret (scfi_synthesize_dw2cfi example_target 5 (scenario_b_cfg 3 12 [1, 2]) 0)
        = some 1
    ∧ synth_op_counts dw2cfi_opcode.DW_CFA_remember_state
        (scfi_synthesize_dw2cfi example_target 5 (scenario_b_cfg 3 12 [1, 2]) 0)
        = some [[0, 0, 0, 0, 0, 0], [0, 0, 0, 0, 0], [0, 0, 0, 0], [0]]
    ∧ synth_op_counts dw2cfi_opcode.DW_CFA_restore_state
        (scfi_synthesize_dw2cfi example_target 5 (scenario_b_cfg 3 12 [1, 2]) 0)
        = some [[0, 0, 0, 0, 0, 0], [0, 0, 0, 0, 0], [1, 0, 0, 0], [0]] := by
  decide

/-- Scenario B on the sample target with the bound 5 on the depth of the
recursion, for every pair of distinct callee-saved registers and both orders
of the edges of the first block. -/
theorem scenario_b_fuel5 :
    ∀ r1 ∈ [3, 12, 13, 14, 15], ∀ r2 ∈ [3, 12, 13, 14, 15], r1 ≠ r2 →
    ∀ es ∈ [[1, 2], [2, 1]],
      flow_ret (forward_flow_scfi_state example_target 5 (scenario_b_cfg r1 r2 es) 0
          init_state) = some 0
      ∧ synth_op_counts dw2cfi_opcode.DW_CFA_restore_state
          (scfi_synthesize_dw2cfi example_target 5 (scenario_b_cfg r1 r2 es) 0)
          = some [[0, 0, 0, 0, 0, 0], [0, 0, 0, 0, 0], [1, 0, 0, 0], [0]] := by
  decide

/-- C18, as amended (scenario B): for the blocks in the program order P, B1,
B2, R, where P pushes two distinct callee-saved registers of the sample target
and branches to B1 and B2, which both pop them and go to R, the forward pass
succeeds, and the orchestrator leaves exactly one `DW_CFA_restore_state`, on
the first instruction of B2, the branch block that follows the other branch
block in program order, and none on the block R. -/
theorem C18_scenario_b (r1 r2 fuel : Nat) (es : List Nat)
    (h1 : r1 ∈ [3, 12, 13, 14, 15]) (h2 : r2 ∈ [3, 12, 13, 14, 15]) (hne : r1 ≠ r2)
    (hes : es ∈ [[1, 2], [2, 1]]) (hfuel : 4 < fuel) :
    flow_ret (forward_flow_scfi_state example_target fuel (scenario_b_cfg r1 r2 es) 0
        init_state) = some 0
    ∧ synth_op_counts dw2cfi_opcode.DW_CFA_restore_state
        (scfi_synthesize_dw2cfi example_target fuel (scenario_b_cfg r1 r2 es) 0)
        = some [[0, 0, 0, 0, 0, 0], [0, 0, 0, 0, 0], [1, 0, 0, 0], [0]] := by
  have hf := forward_flow_scfi_state_fuel_indep example_target fuel 5
    (scenario_b_cfg r1 r2 es) 0 init_state hfuel (Nat.lt_succ_self 4)
  have h5 := scenario_b_fuel5 r1 h1 r2 h2 hne es hes
  unfold scfi_synthesize_dw2cfi at h5 ⊢
  rw [hf]
  exact h5

/-- Witness of C18: the registers 3 and 12, the edges of the first block in
the order B1, B2, and the bound 5. -/
theorem C18_witness :
    flow_ret (forward_flow_scfi_state example_target 5 (scenario_b_cfg 3 12 [1, 2]) 0
        init_state) = some 0
    ∧ synth_op_counts dw2cfi_opcode.DW_CFA_restore_state
        (scfi_synthesize_dw2cfi example_target 5 (scenario_b_cfg 3 12 [1, 2]) 0)
        = some [[0, 0, 0, 0, 0, 0], [0, 0, 0, 0, 0], [1, 0, 0, 0], [0]] :=
  C18_scenario_b 3 12 5 [1, 2] (by decide) (by decide) (by decide) (by decide) (by decide)

/-! ### The backward pass -/

theorem ginsn_count_op_append (op : dw2cfi_opcode) (g : ginsn) (o : scfi_op) :
    ginsn_count_op op (ginsn_append_scfi_op g o)
      = ginsn_count_op op g + (if o.dw2cfi_op = op then 1 else 0) := by
  unfold ginsn_count_op ginsn_append_scfi_op
  simp only [List.countP_append, List.countP_cons, List.countP_nil, decide_eq_true_eq]
  omega

theorem insns_remember_state_last_ne_nil (l : List ginsn) (h : l ≠ []) :
    insns_remember_state_last l ≠ [] := by
  cases l with
  | nil => exact absurd rfl h
  | cons g l =>
    cases l with
    | nil => simp [insns_remember_state_last]
    | cons g1 l => simp [insns_remember_state_last]

theorem insns_count_op_remember_state_last (op : dw2cfi_opcode) (l : List ginsn)
    (h : l ≠ []) :
    insns_count_op op (insns_remember_state_last l)
      = insns_count_op op l
        + (if dw2cfi_opcode.DW_CFA_remember_state = op then 1 else 0) := by
  induction l with
  | nil => exact absurd rfl h
  | cons g l ih =>
    cases l with
    | nil =>
      simp only [insns_remember_state_last, insns_count_op, scfi_op_add_cfi_remember_state,
        ginsn_count_op_append]
      omega
    | cons g1 l =>
      simp only [insns_remember_state_last, insns_count_op] at ih ⊢
      rw [ih (by simp)]
      omega

theorem insns_count_op_restore_state_first (op : dw2cfi_opcode) (b : gbb)
    (h : b.insns ≠ []) :
    insns_count_op op (bb_restore_state_first b).insns
      = insns_count_op op b.insns
        + (if dw2cfi_opcode.DW_CFA_restore_state = op then 1 else 0) := by
  unfold bb_restore_state_first
  cases hb : b.insns with
  | nil => exact absurd hb h
  | cons g l =>
    simp only [insns_count_op, scfi_op_add_cfi_restore_state, ginsn_count_op_append]
    omega

theorem bb_restore_state_first_fields (b : gbb) :
    (bb_restore_state_first b).entry_state = b.entry_state
    ∧ (bb_restore_state_first b).exit_state = b.exit_state
    ∧ (b.insns ≠ [] → (bb_restore_state_first b).insns ≠ []) := by
  unfold bb_restore_state_first
  cases hb : b.insns with
  | nil => exact ⟨rfl, rfl, fun h => absurd rfl h⟩
  | cons g l => exact ⟨rfl, rfl, fun _ => by simp⟩

theorem gbbs_count_op_set (op : dw2cfi_opcode) (l : List gbb) (i : Nat) (cur nb : gbb)
    (h : l[i]? = some cur) :
    gbbs_count_op op (l.set i nb) + insns_count_op op cur.insns
      = gbbs_count_op op l + insns_count_op op nb.insns := by
  induction l generalizing i with
  | nil => simp at h
  | cons x xs ih =>
    cases i with
    | zero =>
      simp only [List.getElem?_cons_zero, Option.some.injEq] at h
      subst h
      simp only [List.set_cons_zero, gbbs_count_op]
      omega
    | succ i =>
      simp only [List.getElem?_cons_succ] at h
      have := ih i h
      simp only [List.set_cons_succ, gbbs_count_op]
      omega

theorem restore_bbs_pending_replicate (n : Nat) :
    restore_bbs_pending (List.replicate n none) = 0 := by
  induction n with
  | zero => rfl
  | succ n ih => simp [List.replicate_succ, restore_bbs_pending, ih]

theorem restore_bbs_pending_set (rb : List (Option Nat)) (i k : Nat)
    (h : rb[i]? = some none) :
    restore_bbs_pending (rb.set i (some k)) = restore_bbs_pending rb + 1 := by
  induction rb generalizing i with
  | nil => simp at h
  | cons x xs ih =>
    cases i with
    | zero =>
      simp only [List.getElem?_cons_zero, Option.some.injEq] at h
      subst h
      simp [restore_bbs_pending]
      omega
    | succ i =>
      simp only [List.getElem?_cons_succ] at h
      have := ih i h
      simp only [List.set_cons_succ, restore_bbs_pending]
      omega

theorem restore_bbs_clear_spec (rb : List (Option Nat)) (d : Nat) (rb1 : List (Option Nat))
    (h : restore_bbs_clear rb d = some rb1) :
    rb1.length = rb.length
    ∧ restore_bbs_pending rb = restore_bbs_pending rb1 + 1
    ∧ (∀ j : Nat, rb[j]? = some none → rb1[j]? = some none)
    ∧ (∀ (j b : Nat), rb1[j]? = some (some b) → rb[j]? = some (some b)) := by
  induction rb generalizing rb1 with
  | nil => simp [restore_bbs_clear] at h
  | cons x xs ih =>
    simp only [restore_bbs_clear] at h
    by_cases hx : x = some d
    · rw [if_pos hx] at h
      simp only [Option.some.injEq] at h
      subst h
      subst hx
      refine ⟨rfl, ?_, ?_, ?_⟩
      · simp [restore_bbs_pending]; omega
      · intro j hj
        cases j with
        | zero => simp at hj
        | succ j => simpa using hj
      · intro j b hj
        cases j with
        | zero => simp at hj
        | succ j => simpa using hj
    · rw [if_neg hx] at h
      cases hc : restore_bbs_clear xs d with
      | none => rw [hc] at h; simp at h
      | some ys =>
        rw [hc] at h
        simp only [Option.map_some', Option.some.injEq] at h
        subst h
        obtain ⟨a1, a2, a3, a4⟩ := ih ys hc
        refine ⟨by simp [a1], ?_, ?_, ?_⟩
        · simp only [restore_bbs_pending]; omega
        · intro j hj
          cases j with
          | zero => simpa using hj
          | succ j => simpa using a3 j (by simpa using hj)
        · intro j b hj
          cases j with
          | zero => simpa using hj
          | succ j => simpa using a4 j b (by simpa using hj)

theorem restore_bbs_any_iff (rb : List (Option Nat)) :
    rb.any Option.isSome = true ↔ ∃ (j b : Nat), rb[j]? = some (some b) := by
  constructor
  · intro h
    obtain ⟨x, hx, hs⟩ := List.any_eq_true.mp h
    obtain ⟨b, rfl⟩ := Option.isSome_iff_exists.mp hs
    obtain ⟨j, hj⟩ := List.getElem?_of_mem hx
    exact ⟨j, b, hj⟩
  · rintro ⟨j, b, hj⟩
    exact List.any_eq_true.mpr ⟨some b, List.getElem?_mem hj, rfl⟩

theorem restore_bbs_pending_eq_zero_iff (rb : List (Option Nat)) :
    restore_bbs_pending rb = 0 ↔ rb.any Option.isSome = false := by
  induction rb with
  | nil => simp [restore_bbs_pending]
  | cons x xs ih =>
    cases x with
    | none => simpa [restore_bbs_pending] using ih
    | some b => simp [restore_bbs_pending]

theorem backward_flow_edges_spec (es : List gedge) (cur : gbb) (rb : List (Option Nat))
    (hne : cur.insns ≠ []) :
    (backward_flow_edges es cur rb).1.entry_state = cur.entry_state
    ∧ (backward_flow_edges es cur rb).1.exit_state = cur.exit_state
    ∧ (backward_flow_edges es cur rb).1.insns ≠ []
    ∧ (backward_flow_edges es cur rb).2.length = rb.length
    ∧ insns_count_op dw2cfi_opcode.DW_CFA_restore_state (backward_flow_edges es cur rb).1.insns
        = insns_count_op dw2cfi_opcode.DW_CFA_restore_state cur.insns
    ∧ insns_count_op dw2cfi_opcode.DW_CFA_remember_state (backward_flow_edges es cur rb).1.insns
          + restore_bbs_pending (backward_flow_edges es cur rb).2
        = insns_count_op dw2cfi_opcode.DW_CFA_remember_state cur.insns
          + restore_bbs_pending rb
    ∧ (∀ j : Nat, rb[j]? = some none → (backward_flow_edges es cur rb).2[j]? = some none)
    ∧ (∀ (j b : Nat), (backward_flow_edges es cur rb).2[j]? = some (some b) →
        rb[j]? = some (some b))
    ∧ insns_count_op dw2cfi_opcode.DW_CFA_remember_state cur.insns
        ≤ insns_count_op dw2cfi_opcode.DW_CFA_remember_state
            (backward_flow_edges es cur rb).1.insns := by
  induction es generalizing cur rb with
  | nil => exact ⟨rfl, rfl, hne, rfl, rfl, rfl, fun _ h => h, fun _ _ h => h, le_refl _⟩
  | cons e es ih =>
    simp only [backward_flow_edges]
    cases hc : restore_bbs_clear rb e.dst_bb with
    | none => exact ih cur rb hne
    | some rb1 =>
      obtain ⟨c1, c2, c3, c4⟩ := restore_bbs_clear_spec rb e.dst_bb rb1 hc
      have hne1 : (bb_remember_state_last cur).insns ≠ [] :=
        insns_remember_state_last_ne_nil cur.insns hne
      obtain ⟨a1, a2, a3, a4, a5, a6, a7, a8, a9⟩ := ih (bb_remember_state_last cur) rb1 hne1
      have hres := insns_count_op_remember_state_last dw2cfi_opcode.DW_CFA_restore_state
        cur.insns hne
      have hrem := insns_count_op_remember_state_last dw2cfi_opcode.DW_CFA_remember_state
        cur.insns hne
      simp only [if_true] at hrem
      rw [if_neg (by decide)] at hres
      refine ⟨a1, a2, a3, a4.trans c1, ?_, ?_, fun j hj => a7 j (c3 j hj),
        fun j b hj => c4 j b (a8 j b hj), ?_⟩
      · rw [a5]; exact hres
      · rw [a6]
        show insns_count_op _ (insns_remember_state_last cur.insns) + _ = _
        rw [hrem]; omega
      · have h1 : insns_count_op dw2cfi_opcode.DW_CFA_remember_state cur.insns
            ≤ insns_count_op dw2cfi_opcode.DW_CFA_remember_state
                (insns_remember_state_last cur.insns) := by
          rw [hrem]; exact Nat.le_succ _
        exact Nat.le_trans h1 a9


/-- The invariant of the backward pass after the turn at the index I + 1, which
replaces the block at that index. -/
theorem backward_inv_set_bb (cfg0 cfg : gcfg) (rb rb1 : List (Option Nat)) (i : Nat)
    (cur nb : gbb) (dm dr : Nat)
    (hinv : backward_inv cfg0 cfg rb (i + 1))
    (hcur : cfg.gbbs[i + 1]? = some cur)
    (hen : nb.entry_state = cur.entry_state) (hex : nb.exit_state = cur.exit_state)
    (hne : nb.insns ≠ [])
    (hlen : rb1.length = rb.length)
    (hnone : ∀ j : Nat, j ≤ i → rb[j]? = some none → rb1[j]? = some none)
    (hpend : ∀ (j b : Nat), rb1[j]? = some (some b) →
      rb[j]? = some (some b) ∨ (j = i + 1 ∧ b = i + 1 ∧ nb = bb_restore_state_first cur))
    (hm : insns_count_op dw2cfi_opcode.DW_CFA_remember_state nb.insns
      = insns_count_op dw2cfi_opcode.DW_CFA_remember_state cur.insns + dm)
    (hr : insns_count_op dw2cfi_opcode.DW_CFA_restore_state nb.insns
      = insns_count_op dw2cfi_opcode.DW_CFA_restore_state cur.insns + dr)
    (hp : dr + restore_bbs_pending rb = dm + restore_bbs_pending rb1) :
    backward_inv cfg0 (gcfg_set_bb cfg (i + 1) nb) rb1 i := by
  obtain ⟨hl, hrl, hblk, hnn, hpd, nrem, nres, hM, hR, hN⟩ := hinv
  have hcur_lt : i + 1 < cfg.gbbs.length := (List.getElem?_eq_some.1 hcur).1
  refine ⟨?_, ?_, ?_, ?_, ?_, nrem + dm, nres + dr, ?_, ?_, ?_⟩
  · simp [gcfg_set_bb, hl]
  · rw [hlen, hrl]
  · intro u b0 hu
    obtain ⟨b, hb, e1, e2, e3, e4⟩ := hblk u b0 hu
    rw [gcfg_set_bb_getElem?]
    by_cases huc : u = i + 1
    · rw [if_pos huc, hcur]
      rw [huc, hcur] at hb
      have hbc : cur = b := Option.some.inj hb
      refine ⟨nb, rfl, ?_, ?_, hne, ?_⟩
      · rw [hen, hbc]; exact e1
      · rw [hex, hbc]; exact e2
      · intro hle; omega
    · rw [if_neg huc]
      exact ⟨b, hb, e1, e2, e3, fun hle => e4 (Nat.le_succ_of_le hle)⟩
  · intro j hj hjl
    rw [hlen] at hjl
    exact hnone j hj (hnn j (Nat.le_succ_of_le hj) hjl)
  · intro j b hj
    rcases hpend j b hj with h | ⟨h1, h2, h3⟩
    · obtain ⟨e1, b0, e2, e3⟩ := hpd j b h
      refine ⟨e1, b0, e2, ?_⟩
      rw [gcfg_set_bb_getElem?]
      have hjne : j ≠ i + 1 := by
        intro hji
        have hlt : j < rb.length := (List.getElem?_eq_some.1 h).1
        have := hnn j (by omega) hlt
        rw [h] at this
        exact absurd this (by simp)
      rw [if_neg hjne]
      exact e3
    · subst h1
      subst h2
      have hlt0 : i + 1 < cfg0.gbbs.length := by rw [← hl]; exact hcur_lt
      obtain ⟨b, hb, -, -, -, e4⟩ := hblk (i + 1) _ (List.getElem?_eq_getElem hlt0)
      rw [hcur] at hb
      have hbc : cur = b := Option.some.inj hb
      refine ⟨rfl, _, List.getElem?_eq_getElem hlt0, ?_⟩
      rw [gcfg_set_bb_getElem?, if_pos rfl, hcur, h3, hbc, e4 (le_refl _)]
      rfl
  · have := gbbs_count_op_set dw2cfi_opcode.DW_CFA_remember_state cfg.gbbs (i + 1) cur nb hcur
    unfold gcfg_count_op at hM ⊢
    unfold gcfg_set_bb
    simp only
    omega
  · have := gbbs_count_op_set dw2cfi_opcode.DW_CFA_restore_state cfg.gbbs (i + 1) cur nb hcur
    unfold gcfg_count_op at hR ⊢
    unfold gcfg_set_bb
    simp only
    omega
  · omega

/-- One turn of the loop of the backward pass returns and keeps the invariant,
when the snapshots are recorded. -/
theorem backward_flow_step_inv (t : scfi_target) (cfg0 cfg : gcfg) (rb : List (Option Nat))
    (i : Nat)
    (hsnap : ∀ b ∈ cfg0.gbbs, b.entry_state.isSome = true ∧ b.exit_state.isSome = true)
    (hi : i + 1 < cfg0.gbbs.length)
    (hinv : backward_inv cfg0 cfg rb (i + 1)) :
    ∃ r, backward_flow_step t (i + 1) cfg rb = Except.ok r ∧ backward_inv cfg0 r.1 r.2 i := by
  have hinv0 := hinv
  obtain ⟨hl, hrl, hblk, hnn, hpd, -⟩ := hinv
  have hcur0 : cfg0.gbbs[i + 1]? = some cfg0.gbbs[i + 1] := List.getElem?_eq_getElem hi
  have hprev0 : cfg0.gbbs[i]? = some cfg0.gbbs[i] :=
    List.getElem?_eq_getElem (Nat.lt_of_succ_lt hi)
  obtain ⟨cur, hcur, ce1, -, cne, -⟩ := hblk (i + 1) _ hcur0
  obtain ⟨prev, hprev, -, pe2, -, -⟩ := hblk i _ hprev0
  obtain ⟨en, hen⟩ : ∃ en, cur.entry_state = some en := by
    rw [ce1]
    exact Option.isSome_iff_exists.mp (hsnap _ (List.getElem?_mem hcur0)).1
  obtain ⟨ex, hex⟩ : ∃ ex, prev.exit_state = some ex := by
    rw [pe2]
    exact Option.isSome_iff_exists.mp (hsnap _ (List.getElem?_mem hprev0)).2
  have hstep : backward_flow_step t (i + 1) cfg rb =
      if cmp_scfi_state t ex en ≠ 0 then
        Except.ok (gcfg_set_bb cfg (i + 1) (bb_restore_state_first cur),
          rb.set (i + 1) (some (i + 1)))
      else
        Except.ok (gcfg_set_bb cfg (i + 1) (backward_flow_edges cur.out_gedges cur rb).1,
          (backward_flow_edges cur.out_gedges cur rb).2) := by
    unfold backward_flow_step
    simp only [hcur, Nat.add_sub_cancel, hprev, hex, hen]
  have hrbi : rb[i + 1]? = some none := hnn (i + 1) (le_refl _) (by rw [hrl]; exact hi)
  by_cases hc : cmp_scfi_state t ex en ≠ 0
  · rw [hstep, if_pos hc]
    refine ⟨_, rfl, ?_⟩
    obtain ⟨f1, f2, f3⟩ := bb_restore_state_first_fields cur
    have hm := insns_count_op_restore_state_first dw2cfi_opcode.DW_CFA_remember_state cur cne
    have hr := insns_count_op_restore_state_first dw2cfi_opcode.DW_CFA_restore_state cur cne
    rw [if_neg (by decide)] at hm
    simp only [if_true] at hr
    show backward_inv cfg0 (gcfg_set_bb cfg (i + 1) (bb_restore_state_first cur))
      (rb.set (i + 1) (some (i + 1))) i
    refine backward_inv_set_bb cfg0 cfg rb _ i cur _ 0 1 hinv0 hcur f1 f2 (f3 cne)
      (by simp) ?_ ?_ hm hr ?_
    · intro j hj hjn
      rw [List.getElem?_set_ne (by omega)]
      exact hjn
    · intro j b hj
      by_cases hji : j = i + 1
      · right
        subst hji
        rw [List.getElem?_set_self (by rw [hrl]; exact hi)] at hj
        simp only [Option.some.injEq] at hj
        exact ⟨rfl, hj.symm, rfl⟩
      · left
        rw [List.getElem?_set_ne (fun h => hji h.symm)] at hj
        exact hj
    · rw [restore_bbs_pending_set rb (i + 1) (i + 1) hrbi]
      omega
  · rw [hstep, if_neg hc]
    refine ⟨_, rfl, ?_⟩
    obtain ⟨a1, a2, a3, a4, a5, a6, a7, a8, a9⟩ :=
      backward_flow_edges_spec cur.out_gedges cur rb cne
    show backward_inv cfg0
      (gcfg_set_bb cfg (i + 1) (backward_flow_edges cur.out_gedges cur rb).1)
      (backward_flow_edges cur.out_gedges cur rb).2 i
    refine backward_inv_set_bb cfg0 cfg rb _ i cur _
      (insns_count_op dw2cfi_opcode.DW_CFA_remember_state
          (backward_flow_edges cur.out_gedges cur rb).1.insns
        - insns_count_op dw2cfi_opcode.DW_CFA_remember_state cur.insns) 0
      hinv0 hcur a1 a2 a3 a4 (fun j _ hjn => a7 j hjn) (fun j b hj => Or.inl (a8 j b hj))
      (by omega) (by omega) (by omega)

/-- The loop of the backward pass from the index I down returns and keeps the
invariant, when the snapshots are recorded. -/
theorem backward_flow_walk_inv (t : scfi_target) (cfg0 : gcfg)
    (hsnap : ∀ b ∈ cfg0.gbbs, b.entry_state.isSome = true ∧ b.exit_state.isSome = true)
    (i : Nat) (cfg : gcfg) (rb : List (Option Nat))
    (hi : i ≤ cfg0.gbbs.length - 1)
    (hinv : backward_inv cfg0 cfg rb i) :
    ∃ r, backward_flow_walk t i cfg rb = Except.ok r ∧ backward_inv cfg0 r.1 r.2 0 := by
  induction i generalizing cfg rb with
  | zero => exact ⟨(cfg, rb), rfl, hinv⟩
  | succ i ih =>
    obtain ⟨r1, hr1, hinv1⟩ :=
      backward_flow_step_inv t cfg0 cfg rb i hsnap (by omega) hinv
    obtain ⟨r2, hr2, hinv2⟩ := ih r1.1 r1.2 (by omega) hinv1
    refine ⟨r2, ?_, hinv2⟩
    simp only [backward_flow_walk, hr1]
    exact hr2

/-- The invariant of the backward pass holds at its start. -/
theorem backward_inv_init (cfg : gcfg) (hne : ∀ b ∈ cfg.gbbs, b.insns ≠ []) :
    backward_inv cfg cfg (List.replicate cfg.gbbs.length none) (cfg.gbbs.length - 1) := by
  refine ⟨rfl, by simp, ?_, ?_, ?_, 0, 0, rfl, rfl, ?_⟩
  · intro u b0 hu
    exact ⟨b0, hu, rfl, rfl, hne b0 (List.getElem?_mem hu), fun _ => rfl⟩
  · intro j _ hj
    simp only [List.length_replicate] at hj
    simp [List.getElem?_replicate, hj]
  · intro j b hj
    have hmem := List.getElem?_mem hj
    simp [List.mem_replicate] at hmem
  · rw [restore_bbs_pending_replicate]

/-- C19: on a graph of fewer than 2^31 blocks whose blocks have instructions
and recorded snapshots, the backward pass returns; its code is 1 when some
entry of `restore_bbs` still waits after the walk and 0 otherwise, every
waiting entry is a block that received a `DW_CFA_restore_state` on its first
instruction, and the number of `DW_CFA_restore_state` inserted is the number
of `DW_CFA_remember_state` inserted plus the number of waiting entries: the
two numbers are equal on success, and the second is at most the first in
every case. -/
theorem C19_backward_flow_pairing (t : scfi_target) (cfg : gcfg)
    (hlen : cfg.gbbs.length < 2147483648)
    (hsnap : ∀ b ∈ cfg.gbbs, b.entry_state.isSome = true ∧ b.exit_state.isSome = true)
    (hne : ∀ b ∈ cfg.gbbs, b.insns ≠ []) :
    ∃ (r : scfi_backward) (nrem nres : Nat),
      backward_flow_scfi_state t cfg = Except.ok r
      ∧ (r.ret = 0 ∨ r.ret = 1)
      ∧ (r.ret ≠ 0 ↔ ∃ j : Nat, r.restore_bbs[j]? = some (some j))
      ∧ (∀ (j b : Nat), r.restore_bbs[j]? = some (some b) →
          b = j ∧ ∃ b0 : gbb, cfg.gbbs[j]? = some b0
            ∧ r.cfg.gbbs[j]? = some (bb_restore_state_first b0))
      ∧ gcfg_count_op dw2cfi_opcode.DW_CFA_remember_state r.cfg
          = gcfg_count_op dw2cfi_opcode.DW_CFA_remember_state cfg + nrem
      ∧ gcfg_count_op dw2cfi_opcode.DW_CFA_restore_state r.cfg
          = gcfg_count_op dw2cfi_opcode.DW_CFA_restore_state cfg + nres
      ∧ nres = nrem + restore_bbs_pending r.restore_bbs
      ∧ (r.ret = 0 → nrem = nres)
      ∧ nrem ≤ nres := by
  obtain ⟨w, hw, hl, hrl, hblk, hnn, hpd, nrem, nres, hM, hR, hN⟩ :=
    backward_flow_walk_inv t cfg hsnap (cfg.gbbs.length - 1) cfg
      (List.replicate cfg.gbbs.length none) (le_refl _) (backward_inv_init cfg hne)
  have hrun : backward_flow_scfi_state t cfg = Except.ok
      { ret := if w.2.any Option.isSome then 1 else 0, cfg := w.1, restore_bbs := w.2 } := by
    unfold backward_flow_scfi_state
    rw [if_neg (by omega), hw]
  refine ⟨_, nrem, nres, hrun, ?_, ?_, hpd, hM, hR, hN, ?_, by omega⟩
  · show (if w.2.any Option.isSome then (1 : Int) else 0) = 0 ∨ _ = 1
    split_ifs
    · exact Or.inr rfl
    · exact Or.inl rfl
  · show (if w.2.any Option.isSome then (1 : Int) else 0) ≠ 0 ↔ ∃ j : Nat, w.2[j]? = some (some j)
    constructor
    · intro h
      have hany : w.2.any Option.isSome = true := by
        by_contra hn
        rw [if_neg hn] at h
        exact h rfl
      obtain ⟨j, b, hj⟩ := (restore_bbs_any_iff w.2).mp hany
      have hb := (hpd j b hj).1
      subst hb
      exact ⟨b, hj⟩
    · rintro ⟨j, hj⟩
      have hany : w.2.any Option.isSome = true := (restore_bbs_any_iff w.2).mpr ⟨j, j, hj⟩
      rw [if_pos hany]
      decide
  · intro h0
    have h0' : (if w.2.any Option.isSome then (1 : Int) else 0) = 0 := h0
    have hany : w.2.any Option.isSome = false := by
      cases hb : w.2.any Option.isSome with
      | false => rfl
      | true =>
        rw [hb] at h0'
        exact absurd h0' (by decide)
    have hp0 : restore_bbs_pending w.2 = 0 := (restore_bbs_pending_eq_zero_iff w.2).mpr hany
    have hN' : nres = nrem + restore_bbs_pending w.2 := hN
    omega

/-- Witness of C19: the graph of scenario B behind an entry block, after the
forward pass; the backward pass returns 0 with one `DW_CFA_remember_state`, on
the conditional branch of block 1, and one `DW_CFA_restore_state`, on the
first instruction of block 3. -/
theorem C19_witness :
    (∃ (r : scfi_backward) (nrem nres : Nat),
      backward_flow_scfi_state example_target (forward_flowed example_cfg_reconverge)
        = Except.ok r
      ∧ (r.ret = 0 ∨ r.ret = 1)
      ∧ (r.ret ≠ 0 ↔ ∃ j : Nat, r.restore_bbs[j]? = some (some j))
      ∧ (∀ (j b : Nat), r.restore_bbs[j]? = some (some b) →
          b = j ∧ ∃ b0 : gbb, (forward_flowed example_cfg_reconverge).gbbs[j]? = some b0
            ∧ r.cfg.gbbs[j]? = some (bb_restore_state_first b0))
      ∧ gcfg_count_op dw2cfi_opcode.DW_CFA_remember_state r.cfg
          = gcfg_count_op dw2cfi_opcode.DW_CFA_remember_state
              (forward_flowed example_cfg_reconverge) + nrem
      ∧ gcfg_count_op dw2cfi_opcode.DW_CFA_restore_state r.cfg
          = gcfg_count_op dw2cfi_opcode.DW_CFA_restore_state
              (forward_flowed example_cfg_reconverge) + nres
      ∧ nres = nrem + restore_bbs_pending r.restore_bbs
      ∧ (r.ret = 0 → nrem = nres)
      ∧ nrem ≤ nres)
    ∧ backward_ret (backward_flow_scfi_state example_target
        (forward_flowed example_cfg_reconverge)) = some 0
    ∧ backward_op_counts dw2cfi_opcode.DW_CFA_remember_state
        (backward_flow_scfi_state example_target (forward_flowed example_cfg_reconverge))
        = some [[0], [0, 0, 0, 0, 1], [0, 0, 0, 0, 0], [0, 0, 0, 0], [0]]
    ∧ backward_op_counts dw2cfi_opcode.DW_CFA_restore_state
        (backward_flow_scfi_state example_target (forward_flowed example_cfg_reconverge))
        = some [[0], [0, 0, 0, 0, 0], [0, 0, 0, 0, 0], [1, 0, 0, 0], [0]] :=
  ⟨C19_backward_flow_pairing example_target (forward_flowed example_cfg_reconverge)
      (by decide) (by decide) (by decide),
    by decide, by decide, by decide⟩


/-! ### The forward pass appends no pairing operation -/

theorem gen_scfi_ops_restore_ops (t : scfi_target) (g : ginsn) (s : scfi_state)
    (reg : Nat) (x : Int) (r : scfi_exec) (op : dw2cfi_opcode)
    (hop : op = dw2cfi_opcode.DW_CFA_remember_state ∨ op = dw2cfi_opcode.DW_CFA_restore_state)
    (h : gen_scfi_ops_restore t g s reg x = Except.ok r) :
    ginsn_count_op op r.ginsn = ginsn_count_op op g := by
  unfold gen_scfi_ops_restore at h
  split at h
  · exact absurd h (by simp)
  · split_ifs at h
    · split at h
      · exact absurd h (by simp)
      · simp only [Except.ok.injEq] at h
        subst h
        rcases hop with rfl | rfl <;>
          simp [scfi_op_add_cfa_restore, ginsn_count_op_append, init_scfi_op]
    · simp only [Except.ok.injEq] at h
      subst h
      rfl

theorem gen_scfi_ops_save_ops (t : scfi_target) (g : ginsn) (s : scfi_state)
    (reg : Nat) (x : Int) (r : scfi_exec) (op : dw2cfi_opcode)
    (hop : op = dw2cfi_opcode.DW_CFA_remember_state ∨ op = dw2cfi_opcode.DW_CFA_restore_state)
    (h : gen_scfi_ops_save t g s reg x = Except.ok r) :
    ginsn_count_op op r.ginsn = ginsn_count_op op g := by
  unfold gen_scfi_ops_save at h
  split at h
  · exact absurd h (by simp)
  · split at h
    · exact absurd h (by simp)
    · rename_i g1 hg1
      simp only [Except.ok.injEq] at h
      subst h
      unfold scfi_op_add_cfi_offset at hg1
      split_ifs at hg1
      simp only [Except.ok.injEq] at hg1
      subst hg1
      rcases hop with rfl | rfl <;> simp [ginsn_count_op_append, init_scfi_op]

theorem scfi_op_add_def_cfa_reg_ops (t : scfi_target) (g : ginsn) (s : scfi_state)
    (reg : Nat) (op : dw2cfi_opcode)
    (hop : op = dw2cfi_opcode.DW_CFA_remember_state ∨ op = dw2cfi_opcode.DW_CFA_restore_state) :
    ginsn_count_op op (scfi_op_add_def_cfa_reg t s g reg).2 = ginsn_count_op op g := by
  rcases hop with rfl | rfl <;>
    simp [scfi_op_add_def_cfa_reg, ginsn_count_op_append, init_scfi_op]

theorem gen_scfi_ops_switch_ops (t : scfi_target) (g : ginsn) (s : scfi_state)
    (r : scfi_exec) (op : dw2cfi_opcode)
    (hop : op = dw2cfi_opcode.DW_CFA_remember_state ∨ op = dw2cfi_opcode.DW_CFA_restore_state)
    (h : gen_scfi_ops_switch t g s = Except.ok r) :
    ginsn_count_op op r.ginsn = ginsn_count_op op g := by
  unfold gen_scfi_ops_switch at h
  split at h
  · split at h
    · unfold gen_scfi_ops_mov at h
      split_ifs at h <;>
        first
        | exact gen_scfi_ops_restore_ops _ _ _ _ _ _ _ hop h
        | (simp only [Except.ok.injEq] at h
           subst h
           first
           | rfl
           | exact scfi_op_add_def_cfa_reg_ops _ _ _ _ _ hop)
    · unfold gen_scfi_ops_sub at h
      dsimp only at h
      split_ifs at h <;>
        (simp only [Except.ok.injEq] at h
         subst h
         first
         | rfl
         | (rcases hop with rfl | rfl <;>
              simp [scfi_op_add_cfa_offset_dec, ginsn_count_op_append, init_scfi_op]))
    · unfold gen_scfi_ops_add at h
      dsimp only at h
      split_ifs at h <;>
        (simp only [Except.ok.injEq] at h
         subst h
         first
         | rfl
         | (rcases hop with rfl | rfl <;>
              simp [scfi_op_add_cfa_offset_inc, ginsn_count_op_append, init_scfi_op]))
    · unfold gen_scfi_ops_lds at h
      dsimp only at h
      split_ifs at h <;>
        first
        | exact (gen_scfi_ops_restore_ops _ _ _ _ _ _ _ hop h).trans
            (by first | rfl | exact scfi_op_add_def_cfa_reg_ops _ _ _ _ _ hop)
        | (simp only [Except.ok.injEq] at h
           subst h
           first
           | rfl
           | exact scfi_op_add_def_cfa_reg_ops _ _ _ _ _ hop)
    · simp only [Except.ok.injEq] at h
      subst h
      rfl
  · unfold gen_scfi_ops_dst_stack at h
    split_ifs at h <;>
      first
      | exact gen_scfi_ops_save_ops _ _ _ _ _ _ _ hop h
      | (simp only [Except.ok.injEq] at h
         subst h
         rfl)
  · unfold gen_scfi_ops_dst_indirect at h
    split_ifs at h <;>
      first
      | exact gen_scfi_ops_save_ops _ _ _ _ _ _ _ hop h
      | (simp only [Except.ok.injEq] at h
         subst h
         rfl)
  · simp only [Except.ok.injEq] at h
    subst h
    rfl

/-- The executor appends no `DW_CFA_remember_state` and no
`DW_CFA_restore_state`. -/
theorem gen_scfi_ops_ops (t : scfi_target) (g : ginsn) (s : scfi_state)
    (r : scfi_exec) (op : dw2cfi_opcode)
    (hop : op = dw2cfi_opcode.DW_CFA_remember_state ∨ op = dw2cfi_opcode.DW_CFA_restore_state)
    (h : gen_scfi_ops t g s = Except.ok r) :
    ginsn_count_op op r.ginsn = ginsn_count_op op g := by
  unfold gen_scfi_ops at h
  split_ifs at h
  · split at h
    · exact absurd h (by simp)
    · rename_i r1 hr1
      simp only [Except.ok.injEq] at h
      subst h
      unfold scfi_op_add_def_cfa at hr1
      split_ifs at hr1
      simp only [Except.ok.injEq] at hr1
      subst hr1
      rcases hop with rfl | rfl <;> simp [ginsn_count_op_append, init_scfi_op]
  · split at h
    · exact absurd h (by simp)
    · split_ifs at h
      · simp only [Except.ok.injEq] at h
        subst h
        rfl
      · simp only [Except.ok.injEq] at h
        subst h
        rfl
      · exact gen_scfi_ops_switch_ops t g _ r op hop h

/-- The instruction loop over a block appends no `DW_CFA_remember_state` and
no `DW_CFA_restore_state` to any instruction. -/
theorem bb_gen_scfi_ops_ops (t : scfi_target) (insns : List ginsn) (s : scfi_state)
    (r : scfi_bb_exec) (op : dw2cfi_opcode)
    (hop : op = dw2cfi_opcode.DW_CFA_remember_state ∨ op = dw2cfi_opcode.DW_CFA_restore_state)
    (h : bb_gen_scfi_ops t insns s = Except.ok r) :
    r.insns.map (ginsn_count_op op) = insns.map (ginsn_count_op op) := by
  induction insns generalizing s r with
  | nil =>
    simp only [bb_gen_scfi_ops, Except.ok.injEq] at h
    subst h
    rfl
  | cons g rest ih =>
    simp only [bb_gen_scfi_ops] at h
    split at h
    · exact absurd h (by simp)
    · rename_i r1 hr1
      have h1 := gen_scfi_ops_ops t g s r1 op hop hr1
      split_ifs at h
      · simp only [Except.ok.injEq] at h
        subst h
        simp [h1]
      · split at h
        · exact absurd h (by simp)
        · rename_i r2 hr2
          simp only [Except.ok.injEq] at h
          subst h
          simp [h1, ih _ _ hr2]

theorem gcfg_op_counts_set_bb (op : dw2cfi_opcode) (cfg : gcfg) (b : Nat) (bb nb : gbb)
    (hb : cfg.gbbs[b]? = some bb)
    (hi : nb.insns.map (ginsn_count_op op) = bb.insns.map (ginsn_count_op op)) :
    gcfg_op_counts op (gcfg_set_bb cfg b nb) = gcfg_op_counts op cfg := by
  unfold gcfg_op_counts
  apply List.ext_getElem?
  intro u
  rw [List.getElem?_map, List.getElem?_map, gcfg_set_bb_getElem?]
  by_cases hu : u = b
  · rw [if_pos hu, hu, hb]
    simp [hi]
  · rw [if_neg hu]

theorem gcfg_op_counts_mark_edge (op : dw2cfi_opcode) (cfg : gcfg) (p k c : Nat) :
    gcfg_op_counts op (gcfg_mark_edge_visited cfg p k c) = gcfg_op_counts op cfg := by
  unfold gcfg_mark_edge_visited
  cases hp : cfg.gbbs[p]? with
  | none => rfl
  | some g => exact gcfg_op_counts_set_bb op cfg p g _ hp rfl

theorem forward_flow_edge_ops (t : scfi_target)
    (recur : gcfg → Nat → scfi_state → Except scfi_fault scfi_flow)
    (prev k : Nat) (cfg : gcfg) (s : scfi_state) (r : scfi_flow) (op : dw2cfi_opcode)
    (hrec : ∀ c b st r, recur c b st = Except.ok r →
      gcfg_op_counts op r.cfg = gcfg_op_counts op c)
    (h : forward_flow_edge t recur prev k cfg s = Except.ok r) :
    gcfg_op_counts op r.cfg = gcfg_op_counts op cfg := by
  unfold forward_flow_edge at h
  split at h
  · exact absurd h (by simp)
  · split at h
    · exact absurd h (by simp)
    · split at h
      · exact absurd h (by simp)
      · split at h
        · exact absurd h (by simp)
        · split_ifs at h with hc hev
          · simp only [Except.ok.injEq] at h
            subst h
            exact gcfg_op_counts_mark_edge op cfg prev k 0
          · split at h
            · exact absurd h (by simp)
            · split at h
              · exact absurd h (by simp)
              · rename_i r1 hr1
                have h1 := (hrec _ _ _ _ hr1).trans (gcfg_op_counts_mark_edge op cfg prev k 1)
                split_ifs at h with hret
                · simp only [Except.ok.injEq] at h
                  subst h
                  exact (gcfg_op_counts_mark_edge op r1.cfg prev k 0).trans h1
                · simp only [Except.ok.injEq] at h
                  subst h
                  exact h1
          · simp only [Except.ok.injEq] at h
            subst h
            rfl

theorem forward_flow_edges_ops (t : scfi_target)
    (recur : gcfg → Nat → scfi_state → Except scfi_fault scfi_flow) (prev : Nat)
    (op : dw2cfi_opcode)
    (hrec : ∀ c b st r, recur c b st = Except.ok r →
      gcfg_op_counts op r.cfg = gcfg_op_counts op c)
    (n k : Nat) (cfg : gcfg) (s : scfi_state) (r : scfi_flow)
    (h : forward_flow_edges t recur prev n k cfg s = Except.ok r) :
    gcfg_op_counts op r.cfg = gcfg_op_counts op cfg := by
  induction n generalizing k cfg s with
  | zero =>
    simp only [forward_flow_edges, Except.ok.injEq] at h
    subst h
    rfl
  | succ n ih =>
    simp only [forward_flow_edges] at h
    split at h
    · exact absurd h (by simp)
    · rename_i r1 hr1
      have h1 := forward_flow_edge_ops t recur prev k cfg s r1 op hrec hr1
      split_ifs at h with hret
      · simp only [Except.ok.injEq] at h
        subst h
        exact h1
      · exact (ih (k + 1) r1.cfg r1.state h).trans h1

/-- The forward pass appends no `DW_CFA_remember_state` and no
`DW_CFA_restore_state` to any instruction, whatever it returns. -/
theorem forward_flow_scfi_state_ops (t : scfi_target) (fuel : Nat) (cfg : gcfg) (b : Nat)
    (s : scfi_state) (r : scfi_flow) (op : dw2cfi_opcode)
    (hop : op = dw2cfi_opcode.DW_CFA_remember_state ∨ op = dw2cfi_opcode.DW_CFA_restore_state)
    (h : forward_flow_scfi_state t fuel cfg b s = Except.ok r) :
    gcfg_op_counts op r.cfg = gcfg_op_counts op cfg := by
  induction fuel generalizing cfg b s r with
  | zero => simp [forward_flow_scfi_state] at h
  | succ fuel ih =>
    simp only [forward_flow_scfi_state] at h
    split at h
    · exact absurd h (by simp)
    · rename_i bb hbb
      split_ifs at h with hvis
      · split at h
        · exact absurd h (by simp)
        · simp only [Except.ok.injEq] at h
          subst h
          rfl
      · split at h
        · exact absurd h (by simp)
        · rename_i rb hrb
          have hi := bb_gen_scfi_ops_ops t bb.insns s rb op hop hrb
          split_ifs at h with hret
          · simp only [Except.ok.injEq] at h
            subst h
            exact gcfg_op_counts_set_bb op cfg b bb _ hbb hi
          · exact (forward_flow_edges_ops t _ b op (fun c b st r hr => ih c b st r hr)
              _ _ _ _ r h).trans (gcfg_op_counts_set_bb op cfg b bb _ hbb hi)

/-- C20: `scfi_synthesize_dw2cfi` runs the forward pass from a state that is
traceable, with stack size 0 and every register, the CFA included, undefined;
it returns success exactly when the forward pass and then the backward pass on
the graph it left both return success; and when the forward pass returns
failure it returns that code with the graph of the forward pass, the backward
pass is not run, and the number of `DW_CFA_remember_state` and of
`DW_CFA_restore_state` on every instruction is what it was. -/
theorem C20_scfi_synthesize_dw2cfi (t : scfi_target) (fuel : Nat) (cfg : gcfg) (root : Nat) :
    (init_state.traceable_p = true ∧ init_state.stack_size = 0
      ∧ ∀ i : Nat, (init_state.regs i).state = cfi_reglocstate.CFI_UNDEFINED)
    ∧ (∀ r : scfi_synth, scfi_synthesize_dw2cfi t fuel cfg root = Except.ok r →
        ∃ f : scfi_flow, forward_flow_scfi_state t fuel cfg root init_state = Except.ok f)
    ∧ ((∃ r : scfi_synth, scfi_synthesize_dw2cfi t fuel cfg root = Except.ok r ∧ r.ret = 0)
        ↔ ∃ (f : scfi_flow) (b : scfi_backward),
            forward_flow_scfi_state t fuel cfg root init_state = Except.ok f ∧ f.ret = 0
            ∧ backward_flow_scfi_state t f.cfg = Except.ok b ∧ b.ret = 0)
    ∧ (∀ f : scfi_flow, forward_flow_scfi_state t fuel cfg root init_state = Except.ok f →
        f.ret ≠ 0 →
        scfi_synthesize_dw2cfi t fuel cfg root = Except.ok { ret := f.ret, cfg := f.cfg }
        ∧ gcfg_op_counts dw2cfi_opcode.DW_CFA_remember_state f.cfg
            = gcfg_op_counts dw2cfi_opcode.DW_CFA_remember_state cfg
        ∧ gcfg_op_counts dw2cfi_opcode.DW_CFA_restore_state f.cfg
            = gcfg_op_counts dw2cfi_opcode.DW_CFA_restore_state cfg) := by
  refine ⟨⟨rfl, rfl, fun _ => rfl⟩, ?_, ?_, ?_⟩
  · intro r hr
    unfold scfi_synthesize_dw2cfi at hr
    cases hf : forward_flow_scfi_state t fuel cfg root init_state with
    | error e => rw [hf] at hr; exact absurd hr (by simp)
    | ok f => exact ⟨f, rfl⟩
  · constructor
    · rintro ⟨r, hr, h0⟩
      unfold scfi_synthesize_dw2cfi at hr
      cases hf : forward_flow_scfi_state t fuel cfg root init_state with
      | error e => rw [hf] at hr; exact absurd hr (by simp)
      | ok f =>
        rw [hf] at hr
        simp only at hr
        by_cases hret : f.ret ≠ 0
        · rw [if_pos hret] at hr
          simp only [Except.ok.injEq] at hr
          subst hr
          exact absurd h0 hret
        · rw [if_neg hret] at hr
          cases hb : backward_flow_scfi_state t f.cfg with
          | error e => rw [hb] at hr; exact absurd hr (by simp)
          | ok b =>
            rw [hb] at hr
            simp only [Except.ok.injEq] at hr
            subst hr
            exact ⟨f, b, rfl, not_not.mp hret, hb, h0⟩
    · rintro ⟨f, b, hf, hf0, hb, hb0⟩
      refine ⟨{ ret := b.ret, cfg := b.cfg }, ?_, hb0⟩
      unfold scfi_synthesize_dw2cfi
      rw [hf]
      simp only
      rw [if_neg (not_not.mpr hf0), hb]
  · intro f hf hret
    refine ⟨?_, forward_flow_scfi_state_ops t fuel cfg root init_state f _ (Or.inl rfl) hf,
      forward_flow_scfi_state_ops t fuel cfg root init_state f _ (Or.inr rfl) hf⟩
    unfold scfi_synthesize_dw2cfi
    rw [hf]
    simp only
    rw [if_pos hret]

/-- Witness of C20: on the sample target the orchestrator returns 0 on the
graph of scenario B behind an entry block; on the graph with a shared
successor the forward pass returns 1, the orchestrator returns that code with
the graph of the forward pass, and no instruction carries a pairing
operation. -/
theorem C20_witness :
    synth_ret (scfi_synthesize_dw2cfi example_target 6 example_cfg_reconverge 0) = some 0
    ∧ ∃ f : scfi_flow,
        forward_flow_scfi_state example_target 4 example_cfg_shared_successor 0 init_state
          = Except.ok f
        ∧ f.ret = 1
        ∧ scfi_synthesize_dw2cfi example_target 4 example_cfg_shared_successor 0
          = Except.ok { ret := f.ret, cfg := f.cfg }
        ∧ gcfg_op_counts dw2cfi_opcode.DW_CFA_remember_state f.cfg = [[0], [], [0]]
        ∧ gcfg_op_counts dw2cfi_opcode.DW_CFA_restore_state f.cfg = [[0], [], [0]] := by
  refine ⟨by decide, ?_⟩
  have hret : flow_ret (forward_flow_scfi_state example_target 4 example_cfg_shared_successor 0
      init_state) = some 1 := by decide
  cases hf : forward_flow_scfi_state example_target 4 example_cfg_shared_successor 0
      init_state with
  | error e =>
    rw [hf] at hret
    exact absurd hret (by simp [flow_ret])
  | ok f =>
    rw [hf] at hret
    have h1 : f.ret = 1 := by simpa [flow_ret] using hret
    obtain ⟨hs, hm, hr⟩ :=
      (C20_scfi_synthesize_dw2cfi example_target 4 example_cfg_shared_successor 0).2.2.2 f hf
        (by rw [h1]; decide)
    exact ⟨f, rfl, h1, hs, hm, hr⟩


/-! ### Idempotence of the forward pass -/

/-- After a call of the forward flow that returns, the block it was called on
is visited and has an entry snapshot, which is the state of the call when the
block was not visited before. -/
theorem forward_flow_scfi_state_root_visited (t : scfi_target) (fuel : Nat) (cfg : gcfg)
    (b : Nat) (s : scfi_state) (r : scfi_flow)
    (h : forward_flow_scfi_state t fuel cfg b s = Except.ok r) :
    ∃ (d : gbb) (en : scfi_state), r.cfg.gbbs[b]? = some d ∧ d.visited = true
      ∧ d.entry_state = some en
      ∧ (∀ d0 : gbb, cfg.gbbs[b]? = some d0 → d0.visited = false → en = s) := by
  cases fuel with
  | zero => simp [forward_flow_scfi_state] at h
  | succ fuel =>
    simp only [forward_flow_scfi_state] at h
    split at h
    · exact absurd h (by simp)
    · rename_i bb hbb
      split_ifs at h with hvis
      · split at h
        · exact absurd h (by simp)
        · rename_i en hen
          simp only [Except.ok.injEq] at h
          subst h
          refine ⟨bb, en, hbb, hvis, hen, ?_⟩
          intro d0 hd0 hun
          rw [hbb] at hd0
          cases hd0
          rw [hvis] at hun
          exact absurd hun (by simp)
      · split at h
        · exact absurd h (by simp)
        · rename_i rb hrb
          split_ifs at h with hret
          · simp only [Except.ok.injEq] at h
            subst h
            refine ⟨{ bb with visited := true, entry_state := some s, insns := rb.insns,
                              executions := bb.executions + 1 }, s, ?_, rfl, rfl,
              fun _ _ _ => rfl⟩
            rw [gcfg_set_bb_getElem?, if_pos rfl, hbb]
            rfl
          · have hcfg2 : ∀ pb : gbb,
                (gcfg_set_bb cfg b
                  { bb with visited := true, entry_state := some s, insns := rb.insns,
                            exit_state := some rb.state,
                            executions := bb.executions + 1 }).gbbs[b]? = some pb →
                pb.visited = true := by
              intro pb hpb
              rw [gcfg_set_bb_getElem?] at hpb
              simp [hbb] at hpb
              subst hpb
              rfl
            obtain ⟨hf, -⟩ := forward_flow_edges_frame t _ b
              (fun c b st r hr => forward_flow_scfi_state_frame t fuel c b st r hr)
              _ _ _ _ r hcfg2 h
            obtain ⟨g', hg', he', -⟩ := hf.2 b _
              (by rw [gcfg_set_bb_getElem?, if_pos rfl, hbb]; rfl)
            obtain ⟨-, e2, e3, -⟩ := he' rfl
            exact ⟨g', s, hg', e2, e3, fun _ _ _ => rfl⟩

/-- C21: after a run of the forward pass that returns, a second run on the
graph it left, from the same block and the same state, returns with the graph
unchanged: every entry and exit snapshot and every list of operations is what
it was after the first run.  The second run returns 0 when the block was not
visited before the first run. -/
theorem C21_forward_flow_idempotent (t : scfi_target) (fuel : Nat) (cfg : gcfg)
    (root : Nat) (s : scfi_state) (r : scfi_flow)
    (h : forward_flow_scfi_state t fuel cfg root s = Except.ok r)
    (fuel2 : Nat) (hfuel : 0 < fuel2) :
    ∃ r2 : scfi_flow, forward_flow_scfi_state t fuel2 r.cfg root s = Except.ok r2
      ∧ r2.cfg = r.cfg ∧ r2.state = s
      ∧ (∀ d0 : gbb, cfg.gbbs[root]? = some d0 → d0.visited = false → r2.ret = 0) := by
  obtain ⟨d, en, hd, hv, hen, hs⟩ := forward_flow_scfi_state_root_visited t fuel cfg root s r h
  obtain ⟨f, rfl⟩ : ∃ f, fuel2 = f + 1 := ⟨fuel2 - 1, by omega⟩
  refine ⟨{ ret := cmp_scfi_state t s en, cfg := r.cfg, state := s }, ?_, rfl, rfl, ?_⟩
  · simp only [forward_flow_scfi_state, hd, hv, hen, if_true]
  · intro d0 hd0 hun
    show cmp_scfi_state t s en = 0
    rw [hs d0 hd0 hun]
    exact cmp_scfi_state_self t s

/-- Witness of C21: the diamond on the sample target; the second run, with
the bound 1, returns 0 and leaves the graph of the first run. -/
theorem C21_witness :
    ∃ r : scfi_flow,
      forward_flow_scfi_state example_target 5 example_cfg_diamond 0 init_state = Except.ok r
      ∧ ∃ r2 : scfi_flow,
          forward_flow_scfi_state example_target 1 r.cfg 0 init_state = Except.ok r2
          ∧ r2.cfg = r.cfg ∧ r2.state = init_state ∧ r2.ret = 0 := by
  have hret : returns_normally (forward_flow_scfi_state example_target 5 example_cfg_diamond 0
      init_state) = true := by decide
  cases hr : forward_flow_scfi_state example_target 5 example_cfg_diamond 0 init_state with
  | error f =>
    rw [hr] at hret
    exact absurd hret (by simp [returns_normally])
  | ok r =>
    obtain ⟨r2, h2, hc, hs, h0⟩ :=
      C21_forward_flow_idempotent example_target 5 example_cfg_diamond 0 init_state r hr 1
        (by decide)
    exact ⟨r, rfl, r2, h2, hc, hs, h0 _ rfl rfl⟩


/-! ### Placement of the pairing operations by the backward pass -/

/-- The array `restore_bbs` after the loop over the edges of a block: its
length is kept, empty entries stay empty, and every waiting entry was
waiting. -/
theorem backward_flow_edges_rb (es : List gedge) (cur : gbb) (rb : List (Option Nat)) :
    (backward_flow_edges es cur rb).2.length = rb.length
    ∧ (∀ j : Nat, rb[j]? = some none → (backward_flow_edges es cur rb).2[j]? = some none)
    ∧ (∀ (j b : Nat), (backward_flow_edges es cur rb).2[j]? = some (some b) →
        rb[j]? = some (some b)) := by
  induction es generalizing cur rb with
  | nil => exact ⟨rfl, fun _ h => h, fun _ _ h => h⟩
  | cons e es ih =>
    simp only [backward_flow_edges]
    cases hc : restore_bbs_clear rb e.dst_bb with
    | none => exact ih cur rb
    | some rb1 =>
      obtain ⟨c1, -, c3, c4⟩ := restore_bbs_clear_spec rb e.dst_bb rb1 hc
      obtain ⟨a1, a2, a3⟩ := ih (bb_remember_state_last cur) rb1
      exact ⟨a1.trans c1, fun j hj => a2 j (c3 j hj), fun j b hj => c4 j b (a3 j b hj)⟩

/-- The loop over the edges of a block keeps its snapshots and its edges. -/
theorem backward_flow_edges_fields (es : List gedge) (cur : gbb) (rb : List (Option Nat)) :
    (backward_flow_edges es cur rb).1.entry_state = cur.entry_state
    ∧ (backward_flow_edges es cur rb).1.exit_state = cur.exit_state
    ∧ (backward_flow_edges es cur rb).1.out_gedges = cur.out_gedges := by
  induction es generalizing cur rb with
  | nil => exact ⟨rfl, rfl, rfl⟩
  | cons e es ih =>
    simp only [backward_flow_edges]
    cases hc : restore_bbs_clear rb e.dst_bb with
    | none => exact ih cur rb
    | some rb1 => exact ih (bb_remember_state_last cur) rb1

theorem insns_remember_state_last_counts (op : dw2cfi_opcode) (l : List ginsn)
    (hop : op ≠ dw2cfi_opcode.DW_CFA_remember_state) :
    (insns_remember_state_last l).map (ginsn_count_op op) = l.map (ginsn_count_op op) := by
  induction l with
  | nil => rfl
  | cons g l ih =>
    cases l with
    | nil =>
      simp only [insns_remember_state_last, List.map_cons, List.map_nil,
        scfi_op_add_cfi_remember_state, ginsn_count_op_append, init_scfi_op]
      rw [if_neg (fun h => hop h.symm)]
      rfl
    | cons g1 l =>
      simp only [insns_remember_state_last, List.map_cons] at ih ⊢
      rw [ih]

/-- The loop over the edges of a block appends no `DW_CFA_restore_state`. -/
theorem backward_flow_edges_restore_counts (es : List gedge) (cur : gbb)
    (rb : List (Option Nat)) :
    (backward_flow_edges es cur rb).1.insns.map
        (ginsn_count_op dw2cfi_opcode.DW_CFA_restore_state)
      = cur.insns.map (ginsn_count_op dw2cfi_opcode.DW_CFA_restore_state) := by
  induction es generalizing cur rb with
  | nil => rfl
  | cons e es ih =>
    simp only [backward_flow_edges]
    cases hc : restore_bbs_clear rb e.dst_bb with
    | none => exact ih cur rb
    | some rb1 =>
      exact (ih (bb_remember_state_last cur) rb1).trans
        (insns_remember_state_last_counts _ cur.insns (by decide))

/-- The `DW_CFA_restore_state` on the first instruction of a block, counted
per instruction. -/
theorem bb_restore_state_first_counts (b : gbb) :
    (bb_restore_state_first b).insns.map (ginsn_count_op dw2cfi_opcode.DW_CFA_restore_state)
      = counts_bump_first
          (b.insns.map (ginsn_count_op dw2cfi_opcode.DW_CFA_restore_state)) := by
  unfold bb_restore_state_first
  cases hb : b.insns with
  | nil => simp [hb, counts_bump_first]
  | cons g l =>
    simp [counts_bump_first, scfi_op_add_cfi_restore_state, ginsn_count_op_append,
      init_scfi_op]

/-- The turn of the backward pass at the index I + 1, on a graph whose blocks
up to that index are those of the start: it returns, its outcome is
`backward_flow_turn`, and the frame holds for the index I. -/
theorem backward_flow_step_frame (t : scfi_target) (cfg0 cfg : gcfg)
    (rb : List (Option Nat)) (i : Nat) (cur0 : gbb)
    (hsnap : ∀ b ∈ cfg0.gbbs, b.entry_state.isSome = true ∧ b.exit_state.isSome = true)
    (hcur0 : cfg0.gbbs[i + 1]? = some cur0)
    (hfr : backward_frame cfg0 cfg rb (i + 1)) :
    backward_flow_step t (i + 1) cfg rb
        = Except.ok (backward_flow_turn t cfg0 cfg rb (i + 1) cur0)
    ∧ backward_frame cfg0 (backward_flow_turn t cfg0 cfg rb (i + 1) cur0).1
        (backward_flow_turn t cfg0 cfg rb (i + 1) cur0).2 i := by
  obtain ⟨hl, hrl, hblk, hnn⟩ := hfr
  have hi : i + 1 < cfg0.gbbs.length := (List.getElem?_eq_some.1 hcur0).1
  have hprev0 : cfg0.gbbs[i]? = some cfg0.gbbs[i] :=
    List.getElem?_eq_getElem (Nat.lt_of_succ_lt hi)
  have hcur : cfg.gbbs[i + 1]? = some cur0 := (hblk (i + 1) (le_refl _)).trans hcur0
  have hprev : cfg.gbbs[i]? = some cfg0.gbbs[i] := (hblk i (Nat.le_succ i)).trans hprev0
  obtain ⟨en, hen⟩ : ∃ en, cur0.entry_state = some en :=
    Option.isSome_iff_exists.mp (hsnap _ (List.getElem?_mem hcur0)).1
  obtain ⟨ex, hex⟩ : ∃ ex, (cfg0.gbbs[i]).exit_state = some ex :=
    Option.isSome_iff_exists.mp (hsnap _ (List.getElem?_mem hprev0)).2
  have hcand : restore_state_candidate t cfg0 (i + 1) = decide (cmp_scfi_state t ex en ≠ 0) := by
    unfold restore_state_candidate
    simp only [Nat.add_sub_cancel, hprev0, hcur0, hex, hen]
    simp
  have hstep : backward_flow_step t (i + 1) cfg rb
      = Except.ok (backward_flow_turn t cfg0 cfg rb (i + 1) cur0) := by
    unfold backward_flow_step backward_flow_turn
    simp only [hcur, Nat.add_sub_cancel, hprev, hex, hen, hcand, decide_eq_true_eq]
    split_ifs <;> rfl
  refine ⟨hstep, ?_⟩
  have hlen1 : (backward_flow_turn t cfg0 cfg rb (i + 1) cur0).1.gbbs.length
      = cfg0.gbbs.length := by
    unfold backward_flow_turn
    split_ifs <;> simp [gcfg_set_bb, hl]
  have hblk1 : ∀ u : Nat, u ≤ i →
      (backward_flow_turn t cfg0 cfg rb (i + 1) cur0).1.gbbs[u]? = cfg0.gbbs[u]? := by
    intro u hu
    have hne : u ≠ i + 1 := by omega
    unfold backward_flow_turn
    split_ifs
    · show (gcfg_set_bb cfg (i + 1) _).gbbs[u]? = _
      rw [gcfg_set_bb_getElem?, if_neg hne]
      exact hblk u (by omega)
    · show (gcfg_set_bb cfg (i + 1) _).gbbs[u]? = _
      rw [gcfg_set_bb_getElem?, if_neg hne]
      exact hblk u (by omega)
  obtain ⟨a1, a2, -⟩ := backward_flow_edges_rb cur0.out_gedges cur0 rb
  have hrl1 : (backward_flow_turn t cfg0 cfg rb (i + 1) cur0).2.length
      = cfg0.gbbs.length := by
    unfold backward_flow_turn
    split_ifs
    · show (rb.set (i + 1) (some (i + 1))).length = _
      rw [List.length_set]; exact hrl
    · show (backward_flow_edges cur0.out_gedges cur0 rb).2.length = _
      rw [a1]; exact hrl
  have hnn1 : ∀ j : Nat, j ≤ i →
      j < (backward_flow_turn t cfg0 cfg rb (i + 1) cur0).2.length →
      (backward_flow_turn t cfg0 cfg rb (i + 1) cur0).2[j]? = some none := by
    intro j hj hjl
    rw [hrl1, ← hrl] at hjl
    have hjn := hnn j (by omega) hjl
    unfold backward_flow_turn
    split_ifs
    · show (rb.set (i + 1) (some (i + 1)))[j]? = _
      rw [List.getElem?_set_ne (by omega)]
      exact hjn
    · exact a2 j hjn
  exact ⟨hlen1, hrl1, hblk1, hnn1⟩

/-- The loop of the backward pass from the index I down, on a graph whose
blocks up to I are those of the start: it returns; every block above the index
0 ends with its `DW_CFA_restore_state` counts raised on the first instruction
when it is a reconvergence point and unchanged otherwise; every entry that
waits at the end is a reconvergence point at its own index. -/
theorem backward_flow_walk_restore (t : scfi_target) (cfg0 : gcfg)
    (hsnap : ∀ b ∈ cfg0.gbbs, b.entry_state.isSome = true ∧ b.exit_state.isSome = true)
    (i : Nat) (cfg : gcfg) (rb : List (Option Nat))
    (hi : i ≤ cfg0.gbbs.length - 1)
    (hfr : backward_frame cfg0 cfg rb i)
    (hdone : ∀ (u : Nat) (b0 : gbb), i < u → cfg0.gbbs[u]? = some b0 →
      ∃ b : gbb, cfg.gbbs[u]? = some b
        ∧ b.insns.map (ginsn_count_op dw2cfi_opcode.DW_CFA_restore_state)
          = if restore_state_candidate t cfg0 u = true then
              counts_bump_first
                (b0.insns.map (ginsn_count_op dw2cfi_opcode.DW_CFA_restore_state))
            else b0.insns.map (ginsn_count_op dw2cfi_opcode.DW_CFA_restore_state))
    (hpend : ∀ (j b : Nat), rb[j]? = some (some b) →
      b = j ∧ restore_state_candidate t cfg0 j = true) :
    ∃ r, backward_flow_walk t i cfg rb = Except.ok r
      ∧ backward_frame cfg0 r.1 r.2 0
      ∧ (∀ (u : Nat) (b0 : gbb), 0 < u → cfg0.gbbs[u]? = some b0 →
          ∃ b : gbb, r.1.gbbs[u]? = some b
            ∧ b.insns.map (ginsn_count_op dw2cfi_opcode.DW_CFA_restore_state)
              = if restore_state_candidate t cfg0 u = true then
                  counts_bump_first
                    (b0.insns.map (ginsn_count_op dw2cfi_opcode.DW_CFA_restore_state))
                else b0.insns.map (ginsn_count_op dw2cfi_opcode.DW_CFA_restore_state))
      ∧ (∀ (j b : Nat), r.2[j]? = some (some b) →
          b = j ∧ restore_state_candidate t cfg0 j = true) := by
  induction i generalizing cfg rb with
  | zero => exact ⟨(cfg, rb), rfl, hfr, hdone, hpend⟩
  | succ i ih =>
    have hlt : i + 1 < cfg0.gbbs.length := by omega
    have hcur0 : cfg0.gbbs[i + 1]? = some cfg0.gbbs[i + 1] := List.getElem?_eq_getElem hlt
    obtain ⟨hstep, hfr1⟩ :=
      backward_flow_step_frame t cfg0 cfg rb i _ hsnap hcur0 hfr
    have hcur : cfg.gbbs[i + 1]? = some cfg0.gbbs[i + 1] :=
      (hfr.2.2.1 (i + 1) (le_refl _)).trans hcur0
    have hrbi : i + 1 < rb.length := by rw [hfr.2.1]; exact hlt
    obtain ⟨a1, a2, a3⟩ :=
      backward_flow_edges_rb (cfg0.gbbs[i + 1]).out_gedges cfg0.gbbs[i + 1] rb
    have hdone1 : ∀ (u : Nat) (b0 : gbb), i < u → cfg0.gbbs[u]? = some b0 →
        ∃ b : gbb,
          (backward_flow_turn t cfg0 cfg rb (i + 1) cfg0.gbbs[i + 1]).1.gbbs[u]? = some b
          ∧ b.insns.map (ginsn_count_op dw2cfi_opcode.DW_CFA_restore_state)
            = if restore_state_candidate t cfg0 u = true then
                counts_bump_first
                  (b0.insns.map (ginsn_count_op dw2cfi_opcode.DW_CFA_restore_state))
              else b0.insns.map (ginsn_count_op dw2cfi_opcode.DW_CFA_restore_state) := by
      intro u b0 hu hb0
      by_cases hui : u = i + 1
      · subst hui
        rw [hcur0] at hb0
        cases hb0
        unfold backward_flow_turn
        by_cases hc : restore_state_candidate t cfg0 (i + 1) = true
        · rw [if_pos hc, if_pos hc]
          refine ⟨bb_restore_state_first cfg0.gbbs[i + 1], ?_,
            bb_restore_state_first_counts _⟩
          show (gcfg_set_bb cfg (i + 1) _).gbbs[i + 1]? = _
          rw [gcfg_set_bb_getElem?, if_pos rfl, hcur]
          rfl
        · rw [if_neg hc, if_neg hc]
          refine ⟨(backward_flow_edges (cfg0.gbbs[i + 1]).out_gedges cfg0.gbbs[i + 1] rb).1, ?_,
            backward_flow_edges_restore_counts _ _ rb⟩
          show (gcfg_set_bb cfg (i + 1) _).gbbs[i + 1]? = _
          rw [gcfg_set_bb_getElem?, if_pos rfl, hcur]
          rfl
      · obtain ⟨b, hb, hP⟩ := hdone u b0 (by omega) hb0
        refine ⟨b, ?_, hP⟩
        unfold backward_flow_turn
        split_ifs
        · show (gcfg_set_bb cfg (i + 1) _).gbbs[u]? = _
          rw [gcfg_set_bb_getElem?, if_neg hui]
          exact hb
        · show (gcfg_set_bb cfg (i + 1) _).gbbs[u]? = _
          rw [gcfg_set_bb_getElem?, if_neg hui]
          exact hb
    have hpend1 : ∀ (j b : Nat),
        (backward_flow_turn t cfg0 cfg rb (i + 1) cfg0.gbbs[i + 1]).2[j]? = some (some b) →
        b = j ∧ restore_state_candidate t cfg0 j = true := by
      intro j b hj
      unfold backward_flow_turn at hj
      by_cases hc : restore_state_candidate t cfg0 (i + 1) = true
      · rw [if_pos hc] at hj
        have hj' : (rb.set (i + 1) (some (i + 1)))[j]? = some (some b) := hj
        by_cases hji : j = i + 1
        · subst hji
          rw [List.getElem?_set_self hrbi] at hj'
          simp only [Option.some.injEq] at hj'
          exact ⟨hj'.symm, hc⟩
        · rw [List.getElem?_set_ne (fun h => hji h.symm)] at hj'
          exact hpend j b hj'
      · rw [if_neg hc] at hj
        exact hpend j b (a3 j b hj)
    obtain ⟨r2, hr2, h2⟩ := ih _ _ (by omega) hfr1 hdone1 hpend1
    refine ⟨r2, ?_, h2⟩
    simp only [backward_flow_walk, hstep]
    exact hr2

/-- The frame of the backward pass holds at its start. -/
theorem backward_frame_init (cfg : gcfg) :
    backward_frame cfg cfg (List.replicate cfg.gbbs.length none) (cfg.gbbs.length - 1) := by
  refine ⟨rfl, by simp, fun _ _ => rfl, ?_⟩
  intro j _ hj
  simp only [List.length_replicate] at hj
  simp [List.getElem?_replicate, hj]

/-- Nothing waits in the array `restore_bbs` at the start of the backward
pass. -/
theorem restore_bbs_replicate_none (n j b : Nat)
    (h : (List.replicate n (none : Option Nat))[j]? = some (some b)) : False := by
  have hmem := List.getElem?_mem h
  simp [List.mem_replicate] at hmem

/-- C22: on a graph of fewer than 2^31 blocks with recorded snapshots the
backward pass returns, and for every block it leaves the numbers of
`DW_CFA_restore_state` per instruction raised by one on the first instruction
when the index of the block is at least 1 and its entry snapshot differs from
the exit snapshot of the block before it (in the register table, the stack
size or the traceable flag), and unchanged otherwise; a graph of at most one
block is returned as it is; an entry that waits at the end is such a block at
its own index; and at the turn at an index, the block is memorised in
`restore_bbs` exactly when it is such a block, and then carries the
`DW_CFA_restore_state` on its first instruction. -/
theorem C22_restore_state_placement (t : scfi_target) (cfg : gcfg)
    (hlen : cfg.gbbs.length < 2147483648)
    (hsnap : ∀ b ∈ cfg.gbbs, b.entry_state.isSome = true ∧ b.exit_state.isSome = true) :
    ∃ r : scfi_backward, backward_flow_scfi_state t cfg = Except.ok r
      ∧ (∀ (i : Nat) (b0 : gbb), cfg.gbbs[i]? = some b0 →
          ∃ b : gbb, r.cfg.gbbs[i]? = some b
            ∧ b.insns.map (ginsn_count_op dw2cfi_opcode.DW_CFA_restore_state)
              = if restore_state_candidate t cfg i = true then
                  counts_bump_first
                    (b0.insns.map (ginsn_count_op dw2cfi_opcode.DW_CFA_restore_state))
                else b0.insns.map (ginsn_count_op dw2cfi_opcode.DW_CFA_restore_state))
      ∧ (∀ i : Nat, restore_state_candidate t cfg i = true ↔
          1 ≤ i ∧ ∃ (prev cur : gbb) (ex en : scfi_state),
            cfg.gbbs[i - 1]? = some prev ∧ cfg.gbbs[i]? = some cur
            ∧ prev.exit_state = some ex ∧ cur.entry_state = some en
            ∧ ¬ ((∀ k, k < MAX_NUM_SCFI_REGS t → ex.regs k = en.regs k)
                  ∧ ex.stack_size = en.stack_size ∧ ex.traceable_p = en.traceable_p))
      ∧ (cfg.gbbs.length ≤ 1 → r.cfg = cfg ∧ r.ret = 0)
      ∧ (∀ (j b : Nat), r.restore_bbs[j]? = some (some b) →
          b = j ∧ restore_state_candidate t cfg j = true)
      ∧ (∀ (i : Nat) (cur0 : gbb) (c1 : gcfg) (rb : List (Option Nat)),
          cfg.gbbs[i + 1]? = some cur0 → backward_frame cfg c1 rb (i + 1) →
          ∃ (c2 : gcfg) (rb2 : List (Option Nat)),
            backward_flow_step t (i + 1) c1 rb = Except.ok (c2, rb2)
            ∧ (rb2[i + 1]? = some (some (i + 1)) ↔
                restore_state_candidate t cfg (i + 1) = true)
            ∧ (restore_state_candidate t cfg (i + 1) = true →
                c2.gbbs[i + 1]? = some (bb_restore_state_first cur0))) := by
  obtain ⟨w, hw, hfr, hdone, hpend⟩ :=
    backward_flow_walk_restore t cfg hsnap (cfg.gbbs.length - 1) cfg
      (List.replicate cfg.gbbs.length none) (le_refl _) (backward_frame_init cfg)
      (fun u b0 hu hb0 => by
        have := (List.getElem?_eq_some.1 hb0).1
        omega)
      (fun j b hj => (restore_bbs_replicate_none _ j b hj).elim)
  have hrun : backward_flow_scfi_state t cfg = Except.ok
      { ret := if w.2.any Option.isSome then 1 else 0, cfg := w.1, restore_bbs := w.2 } := by
    unfold backward_flow_scfi_state
    rw [if_neg (by omega), hw]
  refine ⟨_, hrun, ?_, ?_, ?_, hpend, ?_⟩
  · intro i b0 hb0
    cases i with
    | zero =>
      refine ⟨b0, (hfr.2.2.1 0 (le_refl _)).trans hb0, ?_⟩
      have : restore_state_candidate t cfg 0 = false := by simp [restore_state_candidate]
      rw [this]
      simp
    | succ i => exact hdone (i + 1) b0 (Nat.succ_pos i) hb0
  · intro i
    unfold restore_state_candidate
    constructor
    · intro h
      simp only [Bool.and_eq_true, decide_eq_true_eq] at h
      obtain ⟨h1, h2⟩ := h
      refine ⟨h1, ?_⟩
      cases hp : cfg.gbbs[i - 1]? with
      | none => rw [hp] at h2; simp at h2
      | some prev =>
        cases hc : cfg.gbbs[i]? with
        | none => rw [hp, hc] at h2; simp at h2
        | some cur =>
          cases hx : prev.exit_state with
          | none => rw [hp, hc] at h2; simp only [hx] at h2; simp at h2
          | some ex =>
            cases hn : cur.entry_state with
            | none => rw [hp, hc] at h2; simp only [hx, hn] at h2; simp at h2
            | some en =>
              rw [hp, hc] at h2
              simp only [hx, hn, decide_eq_true_eq] at h2
              refine ⟨prev, cur, ex, en, rfl, rfl, hx, hn, ?_⟩
              rw [← cmp_scfi_state_eq_zero_iff]
              exact h2
    · rintro ⟨h1, prev, cur, ex, en, hp, hc, hx, hn, hd⟩
      rw [← cmp_scfi_state_eq_zero_iff] at hd
      simp only [Bool.and_eq_true, decide_eq_true_eq, hp, hc, hx, hn]
      exact ⟨h1, hd⟩
  · intro h1
    have hw0 : backward_flow_walk t (cfg.gbbs.length - 1) cfg
        (List.replicate cfg.gbbs.length none)
        = Except.ok (cfg, List.replicate cfg.gbbs.length none) := by
      have : cfg.gbbs.length - 1 = 0 := by omega
      rw [this]
      rfl
    rw [hw0] at hw
    simp only [Except.ok.injEq] at hw
    subst hw
    refine ⟨rfl, ?_⟩
    show (if (List.replicate cfg.gbbs.length (none : Option Nat)).any Option.isSome
      then (1 : Int) else 0) = 0
    have : (List.replicate cfg.gbbs.length (none : Option Nat)).any Option.isSome = false :=
      (restore_bbs_pending_eq_zero_iff _).mp (restore_bbs_pending_replicate _)
    rw [this]
    rfl
  · intro i cur0 c1 rb hcur0 hfr1
    obtain ⟨hstep, -⟩ := backward_flow_step_frame t cfg c1 rb i cur0 hsnap hcur0 hfr1
    have hlt : i + 1 < cfg.gbbs.length := (List.getElem?_eq_some.1 hcur0).1
    have hrbi : i + 1 < rb.length := by rw [hfr1.2.1]; exact hlt
    have hnone : rb[i + 1]? = some none := hfr1.2.2.2 (i + 1) (le_refl _) hrbi
    have hcur : c1.gbbs[i + 1]? = some cur0 := (hfr1.2.2.1 (i + 1) (le_refl _)).trans hcur0
    obtain ⟨-, a2, -⟩ := backward_flow_edges_rb cur0.out_gedges cur0 rb
    refine ⟨(backward_flow_turn t cfg c1 rb (i + 1) cur0).1,
      (backward_flow_turn t cfg c1 rb (i + 1) cur0).2, hstep, ?_, ?_⟩
    · unfold backward_flow_turn
      by_cases hc : restore_state_candidate t cfg (i + 1) = true
      · rw [if_pos hc]
        show (rb.set (i + 1) (some (i + 1)))[i + 1]? = _ ↔ _
        rw [List.getElem?_set_self hrbi]
        exact ⟨fun _ => hc, fun _ => rfl⟩
      · rw [if_neg hc]
        show (backward_flow_edges cur0.out_gedges cur0 rb).2[i + 1]? = _ ↔ _
        rw [a2 (i + 1) hnone]
        constructor
        · intro h; exact absurd h (by simp)
        · intro h; exact absurd h hc
    · intro hc
      unfold backward_flow_turn
      rw [if_pos hc]
      show (gcfg_set_bb c1 (i + 1) _).gbbs[i + 1]? = _
      rw [gcfg_set_bb_getElem?, if_pos rfl, hcur]
      rfl

/-- Witness of C22: the graph of scenario B behind an entry block, after the
forward pass; the only `DW_CFA_restore_state` is on the first instruction of
block 3, the only reconvergence point. -/
theorem C22_witness :
    (∃ r : scfi_backward,
      backward_flow_scfi_state example_target (forward_flowed example_cfg_reconverge)
        = Except.ok r
      ∧ ∀ (j b : Nat), r.restore_bbs[j]? = some (some b) →
          b = j ∧ restore_state_candidate example_target
            (forward_flowed example_cfg_reconverge) j = true)
    ∧ [0, 1, 2, 3, 4].map
        (restore_state_candidate example_target (forward_flowed example_cfg_reconverge))
        = [false, false, false, true, false]
    ∧ backward_op_counts dw2cfi_opcode.DW_CFA_restore_state
        (backward_flow_scfi_state example_target (forward_flowed example_cfg_reconverge))
        = some [[0], [0, 0, 0, 0, 0], [0, 0, 0, 0, 0], [1, 0, 0, 0], [0]] := by
  obtain ⟨r, hr, -, -, -, hp, -⟩ :=
    C22_restore_state_placement example_target (forward_flowed example_cfg_reconverge)
      (by decide) (by decide)
  exact ⟨⟨r, hr, hp⟩, by decide, by decide⟩


theorem restore_bbs_clear_none (rb : List (Option Nat)) (d : Nat)
    (h : restore_bbs_clear rb d = none) (j : Nat) : rb[j]? ≠ some (some d) := by
  induction rb generalizing j with
  | nil => simp
  | cons x xs ih =>
    simp only [restore_bbs_clear] at h
    by_cases hx : x = some d
    · rw [if_pos hx] at h
      exact absurd h (by simp)
    · rw [if_neg hx] at h
      have hxs : restore_bbs_clear xs d = none := by
        cases hc : restore_bbs_clear xs d with
        | none => rfl
        | some ys => rw [hc] at h; simp at h
      cases j with
      | zero => simpa using hx
      | succ j => simpa using ih hxs j

theorem restore_bbs_clear_some (rb : List (Option Nat)) (d : Nat) (rb1 : List (Option Nat))
    (h : restore_bbs_clear rb d = some rb1) :
    ∃ j0 : Nat, rb[j0]? = some (some d)
      ∧ ∀ j : Nat, rb1[j]? = if j = j0 then some none else rb[j]? := by
  induction rb generalizing rb1 with
  | nil => simp [restore_bbs_clear] at h
  | cons x xs ih =>
    simp only [restore_bbs_clear] at h
    by_cases hx : x = some d
    · rw [if_pos hx] at h
      simp only [Option.some.injEq] at h
      subst h
      subst hx
      refine ⟨0, by simp, ?_⟩
      intro j
      cases j with
      | zero => simp
      | succ j => simp
    · rw [if_neg hx] at h
      cases hc : restore_bbs_clear xs d with
      | none => rw [hc] at h; simp at h
      | some ys =>
        rw [hc] at h
        simp only [Option.map_some', Option.some.injEq] at h
        subst h
        obtain ⟨j0, h0, hj⟩ := ih ys hc
        refine ⟨j0 + 1, by simpa using h0, ?_⟩
        intro j
        cases j with
        | zero => simp
        | succ j => simpa using hj j

/-- The loop over the edges of a block, when every waiting entry of
`restore_bbs` is the block of its own index: the block gets one
`DW_CFA_remember_state` on its last instruction for each waiting entry that
is cleared; the entries cleared are the waiting destinations of the edges;
and none is cleared exactly when no destination waits. -/
theorem backward_flow_edges_char (es : List gedge) (cur : gbb) (rb : List (Option Nat))
    (huniq : ∀ (j b : Nat), rb[j]? = some (some b) → b = j) :
    ∃ k : Nat,
      (backward_flow_edges es cur rb).1
        = { cur with insns := Nat.iterate insns_remember_state_last k cur.insns }
      ∧ k + restore_bbs_pending (backward_flow_edges es cur rb).2 = restore_bbs_pending rb
      ∧ (∀ j : Nat, (backward_flow_edges es cur rb).2[j]?
          = if rb[j]? = some (some j) ∧ (∃ e ∈ es, e.dst_bb = j) then some none
            else rb[j]?)
      ∧ (k = 0 ↔ ∀ e ∈ es, rb[e.dst_bb]? ≠ some (some e.dst_bb)) := by
  induction es generalizing cur rb with
  | nil =>
    refine ⟨0, rfl, by simp [backward_flow_edges], ?_, by simp⟩
    intro j
    simp [backward_flow_edges]
  | cons e es ih =>
    cases hc : restore_bbs_clear rb e.dst_bb with
    | none =>
      simp only [backward_flow_edges, hc]
      have hno := restore_bbs_clear_none rb e.dst_bb hc
      obtain ⟨k, h1, h2, h3, h4⟩ := ih cur rb huniq
      refine ⟨k, h1, h2, ?_, ?_⟩
      · intro j
        rw [h3 j]
        by_cases hj : rb[j]? = some (some j)
        · have hne : e.dst_bb ≠ j := by
            intro he
            rw [← he] at hj
            exact hno _ hj
          simp [hj, hne]
        · simp [hj]
      · rw [h4]
        constructor
        · intro h e' he'
          rcases List.mem_cons.mp he' with rfl | hm
          · exact hno _
          · exact h e' hm
        · intro h e' he'
          exact h e' (List.mem_cons_of_mem _ he')
    | some rb1 =>
      simp only [backward_flow_edges, hc]
      obtain ⟨j0, h0, hj0⟩ := restore_bbs_clear_some rb e.dst_bb rb1 hc
      have hd : e.dst_bb = j0 := huniq j0 _ h0
      have h0' : rb[e.dst_bb]? = some (some e.dst_bb) := by
        rw [hd] at h0 ⊢
        exact h0
      obtain ⟨-, c2, -, c4⟩ := restore_bbs_clear_spec rb e.dst_bb rb1 hc
      have huniq1 : ∀ (j b : Nat), rb1[j]? = some (some b) → b = j :=
        fun j b hj => huniq j b (c4 j b hj)
      obtain ⟨k, h1, h2, h3, h4⟩ := ih (bb_remember_state_last cur) rb1 huniq1
      refine ⟨k + 1, ?_, by omega, ?_, ?_⟩
      · rw [h1]
        simp only [bb_remember_state_last, Function.iterate_succ_apply]
      · intro j
        rw [h3 j, hj0 j]
        by_cases hj : j = j0
        · subst hj
          have : rb[j]? = some (some j) := by rw [← hd]; exact h0'
          simp [this, hd]
        · have hne : e.dst_bb ≠ j := by rw [hd]; exact fun h => hj h.symm
          simp [hj, hne]
      · constructor
        · intro h; omega
        · intro h
          exact absurd h0' (h e (List.mem_cons_self _ _))

/-- C23, counterexample: on scenario B after the forward pass, block 0 has an
edge to block 2, which waits in `restore_bbs` until the end of the backward
pass, and no instruction gets a `DW_CFA_remember_state`; on the chain of two
early returns, block 3 is a reconvergence point with an edge to block 5, which
waits until the end, and block 3 gets no `DW_CFA_remember_state`.  Both
passes return 1. -/
theorem C23_counterexample :
    (backward_ret (backward_flow_scfi_state example_target
        (forward_flowed (scenario_b_cfg 3 12 [1, 2]))) = some 1
      ∧ gcfg_dsts (forward_flowed (scenario_b_cfg 3 12 [1, 2])) = [[1, 2], [3], [3], []]
      ∧ backward_restore_bbs (backward_flow_scfi_state example_target
          (forward_flowed (scenario_b_cfg 3 12 [1, 2]))) = some [none, none, some 2, none]
      ∧ backward_op_counts dw2cfi_opcode.DW_CFA_remember_state
          (backward_flow_scfi_state example_target
            (forward_flowed (scenario_b_cfg 3 12 [1, 2])))
          = some [[0, 0, 0, 0, 0, 0], [0, 0, 0, 0, 0], [0, 0, 0, 0], [0]])
    ∧ (backward_ret (backward_flow_scfi_state example_target
        (forward_flowed example_cfg_chain)) = some 1
      ∧ gcfg_dsts (forward_flowed example_cfg_chain) = [[1], [2, 3], [], [4, 5], [], []]
      ∧ [0, 1, 2, 3, 4, 5].map
          (restore_state_candidate example_target (forward_flowed example_cfg_chain))
          = [false, false, false, true, false, true]
      ∧ backward_restore_bbs (backward_flow_scfi_state example_target
          (forward_flowed example_cfg_chain)) = some [none, none, none, none, none, some 5]
      ∧ backward_op_counts dw2cfi_opcode.DW_CFA_remember_state
          (backward_flow_scfi_state example_target (forward_flowed example_cfg_chain))
          = some [[0], [0, 0, 1], [0, 0, 0], [0], [0, 0, 0], [0, 0, 0]]) := by
  decide

/-- C23, as amended: at the turn of the backward pass at an index of at least
1, on a graph whose blocks up to that index are those of the start and an
array `restore_bbs` whose waiting entries are the blocks of their own indexes,
a block that is not a reconvergence point gets one `DW_CFA_remember_state` on
its last instruction for each waiting destination of its edges, those entries
are cleared and the others are kept, and it gets none exactly when no
destination of its edges waits; a block that is a reconvergence point gets the
`DW_CFA_restore_state` and is memorised, and its edges are not looked at. -/
theorem C23_remember_state_placement (t : scfi_target) (cfg : gcfg)
    (hsnap : ∀ b ∈ cfg.gbbs, b.entry_state.isSome = true ∧ b.exit_state.isSome = true)
    (i : Nat) (cur0 : gbb) (c1 : gcfg) (rb : List (Option Nat))
    (hcur0 : cfg.gbbs[i + 1]? = some cur0)
    (hfr : backward_frame cfg c1 rb (i + 1))
    (huniq : ∀ (j b : Nat), rb[j]? = some (some b) → b = j) :
    (restore_state_candidate t cfg (i + 1) = false →
      ∃ (k : Nat) (rb2 : List (Option Nat)),
        backward_flow_step t (i + 1) c1 rb
          = Except.ok
              (gcfg_set_bb c1 (i + 1)
                { cur0 with insns := Nat.iterate insns_remember_state_last k cur0.insns },
               rb2)
        ∧ k + restore_bbs_pending rb2 = restore_bbs_pending rb
        ∧ (∀ j : Nat, rb2[j]?
            = if rb[j]? = some (some j) ∧ (∃ e ∈ cur0.out_gedges, e.dst_bb = j) then some none
              else rb[j]?)
        ∧ (k = 0 ↔ ∀ e ∈ cur0.out_gedges, rb[e.dst_bb]? ≠ some (some e.dst_bb)))
    ∧ (restore_state_candidate t cfg (i + 1) = true →
        backward_flow_step t (i + 1) c1 rb
          = Except.ok
              (gcfg_set_bb c1 (i + 1) (bb_restore_state_first cur0),
               rb.set (i + 1) (some (i + 1)))) := by
  obtain ⟨hstep, -⟩ := backward_flow_step_frame t cfg c1 rb i cur0 hsnap hcur0 hfr
  constructor
  · intro hc
    obtain ⟨k, h1, h2, h3, h4⟩ := backward_flow_edges_char cur0.out_gedges cur0 rb huniq
    refine ⟨k, (backward_flow_edges cur0.out_gedges cur0 rb).2, ?_, h2, h3, h4⟩
    rw [hstep]
    unfold backward_flow_turn
    rw [if_neg (by rw [hc]; simp), h1]
  · intro hc
    rw [hstep]
    unfold backward_flow_turn
    rw [if_pos hc]

/-- Witness of C23: the turn at the index 1 on the graph of scenario B behind
an entry block, after the forward pass, while block 3 waits: block 1 is not a
reconvergence point and has an edge to block 3. -/
theorem C23_witness :
    ∃ (k : Nat) (nb : gbb) (rb2 : List (Option Nat)),
      backward_flow_step example_target 1 (forward_flowed example_cfg_reconverge)
          [none, none, none, some 3, none]
        = Except.ok (gcfg_set_bb (forward_flowed example_cfg_reconverge) 1 nb, rb2)
      ∧ k + restore_bbs_pending rb2 = restore_bbs_pending [none, none, none, some 3, none]
      ∧ ¬ k = 0 := by
  have hlen : 1 < (forward_flowed example_cfg_reconverge).gbbs.length := by decide
  have hfr : backward_frame (forward_flowed example_cfg_reconverge)
      (forward_flowed example_cfg_reconverge) [none, none, none, some 3, none] 1 := by
    refine ⟨rfl, by decide, fun _ _ => rfl, ?_⟩
    intro j hj _
    interval_cases j <;> rfl
  have huniq : ∀ (j b : Nat),
      [none, none, none, some 3, none][j]? = some (some b) → b = j := by
    intro j b h
    have hj : j < 5 := (List.getElem?_eq_some.1 h).1
    interval_cases j <;> simp at h
    omega
  obtain ⟨k, rb2, h1, h2, -, h4⟩ :=
    (C23_remember_state_placement example_target (forward_flowed example_cfg_reconverge)
      (by decide) 0 _ _ _ (List.getElem?_eq_getElem hlen) hfr huniq).1 (by decide)
  refine ⟨k, _, rb2, h1, h2, ?_⟩
  intro hk
  have hall := h4.mp hk
  have hmem : ({ dst_bb := 3, visited := true, recursions := 1 } : gedge)
      ∈ (List.get (forward_flowed example_cfg_reconverge).gbbs ⟨1, by decide⟩).out_gedges := by
    decide
  exact hall _ hmem rfl


/-! ### Transitions of the executor -/

/-- C24: while the CFA is based on the frame pointer, an ADD or SUB whose
second source is not an immediate, or an AND, with the register destination
SP is accepted: `gen_scfi_ops` returns 0, the instruction gets no operation,
the register table (the CFA location included) and the scratch table are
unchanged, and the traceable flag is false afterwards, whether it was true or
already false. -/
theorem C24_fp_based_cfa_tolerates_untraceable_sp_update (t : scfi_target) (g : ginsn)
    (s : scfi_state)
    (hsp : t.REG_SP ≠ t.REG_FP) (hfp : t.REG_FP < MAX_NUM_SCFI_REGS t)
    (hdt : ginsn_get_dst_type g.dst = ginsn_dst_type.GINSN_DST_REG)
    (hdst : ginsn_get_dst_reg g.dst = t.REG_SP)
    (hshape : ((g.type = ginsn_type.GINSN_TYPE_ADD ∨ g.type = ginsn_type.GINSN_TYPE_SUB)
                ∧ ginsn_get_src_type g.src2 ≠ ginsn_src_type.GINSN_SRC_IMM)
              ∨ g.type = ginsn_type.GINSN_TYPE_AND)
    (hcfa : (s.regs (REG_CFA t)).base = t.REG_FP) :
    ∃ r : scfi_exec, gen_scfi_ops t g s = Except.ok r
      ∧ r.ret = 0 ∧ r.ginsn = g
      ∧ r.state.regs = s.regs ∧ r.state.scratch = s.scratch
      ∧ r.state.traceable_p = false := by
  have hm : GINSN_F_FUNC_BEGIN_P g = false := by
    apply func_begin_of_type_ne
    rcases hshape with ⟨h | h, -⟩ | h <;> simp [h]
  have hne : (s.regs (REG_CFA t)).base ≠ t.REG_SP := by
    rw [hcfa]; exact fun h => hsp h.symm
  obtain ⟨s1, hs1, hr1, hc1, ht1, hk1⟩ : ∃ s1 : scfi_state,
      verify_heuristic_traceable_stack_manipulation t g s = Except.ok (0, s1)
      ∧ s1.regs = s.regs ∧ s1.scratch = s.scratch ∧ s1.traceable_p = false
      ∧ s1.stack_size = s.stack_size := by
    unfold verify_heuristic_traceable_stack_manipulation
    rw [if_pos ⟨hdst, hshape⟩, if_neg hne]
    by_cases htr : s.traceable_p = true
    · rw [if_pos htr, if_neg (by simpa using hcfa)]
      exact ⟨_, rfl, rfl, rfl, rfl, rfl⟩
    · rw [if_neg htr]
      exact ⟨s, rfl, rfl, rfl, by simpa using htr, rfl⟩
  have hcfa1 : (s1.regs (REG_CFA t)).base = t.REG_FP := by rw [hr1]; exact hcfa
  have hne1 : (s1.regs (REG_CFA t)).base ≠ t.REG_SP := by rw [hr1]; exact hne
  have h2 : verify_heuristic_traceable_reg_bp t g s1 = 0 := by
    unfold verify_heuristic_traceable_reg_bp
    rw [if_neg (by rw [hdst]; exact fun h => hsp h.2)]
  have hgen : gen_scfi_ops t g s = gen_scfi_ops_switch t g s1 := by
    unfold gen_scfi_ops
    simp [hm, hs1, h2]
  have hdt' : g.dst.type = ginsn_dst_type.GINSN_DST_REG := hdt
  rw [hgen]
  unfold gen_scfi_ops_switch
  rw [hdt']
  rcases hshape with ⟨h | h, -⟩ | h
  · simp only [h]
    unfold gen_scfi_ops_add
    dsimp only
    by_cases hs : ginsn_get_src_reg g.src1 = t.REG_SP
    · rw [if_pos ⟨hs, hdst⟩, if_neg hne1]
      exact ⟨_, rfl, rfl, rfl, hr1, hc1, ht1⟩
    · rw [if_neg (fun h => hs h.1)]
      by_cases hf : ginsn_get_src_reg g.src1 = t.REG_FP
      · rw [if_pos ⟨hf, hdst, hcfa1⟩, if_neg (by omega)]
        exact ⟨_, rfl, rfl, rfl, hr1, hc1, ht1⟩
      · rw [if_neg (fun h => hf h.1)]
        exact ⟨_, rfl, rfl, rfl, hr1, hc1, ht1⟩
  · simp only [h]
    unfold gen_scfi_ops_sub
    dsimp only
    by_cases hs : ginsn_get_src_reg g.src1 = t.REG_SP
    · rw [if_pos ⟨hs, hdst⟩, if_neg hne1]
      exact ⟨_, rfl, rfl, rfl, hr1, hc1, ht1⟩
    · rw [if_neg (fun h => hs h.1)]
      exact ⟨_, rfl, rfl, rfl, hr1, hc1, ht1⟩
  · simp only [h]
    exact ⟨_, rfl, rfl, rfl, hr1, hc1, ht1⟩

/-- Witness of C24: on the sample target, after a prologue that bases the CFA
on the frame pointer, the realignment `AND SP, -16, SP` in a traceable
state. -/
theorem C24_witness :
    (state_after example_target (example_realign_prologue.take 6) init_state).traceable_p
      = true
    ∧ ∃ r : scfi_exec,
        gen_scfi_ops example_target
          (mk_ginsn ginsn_type.GINSN_TYPE_AND (src_reg 7) (src_imm (-16)) (dst_reg 7))
          (state_after example_target (example_realign_prologue.take 6) init_state)
          = Except.ok r
        ∧ r.ret = 0
        ∧ r.ginsn = mk_ginsn ginsn_type.GINSN_TYPE_AND (src_reg 7) (src_imm (-16)) (dst_reg 7)
        ∧ r.state.regs
          = (state_after example_target (example_realign_prologue.take 6) init_state).regs
        ∧ r.state.scratch
          = (state_after example_target (example_realign_prologue.take 6) init_state).scratch
        ∧ r.state.traceable_p = false :=
  ⟨by decide,
    C24_fp_based_cfa_tolerates_untraceable_sp_update example_target
      (mk_ginsn ginsn_type.GINSN_TYPE_AND (src_reg 7) (src_imm (-16)) (dst_reg 7))
      (state_after example_target (example_realign_prologue.take 6) init_state)
      (by decide) (by decide) (by decide) (by decide) (by decide) (by decide)⟩

/-- A stack-pointer adjustment by an immediate while the CFA is not based on
the stack pointer: only the stack size moves. -/
theorem gen_scfi_ops_sp_adjust_other (t : scfi_target) (g : ginsn) (s : scfi_state)
    (hg : ginsn_sp_adjust_imm_p t g) (hbase : (s.regs (REG_CFA t)).base ≠ t.REG_SP) :
    gen_scfi_ops t g s = Except.ok
      { ret := 0, ginsn := g,
        state := { s with stack_size := add32 s.stack_size (sp_adjust_delta g) } } := by
  rw [sp_adjust_guards t g s hg]
  obtain ⟨hty, hs1, hd, hdr, himm⟩ := hg
  have hdt : g.dst.type = ginsn_dst_type.GINSN_DST_REG := hd
  rcases hty with h | h
  · simp [gen_scfi_ops_switch, hdt, h, gen_scfi_ops_sub, hs1, hdr, hbase, sp_adjust_delta]
  · simp [gen_scfi_ops_switch, hdt, h, gen_scfi_ops_add, hs1, hdr, hbase, sp_adjust_delta,
      sub32_eq_add32_neg]

/-- C25: a stack-pointer adjustment by an immediate n (`SUB SP, n, SP` or
`ADD SP, n, SP`) is accepted; the stack size moves by n for SUB and by -n for
ADD (32-bit sum, the exact sum when it fits); when the CFA is based on the
stack pointer the CFA offset moves by the same amount and the instruction gets
exactly one `DW_CFA_def_cfa_offset` that carries the new CFA location; when it
is based on another register, the frame pointer included, the CFA location is
unchanged and the instruction gets no operation.  The other register entries,
the scratch table and the traceable flag are unchanged. -/
theorem C25_sp_adjust_by_immediate (t : scfi_target) (g : ginsn) (s : scfi_state)
    (hg : ginsn_sp_adjust_imm_p t g) :
    ∃ r : scfi_exec, gen_scfi_ops t g s = Except.ok r
      ∧ r.ret = 0
      ∧ sp_adjust_delta g
          = (if g.type = ginsn_type.GINSN_TYPE_SUB then ginsn_get_src_imm g.src2
             else - ginsn_get_src_imm g.src2)
      ∧ r.state.stack_size = add32 s.stack_size (sp_adjust_delta g)
      ∧ (-2147483648 ≤ s.stack_size + sp_adjust_delta g
          ∧ s.stack_size + sp_adjust_delta g < 2147483648 →
          r.state.stack_size = s.stack_size + sp_adjust_delta g)
      ∧ ((s.regs (REG_CFA t)).base = t.REG_SP →
          r.state.regs (REG_CFA t)
            = { s.regs (REG_CFA t) with
                offset := add32 (s.regs (REG_CFA t)).offset (sp_adjust_delta g) }
          ∧ (-2147483648 ≤ (s.regs (REG_CFA t)).offset + sp_adjust_delta g
              ∧ (s.regs (REG_CFA t)).offset + sp_adjust_delta g < 2147483648 →
              (r.state.regs (REG_CFA t)).offset
                = (s.regs (REG_CFA t)).offset + sp_adjust_delta g)
          ∧ r.ginsn = ginsn_append_scfi_op g
              (scfi_op_def_cfa_offset t (r.state.regs (REG_CFA t))))
      ∧ ((s.regs (REG_CFA t)).base ≠ t.REG_SP →
          r.state.regs (REG_CFA t) = s.regs (REG_CFA t) ∧ r.ginsn = g)
      ∧ (∀ i : Nat, i ≠ REG_CFA t → r.state.regs i = s.regs i)
      ∧ r.state.scratch = s.scratch
      ∧ r.state.traceable_p = s.traceable_p := by
  have hexact : ∀ a b : Int, -2147483648 ≤ a + b ∧ a + b < 2147483648 → add32 a b = a + b := by
    intro a b h
    unfold add32 wrap_int32
    omega
  by_cases hbase : (s.regs (REG_CFA t)).base = t.REG_SP
  · refine ⟨_, gen_scfi_ops_sp_adjust t g s hg hbase, rfl, rfl, rfl, hexact _ _,
      fun _ => ⟨?_, ?_, rfl⟩, fun h => absurd hbase h, ?_, rfl, rfl⟩
    · simp [sp_adjust_state, set_regloc]
    · intro h
      simp only [sp_adjust_state, set_regloc, if_true]
      exact hexact _ _ h
    · intro i hi
      simp [sp_adjust_state, set_regloc, hi]
  · exact ⟨_, gen_scfi_ops_sp_adjust_other t g s hg hbase, rfl, rfl, rfl, hexact _ _,
      fun h => absurd h hbase, fun _ => ⟨rfl, rfl⟩, fun _ _ => rfl, rfl, rfl⟩

/-- Witness of C25: on the sample target, `ADD SP, 8, SP` in the state where
the CFA is based on the frame pointer (no operation, the stack size goes from
24 to 16), and `SUB SP, 8, SP` right after the function begin (the CFA offset
and the stack size go from 8 to 16). -/
theorem C25_witness :
    (∃ r : scfi_exec,
      gen_scfi_ops example_target (ginsn_add_sp example_target 8) example_untraceable_state
        = Except.ok r
      ∧ r.ret = 0 ∧ r.state.stack_size = 16
      ∧ r.state.regs 17 = example_untraceable_state.regs 17
      ∧ r.ginsn = ginsn_add_sp example_target 8)
    ∧ (∃ r : scfi_exec,
      gen_scfi_ops example_target (ginsn_sub_sp example_target 8)
        (state_after example_target [ginsn_func_begin] init_state) = Except.ok r
      ∧ r.ret = 0 ∧ r.state.stack_size = 16
      ∧ r.state.regs 17
        = { base := 7, offset := 16, state := cfi_reglocstate.CFI_UNDEFINED }
      ∧ r.ginsn.scfi_ops
        = [scfi_op_def_cfa_offset example_target
            { base := 7, offset := 16, state := cfi_reglocstate.CFI_UNDEFINED }]) := by
  constructor
  · obtain ⟨r, hr, h0, -, -, hs, -, hfp, -⟩ :=
      C25_sp_adjust_by_immediate example_target (ginsn_add_sp example_target 8)
        example_untraceable_state (ginsn_add_sp_adjust example_target 8)
    obtain ⟨hc, hg⟩ := hfp (by decide)
    exact ⟨r, hr, h0, hs (by decide), hc, hg⟩
  · obtain ⟨r, hr, h0, -, -, hs, hspb, -⟩ :=
      C25_sp_adjust_by_immediate example_target (ginsn_sub_sp example_target 8)
        (state_after example_target [ginsn_func_begin] init_state)
        (ginsn_sub_sp_adjust example_target 8)
    obtain ⟨hc, -, hg⟩ := hspb (by decide)
    have hc17 : r.state.regs 17
        = { base := 7, offset := 16, state := cfi_reglocstate.CFI_UNDEFINED } :=
      hc.trans (by decide)
    refine ⟨r, hr, h0, hs (by decide), hc17, ?_⟩
    rw [hg]
    show [scfi_op_def_cfa_offset example_target (r.state.regs 17)] = _
    rw [hc17]

/-- The common tail of the save paths for a register below the size of the
table: the register is recorded on the stack at the offset from the CFA, and
the instruction gets one `DW_CFA_offset` operation with that location. -/
theorem gen_scfi_ops_save_ok (t : scfi_target) (g : ginsn) (s : scfi_state) (reg : Nat)
    (off : Int) (hlt : reg < MAX_NUM_SCFI_REGS t) :
    gen_scfi_ops_save t g s reg off = Except.ok
      { ret := 0,
        ginsn := ginsn_append_scfi_op g
          (scfi_op_offset reg
            { base := REG_CFA t, offset := off, state := cfi_reglocstate.CFI_ON_STACK }),
        state :=
          { s with
            regs := set_regloc s.regs reg
              { base := REG_CFA t, offset := off,
                state := cfi_reglocstate.CFI_ON_STACK } } } := by
  have hn : ¬ MAX_NUM_SCFI_REGS t ≤ reg := Nat.not_le.2 hlt
  simp [gen_scfi_ops_save, scfi_state_save_reg, scfi_op_add_cfi_offset, hn, set_regloc,
    scfi_op_offset, init_scfi_op]

/-- C26: in a traceable state, for a tracked source register R below the size
of the table, a store-to-stack saves R at the opposite of the stack size, a
MOV to disp(SP) at that plus the displacement, and a MOV to disp(FP) while the
CFA is based on the frame pointer at the opposite of the CFA offset plus the
displacement (32-bit values, exact when they fit): when R is not recorded on
the stack, the entry of R becomes (REG_CFA, that offset, on stack), the
instruction gets exactly one `DW_CFA_offset` with that location and nothing
else changes; when R is already on the stack, the state is unchanged and the
instruction gets no operation. -/
theorem C26_register_save (t : scfi_target) (g : ginsn) (s : scfi_state) (x : Int)
    (htr : s.traceable_p = true)
    (htrack : t.ginsn_track_reg_p (ginsn_get_src_reg g.src1) = true)
    (hlt : ginsn_get_src_reg g.src1 < MAX_NUM_SCFI_REGS t)
    (hshape :
      (g.type = ginsn_type.GINSN_TYPE_STS
        ∧ ginsn_get_dst_type g.dst = ginsn_dst_type.GINSN_DST_STACK
        ∧ ((s.regs (REG_CFA t)).base = t.REG_FP → ginsn_get_dst_reg g.dst ≠ t.REG_FP)
        ∧ x = - s.stack_size)
      ∨ (g.type = ginsn_type.GINSN_TYPE_MOV
        ∧ ginsn_get_dst_type g.dst = ginsn_dst_type.GINSN_DST_INDIRECT
        ∧ ginsn_get_dst_reg g.dst = t.REG_SP
        ∧ x = - s.stack_size + ginsn_get_dst_disp g.dst)
      ∨ (g.type = ginsn_type.GINSN_TYPE_MOV
        ∧ ginsn_get_dst_type g.dst = ginsn_dst_type.GINSN_DST_INDIRECT
        ∧ ginsn_get_dst_reg g.dst = t.REG_FP
        ∧ t.REG_FP ≠ t.REG_SP
        ∧ (s.regs (REG_CFA t)).base = t.REG_FP
        ∧ x = - (s.regs (REG_CFA t)).offset + ginsn_get_dst_disp g.dst)) :
    ((s.regs (ginsn_get_src_reg g.src1)).state ≠ cfi_reglocstate.CFI_ON_STACK →
      gen_scfi_ops t g s = Except.ok
        { ret := 0,
          ginsn := ginsn_append_scfi_op g
            (scfi_op_offset (ginsn_get_src_reg g.src1)
              { base := REG_CFA t, offset := wrap_int32 x,
                state := cfi_reglocstate.CFI_ON_STACK }),
          state :=
            { s with
              regs := set_regloc s.regs (ginsn_get_src_reg g.src1)
                { base := REG_CFA t, offset := wrap_int32 x,
                  state := cfi_reglocstate.CFI_ON_STACK } } })
    ∧ ((s.regs (ginsn_get_src_reg g.src1)).state = cfi_reglocstate.CFI_ON_STACK →
        gen_scfi_ops t g s = Except.ok { ret := 0, ginsn := g, state := s })
    ∧ (-2147483648 ≤ x ∧ x < 2147483648 → wrap_int32 x = x) := by
  have hn : ¬ MAX_NUM_SCFI_REGS t ≤ ginsn_get_src_reg g.src1 := Nat.not_le.2 hlt
  have hw1 : sub32 0 s.stack_size = wrap_int32 (- s.stack_size) := by
    unfold sub32; simp
  have hw2 : ∀ a d : Int, add32 (sub32 0 a) d = wrap_int32 (- a + d) := by
    intro a d
    unfold add32 sub32 wrap_int32
    omega
  have hexact : -2147483648 ≤ x ∧ x < 2147483648 → wrap_int32 x = x := by
    intro h
    unfold wrap_int32
    omega
  rcases hshape with ⟨hty, hd, hg2, hx⟩ | ⟨hty, hd, hdr, hx⟩ | ⟨hty, hd, hdr, hne, hbase, hx⟩
  · have hdt : g.dst.type = ginsn_dst_type.GINSN_DST_STACK := hd
    have hm : GINSN_F_FUNC_BEGIN_P g = false := func_begin_of_type_ne g (by simp [hty])
    have h1 : verify_heuristic_traceable_stack_manipulation t g s = Except.ok (0, s) := by
      unfold verify_heuristic_traceable_stack_manipulation ginsn_scfi_save_reg_p
        ginsn_scfi_reg_restore_p
      simp [hty]
    have h2 : verify_heuristic_traceable_reg_bp t g s = 0 := by
      unfold verify_heuristic_traceable_reg_bp
      by_cases hb : (s.regs (REG_CFA t)).base = t.REG_FP
      · simp [hg2 hb]
      · simp [hb]
    rw [gen_scfi_ops_of_guards t g s hm h1 h2]
    subst hx
    refine ⟨fun hst => ?_, fun hst => ?_, hexact⟩
    · simp only [gen_scfi_ops_switch, hdt, gen_scfi_ops_dst_stack, hty, htrack, hn, hst]
      simp only [ne_eq, not_true_eq_false, if_false, if_true, not_false_eq_true, hw1]
      rw [if_pos hst]
      exact gen_scfi_ops_save_ok t g s _ _ hlt
    · simp [gen_scfi_ops_switch, hdt, gen_scfi_ops_dst_stack, hty, htrack, hn, hst]
  · have hdt : g.dst.type = ginsn_dst_type.GINSN_DST_INDIRECT := hd
    have hm : GINSN_F_FUNC_BEGIN_P g = false := func_begin_of_type_ne g (by simp [hty])
    have h1 : verify_heuristic_traceable_stack_manipulation t g s = Except.ok (0, s) := by
      unfold verify_heuristic_traceable_stack_manipulation ginsn_scfi_save_reg_p
        ginsn_scfi_reg_restore_p
      simp [hty, htr]
    have h2 : verify_heuristic_traceable_reg_bp t g s = 0 := by
      unfold verify_heuristic_traceable_reg_bp
      simp [hty, hd]
    rw [gen_scfi_ops_of_guards t g s hm h1 h2]
    subst hx
    refine ⟨fun hst => ?_, fun hst => ?_, hexact⟩
    · simp only [gen_scfi_ops_switch, hdt, gen_scfi_ops_dst_indirect, hty, htrack, hn, hst, hdr]
      simp only [ne_eq, not_true_eq_false, if_false, if_true, not_false_eq_true, hw2]
      rw [if_pos hst]
      exact gen_scfi_ops_save_ok t g s _ _ hlt
    · simp [gen_scfi_ops_switch, hdt, gen_scfi_ops_dst_indirect, hty, htrack, hn, hst]
  · have hdt : g.dst.type = ginsn_dst_type.GINSN_DST_INDIRECT := hd
    have hm : GINSN_F_FUNC_BEGIN_P g = false := func_begin_of_type_ne g (by simp [hty])
    have h1 : verify_heuristic_traceable_stack_manipulation t g s = Except.ok (0, s) := by
      unfold verify_heuristic_traceable_stack_manipulation ginsn_scfi_save_reg_p
        ginsn_scfi_reg_restore_p
      simp [hty, htr]
    have h2 : verify_heuristic_traceable_reg_bp t g s = 0 := by
      unfold verify_heuristic_traceable_reg_bp
      simp [hty, hd]
    rw [gen_scfi_ops_of_guards t g s hm h1 h2]
    subst hx
    refine ⟨fun hst => ?_, fun hst => ?_, hexact⟩
    · simp only [gen_scfi_ops_switch, hdt, gen_scfi_ops_dst_indirect, hty, htrack, hn, hst, hdr,
        hne, hbase]
      simp only [ne_eq, not_true_eq_false, if_false, if_true, not_false_eq_true, hw2]
      rw [if_pos hst]
      exact gen_scfi_ops_save_ok t g s _ _ hlt
    · simp [gen_scfi_ops_switch, hdt, gen_scfi_ops_dst_indirect, hty, htrack, hn, hst]

/-- Witness of C26: on the sample target, the store-to-stack of register 3
after the function begin and `SUB SP, 8, SP` (saved at -16), and a second
store-to-stack of register 3 once it is on the stack (no operation). -/
theorem C26_witness :
    exec_ops (gen_scfi_ops example_target (ginsn_sts 3)
        (state_after example_target [ginsn_func_begin, ginsn_sub_sp example_target 8]
          init_state))
      = some [scfi_op_offset 3
          { base := 17, offset := -16, state := cfi_reglocstate.CFI_ON_STACK }]
    ∧ exec_ops (gen_scfi_ops example_target (ginsn_sts 3) example_saved_state) = some [] := by
  constructor
  · rw [(C26_register_save example_target (ginsn_sts 3)
        (state_after example_target [ginsn_func_begin, ginsn_sub_sp example_target 8]
          init_state) (-16) (by decide) (by decide) (by decide)
        (Or.inl ⟨rfl, rfl, by decide, by decide⟩)).1 (by decide)]
    decide
  · have h := (C26_register_save example_target (ginsn_sts 3) example_saved_state (-16)
        (by decide) (by decide) (by decide)
        (Or.inl ⟨rfl, rfl, by decide, by decide⟩)).2.1 (by decide)
    rw [h]
    rfl

/-- C27: a MOV from disp(SP) or disp(FP) into a tracked register R below the
size of the table, other than FP while the CFA is based on FP, that is
recorded on the stack with base REG_CFA at the expected offset (the opposite
of the stack size for SP, the recorded offset of FP for FP, plus the
displacement; a 32-bit value, exact when it fits) is accepted: the entry of R
becomes (R, 0, in register), the instruction gets exactly one
`DW_CFA_restore` of R and nothing else changes.  The traceable flag plays no
part. -/
theorem C27_symmetric_restore_by_indirect_load (t : scfi_target) (g : ginsn)
    (s : scfi_state) (x : Int)
    (hty : g.type = ginsn_type.GINSN_TYPE_MOV)
    (hsrc : ginsn_get_src_type g.src1 = ginsn_src_type.GINSN_SRC_INDIRECT)
    (hd : ginsn_get_dst_type g.dst = ginsn_dst_type.GINSN_DST_REG)
    (htrack : t.ginsn_track_reg_p (ginsn_get_dst_reg g.dst) = true)
    (hlt : ginsn_get_dst_reg g.dst < MAX_NUM_SCFI_REGS t)
    (hfp : ¬ ((s.regs (REG_CFA t)).base = t.REG_FP ∧ ginsn_get_dst_reg g.dst = t.REG_FP))
    (hst : (s.regs (ginsn_get_dst_reg g.dst)).state = cfi_reglocstate.CFI_ON_STACK)
    (hb : (s.regs (ginsn_get_dst_reg g.dst)).base = REG_CFA t)
    (hshape :
      (ginsn_get_src_reg g.src1 = t.REG_SP
        ∧ x = - s.stack_size + ginsn_get_src_disp g.src1)
      ∨ (ginsn_get_src_reg g.src1 = t.REG_FP
        ∧ t.REG_FP ≠ t.REG_SP
        ∧ t.REG_FP < MAX_NUM_SCFI_REGS t
        ∧ x = (s.regs t.REG_FP).offset + ginsn_get_src_disp g.src1))
    (hsym : (s.regs (ginsn_get_dst_reg g.dst)).offset = wrap_int32 x) :
    gen_scfi_ops t g s = Except.ok
      { ret := 0,
        ginsn := ginsn_append_scfi_op g (scfi_op_restore (ginsn_get_dst_reg g.dst)),
        state :=
          { s with
            regs := set_regloc s.regs (ginsn_get_dst_reg g.dst)
              { base := ginsn_get_dst_reg g.dst, offset := 0,
                state := cfi_reglocstate.CFI_IN_REG } } }
    ∧ (-2147483648 ≤ x ∧ x < 2147483648 → wrap_int32 x = x) := by
  have hdt : g.dst.type = ginsn_dst_type.GINSN_DST_REG := hd
  have hn : ¬ MAX_NUM_SCFI_REGS t ≤ ginsn_get_dst_reg g.dst := Nat.not_le.2 hlt
  have hm : GINSN_F_FUNC_BEGIN_P g = false := func_begin_of_type_ne g (by simp [hty])
  have h1 : verify_heuristic_traceable_stack_manipulation t g s = Except.ok (0, s) := by
    unfold verify_heuristic_traceable_stack_manipulation ginsn_scfi_save_reg_p
      ginsn_scfi_reg_restore_p
    simp [hty, hd]
  have h2 : verify_heuristic_traceable_reg_bp t g s = 0 := by
    unfold verify_heuristic_traceable_reg_bp
    rw [if_neg hfp]
  have hexact : -2147483648 ≤ x ∧ x < 2147483648 → wrap_int32 x = x := by
    intro h
    unfold wrap_int32
    omega
  have hrestore : gen_scfi_ops_restore t g s (ginsn_get_dst_reg g.dst) (wrap_int32 x)
      = Except.ok
        { ret := 0,
          ginsn := ginsn_append_scfi_op g (scfi_op_restore (ginsn_get_dst_reg g.dst)),
          state :=
            { s with
              regs := set_regloc s.regs (ginsn_get_dst_reg g.dst)
                { base := ginsn_get_dst_reg g.dst, offset := 0,
                  state := cfi_reglocstate.CFI_IN_REG } } } := by
    simp [gen_scfi_ops_restore, verify_heuristic_symmetrical_restore_reg, hn, hst, hb, hsym,
      scfi_state_restore_reg, scfi_op_add_cfa_restore, scfi_op_restore, init_scfi_op]
  refine ⟨?_, hexact⟩
  rw [gen_scfi_ops_of_guards t g s hm h1 h2]
  rcases hshape with ⟨hsp, hx⟩ | ⟨hsfp, hne, hfplt, hx⟩
  · have hw : add32 (neg32 s.stack_size) (ginsn_get_src_disp g.src1) = wrap_int32 x := by
      rw [hx]
      unfold add32 neg32 wrap_int32
      omega
    simp only [gen_scfi_ops_switch, hdt, hty, gen_scfi_ops_mov, hsrc, hsp, htrack, hw]
    simp [hrestore]
  · have hn2 : ¬ MAX_NUM_SCFI_REGS t ≤ t.REG_FP := Nat.not_le.2 hfplt
    have hw : add32 (s.regs t.REG_FP).offset (ginsn_get_src_disp g.src1) = wrap_int32 x := by
      rw [hx]
      rfl
    simp only [gen_scfi_ops_switch, hdt, hty, gen_scfi_ops_mov, hsrc, hsfp, htrack, hw]
    simp [hrestore, hne, hn2]

/-- Witness of C27: on the sample target, register 3 saved at -16 while the
stack size is 24 is loaded back by `MOV 8(SP), reg 3`. -/
theorem C27_witness :
    exec_ops (gen_scfi_ops example_target
        (mk_ginsn ginsn_type.GINSN_TYPE_MOV (src_indirect 7 8) src_none (dst_reg 3))
        (state_after example_target [ginsn_sub_sp example_target 8] example_saved_state))
      = some [scfi_op_restore 3]
    ∧ exec_ret (gen_scfi_ops example_target
        (mk_ginsn ginsn_type.GINSN_TYPE_MOV (src_indirect 7 8) src_none (dst_reg 3))
        (state_after example_target [ginsn_sub_sp example_target 8] example_saved_state))
      = some 0 := by
  rw [(C27_symmetric_restore_by_indirect_load example_target
      (mk_ginsn ginsn_type.GINSN_TYPE_MOV (src_indirect 7 8) src_none (dst_reg 3))
      (state_after example_target [ginsn_sub_sp example_target 8] example_saved_state) (-16)
      rfl rfl rfl (by decide) (by decide) (by decide) (by decide) (by decide)
      (Or.inl ⟨rfl, by decide⟩) (by decide)).1]
  exact ⟨rfl, rfl⟩

/-- On the sample target a load-from-stack into register 3 does not return,
neither right after the function begin, where the register is undefined, nor
after a push and a pop of the register, where it is back in itself: the
assertion of `verify_heuristic_symmetrical_restore_reg` fails. -/
theorem gen_scfi_ops_lds_not_on_stack_examples :
    (state_after example_target [ginsn_func_begin] init_state).regs 3
      = { base := 0, offset := 0, state := cfi_reglocstate.CFI_UNDEFINED }
    ∧ exec_fault (gen_scfi_ops example_target (ginsn_lds 3)
        (state_after example_target [ginsn_func_begin] init_state))
      = some scfi_fault.assertion
    ∧ (state_after example_target (scenario_a_insns example_target 8 [3]) init_state).regs 3
      = { base := 3, offset := 0, state := cfi_reglocstate.CFI_IN_REG }
    ∧ exec_fault (gen_scfi_ops example_target (ginsn_lds 3)
        (state_after example_target (scenario_a_insns example_target 8 [3]) init_state))
      = some scfi_fault.assertion := by
  decide

/-- C28: a load-from-stack into a tracked register below the size of the table
that is not recorded on the stack (in register, or undefined) is not a
no-operation in the code: `gen_scfi_ops` does not return success with the
state unchanged, it does not return at all, because the assertion of
`verify_heuristic_symmetrical_restore_reg` that the register is on the stack
fails, whatever the state otherwise. -/
theorem C28_lds_into_register_not_on_stack (t : scfi_target) (g : ginsn) (s : scfi_state)
    (hty : g.type = ginsn_type.GINSN_TYPE_LDS)
    (hd : ginsn_get_dst_type g.dst = ginsn_dst_type.GINSN_DST_REG)
    (htrack : t.ginsn_track_reg_p (ginsn_get_dst_reg g.dst) = true)
    (hlt : ginsn_get_dst_reg g.dst < MAX_NUM_SCFI_REGS t)
    (hst : (s.regs (ginsn_get_dst_reg g.dst)).state ≠ cfi_reglocstate.CFI_ON_STACK) :
    gen_scfi_ops t g s = Except.error scfi_fault.assertion := by
  have hdt : g.dst.type = ginsn_dst_type.GINSN_DST_REG := hd
  have hn : ¬ MAX_NUM_SCFI_REGS t ≤ ginsn_get_dst_reg g.dst := Nat.not_le.2 hlt
  have hm : GINSN_F_FUNC_BEGIN_P g = false := func_begin_of_type_ne g (by simp [hty])
  have h1 : verify_heuristic_traceable_stack_manipulation t g s = Except.ok (0, s) := by
    unfold verify_heuristic_traceable_stack_manipulation ginsn_scfi_save_reg_p
      ginsn_scfi_reg_restore_p
    simp [hty]
  have h2 : verify_heuristic_traceable_reg_bp t g s = 0 := by
    unfold verify_heuristic_traceable_reg_bp
    simp [hty]
  have hfail : ∀ (g1 : ginsn) (s1 : scfi_state) (x : Int),
      (s1.regs (ginsn_get_dst_reg g.dst)).state ≠ cfi_reglocstate.CFI_ON_STACK →
      gen_scfi_ops_restore t g1 s1 (ginsn_get_dst_reg g.dst) x
        = Except.error scfi_fault.assertion := by
    intro g1 s1 x h
    simp [gen_scfi_ops_restore, verify_heuristic_symmetrical_restore_reg, hn, h]
  rw [gen_scfi_ops_of_guards t g s hm h1 h2]
  simp only [gen_scfi_ops_switch, hdt, hty, gen_scfi_ops_lds, htrack, if_true]
  apply hfail
  by_cases hc : ginsn_get_dst_reg g.dst = t.REG_FP ∧ (s.regs (REG_CFA t)).base = t.REG_FP
  · rw [if_pos hc]
    simp only [scfi_op_add_def_cfa_reg, set_regloc]
    by_cases hr : ginsn_get_dst_reg g.dst = REG_CFA t
    · rw [if_pos hr]
      rw [hr] at hst
      exact hst
    · rw [if_neg hr]
      exact hst
  · rw [if_neg hc]
    exact hst

/-- Witness of C28: the load-from-stack into register 3 (a pop of a register
that was never pushed) right after the function begin on the sample target. -/
theorem C28_witness :
    gen_scfi_ops example_target (ginsn_lds 3)
        (state_after example_target [ginsn_func_begin] init_state)
      = Except.error scfi_fault.assertion :=
  C28_lds_into_register_not_on_stack example_target (ginsn_lds 3)
    (state_after example_target [ginsn_func_begin] init_state) rfl rfl (by decide)
    (by decide) (by decide)

/-- C29: a register-to-register MOV from SP to FP while the CFA is based on
SP is accepted: the CFA base becomes FP with the CFA offset unchanged, the
instruction gets exactly one `DW_CFA_def_cfa_register` that carries the new
CFA location, and the stack size, the traceable flag, the scratch table and
the other register entries are unchanged. -/
theorem C29_mov_sp_to_fp (t : scfi_target) (g : ginsn) (s : scfi_state)
    (hsp : t.REG_SP ≠ t.REG_FP)
    (hty : g.type = ginsn_type.GINSN_TYPE_MOV)
    (hsrc : ginsn_get_src_type g.src1 = ginsn_src_type.GINSN_SRC_REG)
    (hsr : ginsn_get_src_reg g.src1 = t.REG_SP)
    (hd : ginsn_get_dst_type g.dst = ginsn_dst_type.GINSN_DST_REG)
    (hdr : ginsn_get_dst_reg g.dst = t.REG_FP)
    (hbase : (s.regs (REG_CFA t)).base = t.REG_SP) :
    gen_scfi_ops t g s = Except.ok
      { ret := 0,
        ginsn := ginsn_append_scfi_op g
          (scfi_op_def_cfa_register t { s.regs (REG_CFA t) with base := t.REG_FP }),
        state :=
          { s with
            regs := set_regloc s.regs (REG_CFA t)
              { s.regs (REG_CFA t) with base := t.REG_FP } } } := by
  have hdt : g.dst.type = ginsn_dst_type.GINSN_DST_REG := hd
  have hm : GINSN_F_FUNC_BEGIN_P g = false := func_begin_of_type_ne g (by simp [hty])
  have h1 : verify_heuristic_traceable_stack_manipulation t g s = Except.ok (0, s) := by
    unfold verify_heuristic_traceable_stack_manipulation ginsn_scfi_save_reg_p
      ginsn_scfi_reg_restore_p
    simp [hty, hd]
  have h2 : verify_heuristic_traceable_reg_bp t g s = 0 := by
    unfold verify_heuristic_traceable_reg_bp
    simp [hbase, hsp]
  rw [gen_scfi_ops_of_guards t g s hm h1 h2]
  simp [gen_scfi_ops_switch, hdt, hty, gen_scfi_ops_mov, hsrc, hsr, hdr, hbase,
    scfi_op_add_def_cfa_reg, scfi_op_def_cfa_register, init_scfi_op]

/-- Witness of C29: on the sample target, `MOV SP, FP` after the function
begin and the push of the frame pointer; the CFA becomes (6, 16). -/
theorem C29_witness :
    exec_ops (gen_scfi_ops example_target
        (mk_ginsn ginsn_type.GINSN_TYPE_MOV (src_reg 7) src_none (dst_reg 6))
        (state_after example_target (example_realign_prologue.take 3) init_state))
      = some [scfi_op_def_cfa_register example_target
          { base := 6, offset := 16, state := cfi_reglocstate.CFI_UNDEFINED }] := by
  rw [C29_mov_sp_to_fp example_target
      (mk_ginsn ginsn_type.GINSN_TYPE_MOV (src_reg 7) src_none (dst_reg 6))
      (state_after example_target (example_realign_prologue.take 3) init_state)
      (by decide) rfl rfl rfl rfl rfl (by decide)]
  decide

/-- C30: a register-to-register MOV from FP to SP while the CFA is based on
FP is accepted, whether the state is traceable or not: the stack size becomes
the opposite of the recorded offset of FP (32-bit value, exact unless the
offset is the least one), the CFA base becomes SP with the CFA offset
unchanged, the traceable flag becomes true, and the instruction gets exactly
one `DW_CFA_def_cfa_register` that carries the new CFA location. -/
theorem C30_mov_fp_to_sp (t : scfi_target) (g : ginsn) (s : scfi_state)
    (hsp : t.REG_SP ≠ t.REG_FP) (hfp : t.REG_FP < MAX_NUM_SCFI_REGS t)
    (hty : g.type = ginsn_type.GINSN_TYPE_MOV)
    (hsrc : ginsn_get_src_type g.src1 = ginsn_src_type.GINSN_SRC_REG)
    (hsr : ginsn_get_src_reg g.src1 = t.REG_FP)
    (hd : ginsn_get_dst_type g.dst = ginsn_dst_type.GINSN_DST_REG)
    (hdr : ginsn_get_dst_reg g.dst = t.REG_SP)
    (hbase : (s.regs (REG_CFA t)).base = t.REG_FP) :
    gen_scfi_ops t g s = Except.ok
      { ret := 0,
        ginsn := ginsn_append_scfi_op g
          (scfi_op_def_cfa_register t { s.regs (REG_CFA t) with base := t.REG_SP }),
        state :=
          { s with
            regs := set_regloc s.regs (REG_CFA t)
              { s.regs (REG_CFA t) with base := t.REG_SP },
            stack_size := neg32 (s.regs t.REG_FP).offset,
            traceable_p := true } }
    ∧ (-2147483648 < (s.regs t.REG_FP).offset ∧ (s.regs t.REG_FP).offset ≤ 2147483648 →
        neg32 (s.regs t.REG_FP).offset = - (s.regs t.REG_FP).offset) := by
  have hdt : g.dst.type = ginsn_dst_type.GINSN_DST_REG := hd
  have hn : ¬ MAX_NUM_SCFI_REGS t ≤ t.REG_FP := Nat.not_le.2 hfp
  have hne : t.REG_FP ≠ t.REG_SP := fun h => hsp h.symm
  have hm : GINSN_F_FUNC_BEGIN_P g = false := func_begin_of_type_ne g (by simp [hty])
  have h1 : verify_heuristic_traceable_stack_manipulation t g s = Except.ok (0, s) := by
    unfold verify_heuristic_traceable_stack_manipulation ginsn_scfi_save_reg_p
      ginsn_scfi_reg_restore_p
    simp [hty, hd]
  have h2 : verify_heuristic_traceable_reg_bp t g s = 0 := by
    unfold verify_heuristic_traceable_reg_bp
    simp [hdr, hsp]
  refine ⟨?_, ?_⟩
  · rw [gen_scfi_ops_of_guards t g s hm h1 h2]
    simp [gen_scfi_ops_switch, hdt, hty, gen_scfi_ops_mov, hsrc, hsr, hdr, hbase, hne, hn,
      scfi_op_add_def_cfa_reg, scfi_op_def_cfa_register, init_scfi_op]
  · intro h
    unfold neg32 wrap_int32
    omega

/-- Witness of C30: on the sample target, `MOV FP, SP` in the state left by the
realigning prologue, which is not traceable: the stack size becomes 16. -/
theorem C30_witness :
    example_untraceable_state.traceable_p = false
    ∧ exec_stack_size (gen_scfi_ops example_target
        (mk_ginsn ginsn_type.GINSN_TYPE_MOV (src_reg 6) src_none (dst_reg 7))
        example_untraceable_state) = some 16
    ∧ exec_ops (gen_scfi_ops example_target
        (mk_ginsn ginsn_type.GINSN_TYPE_MOV (src_reg 6) src_none (dst_reg 7))
        example_untraceable_state)
      = some [scfi_op_def_cfa_register example_target
          { base := 7, offset := 16, state := cfi_reglocstate.CFI_UNDEFINED }] := by
  refine ⟨by decide, ?_⟩
  rw [(C30_mov_fp_to_sp example_target
      (mk_ginsn ginsn_type.GINSN_TYPE_MOV (src_reg 6) src_none (dst_reg 7))
      example_untraceable_state (by decide) (by decide) rfl rfl rfl rfl rfl (by decide)).1]
  decide


/-- C31: a load-from-stack into FP while the CFA is based on FP first switches
the CFA base to SP, with one `DW_CFA_def_cfa_register` that carries the new
CFA location, and then makes the symmetry check for FP: when FP is recorded at
the opposite of the stack size, the instruction ends with the
`DW_CFA_def_cfa_register` followed by the `DW_CFA_restore` of FP and FP is in
itself; otherwise only the switch is made and its operation appended. -/
theorem C31_frame_pointer_pop (t : scfi_target) (g : ginsn) (s : scfi_state)
    (hty : g.type = ginsn_type.GINSN_TYPE_LDS)
    (hd : ginsn_get_dst_type g.dst = ginsn_dst_type.GINSN_DST_REG)
    (hdr : ginsn_get_dst_reg g.dst = t.REG_FP)
    (hbase : (s.regs (REG_CFA t)).base = t.REG_FP)
    (htrack : t.ginsn_track_reg_p t.REG_FP = true)
    (hfp : t.REG_FP < REG_CFA t)
    (hst : (s.regs t.REG_FP).state = cfi_reglocstate.CFI_ON_STACK)
    (hb : (s.regs t.REG_FP).base = REG_CFA t) :
    ((s.regs t.REG_FP).offset = neg32 s.stack_size →
      gen_scfi_ops t g s = Except.ok
        { ret := 0,
          ginsn := ginsn_append_scfi_op
            (ginsn_append_scfi_op g
              (scfi_op_def_cfa_register t { s.regs (REG_CFA t) with base := t.REG_SP }))
            (scfi_op_restore t.REG_FP),
          state :=
            { s with
              regs := set_regloc
                (set_regloc s.regs (REG_CFA t) { s.regs (REG_CFA t) with base := t.REG_SP })
                t.REG_FP
                { base := t.REG_FP, offset := 0, state := cfi_reglocstate.CFI_IN_REG } } })
    ∧ ((s.regs t.REG_FP).offset ≠ neg32 s.stack_size →
      gen_scfi_ops t g s = Except.ok
        { ret := 0,
          ginsn := ginsn_append_scfi_op g
            (scfi_op_def_cfa_register t { s.regs (REG_CFA t) with base := t.REG_SP }),
          state :=
            { s with
              regs := set_regloc s.regs (REG_CFA t)
                { s.regs (REG_CFA t) with base := t.REG_SP } } }) := by
  have hdt : g.dst.type = ginsn_dst_type.GINSN_DST_REG := hd
  have hne : t.REG_FP ≠ REG_CFA t := Nat.ne_of_lt hfp
  have hn : ¬ MAX_NUM_SCFI_REGS t ≤ t.REG_FP := by
    unfold MAX_NUM_SCFI_REGS
    omega
  have hm : GINSN_F_FUNC_BEGIN_P g = false := func_begin_of_type_ne g (by simp [hty])
  have h1 : verify_heuristic_traceable_stack_manipulation t g s = Except.ok (0, s) := by
    unfold verify_heuristic_traceable_stack_manipulation ginsn_scfi_save_reg_p
      ginsn_scfi_reg_restore_p
    simp [hty]
  have h2 : verify_heuristic_traceable_reg_bp t g s = 0 := by
    unfold verify_heuristic_traceable_reg_bp
    simp [hty]
  rw [gen_scfi_ops_of_guards t g s hm h1 h2]
  constructor
  · intro hoff
    simp [gen_scfi_ops_switch, hdt, hty, gen_scfi_ops_lds, hdr, hbase, htrack,
      scfi_op_add_def_cfa_reg, gen_scfi_ops_restore, verify_heuristic_symmetrical_restore_reg,
      hn, set_regloc, hne, hst, hb, hoff, scfi_state_restore_reg, scfi_op_add_cfa_restore,
      scfi_op_restore, scfi_op_def_cfa_register, init_scfi_op]
  · intro hoff
    have hoff' : ¬ neg32 s.stack_size = (s.regs t.REG_FP).offset := fun h => hoff h.symm
    simp [gen_scfi_ops_switch, hdt, hty, gen_scfi_ops_lds, hdr, hbase, htrack,
      scfi_op_add_def_cfa_reg, gen_scfi_ops_restore, verify_heuristic_symmetrical_restore_reg,
      hn, set_regloc, hne, hst, hb, hoff', scfi_op_def_cfa_register, init_scfi_op]

/-- Witness of C31: on the sample target, the pop of the frame pointer after
its push and the copy of SP into it. -/
theorem C31_witness :
    exec_ops (gen_scfi_ops example_target (ginsn_lds 6)
        (state_after example_target (example_realign_prologue.take 4) init_state))
      = some [scfi_op_def_cfa_register example_target
                { base := 7, offset := 16, state := cfi_reglocstate.CFI_UNDEFINED },
              scfi_op_restore 6] := by
  rw [(C31_frame_pointer_pop example_target (ginsn_lds 6)
      (state_after example_target (example_realign_prologue.take 4) init_state)
      rfl rfl rfl (by decide) (by decide) (by decide) (by decide) (by decide)).1 (by decide)]
  decide

/-- C32: a register-to-register MOV from SP into a register R of the table
that is not FP (or is FP while the CFA is based neither on SP nor on FP) only
records the scratch entry of R as (REG_CFA, the opposite of the stack size):
`gen_scfi_ops` returns 0, the instruction gets no operation, and the state
after equals the state before under `cmp_scfi_state`. -/
theorem C32_mov_sp_to_scratch (t : scfi_target) (g : ginsn) (s : scfi_state)
    (hsp : t.REG_SP ≠ t.REG_FP)
    (hty : g.type = ginsn_type.GINSN_TYPE_MOV)
    (hsrc : ginsn_get_src_type g.src1 = ginsn_src_type.GINSN_SRC_REG)
    (hsr : ginsn_get_src_reg g.src1 = t.REG_SP)
    (hd : ginsn_get_dst_type g.dst = ginsn_dst_type.GINSN_DST_REG)
    (hlt : ginsn_get_dst_reg g.dst < MAX_NUM_SCFI_REGS t)
    (hnf : ginsn_get_dst_reg g.dst = t.REG_FP →
      (s.regs (REG_CFA t)).base ≠ t.REG_SP ∧ (s.regs (REG_CFA t)).base ≠ t.REG_FP) :
    gen_scfi_ops t g s = Except.ok
      { ret := 0, ginsn := g,
        state :=
          { s with
            scratch := set_regloc s.scratch (ginsn_get_dst_reg g.dst)
              { s.scratch (ginsn_get_dst_reg g.dst) with
                base := REG_CFA t, offset := neg32 s.stack_size } } }
    ∧ cmp_scfi_state t s
        { s with
          scratch := set_regloc s.scratch (ginsn_get_dst_reg g.dst)
            { s.scratch (ginsn_get_dst_reg g.dst) with
              base := REG_CFA t, offset := neg32 s.stack_size } } = 0 := by
  have hdt : g.dst.type = ginsn_dst_type.GINSN_DST_REG := hd
  have hn : ¬ MAX_NUM_SCFI_REGS t ≤ ginsn_get_dst_reg g.dst := Nat.not_le.2 hlt
  have hm : GINSN_F_FUNC_BEGIN_P g = false := func_begin_of_type_ne g (by simp [hty])
  have h1 : verify_heuristic_traceable_stack_manipulation t g s = Except.ok (0, s) := by
    unfold verify_heuristic_traceable_stack_manipulation ginsn_scfi_save_reg_p
      ginsn_scfi_reg_restore_p
    simp [hty, hd]
  have h2 : verify_heuristic_traceable_reg_bp t g s = 0 := by
    unfold verify_heuristic_traceable_reg_bp
    rw [if_neg (fun h => (hnf h.2).2 h.1)]
  have hb1 : ¬ (ginsn_get_dst_reg g.dst = t.REG_FP ∧ (s.regs (REG_CFA t)).base = t.REG_SP) :=
    fun h => (hnf h.1).1 h.2
  refine ⟨?_, cmp_scfi_state_self t s⟩
  rw [gen_scfi_ops_of_guards t g s hm h1 h2]
  simp [gen_scfi_ops_switch, hdt, hty, gen_scfi_ops_mov, hsrc, hsr, hsp, hb1, hd, hn]

/-- Witness of C32: on the sample target, `MOV SP, reg 3` right after the
function begin records the scratch entry (17, -8) of register 3. -/
theorem C32_witness :
    exec_ops (gen_scfi_ops example_target
        (mk_ginsn ginsn_type.GINSN_TYPE_MOV (src_reg 7) src_none (dst_reg 3))
        (state_after example_target [ginsn_func_begin] init_state)) = some []
    ∧ (state_after example_target
        [ginsn_func_begin,
         mk_ginsn ginsn_type.GINSN_TYPE_MOV (src_reg 7) src_none (dst_reg 3)]
        init_state).scratch 3
      = { base := 17, offset := -8, state := cfi_reglocstate.CFI_UNDEFINED } := by
  refine ⟨?_, by decide⟩
  rw [(C32_mov_sp_to_scratch example_target
      (mk_ginsn ginsn_type.GINSN_TYPE_MOV (src_reg 7) src_none (dst_reg 3))
      (state_after example_target [ginsn_func_begin] init_state)
      (by decide) rfl rfl rfl rfl (by decide) (by decide)).1]
  rfl

/-- The switch of `gen_scfi_ops` returns 0 whenever it returns. -/
theorem gen_scfi_ops_switch_ret (t : scfi_target) (g : ginsn) (s : scfi_state)
    (r : scfi_exec) (h : gen_scfi_ops_switch t g s = Except.ok r) : r.ret = 0 := by
  have hrestore : ∀ (g1 : ginsn) (s1 : scfi_state) (reg : Nat) (x : Int) (r1 : scfi_exec),
      gen_scfi_ops_restore t g1 s1 reg x = Except.ok r1 → r1.ret = 0 := by
    intro g1 s1 reg x r1 h1
    unfold gen_scfi_ops_restore at h1
    split at h1
    · exact absurd h1 (by simp)
    · split_ifs at h1
      · split at h1
        · exact absurd h1 (by simp)
        · simp only [Except.ok.injEq] at h1
          subst h1
          rfl
      · simp only [Except.ok.injEq] at h1
        subst h1
        rfl
  have hsave : ∀ (g1 : ginsn) (s1 : scfi_state) (reg : Nat) (x : Int) (r1 : scfi_exec),
      gen_scfi_ops_save t g1 s1 reg x = Except.ok r1 → r1.ret = 0 := by
    intro g1 s1 reg x r1 h1
    unfold gen_scfi_ops_save at h1
    split at h1
    · exact absurd h1 (by simp)
    · split at h1
      · exact absurd h1 (by simp)
      · simp only [Except.ok.injEq] at h1
        subst h1
        rfl
  unfold gen_scfi_ops_switch at h
  split at h
  · split at h
    · unfold gen_scfi_ops_mov at h
      split_ifs at h <;>
        first
        | exact hrestore _ _ _ _ _ h
        | (simp only [Except.ok.injEq] at h
           subst h
           rfl)
    · unfold gen_scfi_ops_sub at h
      dsimp only at h
      split_ifs at h <;>
        (simp only [Except.ok.injEq] at h
         subst h
         rfl)
    · unfold gen_scfi_ops_add at h
      dsimp only at h
      split_ifs at h <;>
        (simp only [Except.ok.injEq] at h
         subst h
         rfl)
    · unfold gen_scfi_ops_lds at h
      dsimp only at h
      split_ifs at h <;>
        first
        | exact hrestore _ _ _ _ _ h
        | (simp only [Except.ok.injEq] at h
           subst h
           rfl)
    · simp only [Except.ok.injEq] at h
      subst h
      rfl
  · unfold gen_scfi_ops_dst_stack at h
    split_ifs at h <;>
      first
      | exact hsave _ _ _ _ _ h
      | (simp only [Except.ok.injEq] at h
         subst h
         rfl)
  · unfold gen_scfi_ops_dst_indirect at h
    split_ifs at h <;>
      first
      | exact hsave _ _ _ _ _ h
      | (simp only [Except.ok.injEq] at h
         subst h
         rfl)
  · simp only [Except.ok.injEq] at h
    subst h
    rfl

/-- The first guard either leaves the state as it is, or accepts the
instruction and clears the traceable flag, which it does only for the
destination SP while the CFA is based on FP and not on SP. -/
theorem verify_heuristic_traceable_stack_manipulation_cases (t : scfi_target) (g : ginsn)
    (s s1 : scfi_state) (c : Int)
    (h : verify_heuristic_traceable_stack_manipulation t g s = Except.ok (c, s1)) :
    s1 = s
    ∨ (c = 0 ∧ s1 = { s with traceable_p := false } ∧ ginsn_get_dst_reg g.dst = t.REG_SP
        ∧ (s.regs (REG_CFA t)).base ≠ t.REG_SP ∧ (s.regs (REG_CFA t)).base = t.REG_FP) := by
  unfold verify_heuristic_traceable_stack_manipulation at h
  split_ifs at h with h1 h2 h3 h4 <;>
    simp only [Except.ok.injEq, Prod.mk.injEq] at h <;>
    first
    | exact Or.inl h.2.symm
    | exact Or.inr ⟨h.1.symm, h.2.symm, h1.1, h2, by simpa using h4⟩

/-- C36: whenever `gen_scfi_ops` returns a nonzero code, the instruction is not
the function-begin marker, one of the two guards rejected it, the state is
exactly the state before the call, the traceable flag included, and the
instruction has no new operation; and when the first guard changes the state
(it clears the traceable flag), it accepts the instruction and the second
guard accepts it too. -/
theorem C36_failure_atomic (t : scfi_target) (g : ginsn) (s : scfi_state) :
    (∀ r : scfi_exec, gen_scfi_ops t g s = Except.ok r → r.ret ≠ 0 →
      r.state = s ∧ r.ginsn = g ∧ GINSN_F_FUNC_BEGIN_P g = false
      ∧ (verify_heuristic_traceable_stack_manipulation t g s = Except.ok (r.ret, s)
          ∨ (verify_heuristic_traceable_stack_manipulation t g s = Except.ok (0, s)
              ∧ verify_heuristic_traceable_reg_bp t g s = r.ret)))
    ∧ (∀ (c : Int) (s1 : scfi_state),
        verify_heuristic_traceable_stack_manipulation t g s = Except.ok (c, s1) → s1 ≠ s →
        c = 0 ∧ verify_heuristic_traceable_reg_bp t g s1 = 0) := by
  have hboth : ∀ (c : Int) (s1 : scfi_state),
      verify_heuristic_traceable_stack_manipulation t g s = Except.ok (c, s1) → s1 ≠ s →
      c = 0 ∧ verify_heuristic_traceable_reg_bp t g s1 = 0 := by
    intro c s1 h1 hne
    rcases verify_heuristic_traceable_stack_manipulation_cases t g s s1 c h1 with
      h | ⟨hc, hs1, hdst, hnsp, hfp⟩
    · exact absurd h hne
    · refine ⟨hc, ?_⟩
      unfold verify_heuristic_traceable_reg_bp
      rw [if_neg]
      rintro ⟨-, hd⟩
      rw [hdst] at hd
      rw [hfp] at hnsp
      exact hnsp hd.symm
  refine ⟨?_, hboth⟩
  intro r h hret
  unfold gen_scfi_ops at h
  by_cases hm : GINSN_F_FUNC_BEGIN_P g = true
  · rw [if_pos hm] at h
    split at h
    · exact absurd h (by simp)
    · simp only [Except.ok.injEq] at h
      subst h
      exact absurd rfl hret
  · rw [if_neg hm] at h
    have hm' : GINSN_F_FUNC_BEGIN_P g = false := by simpa using hm
    cases h1 : verify_heuristic_traceable_stack_manipulation t g s with
    | error f => rw [h1] at h; exact absurd h (by simp)
    | ok p =>
      obtain ⟨c, s1⟩ := p
      rw [h1] at h
      simp only at h
      by_cases hc : c ≠ 0
      · rw [if_pos hc] at h
        simp only [Except.ok.injEq] at h
        subst h
        have hs : s1 = s := by
          by_contra hne
          exact hc (hboth c s1 h1 hne).1
        subst hs
        exact ⟨rfl, rfl, hm', Or.inl rfl⟩
      · rw [if_neg hc] at h
        have hc0 : c = 0 := not_not.mp hc
        subst hc0
        by_cases h2 : verify_heuristic_traceable_reg_bp t g s1 ≠ 0
        · rw [if_pos h2] at h
          simp only [Except.ok.injEq] at h
          subst h
          have hs : s1 = s := by
            by_contra hne
            exact h2 (hboth 0 s1 h1 hne).2
          subst hs
          exact ⟨rfl, rfl, hm', Or.inr ⟨rfl, rfl⟩⟩
        · rw [if_neg h2] at h
          exact absurd (gen_scfi_ops_switch_ret t g s1 r h) hret

/-- Witness of C36: on the sample target, `SUB SP, reg 0, SP` right after the
function begin is rejected by the first guard; the state and the instruction
are untouched. -/
theorem C36_witness :
    ∃ r : scfi_exec,
      gen_scfi_ops example_target
          (mk_ginsn ginsn_type.GINSN_TYPE_SUB (src_reg 7) (src_reg 0) (dst_reg 7))
          (state_after example_target [ginsn_func_begin] init_state) = Except.ok r
      ∧ r.ret = 1
      ∧ r.state = state_after example_target [ginsn_func_begin] init_state
      ∧ r.ginsn = mk_ginsn ginsn_type.GINSN_TYPE_SUB (src_reg 7) (src_reg 0) (dst_reg 7) := by
  have hret : exec_ret (gen_scfi_ops example_target
      (mk_ginsn ginsn_type.GINSN_TYPE_SUB (src_reg 7) (src_reg 0) (dst_reg 7))
      (state_after example_target [ginsn_func_begin] init_state)) = some 1 := by decide
  cases hr : gen_scfi_ops example_target
      (mk_ginsn ginsn_type.GINSN_TYPE_SUB (src_reg 7) (src_reg 0) (dst_reg 7))
      (state_after example_target [ginsn_func_begin] init_state) with
  | error f =>
    rw [hr] at hret
    exact absurd hret (by simp [exec_ret])
  | ok r =>
    rw [hr] at hret
    have h1 : r.ret = 1 := by simpa [exec_ret] using hret
    obtain ⟨hs, hg, -⟩ :=
      (C36_failure_atomic example_target
        (mk_ginsn ginsn_type.GINSN_TYPE_SUB (src_reg 7) (src_reg 0) (dst_reg 7))
        (state_after example_target [ginsn_func_begin] init_state)).1 r hr
        (by rw [h1]; decide)
    exact ⟨r, rfl, h1, hs, hg⟩

/-- C38: on the sample target, in the state right after the function begin,
two instructions over the tracked register 3 end in a failed assertion instead
of a return: the load-from-stack into register 3, which is not recorded on the
stack, and the store of register 3 to -8(FP) while the CFA is based on SP. -/
theorem C38_assertions_fail_on_reachable_state :
    exec_ret (gen_scfi_ops example_target ginsn_func_begin init_state) = some 0
    ∧ example_target.ginsn_track_reg_p 3 = true
    ∧ exec_fault (gen_scfi_ops example_target (ginsn_lds 3)
        (state_after example_target [ginsn_func_begin] init_state))
      = some scfi_fault.assertion
    ∧ exec_fault (gen_scfi_ops example_target
        (mk_ginsn ginsn_type.GINSN_TYPE_MOV (src_reg 3) src_none (dst_indirect 6 (-8)))
        (state_after example_target [ginsn_func_begin] init_state))
      = some scfi_fault.assertion := by
  decide


/-- The store `MOV R, disp(FP)` of a tracked register that is not on the stack,
in a traceable state whose CFA is based on FP. -/
theorem gen_scfi_ops_mov_save_fp (t : scfi_target) (g : ginsn) (s : scfi_state)
    (htr : s.traceable_p = true)
    (hty : g.type = ginsn_type.GINSN_TYPE_MOV)
    (hd : ginsn_get_dst_type g.dst = ginsn_dst_type.GINSN_DST_INDIRECT)
    (hdr : ginsn_get_dst_reg g.dst = t.REG_FP)
    (hne : t.REG_FP ≠ t.REG_SP)
    (hbase : (s.regs (REG_CFA t)).base = t.REG_FP)
    (htrack : t.ginsn_track_reg_p (ginsn_get_src_reg g.src1) = true)
    (hlt : ginsn_get_src_reg g.src1 < MAX_NUM_SCFI_REGS t)
    (hst : (s.regs (ginsn_get_src_reg g.src1)).state ≠ cfi_reglocstate.CFI_ON_STACK) :
    gen_scfi_ops t g s = Except.ok
      { ret := 0,
        ginsn := ginsn_append_scfi_op g
          (scfi_op_offset (ginsn_get_src_reg g.src1)
            { base := REG_CFA t,
              offset := wrap_int32 (- (s.regs (REG_CFA t)).offset + ginsn_get_dst_disp g.dst),
              state := cfi_reglocstate.CFI_ON_STACK }),
        state :=
          { s with
            regs := set_regloc s.regs (ginsn_get_src_reg g.src1)
              { base := REG_CFA t,
                offset :=
                  wrap_int32 (- (s.regs (REG_CFA t)).offset + ginsn_get_dst_disp g.dst),
                state := cfi_reglocstate.CFI_ON_STACK } } } := by
  have hdt : g.dst.type = ginsn_dst_type.GINSN_DST_INDIRECT := hd
  have hn : ¬ MAX_NUM_SCFI_REGS t ≤ ginsn_get_src_reg g.src1 := Nat.not_le.2 hlt
  have hw2 : ∀ a d : Int, add32 (sub32 0 a) d = wrap_int32 (- a + d) := by
    intro a d
    unfold add32 sub32 wrap_int32
    omega
  have hm : GINSN_F_FUNC_BEGIN_P g = false := func_begin_of_type_ne g (by simp [hty])
  have h1 : verify_heuristic_traceable_stack_manipulation t g s = Except.ok (0, s) := by
    unfold verify_heuristic_traceable_stack_manipulation ginsn_scfi_save_reg_p
      ginsn_scfi_reg_restore_p
    simp [hty, htr]
  have h2 : verify_heuristic_traceable_reg_bp t g s = 0 := by
    unfold verify_heuristic_traceable_reg_bp
    simp [hty, hd]
  rw [gen_scfi_ops_of_guards t g s hm h1 h2]
  simp only [gen_scfi_ops_switch, hdt, gen_scfi_ops_dst_indirect, hty, htrack, hn, hst, hdr,
    hne, hbase]
  simp only [ne_eq, not_true_eq_false, if_false, if_true, not_false_eq_true, hw2]
  rw [if_pos hst]
  exact gen_scfi_ops_save_ok t g s _ _ hlt

/-- The load `MOV disp(FP), R` into a tracked register other than FP is the
symmetry check against the recorded offset of FP plus the displacement. -/
theorem gen_scfi_ops_mov_load_fp (t : scfi_target) (g : ginsn) (s : scfi_state)
    (hty : g.type = ginsn_type.GINSN_TYPE_MOV)
    (hsrc : ginsn_get_src_type g.src1 = ginsn_src_type.GINSN_SRC_INDIRECT)
    (hsr : ginsn_get_src_reg g.src1 = t.REG_FP)
    (hne : t.REG_FP ≠ t.REG_SP) (hfplt : t.REG_FP < MAX_NUM_SCFI_REGS t)
    (hd : ginsn_get_dst_type g.dst = ginsn_dst_type.GINSN_DST_REG)
    (htrack : t.ginsn_track_reg_p (ginsn_get_dst_reg g.dst) = true)
    (hrfp : ginsn_get_dst_reg g.dst ≠ t.REG_FP) :
    gen_scfi_ops t g s
      = gen_scfi_ops_restore t g s (ginsn_get_dst_reg g.dst)
          (add32 (s.regs t.REG_FP).offset (ginsn_get_src_disp g.src1)) := by
  have hdt : g.dst.type = ginsn_dst_type.GINSN_DST_REG := hd
  have hn2 : ¬ MAX_NUM_SCFI_REGS t ≤ t.REG_FP := Nat.not_le.2 hfplt
  have hm : GINSN_F_FUNC_BEGIN_P g = false := func_begin_of_type_ne g (by simp [hty])
  have h1 : verify_heuristic_traceable_stack_manipulation t g s = Except.ok (0, s) := by
    unfold verify_heuristic_traceable_stack_manipulation ginsn_scfi_save_reg_p
      ginsn_scfi_reg_restore_p
    simp [hty, hd]
  have h2 : verify_heuristic_traceable_reg_bp t g s = 0 := by
    unfold verify_heuristic_traceable_reg_bp
    simp [hrfp]
  rw [gen_scfi_ops_of_guards t g s hm h1 h2]
  simp only [gen_scfi_ops_switch, hdt, hty, gen_scfi_ops_mov, hsrc, hsr, htrack]
  simp [hne, hn2]

/-- C39: in a traceable state whose CFA is based on FP, for a tracked register
R of the table other than FP and REG_CFA that is not on the stack, the store
`MOV R, disp(FP)` followed by the load `MOV disp(FP), R` with the same
displacement is accepted; the store records R at the opposite of the CFA
offset plus the displacement.  When the recorded offset of FP (a 32-bit value)
is the 32-bit opposite of the CFA offset, the load gets one `DW_CFA_restore`
and R ends in itself; otherwise the load gets no operation and R stays on the
stack. -/
theorem C39_fp_relative_round_trip (t : scfi_target) (gs gl : ginsn) (s : scfi_state)
    (r : Nat) (disp : Int)
    (hne : t.REG_FP ≠ t.REG_SP) (hfplt : t.REG_FP < MAX_NUM_SCFI_REGS t)
    (htr : s.traceable_p = true)
    (hbase : (s.regs (REG_CFA t)).base = t.REG_FP)
    (htrack : t.ginsn_track_reg_p r = true)
    (hlt : r < REG_CFA t) (hrfp : r ≠ t.REG_FP)
    (hst : (s.regs r).state ≠ cfi_reglocstate.CFI_ON_STACK)
    (hfpoff : -2147483648 ≤ (s.regs t.REG_FP).offset ∧ (s.regs t.REG_FP).offset < 2147483648)
    (hgs : gs.type = ginsn_type.GINSN_TYPE_MOV
      ∧ ginsn_get_src_reg gs.src1 = r
      ∧ ginsn_get_dst_type gs.dst = ginsn_dst_type.GINSN_DST_INDIRECT
      ∧ ginsn_get_dst_reg gs.dst = t.REG_FP ∧ ginsn_get_dst_disp gs.dst = disp)
    (hgl : gl.type = ginsn_type.GINSN_TYPE_MOV
      ∧ ginsn_get_src_type gl.src1 = ginsn_src_type.GINSN_SRC_INDIRECT
      ∧ ginsn_get_src_reg gl.src1 = t.REG_FP ∧ ginsn_get_src_disp gl.src1 = disp
      ∧ ginsn_get_dst_type gl.dst = ginsn_dst_type.GINSN_DST_REG
      ∧ ginsn_get_dst_reg gl.dst = r) :
    ((s.regs t.REG_FP).offset = neg32 (s.regs (REG_CFA t)).offset →
      bb_gen_scfi_ops t [gs, gl] s = Except.ok
        { ret := 0,
          insns :=
            [ ginsn_append_scfi_op gs
                (scfi_op_offset r
                  { base := REG_CFA t,
                    offset := wrap_int32 (- (s.regs (REG_CFA t)).offset + disp),
                    state := cfi_reglocstate.CFI_ON_STACK }),
              ginsn_append_scfi_op gl (scfi_op_restore r) ],
          state :=
            { s with
              regs := set_regloc s.regs r
                { base := r, offset := 0, state := cfi_reglocstate.CFI_IN_REG } } })
    ∧ ((s.regs t.REG_FP).offset ≠ neg32 (s.regs (REG_CFA t)).offset →
      bb_gen_scfi_ops t [gs, gl] s = Except.ok
        { ret := 0,
          insns :=
            [ ginsn_append_scfi_op gs
                (scfi_op_offset r
                  { base := REG_CFA t,
                    offset := wrap_int32 (- (s.regs (REG_CFA t)).offset + disp),
                    state := cfi_reglocstate.CFI_ON_STACK }),
              gl ],
          state :=
            { s with
              regs := set_regloc s.regs r
                { base := REG_CFA t,
                  offset := wrap_int32 (- (s.regs (REG_CFA t)).offset + disp),
                  state := cfi_reglocstate.CFI_ON_STACK } } }) := by
  obtain ⟨hsty, hssr, hsd, hsdr, hsdisp⟩ := hgs
  obtain ⟨hlty, hlsrc, hlsr, hldisp, hld, hldr⟩ := hgl
  have hrmax : r < MAX_NUM_SCFI_REGS t := by unfold MAX_NUM_SCFI_REGS; omega
  have hn : ¬ MAX_NUM_SCFI_REGS t ≤ r := Nat.not_le.2 hrmax
  have hfpr : ¬ t.REG_FP = r := fun h => hrfp h.symm
  -- the store
  have hstore := gen_scfi_ops_mov_save_fp t gs s htr hsty hsd hsdr hne hbase
    (by rw [hssr]; exact htrack) (by rw [hssr]; exact hrmax) (by rw [hssr]; exact hst)
  rw [hssr, hsdisp] at hstore
  -- the load, on the state left by the store
  have hload := gen_scfi_ops_mov_load_fp t gl
    { s with
      regs := set_regloc s.regs r
        { base := REG_CFA t,
          offset := wrap_int32 (- (s.regs (REG_CFA t)).offset + disp),
          state := cfi_reglocstate.CFI_ON_STACK } }
    hlty hlsrc hlsr hne hfplt hld (by rw [hldr]; exact htrack) (by rw [hldr]; exact hrfp)
  rw [hldr, hldisp] at hload
  have hfpsame : (set_regloc s.regs r
      { base := REG_CFA t,
        offset := wrap_int32 (- (s.regs (REG_CFA t)).offset + disp),
        state := cfi_reglocstate.CFI_ON_STACK }) t.REG_FP = s.regs t.REG_FP := by
    simp [set_regloc, hfpr]
  have hsym : add32 (s.regs t.REG_FP).offset disp
        = wrap_int32 (- (s.regs (REG_CFA t)).offset + disp)
      ↔ (s.regs t.REG_FP).offset = neg32 (s.regs (REG_CFA t)).offset := by
    unfold add32 neg32 wrap_int32
    constructor <;> intro h <;> omega
  constructor
  · intro hoff
    have hl : gen_scfi_ops t gl
        { s with
          regs := set_regloc s.regs r
            { base := REG_CFA t,
              offset := wrap_int32 (- (s.regs (REG_CFA t)).offset + disp),
              state := cfi_reglocstate.CFI_ON_STACK } }
        = Except.ok
          { ret := 0, ginsn := ginsn_append_scfi_op gl (scfi_op_restore r),
            state :=
              { s with
                regs := set_regloc s.regs r
                  { base := r, offset := 0, state := cfi_reglocstate.CFI_IN_REG } } } := by
      rw [hload]
      simp only [hfpsame]
      simp [gen_scfi_ops_restore, verify_heuristic_symmetrical_restore_reg, hn, set_regloc,
        hsym.mpr hoff, scfi_state_restore_reg, scfi_op_add_cfa_restore, scfi_op_restore,
        init_scfi_op]
      funext j
      by_cases hj : j = r <;> simp [set_regloc, hj]
    exact bb_gen_scfi_ops_cons_ok t gs [gl] s _ _ hstore rfl
      (bb_gen_scfi_ops_cons_ok t gl [] _ _
        { ret := 0, insns := [],
          state :=
            { s with
              regs := set_regloc s.regs r
                { base := r, offset := 0, state := cfi_reglocstate.CFI_IN_REG } } }
        hl rfl rfl)
  · intro hoff
    have hnsym : ¬ add32 (s.regs t.REG_FP).offset disp
        = wrap_int32 (- (s.regs (REG_CFA t)).offset + disp) := fun h => hoff (hsym.mp h)
    have hl : gen_scfi_ops t gl
        { s with
          regs := set_regloc s.regs r
            { base := REG_CFA t,
              offset := wrap_int32 (- (s.regs (REG_CFA t)).offset + disp),
              state := cfi_reglocstate.CFI_ON_STACK } }
        = Except.ok
          { ret := 0, ginsn := gl,
            state :=
              { s with
                regs := set_regloc s.regs r
                  { base := REG_CFA t,
                    offset := wrap_int32 (- (s.regs (REG_CFA t)).offset + disp),
                    state := cfi_reglocstate.CFI_ON_STACK } } } := by
      rw [hload]
      simp only [hfpsame]
      simp [gen_scfi_ops_restore, verify_heuristic_symmetrical_restore_reg, hn, set_regloc,
        hnsym]
    exact bb_gen_scfi_ops_cons_ok t gs [gl] s _ _ hstore rfl
      (bb_gen_scfi_ops_cons_ok t gl [] _ _
        { ret := 0, insns := [],
          state :=
            { s with
              regs := set_regloc s.regs r
                { base := REG_CFA t,
                  offset := wrap_int32 (- (s.regs (REG_CFA t)).offset + disp),
                  state := cfi_reglocstate.CFI_ON_STACK } } }
        hl rfl rfl)

/-- Witness of C39: on the sample target, after the push of the frame pointer
and the copy of SP into it (CFA (6, 16), FP recorded at -16), register 3 is
stored at -8(FP) and loaded back from there: `DW_CFA_offset` with offset -24
on the store, `DW_CFA_restore` on the load. -/
theorem C39_witness :
    bb_gen_scfi_ops example_target
        [mk_ginsn ginsn_type.GINSN_TYPE_MOV (src_reg 3) src_none (dst_indirect 6 (-8)),
         mk_ginsn ginsn_type.GINSN_TYPE_MOV (src_indirect 6 (-8)) src_none (dst_reg 3)]
        (state_after example_target (example_realign_prologue.take 4) init_state)
      = Except.ok
        { ret := 0,
          insns :=
            [ ginsn_append_scfi_op
                (mk_ginsn ginsn_type.GINSN_TYPE_MOV (src_reg 3) src_none (dst_indirect 6 (-8)))
                (scfi_op_offset 3
                  { base := 17, offset := -24, state := cfi_reglocstate.CFI_ON_STACK }),
              ginsn_append_scfi_op
                (mk_ginsn ginsn_type.GINSN_TYPE_MOV (src_indirect 6 (-8)) src_none (dst_reg 3))
                (scfi_op_restore 3) ],
          state :=
            { state_after example_target (example_realign_prologue.take 4) init_state with
              regs := set_regloc
                (state_after example_target (example_realign_prologue.take 4) init_state).regs 3
                { base := 3, offset := 0, state := cfi_reglocstate.CFI_IN_REG } } } :=
  (C39_fp_relative_round_trip example_target
    (mk_ginsn ginsn_type.GINSN_TYPE_MOV (src_reg 3) src_none (dst_indirect 6 (-8)))
    (mk_ginsn ginsn_type.GINSN_TYPE_MOV (src_indirect 6 (-8)) src_none (dst_reg 3))
    (state_after example_target (example_realign_prologue.take 4) init_state) 3 (-8)
    (by decide) (by decide) (by decide) (by decide) (by decide) (by decide) (by decide)
    (by decide) (by decide) ⟨rfl, rfl, rfl, rfl, rfl⟩ ⟨rfl, rfl, rfl, rfl, rfl, rfl⟩).1
    (by decide)


/-! ### The state transitions of the executor, case by case -/

/-- The restore tail either leaves the state alone or puts a register that
was on the stack, with base REG_CFA, back in itself. -/
theorem gen_scfi_ops_restore_cases (t : scfi_target) (g : ginsn) (s : scfi_state)
    (reg : Nat) (x : Int) (r : scfi_exec)
    (h : gen_scfi_ops_restore t g s reg x = Except.ok r) :
    r.state = s
    ∨ (reg < MAX_NUM_SCFI_REGS t
        ∧ (s.regs reg).state = cfi_reglocstate.CFI_ON_STACK
        ∧ (s.regs reg).base = REG_CFA t
        ∧ r.state = { s with
            regs := set_regloc s.regs reg
              { base := reg, offset := 0, state := cfi_reglocstate.CFI_IN_REG } }) := by
  by_cases h1 : MAX_NUM_SCFI_REGS t ≤ reg
  · simp [gen_scfi_ops_restore, verify_heuristic_symmetrical_restore_reg, h1] at h
  by_cases h2 : (s.regs reg).state = cfi_reglocstate.CFI_ON_STACK
  swap
  · simp [gen_scfi_ops_restore, verify_heuristic_symmetrical_restore_reg, h1, h2] at h
  by_cases h3 : (s.regs reg).base = REG_CFA t
  swap
  · simp [gen_scfi_ops_restore, verify_heuristic_symmetrical_restore_reg, h1, h2, h3] at h
  by_cases h4 : x = (s.regs reg).offset
  · simp [gen_scfi_ops_restore, verify_heuristic_symmetrical_restore_reg, scfi_state_restore_reg,
      h1, h2, h3, h4] at h
    subst h
    exact Or.inr ⟨Nat.not_le.1 h1, h2, h3, rfl⟩
  · simp [gen_scfi_ops_restore, verify_heuristic_symmetrical_restore_reg, h1, h2, h3, h4] at h
    subst h
    exact Or.inl rfl

/-- The save tail records the register on the stack at the given offset. -/
theorem gen_scfi_ops_save_cases (t : scfi_target) (g : ginsn) (s : scfi_state)
    (reg : Nat) (x : Int) (r : scfi_exec)
    (h : gen_scfi_ops_save t g s reg x = Except.ok r) :
    reg < MAX_NUM_SCFI_REGS t
      ∧ r.state = { s with
          regs := set_regloc s.regs reg
            { base := REG_CFA t, offset := x, state := cfi_reglocstate.CFI_ON_STACK } } := by
  by_cases hlt : reg < MAX_NUM_SCFI_REGS t
  · rw [gen_scfi_ops_save_ok t g s reg x hlt] at h
    simp only [Except.ok.injEq] at h
    subst h
    exact ⟨hlt, rfl⟩
  · exfalso
    have hn : MAX_NUM_SCFI_REGS t ≤ reg := Nat.not_lt.1 hlt
    simp [gen_scfi_ops_save, scfi_state_save_reg, scfi_op_add_cfi_offset, hn] at h

/-- The effects of the MOV case of the switch. -/
theorem gen_scfi_ops_mov_cases (t : scfi_target) (g : ginsn) (s : scfi_state) (r : scfi_exec)
    (h : gen_scfi_ops_mov t g s = Except.ok r) :
    r.state = s
    ∨ (ginsn_get_dst_reg g.dst = t.REG_FP ∧ (s.regs (REG_CFA t)).base = t.REG_SP
        ∧ r.state = { s with
            regs := set_regloc s.regs (REG_CFA t)
              { s.regs (REG_CFA t) with base := t.REG_FP } })
    ∨ (ginsn_get_src_type g.src1 = ginsn_src_type.GINSN_SRC_REG
        ∧ ginsn_get_dst_reg g.dst = t.REG_SP
        ∧ (s.regs (REG_CFA t)).base = t.REG_FP
        ∧ r.state = { regs := set_regloc s.regs (REG_CFA t)
                        { s.regs (REG_CFA t) with base := t.REG_SP },
                      scratch := s.scratch,
                      stack_size := neg32 (s.regs t.REG_FP).offset,
                      traceable_p := true })
    ∨ (t.ginsn_track_reg_p (ginsn_get_dst_reg g.dst) = true
        ∧ ginsn_get_dst_reg g.dst < MAX_NUM_SCFI_REGS t
        ∧ (s.regs (ginsn_get_dst_reg g.dst)).state = cfi_reglocstate.CFI_ON_STACK
        ∧ (s.regs (ginsn_get_dst_reg g.dst)).base = REG_CFA t
        ∧ r.state = { s with
            regs := set_regloc s.regs (ginsn_get_dst_reg g.dst)
              { base := ginsn_get_dst_reg g.dst, offset := 0,
                state := cfi_reglocstate.CFI_IN_REG } })
    ∨ (ginsn_get_src_type g.src1 = ginsn_src_type.GINSN_SRC_REG
        ∧ ginsn_get_src_reg g.src1 = t.REG_SP
        ∧ ginsn_get_dst_type g.dst = ginsn_dst_type.GINSN_DST_REG
        ∧ r.state = { s with
            scratch := set_regloc s.scratch (ginsn_get_dst_reg g.dst)
              { s.scratch (ginsn_get_dst_reg g.dst) with
                base := REG_CFA t, offset := neg32 s.stack_size } })
    ∨ (ginsn_get_src_type g.src1 = ginsn_src_type.GINSN_SRC_REG
        ∧ ginsn_get_dst_type g.dst = ginsn_dst_type.GINSN_DST_REG
        ∧ ginsn_get_dst_reg g.dst = t.REG_SP
        ∧ r.state = { s with
            stack_size := neg32 (s.scratch (ginsn_get_src_reg g.src1)).offset,
            traceable_p := true }) := by
  unfold gen_scfi_ops_mov at h
  split_ifs at h with c1 c2 c3 c4 c5 c6 c7 c8 c9 c10
  · simp only [Except.ok.injEq] at h
    subst h
    exact Or.inr (Or.inl ⟨c1.2.2.1, c1.2.2.2, by simp [scfi_op_add_def_cfa_reg, c1.2.2.1]⟩)
  · simp only [Except.ok.injEq] at h
    subst h
    exact Or.inr (Or.inr (Or.inl ⟨c2.1, c2.2.2.1, c2.2.2.2,
      by simp [scfi_op_add_def_cfa_reg, c2.2.2.1]⟩))
  · rcases gen_scfi_ops_restore_cases t g s _ _ r h with h0 | ⟨a1, a2, a3, a4⟩
    · exact Or.inl h0
    · exact Or.inr (Or.inr (Or.inr (Or.inl ⟨c4.2.2, a1, a2, a3, a4⟩)))
  · rcases gen_scfi_ops_restore_cases t g s _ _ r h with h0 | ⟨a1, a2, a3, a4⟩
    · exact Or.inl h0
    · exact Or.inr (Or.inr (Or.inr (Or.inl ⟨c4.2.2, a1, a2, a3, a4⟩)))
  · simp only [Except.ok.injEq] at h
    subst h
    exact Or.inr (Or.inr (Or.inr (Or.inr (Or.inl ⟨c7.1, c7.2.2, c7.2.1, rfl⟩))))
  · simp only [Except.ok.injEq] at h
    subst h
    exact Or.inr (Or.inr (Or.inr (Or.inr (Or.inr ⟨c9.1, c9.2.1, c9.2.2, rfl⟩))))
  · simp only [Except.ok.injEq] at h
    subst h
    exact Or.inl rfl

/-- The effects of the SUB and ADD cases of the switch: the stack size changes,
and the CFA offset with it when the CFA is based on SP. -/
theorem gen_scfi_ops_sub_cases (t : scfi_target) (g : ginsn) (s : scfi_state) (r : scfi_exec)
    (h : gen_scfi_ops_sub t g s = Except.ok r) :
    r.state = s
    ∨ (∃ n : Int, (s.regs (REG_CFA t)).base = t.REG_SP
        ∧ r.state = { regs := set_regloc s.regs (REG_CFA t)
                        { s.regs (REG_CFA t) with
                          offset := add32 (s.regs (REG_CFA t)).offset n },
                      scratch := s.scratch,
                      stack_size := add32 s.stack_size n,
                      traceable_p := s.traceable_p })
    ∨ (∃ n : Int, ((s.regs (REG_CFA t)).base ≠ t.REG_SP ∨ (s.regs (REG_CFA t)).base = t.REG_FP)
        ∧ r.state = { s with stack_size := n }) := by
  unfold gen_scfi_ops_sub at h
  dsimp only at h
  split_ifs at h with c1 c2
  · simp only [Except.ok.injEq] at h
    subst h
    exact Or.inr (Or.inl ⟨ginsn_get_src_imm g.src2, c2, rfl⟩)
  · simp only [Except.ok.injEq] at h
    subst h
    exact Or.inr (Or.inr ⟨_, Or.inl c2, rfl⟩)
  · simp only [Except.ok.injEq] at h
    subst h
    exact Or.inl rfl

theorem gen_scfi_ops_add_cases (t : scfi_target) (g : ginsn) (s : scfi_state) (r : scfi_exec)
    (h : gen_scfi_ops_add t g s = Except.ok r) :
    r.state = s
    ∨ (∃ n : Int, (s.regs (REG_CFA t)).base = t.REG_SP
        ∧ r.state = { regs := set_regloc s.regs (REG_CFA t)
                        { s.regs (REG_CFA t) with
                          offset := add32 (s.regs (REG_CFA t)).offset n },
                      scratch := s.scratch,
                      stack_size := add32 s.stack_size n,
                      traceable_p := s.traceable_p })
    ∨ (∃ n : Int, ((s.regs (REG_CFA t)).base ≠ t.REG_SP ∨ (s.regs (REG_CFA t)).base = t.REG_FP)
        ∧ r.state = { s with stack_size := n }) := by
  have hneg : ∀ a b : Int, sub32 a b = add32 a (-b) := by
    intro a b
    unfold sub32 add32
    rw [Int.sub_eq_add_neg]
  unfold gen_scfi_ops_add at h
  dsimp only at h
  split_ifs at h with c1 c2 c3 c4
  · simp only [Except.ok.injEq] at h
    subst h
    refine Or.inr (Or.inl ⟨- ginsn_get_src_imm g.src2, c2, ?_⟩)
    simp [scfi_op_add_cfa_offset_inc, hneg]
  · simp only [Except.ok.injEq] at h
    subst h
    exact Or.inr (Or.inr ⟨_, Or.inl c2, rfl⟩)
  · simp only [Except.ok.injEq] at h
    subst h
    exact Or.inr (Or.inr ⟨_, Or.inr c3.2.2, rfl⟩)
  · simp only [Except.ok.injEq] at h
    subst h
    exact Or.inl rfl

/-- The effects of the LDS case of the switch. -/
theorem gen_scfi_ops_lds_cases (t : scfi_target) (g : ginsn) (s : scfi_state) (r : scfi_exec)
    (h : gen_scfi_ops_lds t g s = Except.ok r) :
    r.state = s
    ∨ (t.ginsn_track_reg_p (ginsn_get_dst_reg g.dst) = true
        ∧ ginsn_get_dst_reg g.dst < MAX_NUM_SCFI_REGS t
        ∧ (s.regs (ginsn_get_dst_reg g.dst)).state = cfi_reglocstate.CFI_ON_STACK
        ∧ (s.regs (ginsn_get_dst_reg g.dst)).base = REG_CFA t
        ∧ r.state = { s with
            regs := set_regloc s.regs (ginsn_get_dst_reg g.dst)
              { base := ginsn_get_dst_reg g.dst, offset := 0,
                state := cfi_reglocstate.CFI_IN_REG } })
    ∨ (ginsn_get_dst_reg g.dst = t.REG_FP ∧ (s.regs (REG_CFA t)).base = t.REG_FP
        ∧ (r.state = { s with
              regs := set_regloc s.regs (REG_CFA t)
                { s.regs (REG_CFA t) with base := t.REG_SP } }
          ∨ (t.ginsn_track_reg_p t.REG_FP = true
              ∧ t.REG_FP < MAX_NUM_SCFI_REGS t
              ∧ (set_regloc s.regs (REG_CFA t)
                  { s.regs (REG_CFA t) with base := t.REG_SP } t.REG_FP).state
                  = cfi_reglocstate.CFI_ON_STACK
              ∧ (set_regloc s.regs (REG_CFA t)
                  { s.regs (REG_CFA t) with base := t.REG_SP } t.REG_FP).base = REG_CFA t
              ∧ r.state = { s with
                  regs := set_regloc
                    (set_regloc s.regs (REG_CFA t)
                      { s.regs (REG_CFA t) with base := t.REG_SP })
                    t.REG_FP
                    { base := t.REG_FP, offset := 0,
                      state := cfi_reglocstate.CFI_IN_REG } }))) := by
  unfold gen_scfi_ops_lds at h
  dsimp only at h
  by_cases c1 : ginsn_get_dst_reg g.dst = t.REG_FP ∧ (s.regs (REG_CFA t)).base = t.REG_FP
  · rw [if_pos c1] at h
    refine Or.inr (Or.inr ⟨c1.1, c1.2, ?_⟩)
    split_ifs at h with c2
    · rcases gen_scfi_ops_restore_cases t _ _ _ _ r h with h0 | ⟨a1, a2, a3, a4⟩
      · exact Or.inl h0
      · rw [c1.1] at c2 a1 a2 a3 a4
        exact Or.inr ⟨c2, a1, a2, a3, a4⟩
    · simp only [Except.ok.injEq] at h
      subst h
      exact Or.inl rfl
  · rw [if_neg c1] at h
    split_ifs at h with c2
    · rcases gen_scfi_ops_restore_cases t _ _ _ _ r h with h0 | ⟨a1, a2, a3, a4⟩
      · exact Or.inl h0
      · exact Or.inr (Or.inl ⟨c2, a1, a2, a3, a4⟩)
    · simp only [Except.ok.injEq] at h
      subst h
      exact Or.inl rfl

/-- The effects of the two store cases of the switch. -/
theorem gen_scfi_ops_dst_stack_cases (t : scfi_target) (g : ginsn) (s : scfi_state)
    (r : scfi_exec) (h : gen_scfi_ops_dst_stack t g s = Except.ok r) :
    r.state = s
    ∨ (∃ (reg : Nat) (off : Int), t.ginsn_track_reg_p reg = true
        ∧ reg < MAX_NUM_SCFI_REGS t
        ∧ r.state = { s with
            regs := set_regloc s.regs reg
              { base := REG_CFA t, offset := off,
                state := cfi_reglocstate.CFI_ON_STACK } }) := by
  unfold gen_scfi_ops_dst_stack at h
  split_ifs at h with c1 c2 c3 c4
  · have hs := gen_scfi_ops_save_cases t g s _ _ r h
    exact Or.inr ⟨_, _, c2, hs.1, hs.2⟩
  · simp only [Except.ok.injEq] at h
    subst h
    exact Or.inl rfl
  · simp only [Except.ok.injEq] at h
    subst h
    exact Or.inl rfl

theorem gen_scfi_ops_dst_indirect_cases (t : scfi_target) (g : ginsn) (s : scfi_state)
    (r : scfi_exec) (h : gen_scfi_ops_dst_indirect t g s = Except.ok r) :
    r.state = s
    ∨ (∃ (reg : Nat) (off : Int), t.ginsn_track_reg_p reg = true
        ∧ reg < MAX_NUM_SCFI_REGS t
        ∧ r.state = { s with
            regs := set_regloc s.regs reg
              { base := REG_CFA t, offset := off,
                state := cfi_reglocstate.CFI_ON_STACK } }) := by
  unfold gen_scfi_ops_dst_indirect at h
  split_ifs at h with c1 c2 c3 c4 c5 c6 c7
  all_goals
    first
    | (have hs := gen_scfi_ops_save_cases t g s _ _ r h
       exact Or.inr ⟨_, _, c2, hs.1, hs.2⟩)
    | (simp only [Except.ok.injEq] at h
       subst h
       exact Or.inl rfl)

/-- The effects of the switch of `gen_scfi_ops` on the state, case by case:
nothing; the CFA base to FP; the CFA base back to SP with the stack size read
from FP; a register restored; a scratch entry recorded; the stack size read
from a scratch entry; a stack adjustment, with or without the CFA offset; the
pop of FP while the CFA is based on it; a register saved. -/
theorem gen_scfi_ops_switch_cases (t : scfi_target) (g : ginsn) (s : scfi_state)
    (r : scfi_exec) (h : gen_scfi_ops_switch t g s = Except.ok r) :
    r.state = s
    ∨ (ginsn_get_dst_reg g.dst = t.REG_FP ∧ (s.regs (REG_CFA t)).base = t.REG_SP
        ∧ r.state = { s with
            regs := set_regloc s.regs (REG_CFA t)
              { s.regs (REG_CFA t) with base := t.REG_FP } })
    ∨ (g.type = ginsn_type.GINSN_TYPE_MOV
        ∧ ginsn_get_dst_type g.dst = ginsn_dst_type.GINSN_DST_REG
        ∧ ginsn_get_src_type g.src1 = ginsn_src_type.GINSN_SRC_REG
        ∧ ginsn_get_dst_reg g.dst = t.REG_SP
        ∧ (s.regs (REG_CFA t)).base = t.REG_FP
        ∧ r.state = { regs := set_regloc s.regs (REG_CFA t)
                        { s.regs (REG_CFA t) with base := t.REG_SP },
                      scratch := s.scratch,
                      stack_size := neg32 (s.regs t.REG_FP).offset,
                      traceable_p := true })
    ∨ (t.ginsn_track_reg_p (ginsn_get_dst_reg g.dst) = true
        ∧ ginsn_get_dst_reg g.dst < MAX_NUM_SCFI_REGS t
        ∧ (s.regs (ginsn_get_dst_reg g.dst)).state = cfi_reglocstate.CFI_ON_STACK
        ∧ (s.regs (ginsn_get_dst_reg g.dst)).base = REG_CFA t
        ∧ r.state = { s with
            regs := set_regloc s.regs (ginsn_get_dst_reg g.dst)
              { base := ginsn_get_dst_reg g.dst, offset := 0,
                state := cfi_reglocstate.CFI_IN_REG } })
    ∨ (g.type = ginsn_type.GINSN_TYPE_MOV
        ∧ ginsn_get_src_type g.src1 = ginsn_src_type.GINSN_SRC_REG
        ∧ ginsn_get_src_reg g.src1 = t.REG_SP
        ∧ ginsn_get_dst_type g.dst = ginsn_dst_type.GINSN_DST_REG
        ∧ r.state = { s with
            scratch := set_regloc s.scratch (ginsn_get_dst_reg g.dst)
              { s.scratch (ginsn_get_dst_reg g.dst) with
                base := REG_CFA t, offset := neg32 s.stack_size } })
    ∨ (g.type = ginsn_type.GINSN_TYPE_MOV
        ∧ ginsn_get_src_type g.src1 = ginsn_src_type.GINSN_SRC_REG
        ∧ ginsn_get_dst_type g.dst = ginsn_dst_type.GINSN_DST_REG
        ∧ ginsn_get_dst_reg g.dst = t.REG_SP
        ∧ r.state = { s with
            stack_size := neg32 (s.scratch (ginsn_get_src_reg g.src1)).offset,
            traceable_p := true })
    ∨ (∃ n : Int, (s.regs (REG_CFA t)).base = t.REG_SP
        ∧ r.state = { regs := set_regloc s.regs (REG_CFA t)
                        { s.regs (REG_CFA t) with
                          offset := add32 (s.regs (REG_CFA t)).offset n },
                      scratch := s.scratch,
                      stack_size := add32 s.stack_size n,
                      traceable_p := s.traceable_p })
    ∨ (∃ n : Int, ((s.regs (REG_CFA t)).base ≠ t.REG_SP ∨ (s.regs (REG_CFA t)).base = t.REG_FP)
        ∧ r.state = { s with stack_size := n })
    ∨ (g.type = ginsn_type.GINSN_TYPE_LDS
        ∧ ginsn_get_dst_type g.dst = ginsn_dst_type.GINSN_DST_REG
        ∧ ginsn_get_dst_reg g.dst = t.REG_FP ∧ (s.regs (REG_CFA t)).base = t.REG_FP
        ∧ (r.state = { s with
              regs := set_regloc s.regs (REG_CFA t)
                { s.regs (REG_CFA t) with base := t.REG_SP } }
          ∨ (t.ginsn_track_reg_p t.REG_FP = true
              ∧ t.REG_FP < MAX_NUM_SCFI_REGS t
              ∧ (set_regloc s.regs (REG_CFA t)
                  { s.regs (REG_CFA t) with base := t.REG_SP } t.REG_FP).state
                  = cfi_reglocstate.CFI_ON_STACK
              ∧ (set_regloc s.regs (REG_CFA t)
                  { s.regs (REG_CFA t) with base := t.REG_SP } t.REG_FP).base = REG_CFA t
              ∧ r.state = { s with
                  regs := set_regloc
                    (set_regloc s.regs (REG_CFA t)
                      { s.regs (REG_CFA t) with base := t.REG_SP })
                    t.REG_FP
                    { base := t.REG_FP, offset := 0,
                      state := cfi_reglocstate.CFI_IN_REG } })))
    ∨ (∃ (reg : Nat) (off : Int), t.ginsn_track_reg_p reg = true
        ∧ reg < MAX_NUM_SCFI_REGS t
        ∧ r.state = { s with
            regs := set_regloc s.regs reg
              { base := REG_CFA t, offset := off,
                state := cfi_reglocstate.CFI_ON_STACK } }) := by
  unfold gen_scfi_ops_switch at h
  split at h
  · rename_i hdt
    have hd : ginsn_get_dst_type g.dst = ginsn_dst_type.GINSN_DST_REG := hdt
    split at h
    · rename_i hty
      rcases gen_scfi_ops_mov_cases t g s r h with
        h0 | h1 | ⟨a1, a2, a3, a4⟩ | h3 | ⟨a1, a2, a3, a4⟩ | ⟨a1, a2, a3, a4⟩
      · exact Or.inl h0
      · exact Or.inr (Or.inl h1)
      · exact Or.inr (Or.inr (Or.inl ⟨hty, hd, a1, a2, a3, a4⟩))
      · exact Or.inr (Or.inr (Or.inr (Or.inl h3)))
      · exact Or.inr (Or.inr (Or.inr (Or.inr (Or.inl ⟨hty, a1, a2, a3, a4⟩))))
      · exact Or.inr (Or.inr (Or.inr (Or.inr (Or.inr (Or.inl ⟨hty, a1, a2, a3, a4⟩)))))
    · rcases gen_scfi_ops_sub_cases t g s r h with h0 | h1 | h2
      · exact Or.inl h0
      · exact Or.inr (Or.inr (Or.inr (Or.inr (Or.inr (Or.inr (Or.inl h1))))))
      · exact Or.inr (Or.inr (Or.inr (Or.inr (Or.inr (Or.inr (Or.inr (Or.inl h2)))))))
    · rcases gen_scfi_ops_add_cases t g s r h with h0 | h1 | h2
      · exact Or.inl h0
      · exact Or.inr (Or.inr (Or.inr (Or.inr (Or.inr (Or.inr (Or.inl h1))))))
      · exact Or.inr (Or.inr (Or.inr (Or.inr (Or.inr (Or.inr (Or.inr (Or.inl h2)))))))
    · rename_i hty
      rcases gen_scfi_ops_lds_cases t g s r h with h0 | h1 | ⟨a1, a2, a3⟩
      · exact Or.inl h0
      · exact Or.inr (Or.inr (Or.inr (Or.inl h1)))
      · exact Or.inr (Or.inr (Or.inr (Or.inr (Or.inr (Or.inr (Or.inr (Or.inr
          (Or.inl ⟨hty, hd, a1, a2, a3⟩))))))))
    · simp only [Except.ok.injEq] at h
      subst h
      exact Or.inl rfl
  · rcases gen_scfi_ops_dst_stack_cases t g s r h with h0 | h1
    · exact Or.inl h0
    · exact Or.inr (Or.inr (Or.inr (Or.inr (Or.inr (Or.inr (Or.inr (Or.inr (Or.inr h1))))))))
  · rcases gen_scfi_ops_dst_indirect_cases t g s r h with h0 | h1
    · exact Or.inl h0
    · exact Or.inr (Or.inr (Or.inr (Or.inr (Or.inr (Or.inr (Or.inr (Or.inr (Or.inr h1))))))))
  · simp only [Except.ok.injEq] at h
    subst h
    exact Or.inl rfl

/-- The marker of the function begin, when accepted, sets the CFA to SP at the
initial offset and adds the initial offset to the stack size. -/
theorem gen_scfi_ops_marker_cases (t : scfi_target) (g : ginsn) (s : scfi_state)
    (r : scfi_exec) (h : gen_scfi_ops t g s = Except.ok r)
    (hm : GINSN_F_FUNC_BEGIN_P g = true) :
    0 < t.SCFI_INIT_CFA_OFFSET ∧ r.ret = 0
    ∧ r.state = { regs := set_regloc s.regs (REG_CFA t)
                    { s.regs (REG_CFA t) with
                      base := t.REG_SP, offset := t.SCFI_INIT_CFA_OFFSET },
                  scratch := s.scratch,
                  stack_size := add32 s.stack_size t.SCFI_INIT_CFA_OFFSET,
                  traceable_p := s.traceable_p } := by
  unfold gen_scfi_ops at h
  rw [if_pos hm] at h
  by_cases hpos : 0 < t.SCFI_INIT_CFA_OFFSET
  · simp [scfi_op_add_def_cfa, hpos] at h
    subst h
    exact ⟨hpos, rfl, rfl⟩
  · simp [scfi_op_add_def_cfa, hpos] at h

/-- An instruction other than the marker: the first guard leaves the state or
clears the traceable flag (only while the CFA is not based on SP), and then
either the state is returned as it is or the switch runs on it. -/
theorem gen_scfi_ops_guard_cases (t : scfi_target) (g : ginsn) (s : scfi_state)
    (r : scfi_exec) (h : gen_scfi_ops t g s = Except.ok r)
    (hm : GINSN_F_FUNC_BEGIN_P g = false) :
    ∃ s1 : scfi_state,
      (s1 = s ∨ ((s.regs (REG_CFA t)).base ≠ t.REG_SP ∧ s1 = { s with traceable_p := false }))
      ∧ (r.state = s1 ∨ gen_scfi_ops_switch t g s1 = Except.ok r) := by
  unfold gen_scfi_ops at h
  rw [hm] at h
  simp only [Bool.false_eq_true, if_false] at h
  cases h1 : verify_heuristic_traceable_stack_manipulation t g s with
  | error f => rw [h1] at h; exact absurd h (by simp)
  | ok p =>
    obtain ⟨c, s1⟩ := p
    rw [h1] at h
    simp only at h
    refine ⟨s1, ?_, ?_⟩
    · rcases verify_heuristic_traceable_stack_manipulation_cases t g s s1 c h1 with
        h0 | ⟨_, a2, _, a4, _⟩
      · exact Or.inl h0
      · exact Or.inr ⟨a4, a2⟩
    · split_ifs at h with c1 c2
      · simp only [Except.ok.injEq] at h
        subst h
        exact Or.inl rfl
      · simp only [Except.ok.injEq] at h
        subst h
        exact Or.inl rfl
      · exact Or.inr h


/-! ### The scratch table -/

/-- The executor leaves the scratch entry of register I alone unless the
instruction is a register-to-register MOV from SP into I. -/
theorem gen_scfi_ops_scratch_kept (t : scfi_target) (g : ginsn) (s : scfi_state)
    (r : scfi_exec) (i : Nat) (h : gen_scfi_ops t g s = Except.ok r)
    (hn : ¬ (g.type = ginsn_type.GINSN_TYPE_MOV
      ∧ ginsn_get_src_type g.src1 = ginsn_src_type.GINSN_SRC_REG
      ∧ ginsn_get_src_reg g.src1 = t.REG_SP
      ∧ ginsn_get_dst_type g.dst = ginsn_dst_type.GINSN_DST_REG
      ∧ ginsn_get_dst_reg g.dst = i)) :
    r.state.scratch i = s.scratch i := by
  cases hm : GINSN_F_FUNC_BEGIN_P g with
  | true =>
    rw [(gen_scfi_ops_marker_cases t g s r h hm).2.2]
  | false =>
    obtain ⟨s1, hs1, hr⟩ := gen_scfi_ops_guard_cases t g s r h hm
    have h1 : s1.scratch = s.scratch := by
      rcases hs1 with rfl | ⟨_, rfl⟩ <;> rfl
    rw [← h1]
    rcases hr with h0 | hsw
    · rw [h0]
    · rcases gen_scfi_ops_switch_cases t g s1 r hsw with
        h0 | ⟨_, _, h0⟩ | ⟨_, _, _, _, _, h0⟩ | ⟨_, _, _, _, h0⟩ | ⟨a1, a2, a3, a4, h0⟩
        | ⟨_, _, _, _, h0⟩ | ⟨n, _, h0⟩ | ⟨n, _, h0⟩ | ⟨_, _, _, _, h0 | ⟨_, _, _, _, h0⟩⟩
        | ⟨reg, off, _, _, h0⟩
      all_goals rw [h0]
      have hne : ¬ i = ginsn_get_dst_reg g.dst := fun e => hn ⟨a1, a2, a3, a4, e.symm⟩
      simp [set_regloc, hne]

/-- The instruction loop leaves the scratch entry of register I alone when no
instruction of the list is a register-to-register MOV from SP into I. -/
theorem bb_gen_scfi_ops_scratch_kept (t : scfi_target) (l : List ginsn) (s : scfi_state)
    (r : scfi_bb_exec) (i : Nat) (h : bb_gen_scfi_ops t l s = Except.ok r)
    (hn : ∀ g ∈ l, ¬ (g.type = ginsn_type.GINSN_TYPE_MOV
      ∧ ginsn_get_src_type g.src1 = ginsn_src_type.GINSN_SRC_REG
      ∧ ginsn_get_src_reg g.src1 = t.REG_SP
      ∧ ginsn_get_dst_type g.dst = ginsn_dst_type.GINSN_DST_REG
      ∧ ginsn_get_dst_reg g.dst = i)) :
    r.state.scratch i = s.scratch i := by
  induction l generalizing s r with
  | nil =>
    simp only [bb_gen_scfi_ops, Except.ok.injEq] at h
    subst h
    rfl
  | cons g rest ih =>
    simp only [bb_gen_scfi_ops] at h
    cases hg : gen_scfi_ops t g s with
    | error f => simp [hg] at h
    | ok rg =>
      simp only [hg] at h
      have hk := gen_scfi_ops_scratch_kept t g s rg i hg (hn g (List.mem_cons_self g rest))
      by_cases hret : rg.ret ≠ 0
      · rw [if_pos hret] at h
        simp only [Except.ok.injEq] at h
        subst h
        exact hk
      · rw [if_neg hret] at h
        cases hrest : bb_gen_scfi_ops t rest rg.state with
        | error f => simp [hrest] at h
        | ok r2 =>
          simp only [hrest, Except.ok.injEq] at h
          subst h
          exact (ih rg.state r2 hrest (fun g1 hg1 => hn g1 (List.mem_cons_of_mem g hg1))).trans hk

/-- A register-to-register MOV from SP into a register of the table other than
FP records the scratch entry of the register. -/
theorem gen_scfi_ops_mov_sp_to_reg (t : scfi_target) (g : ginsn) (s : scfi_state)
    (hty : g.type = ginsn_type.GINSN_TYPE_MOV)
    (hsrc : ginsn_get_src_type g.src1 = ginsn_src_type.GINSN_SRC_REG)
    (hsr : ginsn_get_src_reg g.src1 = t.REG_SP)
    (hd : ginsn_get_dst_type g.dst = ginsn_dst_type.GINSN_DST_REG)
    (hlt : ginsn_get_dst_reg g.dst < MAX_NUM_SCFI_REGS t)
    (hnf : ginsn_get_dst_reg g.dst ≠ t.REG_FP) :
    gen_scfi_ops t g s = Except.ok
      { ret := 0, ginsn := g,
        state :=
          { s with
            scratch := set_regloc s.scratch (ginsn_get_dst_reg g.dst)
              { s.scratch (ginsn_get_dst_reg g.dst) with
                base := REG_CFA t, offset := neg32 s.stack_size } } } := by
  have hdt : g.dst.type = ginsn_dst_type.GINSN_DST_REG := hd
  have hn : ¬ MAX_NUM_SCFI_REGS t ≤ ginsn_get_dst_reg g.dst := Nat.not_le.2 hlt
  have hm : GINSN_F_FUNC_BEGIN_P g = false := func_begin_of_type_ne g (by simp [hty])
  have h1 : verify_heuristic_traceable_stack_manipulation t g s = Except.ok (0, s) := by
    unfold verify_heuristic_traceable_stack_manipulation ginsn_scfi_save_reg_p
      ginsn_scfi_reg_restore_p
    simp [hty, hd]
  have h2 : verify_heuristic_traceable_reg_bp t g s = 0 := by
    unfold verify_heuristic_traceable_reg_bp
    rw [if_neg (fun h => hnf h.2)]
  rw [gen_scfi_ops_of_guards t g s hm h1 h2]
  by_cases hsf : t.REG_SP = t.REG_FP
  · simp [gen_scfi_ops_switch, hdt, hty, gen_scfi_ops_mov, hsrc, hsr, hnf, hd, hn,
      hsf ▸ hnf, ← hsf]
  · simp [gen_scfi_ops_switch, hdt, hty, gen_scfi_ops_mov, hsrc, hsr, hnf, hd, hn, hsf]

/-- A register-to-register MOV into SP from a register of the table other than
SP and FP reads the stack size back from the scratch entry of the register and
sets the traceable flag. -/
theorem gen_scfi_ops_mov_reg_to_sp (t : scfi_target) (g : ginsn) (s : scfi_state)
    (hsp : t.REG_SP ≠ t.REG_FP)
    (hty : g.type = ginsn_type.GINSN_TYPE_MOV)
    (hsrc : ginsn_get_src_type g.src1 = ginsn_src_type.GINSN_SRC_REG)
    (hd : ginsn_get_dst_type g.dst = ginsn_dst_type.GINSN_DST_REG)
    (hdr : ginsn_get_dst_reg g.dst = t.REG_SP)
    (hns : ginsn_get_src_reg g.src1 ≠ t.REG_SP)
    (hnf : ginsn_get_src_reg g.src1 ≠ t.REG_FP)
    (hlt : ginsn_get_src_reg g.src1 < MAX_NUM_SCFI_REGS t) :
    gen_scfi_ops t g s = Except.ok
      { ret := 0, ginsn := g,
        state :=
          { s with
            stack_size := neg32 (s.scratch (ginsn_get_src_reg g.src1)).offset,
            traceable_p := true } } := by
  have hdt : g.dst.type = ginsn_dst_type.GINSN_DST_REG := hd
  have hn : ¬ MAX_NUM_SCFI_REGS t ≤ ginsn_get_src_reg g.src1 := Nat.not_le.2 hlt
  have hm : GINSN_F_FUNC_BEGIN_P g = false := func_begin_of_type_ne g (by simp [hty])
  have h1 : verify_heuristic_traceable_stack_manipulation t g s = Except.ok (0, s) := by
    unfold verify_heuristic_traceable_stack_manipulation ginsn_scfi_save_reg_p
      ginsn_scfi_reg_restore_p
    simp [hty, hd]
  have h2 : verify_heuristic_traceable_reg_bp t g s = 0 := by
    unfold verify_heuristic_traceable_reg_bp
    simp [hdr, hsp]
  rw [gen_scfi_ops_of_guards t g s hm h1 h2]
  simp [gen_scfi_ops_switch, hdt, hty, gen_scfi_ops_mov, hsrc, hns, hdr, hd, hn, hnf]

/-- The 32-bit negation is an involution on the 32-bit range. -/
theorem neg32_neg32 (x : Int) (h : -2147483648 ≤ x ∧ x < 2147483648) :
    neg32 (neg32 x) = x := by
  unfold neg32 wrap_int32
  omega

/-- C33: the stack depth survives a round trip through a scratch register: for
a register X of the table other than SP and FP, when `MOV SP, X` is followed
by a list of instructions that the executor accepts, none of them a
register-to-register MOV from SP into X, and then by `MOV X, SP`, the whole
list is accepted and the state at its end has the stack size of the state at
its start (a 32-bit value) and the traceable flag true. -/
theorem C33_stack_depth_round_trip (t : scfi_target) (g1 g2 : ginsn) (mid : List ginsn)
    (s : scfi_state) (x : Nat)
    (hsp : t.REG_SP ≠ t.REG_FP) (hxsp : x ≠ t.REG_SP) (hxfp : x ≠ t.REG_FP)
    (hlt : x < MAX_NUM_SCFI_REGS t)
    (hrange : -2147483648 ≤ s.stack_size ∧ s.stack_size < 2147483648)
    (hg1 : g1.type = ginsn_type.GINSN_TYPE_MOV
      ∧ ginsn_get_src_type g1.src1 = ginsn_src_type.GINSN_SRC_REG
      ∧ ginsn_get_src_reg g1.src1 = t.REG_SP
      ∧ ginsn_get_dst_type g1.dst = ginsn_dst_type.GINSN_DST_REG
      ∧ ginsn_get_dst_reg g1.dst = x)
    (hg2 : g2.type = ginsn_type.GINSN_TYPE_MOV
      ∧ ginsn_get_src_type g2.src1 = ginsn_src_type.GINSN_SRC_REG
      ∧ ginsn_get_src_reg g2.src1 = x
      ∧ ginsn_get_dst_type g2.dst = ginsn_dst_type.GINSN_DST_REG
      ∧ ginsn_get_dst_reg g2.dst = t.REG_SP)
    (hmid : ∀ g ∈ mid, ¬ (g.type = ginsn_type.GINSN_TYPE_MOV
      ∧ ginsn_get_src_type g.src1 = ginsn_src_type.GINSN_SRC_REG
      ∧ ginsn_get_src_reg g.src1 = t.REG_SP
      ∧ ginsn_get_dst_type g.dst = ginsn_dst_type.GINSN_DST_REG
      ∧ ginsn_get_dst_reg g.dst = x))
    (hacc : bb_ret (bb_gen_scfi_ops t mid (state_after t [g1] s)) = some 0) :
    bb_ret (bb_gen_scfi_ops t (g1 :: (mid ++ [g2])) s) = some 0
    ∧ bb_stack_size (bb_gen_scfi_ops t (g1 :: (mid ++ [g2])) s) = some s.stack_size
    ∧ bb_traceable (bb_gen_scfi_ops t (g1 :: (mid ++ [g2])) s) = some true := by
  obtain ⟨hty1, hsrc1, hsr1, hd1, hdr1⟩ := hg1
  obtain ⟨hty2, hsrc2, hsr2, hd2, hdr2⟩ := hg2
  have hstep1 := gen_scfi_ops_mov_sp_to_reg t g1 s hty1 hsrc1 hsr1 hd1
    (by rw [hdr1]; exact hlt) (by rw [hdr1]; exact hxfp)
  rw [hdr1] at hstep1
  have hafter : state_after t [g1] s
      = { s with
          scratch := set_regloc s.scratch x
            { s.scratch x with base := REG_CFA t, offset := neg32 s.stack_size } } := by
    simp [state_after, bb_gen_scfi_ops, hstep1]
  rw [hafter] at hacc
  cases hrun : bb_gen_scfi_ops t mid
      { s with
        scratch := set_regloc s.scratch x
          { s.scratch x with base := REG_CFA t, offset := neg32 s.stack_size } } with
  | error f => rw [hrun] at hacc; exact absurd hacc (by simp [bb_ret])
  | ok rm =>
    rw [hrun] at hacc
    have hret : rm.ret = 0 := by simpa [bb_ret] using hacc
    have hscr := bb_gen_scfi_ops_scratch_kept t mid _ rm x hrun hmid
    have hoff : (rm.state.scratch x).offset = neg32 s.stack_size := by
      rw [hscr]
      simp [set_regloc]
    have hstep2 := gen_scfi_ops_mov_reg_to_sp t g2 rm.state hsp hty2 hsrc2 hd2 hdr2
      (by rw [hsr2]; exact hxsp) (by rw [hsr2]; exact hxfp) (by rw [hsr2]; exact hlt)
    rw [hsr2, hoff, neg32_neg32 s.stack_size hrange] at hstep2
    have hlast := bb_gen_scfi_ops_cons_ok t g2 [] rm.state _
      { ret := 0, insns := [],
        state := { rm.state with stack_size := s.stack_size, traceable_p := true } }
      hstep2 rfl rfl
    have htail := bb_gen_scfi_ops_append t mid [g2] _ rm _ hrun hret hlast
    have hall := bb_gen_scfi_ops_cons_ok t g1 (mid ++ [g2]) s _ _ hstep1 rfl htail
    rw [hall]
    exact ⟨rfl, rfl, rfl⟩

/-- Witness of C33: on the sample target, after the function begin (stack size
8), `MOV SP, reg 3`, then the growth of the stack by 16 and a push of register
12, then `MOV reg 3, SP`: the stack size is 8 again. -/
theorem C33_witness :
    (state_after example_target [ginsn_func_begin] init_state).stack_size = 8
    ∧ bb_stack_size (bb_gen_scfi_ops example_target
        [ginsn_func_begin,
         mk_ginsn ginsn_type.GINSN_TYPE_MOV (src_reg 7) src_none (dst_reg 3),
         ginsn_sub_sp example_target 16,
         ginsn_sub_sp example_target 8,
         ginsn_sts 12] init_state) = some 32
    ∧ bb_ret (bb_gen_scfi_ops example_target
        (mk_ginsn ginsn_type.GINSN_TYPE_MOV (src_reg 7) src_none (dst_reg 3)
          :: ([ginsn_sub_sp example_target 16, ginsn_sub_sp example_target 8, ginsn_sts 12]
              ++ [mk_ginsn ginsn_type.GINSN_TYPE_MOV (src_reg 3) src_none (dst_reg 7)]))
        (state_after example_target [ginsn_func_begin] init_state)) = some 0
    ∧ bb_stack_size (bb_gen_scfi_ops example_target
        (mk_ginsn ginsn_type.GINSN_TYPE_MOV (src_reg 7) src_none (dst_reg 3)
          :: ([ginsn_sub_sp example_target 16, ginsn_sub_sp example_target 8, ginsn_sts 12]
              ++ [mk_ginsn ginsn_type.GINSN_TYPE_MOV (src_reg 3) src_none (dst_reg 7)]))
        (state_after example_target [ginsn_func_begin] init_state))
      = some (state_after example_target [ginsn_func_begin] init_state).stack_size
    ∧ bb_traceable (bb_gen_scfi_ops example_target
        (mk_ginsn ginsn_type.GINSN_TYPE_MOV (src_reg 7) src_none (dst_reg 3)
          :: ([ginsn_sub_sp example_target 16, ginsn_sub_sp example_target 8, ginsn_sts 12]
              ++ [mk_ginsn ginsn_type.GINSN_TYPE_MOV (src_reg 3) src_none (dst_reg 7)]))
        (state_after example_target [ginsn_func_begin] init_state)) = some true :=
  ⟨by decide, by decide,
   C33_stack_depth_round_trip example_target
     (mk_ginsn ginsn_type.GINSN_TYPE_MOV (src_reg 7) src_none (dst_reg 3))
     (mk_ginsn ginsn_type.GINSN_TYPE_MOV (src_reg 3) src_none (dst_reg 7))
     [ginsn_sub_sp example_target 16, ginsn_sub_sp example_target 8, ginsn_sts 12]
     (state_after example_target [ginsn_func_begin] init_state) 3
     (by decide) (by decide) (by decide) (by decide) (by decide)
     ⟨rfl, rfl, rfl, rfl, rfl⟩ ⟨rfl, rfl, rfl, rfl, rfl⟩ (by decide) (by decide)⟩


/-! ### The consistency of the register table -/

/-- An update of the entry of REG_CFA that keeps its state keeps the table
consistent. -/
theorem regs_consistent_set_cfa (t : scfi_target) (regs : Nat → cfi_regloc) (c : cfi_regloc)
    (hc : c.state = (regs (REG_CFA t)).state) (h : regs_consistent t regs) :
    regs_consistent t (set_regloc regs (REG_CFA t) c) := by
  refine ⟨fun i hi => ?_, fun htr => ?_⟩
  · simpa [set_regloc, hi] using h.1 i hi
  · simpa [set_regloc, hc] using h.2 htr

/-- The restore of a tracked register keeps the table consistent. -/
theorem regs_consistent_restore (t : scfi_target) (regs : Nat → cfi_regloc) (d : Nat)
    (hd : t.ginsn_track_reg_p d = true) (h : regs_consistent t regs) :
    regs_consistent t (set_regloc regs d
      { base := d, offset := 0, state := cfi_reglocstate.CFI_IN_REG }) := by
  refine ⟨fun i hi => ?_, fun htr => ?_⟩
  · by_cases hid : i = d
    · subst hid
      simp [set_regloc]
    · simpa [set_regloc, hid] using h.1 i hi
  · have hne : ¬ REG_CFA t = d := fun e => by rw [← e, htr] at hd; exact absurd hd (by simp)
    simpa [set_regloc, hne] using h.2 htr

/-- The save of a tracked register keeps the table consistent. -/
theorem regs_consistent_save (t : scfi_target) (regs : Nat → cfi_regloc) (d : Nat) (off : Int)
    (hd : t.ginsn_track_reg_p d = true) (h : regs_consistent t regs) :
    regs_consistent t (set_regloc regs d
      { base := REG_CFA t, offset := off, state := cfi_reglocstate.CFI_ON_STACK }) := by
  refine ⟨fun i hi => ?_, fun htr => ?_⟩
  · by_cases hid : i = d
    · subst hid
      simp [set_regloc]
    · simpa [set_regloc, hid] using h.1 i hi
  · have hne : ¬ REG_CFA t = d := fun e => by rw [← e, htr] at hd; exact absurd hd (by simp)
    simpa [set_regloc, hne] using h.2 htr

/-- Every call of `gen_scfi_ops` that returns keeps the register table
consistent. -/
theorem gen_scfi_ops_regs_consistent (t : scfi_target) (g : ginsn) (s : scfi_state)
    (r : scfi_exec) (h : gen_scfi_ops t g s = Except.ok r)
    (hs : regs_consistent t s.regs) : regs_consistent t r.state.regs := by
  cases hm : GINSN_F_FUNC_BEGIN_P g with
  | true =>
    rw [(gen_scfi_ops_marker_cases t g s r h hm).2.2]
    exact regs_consistent_set_cfa t s.regs _ rfl hs
  | false =>
    obtain ⟨s1, hs1, hr⟩ := gen_scfi_ops_guard_cases t g s r h hm
    have h1 : s1.regs = s.regs := by
      rcases hs1 with rfl | ⟨_, rfl⟩ <;> rfl
    rw [← h1] at hs
    rcases hr with h0 | hsw
    · rw [h0]
      exact hs
    · rcases gen_scfi_ops_switch_cases t g s1 r hsw with
        h0 | ⟨_, _, h0⟩ | ⟨_, _, _, _, _, h0⟩ | ⟨a1, _, _, _, h0⟩ | ⟨_, _, _, _, h0⟩
        | ⟨_, _, _, _, h0⟩ | ⟨n, _, h0⟩ | ⟨n, _, h0⟩ | ⟨_, _, _, _, h0 | ⟨a1, _, _, _, h0⟩⟩
        | ⟨reg, off, a1, _, h0⟩
      all_goals rw [h0]
      · exact hs
      · exact regs_consistent_set_cfa t s1.regs _ rfl hs
      · exact regs_consistent_set_cfa t s1.regs _ rfl hs
      · exact regs_consistent_restore t s1.regs _ a1 hs
      · exact hs
      · exact hs
      · exact regs_consistent_set_cfa t s1.regs _ rfl hs
      · exact hs
      · exact regs_consistent_set_cfa t s1.regs _ rfl hs
      · exact regs_consistent_restore t _ _ a1 (regs_consistent_set_cfa t s1.regs _ rfl hs)
      · exact regs_consistent_save t s1.regs _ _ a1 hs

/-- The register table of every reachable state is consistent. -/
theorem scfi_reachable_regs_consistent (t : scfi_target) (s : scfi_state)
    (h : scfi_reachable t s) : regs_consistent t s.regs := by
  induction h with
  | init =>
    refine ⟨fun i _ => ⟨fun h => ?_, fun h => ?_⟩, fun _ => rfl⟩
    · exact absurd h (by simp [init_state])
    · exact absurd h (by simp [init_state])
  | step g s r _ hg ih => exact gen_scfi_ops_regs_consistent t g s r hg ih

/-- The state left by the instruction loop on a reachable state is
reachable. -/
theorem bb_gen_scfi_ops_reachable (t : scfi_target) (l : List ginsn) (s : scfi_state)
    (r : scfi_bb_exec) (hs : scfi_reachable t s) (h : bb_gen_scfi_ops t l s = Except.ok r) :
    scfi_reachable t r.state := by
  induction l generalizing s r with
  | nil =>
    simp only [bb_gen_scfi_ops, Except.ok.injEq] at h
    subst h
    exact hs
  | cons g rest ih =>
    simp only [bb_gen_scfi_ops] at h
    cases hg : gen_scfi_ops t g s with
    | error f => simp [hg] at h
    | ok rg =>
      simp only [hg] at h
      have hk := scfi_reachable.step g s rg hs hg
      by_cases hret : rg.ret ≠ 0
      · rw [if_pos hret] at h
        simp only [Except.ok.injEq] at h
        subst h
        exact hk
      · rw [if_neg hret] at h
        cases hrest : bb_gen_scfi_ops t rest rg.state with
        | error f => simp [hrest] at h
        | ok r2 =>
          simp only [hrest, Except.ok.injEq] at h
          subst h
          exact ih rg.state r2 hk hrest

/-- The state after a list of instructions run from the initial state is
reachable. -/
theorem state_after_reachable (t : scfi_target) (l : List ginsn) :
    scfi_reachable t (state_after t l init_state) := by
  unfold state_after
  cases h : bb_gen_scfi_ops t l init_state with
  | error f => exact scfi_reachable.init
  | ok r => exact bb_gen_scfi_ops_reachable t l init_state r scfi_reachable.init h

/-- C35: in every state reachable from the initial state through
`gen_scfi_ops`, each register of the table (each entry other than that of
REG_CFA, and that one too when REG_CFA is not a tracked register) whose state
is on-stack has base REG_CFA, and each whose state is in-register has itself
as base and offset 0. -/
theorem C35_register_table_invariant (t : scfi_target) (s : scfi_state) (i : Nat)
    (h : scfi_reachable t s)
    (hi : i ≠ REG_CFA t ∨ t.ginsn_track_reg_p (REG_CFA t) = false) :
    ((s.regs i).state = cfi_reglocstate.CFI_ON_STACK → (s.regs i).base = REG_CFA t)
    ∧ ((s.regs i).state = cfi_reglocstate.CFI_IN_REG →
        (s.regs i).base = i ∧ (s.regs i).offset = 0) := by
  have hk := scfi_reachable_regs_consistent t s h
  by_cases hc : i = REG_CFA t
  · rcases hi with hi | hi
    · exact absurd hc hi
    · have hu := hk.2 hi
      rw [← hc] at hu
      exact ⟨fun h1 => by rw [hu] at h1; exact absurd h1 (by decide),
             fun h1 => by rw [hu] at h1; exact absurd h1 (by decide)⟩
  · exact hk.1 i hc

/-- Witness of C35: on the sample target, after the function begin and the push
of register 3 the register is on the stack, with base 17 (REG_CFA). -/
theorem C35_witness :
    (example_saved_state.regs 3).state = cfi_reglocstate.CFI_ON_STACK
    ∧ ((example_saved_state.regs 3).state = cfi_reglocstate.CFI_ON_STACK →
        (example_saved_state.regs 3).base = REG_CFA example_target)
    ∧ ((example_saved_state.regs 3).state = cfi_reglocstate.CFI_IN_REG →
        (example_saved_state.regs 3).base = 3 ∧ (example_saved_state.regs 3).offset = 0) :=
  ⟨by decide,
   C35_register_table_invariant example_target example_saved_state 3
     (state_after_reachable example_target _) (Or.inl (by decide))⟩


/-! ### The CFA offset and the stack size -/

/-- An instruction that is neither the marker, nor a register-to-register MOV
into SP, nor a load-from-stack into FP keeps the CFA offset equal to the stack
size while the CFA is based on SP and the stack is traceable. -/
theorem gen_scfi_ops_cfa_tracks_stack (t : scfi_target) (g : ginsn) (s : scfi_state)
    (r : scfi_exec) (hsp : t.REG_SP ≠ t.REG_FP) (hcfa : t.REG_SP ≠ REG_CFA t)
    (h : gen_scfi_ops t g s = Except.ok r)
    (hm : GINSN_F_FUNC_BEGIN_P g = false)
    (hx1 : ¬ (g.type = ginsn_type.GINSN_TYPE_MOV
      ∧ ginsn_get_dst_type g.dst = ginsn_dst_type.GINSN_DST_REG
      ∧ ginsn_get_src_type g.src1 = ginsn_src_type.GINSN_SRC_REG
      ∧ ginsn_get_dst_reg g.dst = t.REG_SP))
    (hx2 : ¬ (g.type = ginsn_type.GINSN_TYPE_LDS
      ∧ ginsn_get_dst_type g.dst = ginsn_dst_type.GINSN_DST_REG
      ∧ ginsn_get_dst_reg g.dst = t.REG_FP))
    (hs : cfa_tracks_stack t s) : cfa_tracks_stack t r.state := by
  obtain ⟨s1, hs1, hr⟩ := gen_scfi_ops_guard_cases t g s r h hm
  have h1 : cfa_tracks_stack t s1 := by
    rcases hs1 with rfl | ⟨_, rfl⟩
    · exact hs
    · intro _ htr
      exact absurd htr (by simp)
  have hset : ∀ (d : Nat) (c : cfi_regloc), c.base ≠ t.REG_SP →
      cfa_tracks_stack t { s1 with regs := set_regloc s1.regs d c } := by
    intro d c hc hb htr
    by_cases hd : REG_CFA t = d
    · simp [set_regloc, hd] at hb
      exact absurd hb hc
    · simp only [set_regloc, hd, if_false] at hb ⊢
      exact h1 hb htr
  rcases hr with h0 | hsw
  · rw [h0]
    exact h1
  · rcases gen_scfi_ops_switch_cases t g s1 r hsw with
      h0 | ⟨_, _, h0⟩ | ⟨a1, a2, a3, a4, _, _⟩ | ⟨_, _, _, _, h0⟩ | ⟨_, _, _, _, h0⟩
      | ⟨a1, a2, a3, a4, _⟩ | ⟨n, a1, h0⟩ | ⟨n, a1, h0⟩ | ⟨a1, a2, a3, _, _⟩
      | ⟨reg, off, _, _, h0⟩
    · rw [h0]
      exact h1
    · rw [h0]
      intro hb _
      simp [set_regloc] at hb
      exact absurd hb.symm hsp
    · exact absurd ⟨a1, a2, a3, a4⟩ hx1
    · rw [h0]
      by_cases hd : ginsn_get_dst_reg g.dst = t.REG_SP
      · intro hb htr
        have hne : ¬ REG_CFA t = ginsn_get_dst_reg g.dst := fun e => hcfa (hd.symm.trans e.symm)
        simp only [set_regloc, hne, if_false] at hb ⊢
        exact h1 hb htr
      · exact hset _ _ hd
    · rw [h0]
      exact h1
    · exact absurd ⟨a1, a3, a2, a4⟩ hx1
    · rw [h0]
      intro _ htr
      have he := h1 a1 htr
      simp only [set_regloc, if_true]
      rw [he]
    · rw [h0]
      intro hb htr
      rcases a1 with a1 | a1
      · exact absurd hb a1
      · exact absurd (hb.symm.trans a1) hsp
    · exact absurd ⟨a1, a2, a3⟩ hx2
    · rw [h0]
      exact hset _ _ (fun e => hcfa e.symm)

/-- The instruction loop over instructions of these kinds keeps the CFA offset
equal to the stack size while the CFA is based on SP and the stack is
traceable. -/
theorem bb_gen_scfi_ops_cfa_tracks_stack (t : scfi_target) (l : List ginsn) (s : scfi_state)
    (r : scfi_bb_exec) (hsp : t.REG_SP ≠ t.REG_FP) (hcfa : t.REG_SP ≠ REG_CFA t)
    (h : bb_gen_scfi_ops t l s = Except.ok r)
    (hl : ∀ g ∈ l, GINSN_F_FUNC_BEGIN_P g = false
      ∧ ¬ (g.type = ginsn_type.GINSN_TYPE_MOV
        ∧ ginsn_get_dst_type g.dst = ginsn_dst_type.GINSN_DST_REG
        ∧ ginsn_get_src_type g.src1 = ginsn_src_type.GINSN_SRC_REG
        ∧ ginsn_get_dst_reg g.dst = t.REG_SP)
      ∧ ¬ (g.type = ginsn_type.GINSN_TYPE_LDS
        ∧ ginsn_get_dst_type g.dst = ginsn_dst_type.GINSN_DST_REG
        ∧ ginsn_get_dst_reg g.dst = t.REG_FP))
    (hs : cfa_tracks_stack t s) : cfa_tracks_stack t r.state := by
  induction l generalizing s r with
  | nil =>
    simp only [bb_gen_scfi_ops, Except.ok.injEq] at h
    subst h
    exact hs
  | cons g rest ih =>
    simp only [bb_gen_scfi_ops] at h
    cases hg : gen_scfi_ops t g s with
    | error f => simp [hg] at h
    | ok rg =>
      simp only [hg] at h
      have hg1 := hl g (List.mem_cons_self g rest)
      have hk := gen_scfi_ops_cfa_tracks_stack t g s rg hsp hcfa hg hg1.1 hg1.2.1 hg1.2.2 hs
      by_cases hret : rg.ret ≠ 0
      · rw [if_pos hret] at h
        simp only [Except.ok.injEq] at h
        subst h
        exact hk
      · rw [if_neg hret] at h
        cases hrest : bb_gen_scfi_ops t rest rg.state with
        | error f => simp [hrest] at h
        | ok r2 =>
          simp only [hrest, Except.ok.injEq] at h
          subst h
          exact ih rg.state r2 hrest (fun g1 hg1 => hl g1 (List.mem_cons_of_mem g hg1)) hk

/-- C37, counterexample: on the sample target the marker of the function begin
followed by `MOV SP, FP` and `MOV FP, SP` is accepted, and in the state at the
end the CFA is based on SP and the stack is traceable, but the CFA offset is 8
and the stack size 0. -/
theorem C37_counterexample :
    bb_ret (bb_gen_scfi_ops example_target
      [ginsn_func_begin,
       mk_ginsn ginsn_type.GINSN_TYPE_MOV (src_reg 7) src_none (dst_reg 6),
       mk_ginsn ginsn_type.GINSN_TYPE_MOV (src_reg 6) src_none (dst_reg 7)] init_state) = some 0
    ∧ ((state_after example_target
      [ginsn_func_begin,
       mk_ginsn ginsn_type.GINSN_TYPE_MOV (src_reg 7) src_none (dst_reg 6),
       mk_ginsn ginsn_type.GINSN_TYPE_MOV (src_reg 6) src_none (dst_reg 7)] init_state).regs
        (REG_CFA example_target)).base = example_target.REG_SP
    ∧ (state_after example_target
      [ginsn_func_begin,
       mk_ginsn ginsn_type.GINSN_TYPE_MOV (src_reg 7) src_none (dst_reg 6),
       mk_ginsn ginsn_type.GINSN_TYPE_MOV (src_reg 6) src_none (dst_reg 7)]
        init_state).traceable_p = true
    ∧ ((state_after example_target
      [ginsn_func_begin,
       mk_ginsn ginsn_type.GINSN_TYPE_MOV (src_reg 7) src_none (dst_reg 6),
       mk_ginsn ginsn_type.GINSN_TYPE_MOV (src_reg 6) src_none (dst_reg 7)] init_state).regs
        (REG_CFA example_target)).offset = 8
    ∧ (state_after example_target
      [ginsn_func_begin,
       mk_ginsn ginsn_type.GINSN_TYPE_MOV (src_reg 7) src_none (dst_reg 6),
       mk_ginsn ginsn_type.GINSN_TYPE_MOV (src_reg 6) src_none (dst_reg 7)]
        init_state).stack_size = 0 := by
  decide

/-- C37, amended: from the initial state, after the marker of the function
begin and any list of instructions that the executor accepts, none of them a
marker, a register-to-register MOV into SP or a load-from-stack into FP, if
the CFA is based on SP and the stack is traceable then the CFA offset is the
stack size. -/
theorem C37_cfa_offset_is_stack_size (t : scfi_target) (g0 : ginsn) (l : List ginsn)
    (hsp : t.REG_SP ≠ t.REG_FP) (hcfa : t.REG_SP ≠ REG_CFA t)
    (hinit : t.SCFI_INIT_CFA_OFFSET < 2147483648)
    (h0 : GINSN_F_FUNC_BEGIN_P g0 = true)
    (hl : ∀ g ∈ l, GINSN_F_FUNC_BEGIN_P g = false
      ∧ ¬ (g.type = ginsn_type.GINSN_TYPE_MOV
        ∧ ginsn_get_dst_type g.dst = ginsn_dst_type.GINSN_DST_REG
        ∧ ginsn_get_src_type g.src1 = ginsn_src_type.GINSN_SRC_REG
        ∧ ginsn_get_dst_reg g.dst = t.REG_SP)
      ∧ ¬ (g.type = ginsn_type.GINSN_TYPE_LDS
        ∧ ginsn_get_dst_type g.dst = ginsn_dst_type.GINSN_DST_REG
        ∧ ginsn_get_dst_reg g.dst = t.REG_FP))
    (hacc : bb_ret (bb_gen_scfi_ops t (g0 :: l) init_state) = some 0) :
    ((state_after t (g0 :: l) init_state).regs (REG_CFA t)).base = t.REG_SP →
    (state_after t (g0 :: l) init_state).traceable_p = true →
    ((state_after t (g0 :: l) init_state).regs (REG_CFA t)).offset
      = (state_after t (g0 :: l) init_state).stack_size := by
  show cfa_tracks_stack t (state_after t (g0 :: l) init_state)
  unfold state_after
  cases hrun : bb_gen_scfi_ops t (g0 :: l) init_state with
  | error f => rw [hrun] at hacc; exact absurd hacc (by simp [bb_ret])
  | ok r =>
    simp only
    simp only [bb_gen_scfi_ops] at hrun
    cases hg : gen_scfi_ops t g0 init_state with
    | error f => simp [hg] at hrun
    | ok rg =>
      simp only [hg] at hrun
      obtain ⟨hpos, hret0, hst⟩ := gen_scfi_ops_marker_cases t g0 init_state rg hg h0
      have hk : cfa_tracks_stack t rg.state := by
        rw [hst]
        intro _ _
        simp only [set_regloc, if_true]
        show t.SCFI_INIT_CFA_OFFSET = add32 init_state.stack_size t.SCFI_INIT_CFA_OFFSET
        unfold add32 wrap_int32 init_state
        simp only
        omega
      rw [if_neg (by simpa using hret0)] at hrun
      cases hrest : bb_gen_scfi_ops t l rg.state with
      | error f => simp [hrest] at hrun
      | ok r2 =>
        simp only [hrest, Except.ok.injEq] at hrun
        subst hrun
        exact bb_gen_scfi_ops_cfa_tracks_stack t l rg.state r2 hsp hcfa hrest hl hk

/-- Witness of C37: on the sample target, the prologue that pushes the frame
pointer and register 3 after the function begin. -/
theorem C37_witness :
    ((state_after example_target
        (ginsn_func_begin ::
          [ginsn_sub_sp example_target 8, ginsn_sts 6,
           ginsn_sub_sp example_target 8, ginsn_sts 3]) init_state).regs
        (REG_CFA example_target)).offset = 24
    ∧ (((state_after example_target
        (ginsn_func_begin ::
          [ginsn_sub_sp example_target 8, ginsn_sts 6,
           ginsn_sub_sp example_target 8, ginsn_sts 3]) init_state).regs
        (REG_CFA example_target)).base = example_target.REG_SP →
      (state_after example_target
        (ginsn_func_begin ::
          [ginsn_sub_sp example_target 8, ginsn_sts 6,
           ginsn_sub_sp example_target 8, ginsn_sts 3]) init_state).traceable_p = true →
      ((state_after example_target
        (ginsn_func_begin ::
          [ginsn_sub_sp example_target 8, ginsn_sts 6,
           ginsn_sub_sp example_target 8, ginsn_sts 3]) init_state).regs
        (REG_CFA example_target)).offset
      = (state_after example_target
        (ginsn_func_begin ::
          [ginsn_sub_sp example_target 8, ginsn_sts 6,
           ginsn_sub_sp example_target 8, ginsn_sts 3]) init_state).stack_size) :=
  ⟨by decide,
   C37_cfa_offset_is_stack_size example_target ginsn_func_begin
     [ginsn_sub_sp example_target 8, ginsn_sts 6, ginsn_sub_sp example_target 8, ginsn_sts 3]
     (by decide) (by decide) (by decide) (by decide) (by decide) (by decide)⟩


/-! ### The order of the pairing operations -/

/-- One turn of the backward pass keeps the description of the waiting
entries. -/
theorem backward_flow_turn_pending (t : scfi_target) (cfg0 cfg : gcfg)
    (rb : List (Option Nat)) (i : Nat) (cur0 : gbb)
    (hcur0 : cfg0.gbbs[i + 1]? = some cur0)
    (hfr : backward_frame cfg0 cfg rb (i + 1))
    (hp : backward_pending cfg0 cfg rb) :
    backward_pending cfg0 (backward_flow_turn t cfg0 cfg rb (i + 1) cur0).1
      (backward_flow_turn t cfg0 cfg rb (i + 1) cur0).2 := by
  obtain ⟨hl, hrl, hblk, hnn⟩ := hfr
  have hi : i + 1 < cfg0.gbbs.length := (List.getElem?_eq_some.1 hcur0).1
  have hcur : cfg.gbbs[i + 1]? = some cur0 := (hblk (i + 1) (le_refl _)).trans hcur0
  have hnone : rb[i + 1]? = some none := hnn (i + 1) (le_refl _) (by omega)
  intro j b hjb
  unfold backward_flow_turn at hjb ⊢
  split_ifs at hjb ⊢ with hc
  · by_cases hj : j = i + 1
    · subst hj
      have hlt : i + 1 < rb.length := by omega
      have hb : b = i + 1 := by
        have h1 : (rb.set (i + 1) (some (i + 1)))[i + 1]? = some (some (i + 1)) := by
          rw [List.getElem?_set_self hlt]
        have h2 : (rb.set (i + 1) (some (i + 1)))[i + 1]? = some (some b) := hjb
        rw [h1] at h2
        simpa using h2.symm
      refine ⟨hb, cur0, hcur0, ?_⟩
      show (gcfg_set_bb cfg (i + 1) _).gbbs[i + 1]? = _
      rw [gcfg_set_bb_getElem?, if_pos rfl, hcur]
      rfl
    · have h2 : (rb.set (i + 1) (some (i + 1)))[j]? = some (some b) := hjb
      rw [List.getElem?_set_ne (fun e => hj e.symm)] at h2
      obtain ⟨hb, b0, h0, h1⟩ := hp j b h2
      refine ⟨hb, b0, h0, ?_⟩
      show (gcfg_set_bb cfg (i + 1) _).gbbs[j]? = _
      rw [gcfg_set_bb_getElem?, if_neg hj]
      exact h1
  · obtain ⟨_, _, a3⟩ := backward_flow_edges_rb cur0.out_gedges cur0 rb
    have h2 : rb[j]? = some (some b) := a3 j b hjb
    have hj : j ≠ i + 1 := by
      intro e
      rw [e, hnone] at h2
      exact absurd h2 (by simp)
    obtain ⟨hb, b0, h0, h1⟩ := hp j b h2
    refine ⟨hb, b0, h0, ?_⟩
    show (gcfg_set_bb cfg (i + 1) _).gbbs[j]? = _
    rw [gcfg_set_bb_getElem?, if_neg hj]
    exact h1

/-- The turn of the backward pass at the index I + 1 clears only entries of
blocks after the index I + 1: an entry that waits before the turn and is
empty after it is the block of its own index J, with I + 1 < J; that block
carries the `DW_CFA_restore_state` on its first instruction; and the current
block has an edge to it and gets the `DW_CFA_remember_state` on its last
instruction. -/
theorem backward_flow_turn_order (t : scfi_target) (cfg0 cfg : gcfg)
    (rb : List (Option Nat)) (i : Nat) (cur0 : gbb)
    (hcur0 : cfg0.gbbs[i + 1]? = some cur0)
    (hfr : backward_frame cfg0 cfg rb (i + 1))
    (hp : backward_pending cfg0 cfg rb)
    (j b : Nat) (hpend : rb[j]? = some (some b))
    (hclr : (backward_flow_turn t cfg0 cfg rb (i + 1) cur0).2[j]? = some none) :
    i + 1 < j ∧ b = j
    ∧ (∃ b0 : gbb, cfg0.gbbs[j]? = some b0
        ∧ (backward_flow_turn t cfg0 cfg rb (i + 1) cur0).1.gbbs[j]?
            = some (bb_restore_state_first b0))
    ∧ ∃ k : Nat, 0 < k
        ∧ (backward_flow_turn t cfg0 cfg rb (i + 1) cur0).1.gbbs[i + 1]?
            = some { cur0 with insns := Nat.iterate insns_remember_state_last k cur0.insns }
        ∧ ∃ e ∈ cur0.out_gedges, e.dst_bb = j := by
  obtain ⟨hl, hrl, hblk, hnn⟩ := hfr
  have hcur : cfg.gbbs[i + 1]? = some cur0 := (hblk (i + 1) (le_refl _)).trans hcur0
  have hjlt : j < rb.length := (List.getElem?_eq_some.1 hpend).1
  have hij : i + 1 < j := by
    by_contra hcon
    have := hnn j (by omega) hjlt
    rw [this] at hpend
    exact absurd hpend (by simp)
  have hj : j ≠ i + 1 := by omega
  obtain ⟨hb, b0, h0, h1⟩ := hp j b hpend
  have huniq : ∀ (j b : Nat), rb[j]? = some (some b) → b = j := fun j b h => (hp j b h).1
  unfold backward_flow_turn at hclr ⊢
  split_ifs at hclr ⊢ with hc
  · exfalso
    have h2 : (rb.set (i + 1) (some (i + 1)))[j]? = some none := hclr
    rw [List.getElem?_set_ne (fun e => hj e.symm), hpend] at h2
    exact absurd h2 (by simp)
  · obtain ⟨k, hk1, _, hk3, hk4⟩ := backward_flow_edges_char cur0.out_gedges cur0 rb huniq
    have h2 : (backward_flow_edges cur0.out_gedges cur0 rb).2[j]? = some none := hclr
    rw [hk3 j] at h2
    have hcond : rb[j]? = some (some j) ∧ ∃ e ∈ cur0.out_gedges, e.dst_bb = j := by
      by_contra hcon
      rw [if_neg hcon, hpend] at h2
      exact absurd h2 (by simp)
    obtain ⟨e, he, hej⟩ := hcond.2
    have hk0 : 0 < k := by
      rcases Nat.eq_zero_or_pos k with hz | hpos
      · exfalso
        have := hk4.1 hz e he
        rw [hej] at this
        exact this hcond.1
      · exact hpos
    refine ⟨hij, hb, ⟨b0, h0, ?_⟩, k, hk0, ?_, e, he, hej⟩
    · show (gcfg_set_bb cfg (i + 1) _).gbbs[j]? = _
      rw [gcfg_set_bb_getElem?, if_neg hj]
      exact h1
    · show (gcfg_set_bb cfg (i + 1) _).gbbs[i + 1]? = _
      rw [gcfg_set_bb_getElem?, if_pos rfl, hcur, hk1]
      rfl

/-- On a graph whose blocks all have their snapshots, the first N turns of the
backward pass return, for N below the number of blocks, and leave the frame
of the loop and the description of the waiting entries. -/
theorem backward_flow_turns_inv (t : scfi_target) (cfg : gcfg)
    (hsnap : ∀ b ∈ cfg.gbbs, b.entry_state.isSome = true ∧ b.exit_state.isSome = true)
    (n : Nat) (hn : n < cfg.gbbs.length) :
    ∃ (c : gcfg) (rb : List (Option Nat)),
      backward_flow_turns t cfg n = Except.ok (c, rb)
      ∧ backward_frame cfg c rb (cfg.gbbs.length - 1 - n)
      ∧ backward_pending cfg c rb := by
  induction n with
  | zero =>
    refine ⟨cfg, _, rfl, backward_frame_init cfg, ?_⟩
    intro j b h
    exact absurd h (fun h => restore_bbs_replicate_none _ j b h)
  | succ n ih =>
    obtain ⟨c, rb, hrun, hfr, hp⟩ := ih (by omega)
    have hidx : cfg.gbbs.length - 1 - n = (cfg.gbbs.length - 1 - (n + 1)) + 1 := by omega
    have hlt : cfg.gbbs.length - 1 - n < cfg.gbbs.length := by omega
    obtain ⟨cur0, hc0⟩ : ∃ cur0, cfg.gbbs[cfg.gbbs.length - 1 - n]? = some cur0 :=
      ⟨_, List.getElem?_eq_getElem hlt⟩
    simp only [backward_flow_turns, hrun]
    rw [hidx] at hc0 hfr ⊢
    obtain ⟨hstep, hfr1⟩ := backward_flow_step_frame t cfg c rb _ cur0 hsnap hc0 hfr
    exact ⟨_, _, hstep, hfr1, backward_flow_turn_pending t cfg c rb _ cur0 hc0 hfr hp⟩

/-- One turn of the backward pass changes no block but the current one. -/
theorem backward_flow_step_other (t : scfi_target) (i : Nat) (c : gcfg)
    (rb : List (Option Nat)) (c2 : gcfg) (rb2 : List (Option Nat))
    (h : backward_flow_step t i c rb = Except.ok (c2, rb2)) (u : Nat) (hu : u ≠ i) :
    c2.gbbs[u]? = c.gbbs[u]? := by
  unfold backward_flow_step at h
  split at h
  · exact absurd h (by simp)
  · split at h
    · exact absurd h (by simp)
    · split at h
      · exact absurd h (by simp)
      · split at h
        · exact absurd h (by simp)
        · split_ifs at h <;>
            (simp only [Except.ok.injEq, Prod.mk.injEq] at h
             rw [← h.1, gcfg_set_bb_getElem?, if_neg hu])

/-- The loop of the backward pass from the index I down changes no block after
the index I. -/
theorem backward_flow_walk_above (t : scfi_target) (i : Nat) (c : gcfg)
    (rb : List (Option Nat)) (cf : gcfg) (rbf : List (Option Nat))
    (h : backward_flow_walk t i c rb = Except.ok (cf, rbf)) (u : Nat) (hu : i < u) :
    cf.gbbs[u]? = c.gbbs[u]? := by
  induction i generalizing c rb with
  | zero =>
    simp only [backward_flow_walk, Except.ok.injEq, Prod.mk.injEq] at h
    rw [h.1]
  | succ i ih =>
    simp only [backward_flow_walk] at h
    cases hstep : backward_flow_step t (i + 1) c rb with
    | error f => rw [hstep] at h; exact absurd h (by simp)
    | ok p =>
      obtain ⟨c1, rb1⟩ := p
      rw [hstep] at h
      exact (ih c1 rb1 h (by omega)).trans
        (backward_flow_step_other t (i + 1) c rb c1 rb1 hstep u (by omega))

/-- The loop of the backward pass is its first N turns followed by the loop
from the index that they reach. -/
theorem backward_flow_walk_turns (t : scfi_target) (cfg : gcfg) (n : Nat)
    (c : gcfg) (rb : List (Option Nat)) (hn : n < cfg.gbbs.length)
    (hrun : backward_flow_turns t cfg n = Except.ok (c, rb)) :
    backward_flow_walk t (cfg.gbbs.length - 1) cfg (List.replicate cfg.gbbs.length none)
      = backward_flow_walk t (cfg.gbbs.length - 1 - n) c rb := by
  induction n generalizing c rb with
  | zero =>
    simp only [backward_flow_turns, Except.ok.injEq, Prod.mk.injEq] at hrun
    rw [← hrun.1, ← hrun.2]
    rfl
  | succ n ih =>
    simp only [backward_flow_turns] at hrun
    cases hprev : backward_flow_turns t cfg n with
    | error f => rw [hprev] at hrun; exact absurd hrun (by simp)
    | ok p =>
      obtain ⟨c1, rb1⟩ := p
      rw [hprev] at hrun
      rw [ih c1 rb1 (by omega) hprev]
      have hidx : cfg.gbbs.length - 1 - n = (cfg.gbbs.length - 1 - (n + 1)) + 1 := by omega
      rw [hidx] at hrun ⊢
      simp only at hrun
      simp only [backward_flow_walk, hrun]

/-- C40: on a graph whose blocks all have their snapshots, the backward pass
returns, and at each of its turns every entry of `restore_bbs` that waits
before the turn and is cleared by it is the block of its own index J, which
comes strictly after the current block in program order; in the graph at the
end of the pass the block J is the block of the start with the
`DW_CFA_restore_state` on its first instruction, and the current block, which
has an edge to the block J, is the block of the start with the
`DW_CFA_remember_state` on its last instruction. -/
theorem C40_remember_before_restore (t : scfi_target) (cfg : gcfg) (n : Nat)
    (hsnap : ∀ b ∈ cfg.gbbs, b.entry_state.isSome = true ∧ b.exit_state.isSome = true)
    (hlen : cfg.gbbs.length < 2147483648)
    (hn : n + 1 < cfg.gbbs.length) :
    ∃ (c : gcfg) (rb : List (Option Nat)) (c2 : gcfg) (rb2 : List (Option Nat))
      (r : scfi_backward),
      backward_flow_turns t cfg n = Except.ok (c, rb)
      ∧ backward_flow_turns t cfg (n + 1) = Except.ok (c2, rb2)
      ∧ backward_flow_scfi_state t cfg = Except.ok r
      ∧ ∀ (j b : Nat), rb[j]? = some (some b) → rb2[j]? = some none →
          cfg.gbbs.length - 1 - n < j ∧ b = j
          ∧ (∃ b0 : gbb, cfg.gbbs[j]? = some b0
              ∧ r.cfg.gbbs[j]? = some (bb_restore_state_first b0))
          ∧ ∃ (cur0 : gbb) (k : Nat), cfg.gbbs[cfg.gbbs.length - 1 - n]? = some cur0
              ∧ 0 < k
              ∧ r.cfg.gbbs[cfg.gbbs.length - 1 - n]?
                  = some { cur0 with
                      insns := Nat.iterate insns_remember_state_last k cur0.insns }
              ∧ ∃ e ∈ cur0.out_gedges, e.dst_bb = j := by
  obtain ⟨c, rb, hrun, hfr, hp⟩ := backward_flow_turns_inv t cfg hsnap n (by omega)
  obtain ⟨cf, rbf, hrunf, _, _⟩ :=
    backward_flow_turns_inv t cfg hsnap (cfg.gbbs.length - 1) (by omega)
  have hidx : cfg.gbbs.length - 1 - n = (cfg.gbbs.length - 1 - (n + 1)) + 1 := by omega
  have hlt : cfg.gbbs.length - 1 - n < cfg.gbbs.length := by omega
  obtain ⟨cur0, hc0⟩ : ∃ cur0, cfg.gbbs[cfg.gbbs.length - 1 - n]? = some cur0 :=
    ⟨_, List.getElem?_eq_getElem hlt⟩
  have hwalk : backward_flow_walk t (cfg.gbbs.length - 1) cfg
      (List.replicate cfg.gbbs.length none) = Except.ok (cf, rbf) := by
    rw [backward_flow_walk_turns t cfg _ cf rbf (by omega) hrunf, Nat.sub_self]
    rfl
  have hpass : backward_flow_scfi_state t cfg
      = Except.ok { ret := if rbf.any Option.isSome then 1 else 0, cfg := cf,
                    restore_bbs := rbf } := by
    unfold backward_flow_scfi_state
    rw [if_neg (by omega), hwalk]
  rw [hidx] at hc0 hfr ⊢
  obtain ⟨hstep, _⟩ := backward_flow_step_frame t cfg c rb _ cur0 hsnap hc0 hfr
  have hrun2 : backward_flow_turns t cfg (n + 1)
      = Except.ok ((backward_flow_turn t cfg c rb
            (cfg.gbbs.length - 1 - (n + 1) + 1) cur0).1,
          (backward_flow_turn t cfg c rb (cfg.gbbs.length - 1 - (n + 1) + 1) cur0).2) := by
    simp only [backward_flow_turns, hrun]
    rw [hidx]
    exact hstep
  have hrest := backward_flow_walk_turns t cfg (n + 1) _ _ hn hrun2
  rw [hwalk] at hrest
  have habove := backward_flow_walk_above t _ _ _ cf rbf hrest.symm
  refine ⟨c, rb, _, _, _, hrun, hrun2, hpass, ?_⟩
  intro j b hpend hclr
  obtain ⟨h1, h2, ⟨b0, h3, h4⟩, k, h5, h6, h7⟩ :=
    backward_flow_turn_order t cfg c rb _ cur0 hc0 hfr hp j b hpend hclr
  refine ⟨h1, h2, ⟨b0, h3, ?_⟩, cur0, k, hc0, h5, ?_, h7⟩
  · show cf.gbbs[j]? = _
    rw [habove j (by omega)]
    exact h4
  · show cf.gbbs[cfg.gbbs.length - 1 - (n + 1) + 1]? = _
    rw [habove _ (by omega)]
    exact h6

/-- Witness of C40: the graph of scenario B behind an entry block, after the
forward pass.  Before the fourth turn, at the index 1, the block 3 waits; the
turn clears its entry: the `DW_CFA_remember_state` goes to the block 1 and the
`DW_CFA_restore_state` is on the block 3. -/
theorem C40_witness :
    (backward_flow_turns example_target (forward_flowed example_cfg_reconverge) 3).toOption.map
        Prod.snd = some [none, none, none, some 3, none]
    ∧ (backward_flow_turns example_target (forward_flowed example_cfg_reconverge) 4).toOption.map
        Prod.snd = some [none, none, none, none, none]
    ∧ ∃ (c : gcfg) (rb : List (Option Nat)) (c2 : gcfg) (rb2 : List (Option Nat))
      (r : scfi_backward),
      backward_flow_turns example_target (forward_flowed example_cfg_reconverge) 3
        = Except.ok (c, rb)
      ∧ backward_flow_turns example_target (forward_flowed example_cfg_reconverge) (3 + 1)
        = Except.ok (c2, rb2)
      ∧ backward_flow_scfi_state example_target (forward_flowed example_cfg_reconverge)
        = Except.ok r
      ∧ ∀ (j b : Nat), rb[j]? = some (some b) → rb2[j]? = some none →
          (forward_flowed example_cfg_reconverge).gbbs.length - 1 - 3 < j ∧ b = j
          ∧ (∃ b0 : gbb, (forward_flowed example_cfg_reconverge).gbbs[j]? = some b0
              ∧ r.cfg.gbbs[j]? = some (bb_restore_state_first b0))
          ∧ ∃ (cur0 : gbb) (k : Nat),
              (forward_flowed example_cfg_reconverge).gbbs[
                (forward_flowed example_cfg_reconverge).gbbs.length - 1 - 3]? = some cur0
              ∧ 0 < k
              ∧ r.cfg.gbbs[(forward_flowed example_cfg_reconverge).gbbs.length - 1 - 3]?
                  = some { cur0 with
                      insns := Nat.iterate insns_remember_state_last k cur0.insns }
              ∧ ∃ e ∈ cur0.out_gedges, e.dst_bb = j :=
  ⟨by decide, by decide,
   C40_remember_before_restore example_target (forward_flowed example_cfg_reconverge) 3
     (by decide) (by decide) (by decide)⟩

end SCFI
